import Mathlib

/-!
# Incremental code graft engine of `starter-cli`

A shallow embedding of the text-grafting functions of
`internal/generator` (`builder_analyzer.go`, `builder_incremental.go`,
`routes_analyzer.go`, `routes_incremental.go`, `routes_complete.go`,
`helpers.go`) together with the properties they satisfy.

Modelling conventions.

* A Go `string` is modelled by `Str := List Char`, the list of the characters
  of the text.  Source literals are written `"...".data`.
* The functions of the Go package `strings` that the generator calls live in
  the namespace `strings` under their Go names.  `strings.ToLower` and
  `strings.ToUpper` map the ASCII letters (the identifiers handled by the
  generator are ASCII); `strings.TrimSpace` removes the Unicode white space
  recognised by Go.
* `fmt.Sprintf` with `%s` verbs is written as the concatenation it denotes, and
  a `strings.Builder` is the string accumulated so far.
* A Go slice of strings is a `List Str`; methods of `*Generator` that do not
  read the receiver are plain functions.
-/

set_option autoImplicit false
set_option maxRecDepth 1000000

namespace StarterCli

/-- A Go string, as the list of its characters. -/
abbrev Str := List Char

/-! ## The Go package `strings` -/

namespace strings

/-- Go `strings.HasPrefix(s, p)`. -/
def HasPrefix (s p : Str) : Bool := p.isPrefixOf s

/-- Go `strings.HasSuffix(s, p)`. -/
def HasSuffix (s p : Str) : Bool := p.reverse.isPrefixOf s.reverse

/-- Go `strings.Contains(s, sub)`: `sub` occurs somewhere in `s`. -/
def Contains : Str → Str → Bool
  | [], sub => sub.isPrefixOf []
  | c :: cs, sub => sub.isPrefixOf (c :: cs) || Contains cs sub

/-- Scanning loop of `strings.Split`: `skip` counts the characters of a
separator occurrence still to be passed over, `acc` is the current piece in
reverse. -/
def splitGo (sep : Str) : Str → Nat → Str → List Str
  | [], _, acc => [acc.reverse]
  | _ :: cs, skip + 1, acc => splitGo sep cs skip acc
  | c :: cs, 0, acc =>
    if sep.isPrefixOf (c :: cs) then acc.reverse :: splitGo sep cs (sep.length - 1) []
    else splitGo sep cs 0 (c :: acc)

/-- Go `strings.Split(s, sep)` for a non-empty separator (every call site of
the generator passes a non-empty literal): the pieces between the successive
non-overlapping occurrences of `sep`, scanned from the left. -/
def Split (s sep : Str) : List Str := splitGo sep s 0 []

/-- Go `strings.Join(elems, sep)`. -/
def Join : List Str → Str → Str
  | [], _ => []
  | [a], _ => a
  | a :: b :: rest, sep => a ++ sep ++ Join (b :: rest) sep

/-- Go `unicode.IsSpace`: the white space characters of Latin-1 and the
characters with the Unicode property White_Space. -/
def IsSpace (c : Char) : Bool :=
  let n := c.toNat
  n == 0x09 || n == 0x0A || n == 0x0B || n == 0x0C || n == 0x0D || n == 0x20 ||
  n == 0x85 || n == 0xA0 || n == 0x1680 || (0x2000 ≤ n && n ≤ 0x200A) ||
  n == 0x2028 || n == 0x2029 || n == 0x202F || n == 0x205F || n == 0x3000

/-- Go `strings.TrimSpace(s)`: leading and trailing white space removed. -/
def TrimSpace (s : Str) : Str :=
  ((s.dropWhile IsSpace).reverse.dropWhile IsSpace).reverse

/-- Go `strings.TrimSuffix(s, suffix)`. -/
def TrimSuffix (s suffix : Str) : Str :=
  if HasSuffix s suffix then s.take (s.length - suffix.length) else s

/-- Go `strings.ToLower(s)` on ASCII text: the letters A to Z are mapped to a to z
and every other character is kept. Go also maps the upper-case letters outside
ASCII, so the model agrees with Go on the texts that have no such letter. -/
def ToLower (s : Str) : Str := s.map Char.toLower

/-- Go `strings.ToUpper(s)` on ASCII text: the letters a to z are mapped to A to Z
and every other character is kept. Go also maps the lower-case letters outside
ASCII, so the model agrees with Go on the texts that have no such letter. -/
def ToUpper (s : Str) : Str := s.map Char.toUpper

end strings

/-! ## `builder_analyzer.go`, `builder_incremental.go`: presence filter -/

/-- Go `contains(slice, item)` of `builder_analyzer.go`. -/
def contains : List Str → Str → Bool
  | [], _ => false
  | s :: rest, item => if s = item then true else contains rest item

/-- Go `filterNewTables(requested, existing)`: the loop appends to `newTables`
every requested entity that `contains` does not find in `existing`. -/
def filterNewTables (requested existing : List Str) : List Str :=
  requested.foldl
    (fun newTables entity =>
      if !contains existing entity then newTables ++ [entity] else newTables) []

/-! ## `helpers.go`: name casing -/

/-- One iteration of the loop of Go `toPascalCase`: the replacement of the
part `p` of the snake_case name. A part of length 0 is left as it is; the
acronyms are upper-cased whole; any other part gets its first character
upper-cased (`strings.ToUpper(p[:1]) + p[1:]`). -/
def pascalPart (p : Str) : Str :=
  if p.length > 0 then
    let word := strings.ToLower p
    if word = "id".data then "ID".data
    else if word = "ip".data then "IP".data
    else if word = "url".data then "URL".data
    else if word = "api".data then "API".data
    else if word = "http".data then "HTTP".data
    else if word = "html".data then "HTML".data
    else if word = "json".data then "JSON".data
    else if word = "xml".data then "XML".data
    else strings.ToUpper (p.take 1) ++ p.drop 1
  else p

/-- Go `toPascalCase(s)`: snake_case to PascalCase. -/
def toPascalCase (s : Str) : Str :=
  strings.Join ((strings.Split s "_".data).map pascalPart) "".data

/-! ## `routes_complete.go`, `routes_incremental.go`: pluralization -/

/-- Go `getRoutePath(tableName)` of `routes_complete.go`. -/
def getRoutePath (tableName : Str) : Str :=
  if strings.HasSuffix tableName "y".data then
    strings.TrimSuffix tableName "y".data ++ "ies".data
  else tableName ++ "s".data

/-- Go `getGroupName(entity)`: the pluralized group name. -/
def getGroupName (entity : Str) : Str :=
  if entity = "category".data then "categories".data
  else if entity = "product".data then "products".data
  else if entity = "user".data then "users".data
  else if entity = "role".data then "roles".data
  else if entity = "permission".data then "permissions".data
  else if entity = "organization".data then "organizations".data
  else if entity = "person".data then "people".data
  else if entity = "child".data then "children".data
  else if entity = "man".data then "men".data
  else if entity = "woman".data then "women".data
  else if strings.HasSuffix entity "y".data then
    strings.TrimSuffix entity "y".data ++ "ies".data
  else if strings.HasSuffix entity "s".data ||
      strings.HasSuffix entity "x".data ||
      strings.HasSuffix entity "z".data ||
      strings.HasSuffix entity "ch".data ||
      strings.HasSuffix entity "sh".data then
    entity ++ "es".data
  else entity ++ "s".data

/-- Go `getPluralDisplayName(entity)`: the plural form used in method names. -/
def getPluralDisplayName (entity : Str) : Str :=
  if entity = "category".data then "Categories".data
  else if entity = "product".data then "Products".data
  else if entity = "user".data then "Users".data
  else if entity = "role".data then "Roles".data
  else if entity = "permission".data then "Permissions".data
  else if entity = "organization".data then "Organizations".data
  else if entity = "person".data then "People".data
  else if entity = "child".data then "Children".data
  else if entity = "man".data then "Men".data
  else if entity = "woman".data then "Women".data
  else if strings.HasSuffix entity "y".data then
    strings.TrimSuffix (toPascalCase entity) "y".data ++ "ies".data
  else if strings.HasSuffix entity "s".data ||
      strings.HasSuffix entity "x".data ||
      strings.HasSuffix entity "z".data ||
      strings.HasSuffix entity "ch".data ||
      strings.HasSuffix entity "sh".data then
    toPascalCase entity ++ "es".data
  else toPascalCase entity ++ "s".data

/-- Go `getPermissionAction(method)`. -/
def getPermissionAction (method : Str) : Str :=
  if method = "Finder".data then "View".data
  else if method = "Creator".data then "Create".data
  else if method = "Updater".data then "Update".data
  else if method = "Deleter".data then "Delete".data
  else "View".data

/-! ## `routes_incremental.go`: fragment synthesis -/

/-- Text written by one iteration of the loop of Go
`generateHandlerDeclarations`. -/
def handlerDeclaration (module method entity : Str) : Str :=
  let displayName := toPascalCase entity
  "\t".data ++ entity ++ "Hnd := ".data ++ module ++ "handlerv1.New".data ++
    displayName ++ method ++ "Handler(".data ++
  (if method = "Finder".data then "h.".data ++ entity ++ "Finder)\n".data
   else if method = "Creator".data then
     "h.".data ++ entity ++ "Creator, h.cloudStorage)\n".data
   else if method = "Updater".data then
     "h.".data ++ entity ++ "Updater, h.cloudStorage)\n".data
   else if method = "Deleter".data then "h.".data ++ entity ++ "Deleter)\n".data
   else [])

/-- Go `generateHandlerDeclarations(module, method, tables)`. -/
def generateHandlerDeclarations (module method : Str) (tables : List Str) : Str :=
  tables.foldl (fun result entity => result ++ handlerDeclaration module method entity) []

/-- Text written by one iteration of the loop of Go `generateEntityRoutes`. -/
def entityRoutes (method entity : Str) : Str :=
  let displayName := toPascalCase entity
  let routePath := getRoutePath entity
  let groupName := getGroupName entity
  let pluralDisplayName := getPluralDisplayName entity
  "\n\t\t".data ++ groupName ++ " := v1.Group(\"/".data ++ routePath ++
    "\", middleware.RequirePermission(\n\t\t\tconstant.Perm".data ++ displayName ++
    getPermissionAction method ++
    ",\n\t\t\tconstant.PermSystemManage,\n\t\t))\n\t\t\x7b\n".data ++
  (if method = "Finder".data then
     "\t\t\t".data ++ groupName ++ ".GET(\"\", ".data ++ entity ++ "Hnd.GetAll".data ++
       pluralDisplayName ++ ")\n\t\t\t".data ++ groupName ++ ".GET(\"/:id\", ".data ++
       entity ++ "Hnd.Get".data ++ displayName ++ "ByID)\n".data
   else if method = "Creator".data then
     "\t\t\t".data ++ groupName ++ ".POST(\"\", ".data ++ entity ++ "Hnd.Create".data ++
       displayName ++ ")\n".data
   else if method = "Updater".data then
     "\t\t\t".data ++ groupName ++ ".PUT(\"/:id\", ".data ++ entity ++ "Hnd.Update".data ++
       displayName ++ ")\n".data
   else if method = "Deleter".data then
     "\t\t\t".data ++ groupName ++ ".DELETE(\"/:id\", ".data ++ entity ++
       "Hnd.Delete".data ++ displayName ++ "ByID)\n".data
   else []) ++
  "\t\t\x7d\n".data

/-- Go `generateEntityRoutes(module, method, tables)`; the route text does not
mention `module`. -/
def generateEntityRoutes (_module method : Str) (tables : List Str) : Str :=
  tables.foldl (fun result entity => result ++ entityRoutes method entity) []

/-- Text written by one iteration of the loop of Go `generateHandlerFields`. -/
def handlerFields (module entity : Str) : Str :=
  let displayName := toPascalCase entity
  "\t".data ++ entity ++ "Creator ".data ++ module ++ "servicev1.".data ++ displayName ++
    "CreatorUseCase\n".data ++
  "\t".data ++ entity ++ "Finder ".data ++ module ++ "servicev1.".data ++ displayName ++
    "FinderUseCase\n".data ++
  "\t".data ++ entity ++ "Updater ".data ++ module ++ "servicev1.".data ++ displayName ++
    "UpdaterUseCase\n".data ++
  "\t".data ++ entity ++ "Deleter ".data ++ module ++ "servicev1.".data ++ displayName ++
    "DeleterUseCase\n".data

/-- Go `generateHandlerFields(module, tables)`. -/
def generateHandlerFields (module : Str) (tables : List Str) : Str :=
  tables.foldl (fun result entity => result ++ handlerFields module entity) []

/-- Text written by one iteration of the loop of Go
`generateHandlerConstructorParams`. -/
def handlerConstructorParams (module entity : Str) : Str :=
  let displayName := toPascalCase entity
  "\t".data ++ entity ++ "Creator ".data ++ module ++ "servicev1.".data ++ displayName ++
    "CreatorUseCase,\n".data ++
  "\t".data ++ entity ++ "Finder ".data ++ module ++ "servicev1.".data ++ displayName ++
    "FinderUseCase,\n".data ++
  "\t".data ++ entity ++ "Updater ".data ++ module ++ "servicev1.".data ++ displayName ++
    "UpdaterUseCase,\n".data ++
  "\t".data ++ entity ++ "Deleter ".data ++ module ++ "servicev1.".data ++ displayName ++
    "DeleterUseCase,\n".data

/-- Go `generateHandlerConstructorParams(module, tables)`. -/
def generateHandlerConstructorParams (module : Str) (tables : List Str) : Str :=
  tables.foldl (fun result entity => result ++ handlerConstructorParams module entity) []

/-- Text written by one iteration of the loop of Go
`generateHandlerFieldAssignments`. -/
def handlerFieldAssignments (entity : Str) : Str :=
  "\t\t".data ++ entity ++ "Creator: ".data ++ entity ++ "Creator,\n".data ++
  "\t\t".data ++ entity ++ "Finder: ".data ++ entity ++ "Finder,\n".data ++
  "\t\t".data ++ entity ++ "Updater: ".data ++ entity ++ "Updater,\n".data ++
  "\t\t".data ++ entity ++ "Deleter: ".data ++ entity ++ "Deleter,\n".data

/-- Go `generateHandlerFieldAssignments(tables)`. -/
def generateHandlerFieldAssignments (tables : List Str) : Str :=
  tables.foldl (fun result entity => result ++ handlerFieldAssignments entity) []

/-! ## `routes_incremental.go`: the line-splice transforms -/

/-- Index of the first line satisfying `p`: the scan `for i, line := range lines`
up to its first hit. -/
def findLine (p : Str → Bool) : List Str → Option Nat
  | [] => none
  | l :: ls => if p l then some 0 else (findLine p ls).map (· + 1)

/-- Index of the first line at or after `i` satisfying `p`: the scan
`for j := i; j < len(lines); j++` up to its first hit. -/
def findLineFrom (p : Str → Bool) (lines : List Str) (i : Nat) : Option Nat :=
  (findLine p (lines.drop i)).map (· + i)

/-- The slice built by the Go idiom
`updatedLines := make([]string, len(lines)+k); copy(updatedLines[:j], lines[:j]);
updatedLines[j] = newLine; copy(updatedLines[j+1:], lines[j+1:])`
for `j < len(lines)`: the lines before `j`, the new element, the lines after
`j`, and the `k` elements that `make` allocated beyond `len(lines)`, which stay
the empty string. -/
def updatedLines (lines : List Str) (j : Nat) (newLine : Str) (k : Nat) : List Str :=
  lines.take j ++ [newLine] ++ lines.drop (j + 1) ++ List.replicate k []

/-- Go `addHandlerDeclarations(content, module, method, tables)`. -/
def addHandlerDeclarations (content module method : Str) (tables : List Str) : Str :=
  let lines := strings.Split content "\n".data
  match findLine (fun line => strings.Contains line (method ++ "HTTPHandler() \x7b".data)) lines with
  | none => content
  | some i =>
    match findLineFrom (fun l => strings.Contains l "v1 :=".data &&
        strings.Contains l "Group(".data) lines i with
    | none => content
    | some j =>
      let newDeclarations := generateHandlerDeclarations module method tables
      strings.Join
        (updatedLines lines j (newDeclarations ++ lines.getD j [])
          (strings.Split newDeclarations "\n".data).length)
        "\n".data

/-- Go `updateRouteMethod(content, module, method, tables)`: the index `i` of
the signature line is found in the lines of `content`, the closing brace is
searched from `i` in the lines of the content with the declarations added. -/
def updateRouteMethod (content module method : Str) (tables : List Str) : Str :=
  let lines := strings.Split content "\n".data
  match findLine (fun line => strings.Contains line (method ++ "HTTPHandler() \x7b".data)) lines with
  | none => content
  | some i =>
    let contentWithDeclarations := addHandlerDeclarations content module method tables
    let lines := strings.Split contentWithDeclarations "\n".data
    match findLineFrom (fun l => strings.TrimSpace l == "\x7d".data &&
        strings.HasPrefix l "\t\x7d".data) lines i with
    | none => content
    | some j =>
      let newRoutes := generateEntityRoutes module method tables
      strings.Join
        (updatedLines lines j (newRoutes ++ "\n".data ++ lines.getD j [])
          (strings.Split newRoutes "\n".data).length)
        "\n".data

/-- Go `updateHandlerStruct(content, module, tables)`. -/
def updateHandlerStruct (content module : Str) (tables : List Str) : Str :=
  let lines := strings.Split content "\n".data
  match findLine (fun line => strings.Contains line "type".data &&
      strings.Contains line "HTTPHandler struct \x7b".data) lines with
  | none => content
  | some i =>
    match findLineFrom (fun l => strings.Contains l "cloudStorage".data ||
        strings.Contains l "cache".data) lines i with
    | none => content
    | some j =>
      let newFields := generateHandlerFields module tables
      strings.Join
        (updatedLines lines j (newFields ++ lines.getD j [])
          (strings.Split newFields "\n".data).length)
        "\n".data

/-- Go `updateHandlerConstructorBody(content, module, tables)`. -/
def updateHandlerConstructorBody (content _module : Str) (tables : List Str) : Str :=
  let lines := strings.Split content "\n".data
  match findLine (fun line => strings.Contains line "return &".data &&
      strings.Contains line "HTTPHandler\x7b".data) lines with
  | none => content
  | some i =>
    match findLineFrom (fun l => strings.Contains l "cloudStorage:".data ||
        strings.Contains l "cache:".data) lines i with
    | none => content
    | some j =>
      let newAssignments := generateHandlerFieldAssignments tables
      strings.Join
        (updatedLines lines j (newAssignments ++ lines.getD j [])
          (strings.Split newAssignments "\n".data).length)
        "\n".data

/-- Go `updateRouteHandlerConstructor(content, module, tables)`: the
parameters are spliced in, then the constructor body is updated on the
result. -/
def updateRouteHandlerConstructor (content module : Str) (tables : List Str) : Str :=
  let lines := strings.Split content "\n".data
  match findLine (fun line => strings.Contains line "func New".data &&
      strings.Contains line "HTTPHandler(".data) lines with
  | none => content
  | some i =>
    match findLineFrom (fun l => strings.Contains l "cloudStorage".data ||
        strings.Contains l "cache".data) lines i with
    | none => content
    | some j =>
      let newParams := generateHandlerConstructorParams module tables
      let content := strings.Join
        (updatedLines lines j (newParams ++ lines.getD j [])
          (strings.Split newParams "\n".data).length)
        "\n".data
      updateHandlerConstructorBody content module tables

/-! ## Word lists used to state the properties -/

/-- The words that `toPascalCase` upper-cases whole (the `case` labels of its
`switch`). -/
def acronyms : List Str :=
  ["id".data, "ip".data, "url".data, "api".data, "http".data, "html".data, "json".data,
   "xml".data]

/-- The entities of the irregular table (the `case` labels of the `switch` of
`getGroupName` and of `getPluralDisplayName`). -/
def irregularEntities : List Str :=
  ["category".data, "product".data, "user".data, "role".data, "permission".data,
   "organization".data, "person".data, "child".data, "man".data, "woman".data]

/-- The four method blocks of a routes file. -/
def routeMethods : List Str :=
  ["Finder".data, "Creator".data, "Updater".data, "Deleter".data]

/-! ## Sample routes files used to evaluate the transforms -/

/-- A Finder block whose route group variable is not `v1`: no line contains
both "v1 :=" and "Group(". -/
def routesWithoutGroupMarker : Str :=
  ("func (h *AuthHTTPHandler) FinderHTTPHandler() \x7b\n" ++
   "\tapi := h.engine.Group(\"/api\")\n" ++
   "\t\x7b\n" ++
   "\t\x7d\n" ++
   "\x7d\n").data

/-- A Finder block with a one-tab `if` block between the signature line and
the `v1` group line. -/
def routesWithInnerBlock : Str :=
  ("func (h *AuthHTTPHandler) FinderHTTPHandler() \x7b\n" ++
   "\tif h.cache == nil \x7b\n" ++
   "\t\treturn\n" ++
   "\t\x7d\n" ++
   "\tv1 := h.engine.Group(\"/v1\")\n" ++
   "\t\x7b\n" ++
   "\t\x7d\n" ++
   "\x7d\n").data

/-! ## `builder_analyzer.go`: entities wired in a builder file -/

/-- Go `extractEntityFromRepoLine(line)`: the text between the first and the
second occurrence of "repository.New", cut at the first occurrence of each
suffix in turn, lower-cased. -/
def extractEntityFromRepoLine (line : Str) : Str :=
  if strings.Contains line "repository.New".data then
    let parts := strings.Split line "repository.New".data
    if parts.length > 1 then
      let repoPart := parts.getD 1 []
      let suffixes := ["FinderRepository".data, "CreatorRepository".data,
        "UpdaterRepository".data, "DeleterRepository".data, "(".data]
      let repoPart := suffixes.foldl
        (fun repoPart suffix => (strings.Split repoPart suffix).headD []) repoPart
      strings.ToLower repoPart
    else []
  else []

/-- Go `extractExistingTables(content)`. -/
def extractExistingTables (content : Str) : List Str :=
  (strings.Split content "\n".data).foldl
    (fun tables line =>
      let line := strings.TrimSpace line
      if strings.Contains line "Repo :=".data && strings.Contains line "repository.New".data then
        let entity := extractEntityFromRepoLine line
        if entity ≠ [] && !contains tables entity then tables ++ [entity] else tables
      else tables) []

/-! ## `builder_incremental.go`: the wiring graft -/

/-- Go `types.TableConfig`. -/
structure TableConfig where
  Name : Str
  DisplayName : Str
  Module : Str

/-- The field `Tables` of the configuration made by Go `buildBuilderConfig`
(`builder_complete.go`), the only field read by the wiring graft. -/
def buildBuilderConfigTables (module : Str) (tables : List Str) : List TableConfig :=
  tables.map (fun table =>
    { Name := table, DisplayName := toPascalCase table, Module := module })

/-- Text written by one iteration of the loop of Go
`generateIncrementalBuilderCode`. -/
def incrementalBuilderCode (entity : TableConfig) : Str :=
  "\t// ".data ++ entity.DisplayName ++ " Repository\n".data ++
  "\t".data ++ entity.Name ++ "FinderRepo := repository.New".data ++ entity.DisplayName ++
    "FinderRepository(db, cache)\n".data ++
  "\t".data ++ entity.Name ++ "CreatorRepo := repository.New".data ++ entity.DisplayName ++
    "CreatorRepository(db, cache)\n".data ++
  "\t".data ++ entity.Name ++ "UpdaterRepo := repository.New".data ++ entity.DisplayName ++
    "UpdaterRepository(db, cache)\n".data ++
  "\t".data ++ entity.Name ++ "DeleterRepo := repository.New".data ++ entity.DisplayName ++
    "DeleterRepository(db, cache)\n".data ++
  "\n\t// ".data ++ entity.DisplayName ++ " Service\n".data ++
  "\t".data ++ entity.Name ++ "CreatorSvc := service.New".data ++ entity.DisplayName ++
    "Creator(cfg, ".data ++ entity.Name ++ "CreatorRepo, ".data ++ entity.Name ++
    "FinderRepo, ".data ++ entity.Name ++ "UpdaterRepo, cloudStorage)\n".data ++
  "\t".data ++ entity.Name ++ "FinderSvc := service.New".data ++ entity.DisplayName ++
    "Finder(cfg, ".data ++ entity.Name ++ "FinderRepo, cloudStorage)\n".data ++
  "\t".data ++ entity.Name ++ "UpdaterSvc := service.New".data ++ entity.DisplayName ++
    "Updater(cfg, ".data ++ entity.Name ++ "FinderRepo, ".data ++ entity.Name ++
    "UpdaterRepo, cloudStorage)\n".data ++
  "\t".data ++ entity.Name ++ "DeleterSvc := service.New".data ++ entity.DisplayName ++
    "Deleter(cfg, ".data ++ entity.Name ++ "DeleterRepo, cloudStorage)\n\n".data

/-- Go `generateIncrementalBuilderCode(module, version, tables)`; its error
result is always nil, and `version` does not reach the text. -/
def generateIncrementalBuilderCode (module _version : Str) (tables : List Str) : Str :=
  (buildBuilderConfigTables module tables).foldl
    (fun result entity => result ++ incrementalBuilderCode entity) "\n".data

/-- Go `findEntityWiringInsertionLine(lines)`: at the first handler creation
line `i`, the scan goes backwards from `i - 1` over blank and comment lines and
returns the index after the first other line, or `i` when there is none;
without a handler creation line the result is `len(lines) - 2`. -/
def findEntityWiringInsertionLine (lines : List Str) : Int :=
  match findLine (fun l =>
      let line := strings.TrimSpace l
      strings.Contains line "handler :=".data || strings.Contains line "app.New".data) lines with
  | some i =>
    match findLine (fun l =>
        let prevLine := strings.TrimSpace l
        !(prevLine == "".data || strings.Contains prevLine "//".data))
        (lines.take i).reverse with
    | some r => ((i - 1 - r + 1 : Nat) : Int)
    | none => (i : Int)
  | none => (lines.length : Int) - 2

/-- Text added by one iteration of the loop of Go `updateHandlerConstructor`. -/
def handlerConstructorArgs (entity : Str) : Str :=
  let displayName := toPascalCase entity
  "\t\t// ".data ++ displayName ++ "\n\t\t".data ++ entity ++ "CreatorSvc, ".data ++ entity ++
    "FinderSvc, ".data ++ entity ++ "UpdaterSvc, ".data ++ entity ++ "DeleterSvc,\n".data

/-- Go `updateHandlerConstructor(content, tables)` of `builder_incremental.go`. -/
def updateHandlerConstructor (content : Str) (tables : List Str) : Str :=
  let lines := strings.Split content "\n".data
  match findLine (fun line => strings.Contains line "app.New".data &&
      strings.Contains line "HTTPHandler(".data) lines with
  | none => content
  | some i =>
    match findLineFrom (fun l => strings.Contains l "// Cloud Storage".data ||
        strings.Contains l "cache,".data) lines i with
    | none => content
    | some j =>
      let newParams := tables.foldl
        (fun newParams entity => newParams ++ handlerConstructorArgs entity) []
      strings.Join
        (updatedLines lines j (newParams ++ lines.getD j [])
          (strings.Split newParams "\n".data).length)
        "\n".data

/-- Go `updateBuilderFile(analysis, newCode, tables)` on the content of the
analysis: `none` is the error "could not find entity wiring insertion point",
`some c` is the content `c` handed to `os.WriteFile`. -/
def updateBuilderFile (content newCode : Str) (tables : List Str) : Option Str :=
  let lines := strings.Split content "\n".data
  let entityInsertLine := findEntityWiringInsertionLine lines
  if entityInsertLine = -1 then none
  else
    let updatedLines := lines.take entityInsertLine.toNat ++
      strings.Split newCode "\n".data ++ lines.drop entityInsertLine.toNat
    some (updateHandlerConstructor (strings.Join updatedLines "\n".data) tables)

/-- What a graft does to the artifact it was given. -/
inductive GraftOutcome where
  /-- Every requested entity is already present: return before any write. -/
  | skipped
  /-- The artifact is rewritten with this content. -/
  | written (content : Str)
  /-- An error is returned and nothing is written. -/
  | failed
  deriving DecidableEq

/-- Go `updateBuilderIncremental(module, version, newTables)` on a builder file
that exists and has the given content (the file reads and the write are the
only effects). -/
def updateBuilderIncremental (content module version : Str) (newTables : List Str) :
    GraftOutcome :=
  let tablesToAdd := filterNewTables newTables (extractExistingTables content)
  if tablesToAdd.length == 0 then GraftOutcome.skipped
  else
    let newCode := generateIncrementalBuilderCode module version tablesToAdd
    match updateBuilderFile content newCode tablesToAdd with
    | none => GraftOutcome.failed
    | some finalContent => GraftOutcome.written finalContent

/-- A builder file with the entity "user" wired. -/
def builderWithUser : Str :=
  ("package auth\n" ++
   "\n" ++
   "func BuildAuthHandler(cfg config.Config, router *gin.Engine, db *gorm.DB, cache interfaces.Cacheable, cloudStorage interfaces.CloudStorage) \x7b\n" ++
   "\t// User Repository\n" ++
   "\tuserFinderRepo := repository.NewUserFinderRepository(db, cache)\n" ++
   "\tuserCreatorRepo := repository.NewUserCreatorRepository(db, cache)\n" ++
   "\tuserUpdaterRepo := repository.NewUserUpdaterRepository(db, cache)\n" ++
   "\tuserDeleterRepo := repository.NewUserDeleterRepository(db, cache)\n" ++
   "\n" ++
   "\t// User Service\n" ++
   "\tuserCreatorSvc := service.NewUserCreator(cfg, userCreatorRepo, userFinderRepo, userUpdaterRepo, cloudStorage)\n" ++
   "\tuserFinderSvc := service.NewUserFinder(cfg, userFinderRepo, cloudStorage)\n" ++
   "\tuserUpdaterSvc := service.NewUserUpdater(cfg, userFinderRepo, userUpdaterRepo, cloudStorage)\n" ++
   "\tuserDeleterSvc := service.NewUserDeleter(cfg, userDeleterRepo, cloudStorage)\n" ++
   "\n" ++
   "\t// Handler\n" ++
   "\thandler := app.NewAuthHTTPHandler(\n" ++
   "\t\trouter,\n" ++
   "\t\t// User\n" ++
   "\t\tuserCreatorSvc, userFinderSvc, userUpdaterSvc, userDeleterSvc,\n" ++
   "\t\t// Cloud Storage\n" ++
   "\t\tcloudStorage,\n" ++
   "\t)\n" ++
   "\thandler.FinderHTTPHandler()\n" ++
   "\x7d\n").data

/-- The content written by a graft, or the input content when the graft writes
nothing. -/
def contentAfter (content : Str) : GraftOutcome → Str
  | GraftOutcome.written c => c
  | _ => content

/-- The builder file `builderWithUser` after grafting "user_profile" once. -/
def builderGraftedOnce : Str :=
  contentAfter builderWithUser
    (updateBuilderIncremental builderWithUser "auth".data "v1".data ["user_profile".data])

/-- The builder file `builderWithUser` after grafting "user_profile" twice. -/
def builderGraftedTwice : Str :=
  contentAfter builderGraftedOnce
    (updateBuilderIncremental builderGraftedOnce "auth".data "v1".data ["user_profile".data])

/-! ## `routes_analyzer.go`: entities and method blocks of a routes file -/

/-- Go `extractEntityFromHandlerLine(line)`. -/
def extractEntityFromHandlerLine (line : Str) : Str :=
  if strings.Contains line "handlerv1.New".data then
    let parts := strings.Split line "handlerv1.New".data
    if parts.length > 1 then
      let handlerPart := parts.getD 1 []
      let suffixes := ["FinderHandler".data, "CreatorHandler".data, "UpdaterHandler".data,
        "DeleterHandler".data, "(".data]
      let handlerPart := suffixes.foldl
        (fun handlerPart suffix => (strings.Split handlerPart suffix).headD []) handlerPart
      strings.ToLower handlerPart
    else []
  else []

/-- Body of the loop of Go `extractExistingRoutesTables` for one line. -/
def scanRoutesLine (tables : List Str) (line : Str) : List Str :=
  let line := strings.TrimSpace line
  if strings.Contains line "Hnd :=".data && strings.Contains line "handlerv1.New".data then
    let entity := extractEntityFromHandlerLine line
    if entity ≠ [] && !contains tables entity then tables ++ [entity] else tables
  else tables

/-- Go `extractExistingRoutesTables(content)`. -/
def extractExistingRoutesTables (content : Str) : List Str :=
  (strings.Split content "\n".data).foldl scanRoutesLine []

/-- Go `MethodBlock`. -/
structure MethodBlock where
  StartLine : Int
  EndLine : Int
  Content : Str

/-- Assignment `blocks[key] = block` on a Go map kept as an association list
with distinct keys. -/
def mapSet : List (Str × MethodBlock) → Str → MethodBlock → List (Str × MethodBlock)
  | [], key, block => [(key, block)]
  | (k, b) :: rest, key, block =>
    if k = key then (k, block) :: rest else (k, b) :: mapSet rest key block

/-- The variables of the loop of Go `extractMethodBlocks`. -/
structure BlockScan where
  currentMethod : Str
  startLine : Int
  blocks : List (Str × MethodBlock)

/-- One iteration of the loop of Go `extractMethodBlocks`, at line index `i`. -/
def scanBlockLine (lines : List Str) (st : BlockScan) (i : Nat) : BlockScan :=
  let line := lines.getD i []
  let trimmed := strings.TrimSpace line
  let st :=
    if strings.HasPrefix trimmed "func (h *".data &&
        strings.Contains trimmed "HTTPHandler() \x7b".data then
      let currentMethod :=
        if strings.Contains trimmed "FinderHTTPHandler".data then "Finder".data
        else if strings.Contains trimmed "CreatorHTTPHandler".data then "Creator".data
        else if strings.Contains trimmed "UpdaterHTTPHandler".data then "Updater".data
        else if strings.Contains trimmed "DeleterHTTPHandler".data then "Deleter".data
        else st.currentMethod
      if currentMethod ≠ [] then
        { st with currentMethod := currentMethod, startLine := (i : Int) }
      else { st with currentMethod := currentMethod }
    else st
  if st.startLine ≠ -1 && trimmed == "\x7d".data then
    if i + 1 ≥ lines.length || strings.TrimSpace (lines.getD (i + 1) []) == "".data ||
        strings.Contains (lines.getD (i + 1) []) "func (h *".data then
      { currentMethod := "".data, startLine := -1,
        blocks := mapSet st.blocks st.currentMethod
          { StartLine := st.startLine, EndLine := (i : Int),
            Content := strings.Join
              ((lines.drop st.startLine.toNat).take (i + 1 - st.startLine.toNat)) "\n".data } }
    else st
  else st

/-- Go `extractMethodBlocks(content)`: the map of the recorded method blocks. -/
def extractMethodBlocks (content : Str) : List (Str × MethodBlock) :=
  let lines := strings.Split content "\n".data
  ((List.range lines.length).foldl (scanBlockLine lines)
    { currentMethod := "".data, startLine := -1, blocks := [] }).blocks

/-! ## `routes_incremental.go`: the routes graft -/

/-- Go `updateRoutesIncremental(module, version, newTables)` on a routes file
that exists and has the given content. `order` is the order in which
`for method := range analysis.MethodBlocks` visits the keys of the map, which
Go leaves unspecified: a permutation of the keys of `extractMethodBlocks`. The
permission constants generated after the write are another artifact. -/
def updateRoutesIncremental (content module : Str) (newTables : List Str) (order : List Str) :
    GraftOutcome :=
  let tablesToAdd := filterNewTables newTables (extractExistingRoutesTables content)
  if tablesToAdd.length == 0 then GraftOutcome.skipped
  else
    let updatedContent := order.foldl
      (fun updatedContent method => updateRouteMethod updatedContent module method tablesToAdd)
      content
    let updatedContent := updateHandlerStruct updatedContent module tablesToAdd
    let updatedContent := updateRouteHandlerConstructor updatedContent module tablesToAdd
    GraftOutcome.written updatedContent

/-- The method block of `method` has its markers: from the first line that
contains the signature marker on, there is a line with "v1 :=" and "Group("
and there is a one-tab closing brace line. -/
def blockHasMarkers (content method : Str) : Bool :=
  let lines := strings.Split content "\n".data
  match findLine (fun line => strings.Contains line (method ++ "HTTPHandler() \x7b".data)) lines with
  | none => false
  | some i =>
    (findLineFrom (fun l => strings.Contains l "v1 :=".data &&
        strings.Contains l "Group(".data) lines i).isSome &&
    (findLineFrom (fun l => strings.TrimSpace l == "\x7d".data &&
        strings.HasPrefix l "\t\x7d".data) lines i).isSome

/-- A routes file that holds the handler struct but no method block. -/
def routesWithoutBlocks : Str :=
  ("package app\n" ++
   "\n" ++
   "type AuthHTTPHandler struct \x7b\n" ++
   "\tcloudStorage interfaces.CloudStorage\n" ++
   "\x7d\n").data

/-- A routes file with a Finder block and the handler struct. -/
def routesWithFinder : Str :=
  ("package app\n" ++
   "\n" ++
   "type AuthHTTPHandler struct \x7b\n" ++
   "\tcloudStorage interfaces.CloudStorage\n" ++
   "\x7d\n" ++
   "\n" ++
   "func (h *AuthHTTPHandler) FinderHTTPHandler() \x7b\n" ++
   "\tv1 := h.engine.Group(\"/v1\")\n" ++
   "\t\x7b\n" ++
   "\t\x7d\n" ++
   "\x7d\n").data

/-- The entity that one line of a routes file reports to
`extractExistingRoutesTables`, if any: the test and the extraction of the loop
body `scanRoutesLine`. -/
def lineEntity (line : Str) : Option Str :=
  let line := strings.TrimSpace line
  if strings.Contains line "Hnd :=".data && strings.Contains line "handlerv1.New".data then
    let entity := extractEntityFromHandlerLine line
    if entity ≠ [] then some entity else none
  else none

/-- Invariant of the loop of `extractMethodBlocks`: a block is open only under
one of the four method names, and every key of the map is one of them. -/
def BlockScanOk (st : BlockScan) : Prop :=
  (st.startLine ≠ -1 → st.currentMethod ∈ routeMethods) ∧
  (st.currentMethod = [] ∨ st.currentMethod ∈ routeMethods) ∧
  ∀ k ∈ st.blocks.map Prod.fst, k ∈ routeMethods

/-- The routes file `routesWithoutBlocks` after grafting "role" once; the map
of method blocks is empty, so no method is visited. -/
def routesGraftedOnce : Str :=
  contentAfter routesWithoutBlocks
    (updateRoutesIncremental routesWithoutBlocks "auth".data ["role".data] [])

/-- The routes file `routesWithoutBlocks` after grafting "role" twice. -/
def routesGraftedTwice : Str :=
  contentAfter routesGraftedOnce
    (updateRoutesIncremental routesGraftedOnce "auth".data ["role".data] [])

/-- The twelve lines that the wiring of one entity is made of: a comment, the
four repository constructions, a blank line, a comment, the four service
constructions and a blank line. -/
def wiringLines (e : Str) : List Str :=
  let D := toPascalCase e
  [ "\t// ".data ++ D ++ " Repository".data,
    "\t".data ++ e ++ "FinderRepo := repository.New".data ++ D ++
      "FinderRepository(db, cache)".data,
    "\t".data ++ e ++ "CreatorRepo := repository.New".data ++ D ++
      "CreatorRepository(db, cache)".data,
    "\t".data ++ e ++ "UpdaterRepo := repository.New".data ++ D ++
      "UpdaterRepository(db, cache)".data,
    "\t".data ++ e ++ "DeleterRepo := repository.New".data ++ D ++
      "DeleterRepository(db, cache)".data,
    "".data,
    "\t// ".data ++ D ++ " Service".data,
    "\t".data ++ e ++ "CreatorSvc := service.New".data ++ D ++ "Creator(cfg, ".data ++ e ++
      "CreatorRepo, ".data ++ e ++ "FinderRepo, ".data ++ e ++ "UpdaterRepo, cloudStorage)".data,
    "\t".data ++ e ++ "FinderSvc := service.New".data ++ D ++ "Finder(cfg, ".data ++ e ++
      "FinderRepo, cloudStorage)".data,
    "\t".data ++ e ++ "UpdaterSvc := service.New".data ++ D ++ "Updater(cfg, ".data ++ e ++
      "FinderRepo, ".data ++ e ++ "UpdaterRepo, cloudStorage)".data,
    "\t".data ++ e ++ "DeleterSvc := service.New".data ++ D ++ "Deleter(cfg, ".data ++ e ++
      "DeleterRepo, cloudStorage)".data,
    "".data ]

/-- The arguments of the handler constructor in the declaration of `e` for
`method`, as the specification lists them. -/
def handlerArguments (method e : Str) : Str :=
  if method = "Finder".data then "h.".data ++ e ++ "Finder".data
  else if method = "Creator".data then "h.".data ++ e ++ "Creator, h.cloudStorage".data
  else if method = "Updater".data then "h.".data ++ e ++ "Updater, h.cloudStorage".data
  else if method = "Deleter".data then "h.".data ++ e ++ "Deleter".data
  else []

/-- The handler declaration line of `e` for `method` in module `m`, after its
leading tab: `<e>Hnd := <m>handlerv1.New<D><M>Handler(<args>)`. -/
def declarationLine (m method e : Str) : Str :=
  "\t".data ++ e ++ "Hnd := ".data ++ m ++ "handlerv1.New".data ++ toPascalCase e ++ method ++
    "Handler(".data ++ handlerArguments method e ++ ")".data

/-- The four struct field lines of one entity, in the order Creator, Finder,
Updater, Deleter. -/
def fieldLines (m e : Str) : List Str :=
  let D := toPascalCase e
  [ "\t".data ++ e ++ "Creator ".data ++ m ++ "servicev1.".data ++ D ++ "CreatorUseCase".data,
    "\t".data ++ e ++ "Finder ".data ++ m ++ "servicev1.".data ++ D ++ "FinderUseCase".data,
    "\t".data ++ e ++ "Updater ".data ++ m ++ "servicev1.".data ++ D ++ "UpdaterUseCase".data,
    "\t".data ++ e ++ "Deleter ".data ++ m ++ "servicev1.".data ++ D ++ "DeleterUseCase".data ]

/-- The four constructor parameter lines of one entity, in the order Creator,
Finder, Updater, Deleter. -/
def parameterLines (m e : Str) : List Str :=
  let D := toPascalCase e
  [ "\t".data ++ e ++ "Creator ".data ++ m ++ "servicev1.".data ++ D ++ "CreatorUseCase,".data,
    "\t".data ++ e ++ "Finder ".data ++ m ++ "servicev1.".data ++ D ++ "FinderUseCase,".data,
    "\t".data ++ e ++ "Updater ".data ++ m ++ "servicev1.".data ++ D ++ "UpdaterUseCase,".data,
    "\t".data ++ e ++ "Deleter ".data ++ m ++ "servicev1.".data ++ D ++ "DeleterUseCase,".data ]

/-- The four constructor body lines of one entity, in the order Creator,
Finder, Updater, Deleter. -/
def assignmentLines (e : Str) : List Str :=
  [ "\t\t".data ++ e ++ "Creator: ".data ++ e ++ "Creator,".data,
    "\t\t".data ++ e ++ "Finder: ".data ++ e ++ "Finder,".data,
    "\t\t".data ++ e ++ "Updater: ".data ++ e ++ "Updater,".data,
    "\t\t".data ++ e ++ "Deleter: ".data ++ e ++ "Deleter,".data ]

/-- A route group as the specification describes it: the group of `e` guarded
by `middleware.RequirePermission` with the two permissions
`constant.Perm<D><action>` and `constant.PermSystemManage`, holding one line
per registration of `routes`, each a call on the group variable. -/
def guardedGroup (e action : Str) (routes : List Str) : Str :=
  "\n\t\t".data ++ getGroupName e ++ " := v1.Group(\"/".data ++ getRoutePath e ++
    "\", middleware.RequirePermission(\n".data ++
    "\t\t\tconstant.Perm".data ++ toPascalCase e ++ action ++ ",\n".data ++
    "\t\t\tconstant.PermSystemManage,\n".data ++
    "\t\t))\n\t\t\x7b\n".data ++
    routes.flatMap (fun r => "\t\t\t".data ++ getGroupName e ++ r ++ "\n".data) ++
    "\t\t\x7d\n".data

/-- The entity that one line of a builder file reports to
`extractExistingTables`, if any: the test and the extraction of its loop
body. -/
def repoLineEntity (line : Str) : Option Str :=
  let line := strings.TrimSpace line
  if strings.Contains line "Repo :=".data && strings.Contains line "repository.New".data then
    let entity := extractEntityFromRepoLine line
    if entity ≠ [] then some entity else none
  else none

/-- The list without its repeated elements, each element kept at its first
occurrence. -/
def dedupFirst : List Str → List Str
  | [] => []
  | a :: l => a :: (dedupFirst l).filter (fun b => decide (b ≠ a))

/-- The canonical repository-construction text of entity `e` for `action`, as
the specification writes it:
`<e><Action>Repo := repository.New<D><Action>Repository(`. -/
def canonicalRepoText (e action : Str) : Str :=
  e ++ action ++ "Repo := repository.New".data ++ toPascalCase e ++ action ++
    "Repository(".data

/-- A builder file whose only repository line names its variable `uRepo`. -/
def builderWithShortName : Str :=
  ("func BuildAuthHandler(db *gorm.DB, cache interfaces.Cacheable) \x7b\n" ++
   "\tuRepo := repository.NewUserFinderRepository(db, cache)\n" ++
   "\x7d\n").data

/-- The texts by which the lines that construct the repositories and the
services of "user" are recognised. -/
def userWiringPatterns : List Str :=
  [ "userFinderRepo :=".data, "userCreatorRepo :=".data, "userUpdaterRepo :=".data,
    "userDeleterRepo :=".data, "userCreatorSvc :=".data, "userFinderSvc :=".data,
    "userUpdaterSvc :=".data, "userDeleterSvc :=".data ]

/-- Go `len(s)`: the number of bytes of the UTF-8 encoding of `s`. -/
def byteLen (s : Str) : Nat := (s.map Char.utf8Size).sum

/-- Number of characters in front of the first occurrence of `substr` in `s`. -/
def firstOccurrence : Str → Str → Option Nat
  | [], substr => if substr.isPrefixOf [] then some 0 else none
  | c :: cs, substr =>
    if substr.isPrefixOf (c :: cs) then some 0 else (firstOccurrence cs substr).map (· + 1)

/-- Number of characters in front of the last occurrence of `substr` in `s`. -/
def lastOccurrence : Str → Str → Option Nat
  | [], substr => if substr.isPrefixOf [] then some 0 else none
  | c :: cs, substr =>
    match lastOccurrence cs substr with
    | some i => some (i + 1)
    | none => if substr.isPrefixOf (c :: cs) then some 0 else none

/-- Go `strings.Index(s, substr)`: the byte offset of the first occurrence of
`substr` in `s`, or -1. -/
def strings.Index (s substr : Str) : Int :=
  match firstOccurrence s substr with
  | some i => (byteLen (s.take i) : Int)
  | none => -1

/-- Go `strings.LastIndex(s, substr)`: the byte offset of the last occurrence
of `substr` in `s`, or -1. -/
def strings.LastIndex (s substr : Str) : Int :=
  match lastOccurrence s substr with
  | some i => (byteLen (s.take i) : Int)
  | none => -1

/-- The loop of Go `findEntityInsertionPoint` over the lines of the function
body: `some p` is the `return lastEntityEnd` at a handler creation line,
`none` is the end of the loop without a return. -/
def scanInsertionPoint : List Str → Nat → Nat → Option Nat
  | [], _, _ => none
  | line :: rest, currentPos, lastEntityEnd =>
    let line := strings.TrimSpace line
    let currentPos := currentPos + byteLen line + 1
    if strings.Contains line "// Handler".data || strings.Contains line "handler :=".data ||
        strings.Contains line "app.New".data then
      some lastEntityEnd
    else if strings.Contains line "Repo :=".data || strings.Contains line "Svc :=".data ||
        (strings.Contains line "//".data &&
          (strings.Contains line "Repository".data || strings.Contains line "Service".data)) then
      scanInsertionPoint rest currentPos currentPos
    else scanInsertionPoint rest currentPos lastEntityEnd

/-- Go `findEntityInsertionPoint(content)`. The slice `content[funcStart:]`
starts at the first character of the occurrence found by `strings.Index`, and
offsets are counted in bytes. -/
def findEntityInsertionPoint (content : Str) : Int :=
  match firstOccurrence content "func Build".data with
  | none => -1
  | some funcStart =>
    match firstOccurrence (content.drop funcStart) "\x7b".data with
    | none => -1
    | some braceStart =>
      let functionBodyStart := byteLen (content.take (funcStart + braceStart + 1))
      let lines := strings.Split (content.drop (funcStart + braceStart + 1)) "\n".data
      match scanInsertionPoint lines functionBodyStart functionBodyStart with
      | some lastEntityEnd => (lastEntityEnd : Int)
      | none =>
        let handlerCallsStart := strings.Index content "handler.".data
        if handlerCallsStart ≠ -1 then handlerCallsStart
        else
          let lastBrace := strings.LastIndex content "\x7d".data
          if lastBrace ≠ -1 then lastBrace
          else (functionBodyStart : Int)

/-- A builder function with two tab-indented wiring lines before the handler
creation line. -/
def builderIndented : Str :=
  ("func Build() \x7b\n" ++
   "\taRepo := repository.NewAFinderRepository(db)\n" ++
   "\taSvc := service.NewAFinder(aRepo)\n" ++
   "\thandler := app.NewAuthHTTPHandler(aSvc)\n" ++
   "\x7d\n").data

/-- The test by which the loop of `extractMethodBlocks` recognises a handler
signature line. -/
def isHandlerSignature (line : Str) : Bool :=
  strings.HasPrefix (strings.TrimSpace line) "func (h *".data &&
    strings.Contains (strings.TrimSpace line) "HTTPHandler() \x7b".data

/-- The test by which the loop of `extractMethodBlocks` closes an open block at
line `i`: trimmed of white space the line is a closing brace, and the next line
is absent, blank, or contains "func (h *". -/
def isBlockEnd (lines : List Str) (i : Nat) : Bool :=
  strings.TrimSpace (lines.getD i []) == "\x7d".data &&
    (decide (i + 1 ≥ lines.length) ||
      strings.TrimSpace (lines.getD (i + 1) []) == "".data ||
      strings.Contains (lines.getD (i + 1) []) "func (h *".data)

/-- First half of `scanBlockLine`: the signature test, which opens a block. -/
def openBlock (lines : List Str) (st : BlockScan) (i : Nat) : BlockScan :=
  let trimmed := strings.TrimSpace (lines.getD i [])
  if strings.HasPrefix trimmed "func (h *".data &&
      strings.Contains trimmed "HTTPHandler() \x7b".data then
    let currentMethod :=
      if strings.Contains trimmed "FinderHTTPHandler".data then "Finder".data
      else if strings.Contains trimmed "CreatorHTTPHandler".data then "Creator".data
      else if strings.Contains trimmed "UpdaterHTTPHandler".data then "Updater".data
      else if strings.Contains trimmed "DeleterHTTPHandler".data then "Deleter".data
      else st.currentMethod
    if currentMethod ≠ [] then
      { st with currentMethod := currentMethod, startLine := (i : Int) }
    else { st with currentMethod := currentMethod }
  else st

/-- Second half of `scanBlockLine`: the closing test, which records a block. -/
def closeBlock (lines : List Str) (st : BlockScan) (i : Nat) : BlockScan :=
  let trimmed := strings.TrimSpace (lines.getD i [])
  if st.startLine ≠ -1 && trimmed == "\x7d".data then
    if i + 1 ≥ lines.length || strings.TrimSpace (lines.getD (i + 1) []) == "".data ||
        strings.Contains (lines.getD (i + 1) []) "func (h *".data then
      { currentMethod := "".data, startLine := -1,
        blocks := mapSet st.blocks st.currentMethod
          { StartLine := st.startLine, EndLine := (i : Int),
            Content := strings.Join
              ((lines.drop st.startLine.toNat).take (i + 1 - st.startLine.toNat)) "\n".data } }
    else st
  else st

/-- What the loop of `extractMethodBlocks` guarantees of a block it records:
it runs from a handler signature line `s` to the first line `e` after it that
passes the closing test, and its content is the lines `s` to `e`. -/
def BlockOk (lines : List Str) (b : MethodBlock) : Prop :=
  ∃ s e : Nat, b.StartLine = (s : Int) ∧ b.EndLine = (e : Int) ∧ s < e ∧ e < lines.length ∧
    isHandlerSignature (lines.getD s []) = true ∧ isBlockEnd lines e = true ∧
    (∀ i, s ≤ i → i < e → isBlockEnd lines i = false) ∧
    b.Content = strings.Join ((lines.drop s).take (e + 1 - s)) "\n".data

/-- Invariant of the loop of `extractMethodBlocks` before line `n`: an open
block starts at a signature line below `n` with no closing line since, and
every recorded block satisfies `BlockOk`. -/
def BlockScanInv (lines : List Str) (n : Nat) (st : BlockScan) : Prop :=
  BlockScanOk st ∧
  (st.startLine = -1 ∨ ∃ s : Nat, st.startLine = (s : Int) ∧ s < n ∧
    isHandlerSignature (lines.getD s []) = true ∧
    ∀ i, s ≤ i → i < n → isBlockEnd lines i = false) ∧
  ∀ kb ∈ st.blocks, BlockOk lines kb.2

/-- A Finder block whose inner closing brace is followed by a blank line. -/
def routesWithBlankAfterInnerBrace : Str :=
  ("func (h *AuthHTTPHandler) FinderHTTPHandler() \x7b\n" ++
   "\tv1 := h.engine.Group(\"/v1\")\n" ++
   "\t\x7b\n" ++
   "\t\x7d\n" ++
   "\n" ++
   "\th.engine.NoRoute(h.notFound)\n" ++
   "\x7d\n").data

/-- A Finder block whose closing brace is followed by a comment line, and then
a handler method that is none of the four. -/
def routesWithPublicHandler : Str :=
  ("func (h *AuthHTTPHandler) FinderHTTPHandler() \x7b\n" ++
   "\x7d\n" ++
   "// public routes\n" ++
   "func (h *AuthHTTPHandler) PublicHTTPHandler() \x7b\n" ++
   "\x7d").data

/-! ## `helpers.go`: singular form of a table name -/

/-- The map `irregulars` of Go `singularize`. -/
def singularIrregulars : List (Str × Str) :=
  [ ("people".data, "person".data), ("men".data, "man".data), ("women".data, "woman".data),
    ("children".data, "child".data), ("teeth".data, "tooth".data), ("feet".data, "foot".data),
    ("geese".data, "goose".data), ("mice".data, "mouse".data), ("data".data, "datum".data),
    ("indices".data, "index".data), ("matrices".data, "matrix".data),
    ("vertices".data, "vertex".data), ("statuses".data, "status".data),
    ("courses".data, "course".data), ("quizzes".data, "quiz".data) ]

/-- Go `singularize(word)`. The slices `word[:len(word)-k]` cut an ASCII suffix
that `strings.HasSuffix` has found, so they drop the last `k` characters. -/
def singularize (word : Str) : Str :=
  let word := strings.ToLower word
  match singularIrregulars.lookup word with
  | some val => val
  | none =>
    if strings.HasSuffix word "ies".data then word.take (word.length - 3) ++ "y".data
    else if strings.HasSuffix word "ves".data then
      let base := word.take (word.length - 3)
      if strings.HasSuffix base "f".data then base else base ++ "fe".data
    else if strings.HasSuffix word "xes".data || strings.HasSuffix word "ches".data ||
        strings.HasSuffix word "shes".data then word.take (word.length - 2)
    else if strings.HasSuffix word "zes".data then word.take (word.length - 3)
    else if strings.HasSuffix word "oes".data then word.take (word.length - 2)
    else if strings.HasSuffix word "s".data && byteLen word > 1 then
      word.take (word.length - 1)
    else word

/-! ## `main.go`: the `--parts` flag -/

/-- Go `types.ModulePart`. -/
structure ModulePart where
  Component : Str
  Action : Str
  deriving DecidableEq

/-- Body of the loop of Go `parseModuleParts` for one comma-separated item. -/
def parseModulePart (parts : List ModulePart) (part : Str) : List ModulePart :=
  let part := strings.TrimSpace part
  if part = "".data then parts
  else if strings.Contains part ".".data then
    let components := strings.Split part ".".data
    if components.length = 2 then
      parts ++ [{ Component := components.getD 0 [], Action := components.getD 1 [] }]
    else parts
  else parts ++ [{ Component := part, Action := "".data }]

/-- Go `parseModuleParts(partsStr)`. -/
def parseModuleParts (partsStr : Str) : List ModulePart :=
  (strings.Split partsStr ",".data).foldl parseModulePart []

/-- The module part that one trimmed item of the `--parts` flag stands for: an
item without a dot is a component with every action, an item
`component.action` with exactly one dot is one action of a component, and a
blank item or an item with two or more dots stands for nothing. -/
def itemPart (item : Str) : Option ModulePart :=
  if item = [] then none
  else if '.' ∉ item then some { Component := item, Action := [] }
  else if item.count '.' = 1 then
    some { Component := item.takeWhile (fun c => c != '.'),
           Action := (item.dropWhile (fun c => c != '.')).drop 1 }
  else none

/-- The anchors of a splice are missing from the lines: no line passes the
primary marker test `p`, or no line from the first such line on passes the
anchor test `q`. -/
def AnchorMissing (p q : Str → Bool) (lines : List Str) : Prop :=
  (∀ l ∈ lines, p l = false) ∨
  ∃ pre x post, lines = pre ++ x :: post ∧ (∀ l ∈ pre, p l = false) ∧ p x = true ∧
    ∀ l ∈ x :: post, q l = false

/-! ## `permission_constants.go`: the permission constants of a module -/

/-- Go `strings.TrimPrefix(s, prefix)`. -/
def strings.TrimPrefix (s pre : Str) : Str :=
  if strings.HasPrefix s pre then s.drop pre.length else s

/-- The table `permissions` of Go `generatePermissionConstantsForModule` for
one entity: the suffix of the constant, the action of the key and the
description. -/
def permissionKinds (entity : Str) : List (Str × Str × Str) :=
  [ ("View".data, "view".data, "allows viewing ".data ++ entity),
    ("Create".data, "create".data, "allows creating ".data ++ entity),
    ("Update".data, "update".data, "allows updating ".data ++ entity),
    ("Delete".data, "delete".data, "allows deleting ".data ++ entity),
    ("List".data, "list".data, "allows listing ".data ++ entity),
    ("Manage".data, "manage".data, "allows managing ".data ++ entity) ]

/-- Text written by the inner loop of Go `generatePermissionConstantsForModule`
for one entity. -/
def entityPermissions (entity : Str) : Str :=
  (permissionKinds entity).foldl
    (fun result perm =>
      let constName := "Perm".data ++ toPascalCase entity ++ perm.1
      let permissionKey := entity ++ ":".data ++ perm.2.1
      result ++ ("\t// ".data ++ constName ++ " ".data ++ perm.2.2 ++ "\n".data) ++
      ("\t".data ++ constName ++ " = \"".data ++ permissionKey ++ "\"\n\n".data)) []

/-- Go `generatePermissionConstantsForModule(module, tables)`; `none` is the
run-time panic of `tables[0]` on an empty list. The argument `module` is not
read. -/
def generatePermissionConstantsForModule (_module : Str) (tables : List Str) : Option Str :=
  match tables with
  | [] => none
  | first :: _ =>
    some (tables.foldl (fun result entity => result ++ entityPermissions entity)
        ("// ".data ++ toPascalCase first ++ " permissions\n".data ++ "const (\n".data)
      ++ ")\n\n".data)

/-- First loop of Go `insertPermissionConstants` from line `i` on, with the
section name `currentModule` read so far: the index of the line at which the
section name is "System". -/
def findSystemSection : List Str → Str → Nat → Option Nat
  | [], _, _ => none
  | line :: rest, currentModule, i =>
    let currentModule :=
      if strings.HasPrefix line "// ".data && strings.Contains line "permissions".data then
        strings.TrimSpace
          (strings.TrimSuffix (strings.TrimPrefix line "// ".data) " permissions".data)
      else currentModule
    if currentModule = "System".data then some i
    else findSystemSection rest currentModule (i + 1)

/-- The variable `insertPosition` of Go `insertPermissionConstants` after its
two searches. -/
def permissionInsertPosition (lines : List Str) : Nat :=
  match findSystemSection lines "".data 0 with
  | some i => i
  | none =>
    match findLine (fun l => strings.TrimSpace l == ")".data) lines.reverse with
    | some r => lines.length - 1 - r + 1
    | none => lines.length

/-- Go `insertPermissionConstants(content, module, newPermissions)`. -/
def insertPermissionConstants (content _module newPermissions : Str) : Str :=
  let lines := strings.Split content "\n".data
  let insertPosition := permissionInsertPosition lines
  strings.Join
    (lines.take insertPosition ++ strings.Split newPermissions "\n".data ++
      lines.drop insertPosition) "\n".data

/-- The section name that a line of the permission file sets, if it is a
section comment: the text between "// " and " permissions", trimmed. -/
def sectionName (line : Str) : Option Str :=
  if strings.HasPrefix line "// ".data && strings.Contains line "permissions".data then
    some (strings.TrimSpace
      (strings.TrimSuffix (strings.TrimPrefix line "// ".data) " permissions".data))
  else none

/-- A permission file without a System section, whose const block is followed
by a function. -/
def permissionsWithFunction : Str :=
  ("package constant\n" ++
   "\n" ++
   "// Role permissions\n" ++
   "const (\n" ++
   "\tPermRoleView = \"role:view\"\n" ++
   ")\n" ++
   "\n" ++
   "func All() []string \x7b\n" ++
   "\treturn nil\n" ++
   "\x7d\n").data

/-! ## `cache_keys.go`: the cache key constants of an entity -/

/-- Go `strings.ReplaceAll(s, old, new)` for a non-empty `old`: the pieces
between the successive non-overlapping occurrences of `old`, joined by `new`. -/
def strings.ReplaceAll (s old new : Str) : Str :=
  strings.Join (strings.Split s old) new

/-- Go `cacheKeysExist(content, schema, entity)`. -/
def cacheKeysExist (content _schema entity : Str) : Bool :=
  let displayName := toPascalCase entity
  let searchPattern := displayName ++ "FindByID".data
  strings.Contains content searchPattern

/-- Go `generateRedisKey(schema, entity, action)`. -/
def generateRedisKey (_schema entity action : Str) : Str :=
  let action := strings.ReplaceAll action "by".data "-by-".data
  entity ++ ":".data ++ action ++ ":%v".data

/-- Text written by one iteration of the loop of Go
`generateCacheKeyConstants`, for the key with the given suffix and
description. -/
def cacheKeyConstant (schema entity : Str) (result : Str) (key : Str × Str) : Str :=
  let constName := toPascalCase entity ++ key.1
  let redisKey := generateRedisKey schema entity (strings.ToLower key.1)
  result ++
    ("\t// ".data ++ constName ++ " is a redis key for ".data ++ key.2 ++ ".\n".data) ++
    ("\t".data ++ constName ++ " = prefix + \":".data ++ schema ++ ":".data ++ redisKey ++
      "\"\n".data)

/-- Go `generateCacheKeyConstants(schema, entity)`. -/
def generateCacheKeyConstants (schema entity : Str) : Str :=
  [ ("FindByID".data, "find ".data ++ entity ++ " by id".data),
    ("FindByName".data, "find ".data ++ entity ++ " by name".data) ].foldl
    (cacheKeyConstant schema entity) []

/-- Go `insertCacheKeys(content, newCacheKeys)`: the slices `content[:lastParen]`
and `content[lastParen:]` cut the content in front of the last ")". -/
def insertCacheKeys (content newCacheKeys : Str) : Str :=
  match lastOccurrence content ")".data with
  | none => content
  | some lastParen =>
    let before := content.take lastParen
    let after := content.drop lastParen
    before ++ newCacheKeys ++ after

/-- Go `generateCacheKeysForEntity(schema, entity)` on the cache file
`common/cache/redis.go`, given as its content if the file exists: `failed` is
the error "cache file not found", `skipped` the return before any write when
the keys exist, and `written c` the write of the content `c`. -/
def generateCacheKeysForEntity (cacheFile : Option Str) (schema entity : Str) : GraftOutcome :=
  match cacheFile with
  | none => GraftOutcome.failed
  | some contentStr =>
    if cacheKeysExist contentStr schema entity then GraftOutcome.skipped
    else
      let newCacheKeys := generateCacheKeyConstants schema entity
      GraftOutcome.written (insertCacheKeys contentStr newCacheKeys)

/-! ## `module.go`, `handler.go`, `service.go`, `repository.go`: module components -/

/-- Go `toCamelCase(s)`: snake_case to camelCase. -/
def toCamelCase (s : Str) : Str :=
  strings.Join
    ((strings.Split s "_".data).enum.map (fun ip =>
      if ip.2.length > 0 then
        if ip.1 = 0 then strings.ToLower ip.2
        else strings.ToUpper (ip.2.take 1) ++ ip.2.drop 1
      else ip.2)) "".data

/-- Go `TemplateData`. -/
structure TemplateData where
  Schema : Str
  Version : Str
  EntityCamelCase : Str
  EntityLower : Str
  EntityUpper : Str
  deriving DecidableEq

/-- Go `createTemplateData(schema, entity, version)`. -/
def createTemplateData (schema entity version : Str) : TemplateData :=
  let singular := singularize entity
  { Schema := schema, Version := version, EntityCamelCase := toCamelCase singular,
    EntityLower := strings.ToLower singular, EntityUpper := toPascalCase singular }

/-- Go `getActions(action)`. -/
def getActions (action : Str) : List Str :=
  if action = "".data then ["creator".data, "finder".data, "updater".data, "deleter".data]
  else [action]

/-- What the generator depends on besides its arguments: its configuration
and templates, and the file system. A path is given by the arguments of
`filepath.Join`, or by the one path string; an error is given by its message. -/
structure Generator where
  /-- The field `g.config.TemplatePaths.<Component><Action>`. -/
  templatePath : Str → Str → Str
  /-- Go `generateFromTemplate(templateName, data, templatePath)`. -/
  generateFromTemplate : Str → TemplateData → Str → Except Str Str
  /-- The error of `os.MkdirAll` on a path, if it fails. -/
  mkdirAll : List Str → Option Str
  /-- The error of `os.WriteFile` of a content to a path, if it fails. -/
  writeFile : List Str → Str → Option Str
  /-- Go `generateBuilderCode(buildBuilderConfig(module, version, tables))`. -/
  generateBuilderCode : Str → Str → List Str → Except Str Str
  /-- Go `generateRoutesCode(buildRoutesConfig(module, version, tables))`. -/
  generateRoutesCode : Str → Str → List Str → Except Str Str

/-- The files of the module components, as far as the generation changes
them: the directories created and the files written, in order, and the content
of the cache file `common/cache/redis.go` if it exists. -/
structure World where
  dirs : List (List Str)
  files : List (List Str × Str)
  cacheFile : Option Str
  deriving DecidableEq

/-- The loop `for _, act := range actions` of Go `generateHandlers`,
`generateServices` and `generateRepositories`, which differ in the word
`component` only; the result is the files afterwards and the error returned from
inside the loop, if any. -/
def generateActionFiles (g : Generator) (component : Str) (data : TemplateData)
    (dir : List Str) (entity : Str) : List Str → World → World × Option Str
  | [], w => (w, none)
  | act :: rest, w =>
    if act = "creator".data ∨ act = "finder".data ∨ act = "updater".data ∨
        act = "deleter".data then
      let templatePath := g.templatePath component act
      match g.generateFromTemplate (component ++ "_".data ++ act) data templatePath with
      | Except.error err =>
        (w, some (component ++ " ".data ++ act ++ " template error: ".data ++ err))
      | Except.ok code =>
        let filename :=
          dir ++ [strings.ToLower entity ++ "_".data ++ act ++ ".".data ++ component ++ ".go".data]
        match g.writeFile filename code with
        | some err => (w, some ("write ".data ++ component ++ " ".data ++ act ++ " error: ".data ++ err))
        | none =>
          generateActionFiles g component data dir entity rest
            { w with files := w.files ++ [(filename, code)] }
    else (w, some ("unknown ".data ++ component ++ " action: ".data ++ act))

/-- Go `generateHandlers(schema, entity, version, action, outputDir)`. -/
def generateHandlers (g : Generator) (schema entity version action outputDir : Str)
    (w : World) : World × Option Str :=
  let actions := getActions action
  let data := createTemplateData schema entity version
  let dir := [outputDir, schema, version, "handler".data]
  match g.mkdirAll dir with
  | some err => (w, some err)
  | none =>
    generateActionFiles g "handler".data data dir entity actions
      { w with dirs := w.dirs ++ [dir] }

/-- Go `generateServices(schema, entity, version, action, outputDir)`. -/
def generateServices (g : Generator) (schema entity version action outputDir : Str)
    (w : World) : World × Option Str :=
  let actions := getActions action
  let data := createTemplateData schema entity version
  let dir := [outputDir, schema, version, "service".data]
  match g.mkdirAll dir with
  | some err => (w, some err)
  | none =>
    generateActionFiles g "service".data data dir entity actions
      { w with dirs := w.dirs ++ [dir] }

/-- Go `generateRepositories(schema, entity, version, action, outputDir)`; an
error of the cache key generation is printed and not returned. -/
def generateRepositories (g : Generator) (schema entity version action outputDir : Str)
    (w : World) : World × Option Str :=
  let actions := getActions action
  let data := createTemplateData schema entity version
  let dir := [outputDir, schema, version, "repository".data]
  match g.mkdirAll dir with
  | some err => (w, some err)
  | none =>
    match generateActionFiles g "repository".data data dir entity actions
        { w with dirs := w.dirs ++ [dir] } with
    | (w, some err) => (w, some err)
    | (w, none) =>
      if contains actions "finder".data then
        match generateCacheKeysForEntity w.cacheFile schema entity with
        | GraftOutcome.written c =>
          match g.writeFile ["common/cache/redis.go".data] c with
          | some _ => (w, none)
          | none => ({ w with cacheFile := some c }, none)
        | _ => (w, none)
      else (w, none)

/-- The `switch part.Component` of the loop of Go `GenerateModule`: the files
after the part and the error that the loop returns for it, if any. -/
def generatePart (g : Generator) (schema entity version outputDir : Str) (part : ModulePart)
    (w : World) : World × Option Str :=
  if part.Component = "handler".data then
    match generateHandlers g schema entity version part.Action outputDir w with
    | (w, some err) => (w, some ("handler generation failed: ".data ++ err))
    | (w, none) => (w, none)
  else if part.Component = "service".data then
    match generateServices g schema entity version part.Action outputDir w with
    | (w, some err) => (w, some ("service generation failed: ".data ++ err))
    | (w, none) => (w, none)
  else if part.Component = "repository".data then
    match generateRepositories g schema entity version part.Action outputDir w with
    | (w, some err) => (w, some ("repository generation failed: ".data ++ err))
    | (w, none) => (w, none)
  else (w, some ("unknown module component: ".data ++ part.Component))

/-- Go `GenerateModule(schema, entity, version, parts, outputDir)`: the parts
are generated in order up to the first error, which is returned. -/
def GenerateModule (g : Generator) (schema entity version outputDir : Str) :
    List ModulePart → World → World × Option Str
  | [], w => (w, none)
  | part :: rest, w =>
    match generatePart g schema entity version outputDir part w with
    | (w, some err) => (w, some err)
    | (w, none) => GenerateModule g schema entity version outputDir rest w

/-- A generator whose templates render to their own name and whose file system
does not fail. -/
def plainGenerator : Generator where
  templatePath := fun _ _ => []
  generateFromTemplate := fun templateName _ _ => Except.ok templateName
  mkdirAll := fun _ => none
  writeFile := fun _ _ => none
  generateBuilderCode := fun module _ _ => Except.ok ("package ".data ++ module)
  generateRoutesCode := fun _ _ _ => Except.ok "package app".data

/-- A generator like `plainGenerator` on a file system in which no directory
can be created: `os.MkdirAll` fails with "permission denied". -/
def readOnlyGenerator : Generator where
  templatePath := fun _ _ => []
  generateFromTemplate := fun templateName _ _ => Except.ok templateName
  mkdirAll := fun _ => some "permission denied".data
  writeFile := fun _ _ => none
  generateBuilderCode := fun module _ _ => Except.ok ("package ".data ++ module)
  generateRoutesCode := fun _ _ _ => Except.ok "package app".data

/-- A world in which nothing has been generated and no cache file exists. -/
def emptyWorld : World := { dirs := [], files := [], cacheFile := none }

/-! ## `builder.go`: the builder command -/

/-- The three files that the builder command reads and writes for a module,
each given by its content if it exists: `modules/<module>/builder.go`,
`app/<module>_routes.go` and `common/constant/permission.go`. -/
structure BuilderFiles where
  builder : Option Str
  routes : Option Str
  permission : Option Str
  deriving DecidableEq

/-- Go `generateCompleteBuilder(module, version, tables)`. -/
def generateCompleteBuilder (g : Generator) (module version : Str) (tables : List Str)
    (fs : BuilderFiles) : BuilderFiles × Option Str :=
  match g.generateBuilderCode module version tables with
  | Except.error err => (fs, some ("builder template error: ".data ++ err))
  | Except.ok builderCode =>
    match g.mkdirAll ["modules".data, module] with
    | some err => (fs, some ("mkdir error: ".data ++ err))
    | none =>
      match g.writeFile ["modules".data, module, "builder.go".data] builderCode with
      | some err => (fs, some ("write builder error: ".data ++ err))
      | none => ({ fs with builder := some builderCode }, none)

/-- Go `generateCompleteRoutes(module, version, tables)`. -/
def generateCompleteRoutes (g : Generator) (module version : Str) (tables : List Str)
    (fs : BuilderFiles) : BuilderFiles × Option Str :=
  match g.generateRoutesCode module version tables with
  | Except.error err => (fs, some ("routes template error: ".data ++ err))
  | Except.ok routesCode =>
    match g.mkdirAll ["app".data] with
    | some err => (fs, some ("mkdir error: ".data ++ err))
    | none =>
      match g.writeFile ["app".data, module ++ "_routes.go".data] routesCode with
      | some err => (fs, some ("write routes error: ".data ++ err))
      | none => ({ fs with routes := some routesCode }, none)

/-- Go `generateNewModule(module, version, tables)`. -/
def generateNewModule (g : Generator) (module version : Str) (tables : List Str)
    (fs : BuilderFiles) : BuilderFiles × Option Str :=
  match generateCompleteBuilder g module version tables fs with
  | (fs, some err) => (fs, some err)
  | (fs, none) => generateCompleteRoutes g module version tables fs

/-- Go `generatePermissionConstants(module, tables)`; the run-time panic of an
empty list of tables is given as an error. -/
def generatePermissionConstants (g : Generator) (module : Str) (tables : List Str)
    (fs : BuilderFiles) : BuilderFiles × Option Str :=
  match fs.permission with
  | none => (fs, some "permission file not found: common/constant/permission.go".data)
  | some contentStr =>
    match generatePermissionConstantsForModule module tables with
    | none => (fs, some "runtime error: index out of range [0] with length 0".data)
    | some newPermissions =>
      let updatedContent := insertPermissionConstants contentStr module newPermissions
      match g.writeFile ["common/constant/permission.go".data] updatedContent with
      | some err => (fs, some ("write permission file error: ".data ++ err))
      | none => ({ fs with permission := some updatedContent }, none)

/-- Go `updateBuilderIncremental(module, version, newTables)` with its file
accesses: the analysis fails when the builder file does not exist, and the
graft of `updateBuilderIncremental` on the content is written to the file. -/
def updateBuilderArtifact (g : Generator) (module version : Str) (newTables : List Str)
    (fs : BuilderFiles) : BuilderFiles × Option Str :=
  match fs.builder with
  | none =>
    (fs, some ("analyze builder error: ".data ++ "builder file not found: ".data ++
      "modules/".data ++ module ++ "/builder.go".data))
  | some content =>
    match updateBuilderIncremental content module version newTables with
    | GraftOutcome.skipped => (fs, none)
    | GraftOutcome.failed =>
      (fs, some ("update builder file error: ".data ++
        "could not find entity wiring insertion point".data))
    | GraftOutcome.written finalContent =>
      match g.writeFile ["modules/".data ++ module ++ "/builder.go".data] finalContent with
      | some err => (fs, some ("update builder file error: ".data ++ err))
      | none => ({ fs with builder := some finalContent }, none)

/-- Go `updateRoutesIncremental(module, version, newTables)` with its file
accesses: the analysis fails when the routes file does not exist, the graft of
`updateRoutesIncremental` on the content is written to the file, and the
permission constants are generated afterwards, their error being printed and
not returned. `order` is the order in which the method blocks are visited. -/
def updateRoutesArtifact (g : Generator) (module : Str) (newTables order : List Str)
    (fs : BuilderFiles) : BuilderFiles × Option Str :=
  match fs.routes with
  | none =>
    (fs, some ("analyze routes error: ".data ++ "routes file not found: ".data ++
      "app/".data ++ module ++ "_routes.go".data))
  | some content =>
    match updateRoutesIncremental content module newTables order with
    | GraftOutcome.written updatedContent =>
      match g.writeFile ["app/".data ++ module ++ "_routes.go".data] updatedContent with
      | some err => (fs, some ("write routes error: ".data ++ err))
      | none =>
        ((generatePermissionConstants g module
            (filterNewTables newTables (extractExistingRoutesTables content))
            { fs with routes := some updatedContent }).1, none)
    | _ => (fs, none)

/-- Go `generateIncremental(module, version, tables)`. -/
def generateIncremental (g : Generator) (module version : Str) (tables order : List Str)
    (fs : BuilderFiles) : BuilderFiles × Option Str :=
  match updateBuilderArtifact g module version tables fs with
  | (fs, some err) => (fs, some ("update builder error: ".data ++ err))
  | (fs, none) =>
    match updateRoutesArtifact g module tables order fs with
    | (fs, some err) => (fs, some ("update routes error: ".data ++ err))
    | (fs, none) => (fs, none)

/-- Go `GenerateBuilder(module, version, tables, newModule)`: the files
afterwards and the error returned, if any. -/
def GenerateBuilder (g : Generator) (module version : Str) (tables : List Str)
    (newModule : Bool) (order : List Str) (fs : BuilderFiles) : BuilderFiles × Option Str :=
  if newModule then generateNewModule g module version tables fs
  else generateIncremental g module version tables order fs

/-- No file of the module exists. -/
def noBuilderFiles : BuilderFiles := { builder := none, routes := none, permission := none }

/-- No text made of lower-case letters and continued by `R` starts with `s`:
`s` is not a prefix of `R`, and if `s` starts with a lower-case letter the same
holds of the rest of `s`. -/
def overlapFree : Str → Str → Bool
  | [], _ => false
  | d :: s, R => !(d :: s).isPrefixOf R && (!d.isLower || overlapFree s R)

/-- A line that contains one of the two handler markers, "handler :=" or
"app.New", as the specification words the test of
`findEntityWiringInsertionLine`. -/
def handlerMarkerLine (l : Str) : Bool :=
  strings.Contains l "handler :=".data || strings.Contains l "app.New".data

/-- A line that is blank (only white space) or contains "//", as the
specification words the lines that the backward scan of
`findEntityWiringInsertionLine` passes over. -/
def blankOrCommentLine (l : Str) : Bool :=
  strings.TrimSpace l == [] || strings.Contains l "//".data

/-- A routes file with a Finder block followed by a Creator block. -/
def routesWithTwoBlocks : Str :=
  ("func (h *AuthHTTPHandler) FinderHTTPHandler() \x7b\n" ++
   "\tv1 := h.engine.Group(\"/v1\")\n" ++
   "\t\x7b\n" ++
   "\t\x7d\n" ++
   "\x7d\n" ++
   "\n" ++
   "func (h *AuthHTTPHandler) CreatorHTTPHandler() \x7b\n" ++
   "\tv1 := h.engine.Group(\"/v1\")\n" ++
   "\t\x7b\n" ++
   "\t\x7d\n" ++
   "\x7d\n").data

/-- The four roles in the order in which the handler constructor takes the
services of one entity. -/
def constructorRoles : List Str :=
  ["Creator".data, "Finder".data, "Updater".data, "Deleter".data]

/-! ## `sql_parser.go`: names derived from the table name -/

/-- The map `irregulars` of Go `naiveSingular`. -/
def naiveIrregulars : List (Str × Str) :=
  [ ("people".data, "person".data), ("men".data, "man".data), ("women".data, "woman".data),
    ("children".data, "child".data), ("teeth".data, "tooth".data), ("feet".data, "foot".data),
    ("geese".data, "goose".data), ("mice".data, "mouse".data), ("data".data, "datum".data),
    ("indices".data, "index".data), ("matrices".data, "matrix".data),
    ("vertices".data, "vertex".data), ("statuses".data, "status".data),
    ("courses".data, "course".data), ("buses".data, "bus".data) ]

/-- Go `naiveSingular(word)` of the SQL parser. -/
def naiveSingular (word : Str) : Str :=
  let word := strings.ToLower word
  match naiveIrregulars.lookup word with
  | some val => val
  | none =>
    if strings.HasSuffix word "ies".data then word.take (word.length - 3) ++ "y".data
    else if strings.HasSuffix word "ves".data then
      let base := word.take (word.length - 3)
      if strings.HasSuffix base "f".data then base else base ++ "fe".data
    else if strings.HasSuffix word "xes".data || strings.HasSuffix word "ches".data ||
        strings.HasSuffix word "shes".data then word.take (word.length - 2)
    else if strings.HasSuffix word "zes".data then word.take (word.length - 3)
    else if strings.HasSuffix word "oes".data then word.take (word.length - 2)
    else if strings.HasSuffix word "s".data && !strings.HasSuffix word "ss".data then
      word.take (word.length - 1)
    else word

/-- Scanning loop of Go `strings.FieldsFunc`: `acc` is the current field in
reverse; a character that satisfies `f` ends the field, and empty fields are
not reported. -/
def fieldsFuncGo (f : Char → Bool) : Str → Str → List Str
  | [], acc => if acc.isEmpty then [] else [acc.reverse]
  | c :: cs, acc =>
    if f c then
      if acc.isEmpty then fieldsFuncGo f cs [] else acc.reverse :: fieldsFuncGo f cs []
    else fieldsFuncGo f cs (c :: acc)

/-- Go `strings.FieldsFunc(s, f)`. -/
def strings.FieldsFunc (s : Str) (f : Char → Bool) : List Str := fieldsFuncGo f s []

/-- One iteration of the loop of Go `toCamel`: an empty part is left as it is,
any other part gets its first character upper-cased and the rest lower-cased
(`strings.ToUpper(parts[i][:1]) + strings.ToLower(parts[i][1:])`). -/
def camelPart (p : Str) : Str :=
  if p = "".data then p else strings.ToUpper (p.take 1) ++ strings.ToLower (p.drop 1)

/-- Go `toCamel(s)` of the SQL parser. -/
def toCamel (s : Str) : Str :=
  strings.Join
    ((strings.FieldsFunc s (fun r => r == '_' || r == '-' || r == ' ')).map camelPart)
    "".data

/-! ## `helpers.go`: the Go type of a column and its accessor -/

/-- Go `types.Column`. -/
structure Column where
  Name : Str
  /-- The field `Type` of the Go struct (a reserved word here). -/
  SqlType : Str
  Nullable : Bool
  PrimaryKey : Bool
  deriving DecidableEq

/-- Go `goType(col)`: the type of the entity field of the column. -/
def goType (col : Column) : Str :=
  let sqlType := strings.ToUpper col.SqlType
  let nullable := col.Nullable
  if strings.HasPrefix sqlType "UUID".data then "uuid.UUID".data
  else if strings.HasPrefix sqlType "VARCHAR".data || strings.HasPrefix sqlType "TEXT".data then
    if nullable then "sql.NullString".data else "string".data
  else if strings.HasPrefix sqlType "DATE".data ||
      strings.HasPrefix sqlType "TIMESTAMPTZ".data then
    if nullable then "sql.NullTime".data else "time.Time".data
  else if strings.HasPrefix sqlType "INT".data then
    if nullable then "sql.NullInt64".data else "int64".data
  else if strings.HasPrefix sqlType "SERIAL".data then
    if nullable then "sql.NullInt64".data else "int64".data
  else "string".data

/-- Go `mapFromEntity(col)`: the expression that reads the column from the
entity `e` in the resource mapping. -/
def mapFromEntity (col : Column) : Str :=
  let pascal := toPascalCase col.Name
  let sqlType := strings.ToUpper col.SqlType
  let lowerName := strings.ToLower col.Name
  if strings.HasPrefix sqlType "UUID".data then
    if !col.Nullable || col.PrimaryKey then "e.".data ++ pascal ++ ".String()".data
    else "e.".data ++ pascal ++ ".String".data
  else if strings.HasPrefix sqlType "VARCHAR".data || strings.HasPrefix sqlType "TEXT".data then
    if !col.Nullable then "e.".data ++ pascal else "e.".data ++ pascal ++ ".String".data
  else if strings.HasPrefix sqlType "DATE".data ||
      strings.HasPrefix sqlType "TIMESTAMPTZ".data ||
      strings.HasPrefix sqlType "TIMESTAMP".data then
    if lowerName = "created_at".data || lowerName = "updated_at".data || !col.Nullable then
      "e.".data ++ pascal ++ ".Format(constant.DefaultTimeFormat)".data
    else "e.".data ++ pascal ++ ".Time.Format(constant.DefaultTimeFormat)".data
  else if strings.HasPrefix sqlType "INT".data || strings.HasPrefix sqlType "SERIAL".data then
    "e.".data ++ pascal ++ ".Int64".data
  else "e.".data ++ pascal ++ ".String".data

/-- A nullable UUID column that is no primary key. -/
def refColumn : Column :=
  { Name := "ref".data, SqlType := "uuid".data, Nullable := true, PrimaryKey := false }

/-- A BOOLEAN column, a type outside the cases of `goType`. -/
def activeColumn : Column :=
  { Name := "active".data, SqlType := "BOOLEAN".data, Nullable := false, PrimaryKey := false }

/-- A nullable TIMESTAMP column. -/
def seenColumn : Column :=
  { Name := "seen".data, SqlType := "TIMESTAMP".data, Nullable := true, PrimaryKey := false }

/-- An integer column that is not nullable. -/
def ageColumn : Column :=
  { Name := "age".data, SqlType := "int".data, Nullable := false, PrimaryKey := false }

/-! ## `sql_parser.go`: the columns of a CREATE TABLE statement

Go slices the text at byte offsets; here the text is a list of characters and
the slices are taken at character positions, which is the same on ASCII
text. -/

/-- Go `types.Table`. -/
structure Table where
  Schema : Str
  Name : Str
  NameUpper : Str
  NameLower : Str
  Columns : List Column
  IsView : Bool
  deriving DecidableEq

/-- Go `trimQuotes(s)`: the text without surrounding white space and without a
pair of double quotes or of backquotes around it. -/
def trimQuotes (s : Str) : Str :=
  let s := strings.TrimSpace s
  if s.length ≥ 2 &&
      ((s.head? == some '"' && s.getLast? == some '"') ||
       (s.head? == some (Char.ofNat 96) && s.getLast? == some (Char.ofNat 96))) then
    (s.drop 1).take (s.length - 2)
  else s

/-- Loop of Go `splitColumns`: `level` is the depth of parentheses, `sb` the
current item in reverse, `out` the items found so far in reverse. -/
def splitColumnsGo : Str → Int → Str → List Str → List Str
  | [], _, sb, out =>
    let s := strings.TrimSpace sb.reverse
    if s ≠ [] then (s :: out).reverse else out.reverse
  | c :: cs, level, sb, out =>
    if c = '(' then splitColumnsGo cs (level + 1) (c :: sb) out
    else if c = ')' then splitColumnsGo cs (level - 1) (c :: sb) out
    else if c = ',' ∧ level = 0 then splitColumnsGo cs level [] (sb.reverse :: out)
    else splitColumnsGo cs level (c :: sb) out

/-- Go `splitColumns(body)`: the items of the body separated by the commas
outside parentheses; the last item is trimmed and left out when blank. -/
def splitColumns (body : Str) : List Str := splitColumnsGo body 0 [] []

/-- Go `splitNameAndRest(line)`: the name of the column, quoted or up to the
first white space, and the trimmed rest; `none` stands for its errors. -/
def splitNameAndRest (line : Str) : Option (Str × Str) :=
  let line := strings.TrimSpace line
  match line with
  | [] => none
  | q :: tail =>
    if q = '"' ∨ q = Char.ofNat 96 then
      if tail.contains q then
        let name := tail.takeWhile (fun c => c != q)
        let rest := strings.TrimSpace ((tail.dropWhile (fun c => c != q)).drop 1)
        some (name, rest)
      else none
    else
      let name := line.takeWhile (fun c => !strings.IsSpace c)
      if name.length = 0 then none
      else some (name, strings.TrimSpace (line.dropWhile (fun c => !strings.IsSpace c)))

/-- Go `indexOfAny(s, words)`: the smallest position of a first occurrence of
one of the words in the lower-cased text, `none` for -1. -/
def indexOfAny (s : Str) (words : List Str) : Option Nat :=
  let ls := strings.ToLower s
  words.foldl
    (fun low w =>
      match firstOccurrence ls w with
      | some idx =>
        match low with
        | none => some idx
        | some l => if idx < l then some idx else some l
      | none => low) none

/-- Body of the column loop of Go `ParseSQL` for one item of the body: `none`
when the item is skipped (`continue`), the column otherwise. -/
def parseColumnLine (raw : Str) : Option Column :=
  let line := strings.TrimSpace raw
  if line = "".data then none
  else
    let upper := strings.ToUpper line
    if strings.HasPrefix upper "PRIMARY KEY".data ||
        strings.HasPrefix upper "CONSTRAINT".data ||
        strings.HasPrefix upper "UNIQUE".data ||
        strings.HasPrefix upper "FOREIGN KEY".data ||
        strings.HasPrefix upper "CHECK".data then none
    else
      match splitNameAndRest line with
      | none => none
      | some (colName, rest) =>
        let stopTokens := ["not null".data, "null".data, "default".data, "primary".data,
          "unique".data, "references".data, "check".data, "constraint".data]
        let typePart :=
          match indexOfAny (strings.ToLower rest) stopTokens with
          | some idx => strings.TrimSpace (rest.take idx)
          | none => strings.TrimSpace rest
        let nullability := !strings.Contains (strings.ToUpper rest) "NOT NULL".data
        let isPrimary := strings.Contains (strings.ToUpper rest) "PRIMARY KEY".data
        some { Name := colName, SqlType := strings.ToUpper typePart,
               Nullable := nullability, PrimaryKey := isPrimary }

/-- Scan of Go `ParseSQL` for the parenthesis that closes the one at the head
of the text: its position, counted from `i` at the head. -/
def findClosing : Str → Int → Nat → Option Nat
  | [], _, _ => none
  | c :: cs, level, i =>
    if c = '(' then findClosing cs (level + 1) (i + 1)
    else if c = ')' then
      if level - 1 = 0 then some i else findClosing cs (level - 1) (i + 1)
    else findClosing cs level (i + 1)

/-- Go `strings.Fields(s)`: the pieces of `s` between white space. -/
def strings.Fields (s : Str) : List Str := strings.FieldsFunc s strings.IsSpace

/-- The errors that Go `ParseSQL` returns after the file is read. -/
inductive ParseSQLError where
  /-- The error "could not find CREATE TABLE in file". -/
  | noCreateTable
  /-- The error "could not find opening '(' after CREATE TABLE". -/
  | noOpeningParen
  /-- The error "could not find matching ')' for CREATE TABLE". -/
  | noClosingParen
  /-- The error "could not parse table name from header: %q" for the header. -/
  | noTableName (header : Str)
  deriving DecidableEq

/-- Go `ParseSQL` on the content `s` of the file: the table of the first
CREATE TABLE statement, or its error. -/
def ParseSQL (s : Str) : Except ParseSQLError Table :=
  let lower := strings.ToLower s
  match firstOccurrence lower "create table".data with
  | none => Except.error ParseSQLError.noCreateTable
  | some ctIdx =>
    match firstOccurrence (s.drop ctIdx) "(".data with
    | none => Except.error ParseSQLError.noOpeningParen
    | some openRel =>
      let openIdx := openRel + ctIdx
      match findClosing (s.drop openIdx) 0 openIdx with
      | none => Except.error ParseSQLError.noClosingParen
      | some closeIdx =>
        let header := (s.drop ctIdx).take (openIdx - ctIdx)
        let body := (s.drop (openIdx + 1)).take (closeIdx - (openIdx + 1))
        let headerLower := strings.ToLower header
        let after :=
          match firstOccurrence headerLower "create table".data with
          | some idx => header.drop (idx + "create table".data.length)
          | none => header
        let after := strings.TrimSpace after
        let after :=
          if strings.HasPrefix (strings.ToLower after) "if not exists".data then
            strings.TrimSpace (after.drop "if not exists".data.length)
          else after
        let after := strings.TrimSpace (strings.ReplaceAll after "\n".data " ".data)
        match strings.Fields after with
        | [] => Except.error (ParseSQLError.noTableName header)
        | nameToken :: _ =>
          let names : Str × Str :=
            if strings.Contains nameToken ".".data then
              match firstOccurrence nameToken ".".data with
              | some i => (trimQuotes (nameToken.take i), trimQuotes (nameToken.drop (i + 1)))
              | none => ([], trimQuotes nameToken)
            else ([], trimQuotes nameToken)
          let cols := (splitColumns body).filterMap parseColumnLine
          Except.ok
            { Schema := names.1, Name := names.2,
              NameUpper := toCamel (naiveSingular names.2),
              NameLower := strings.ToLower names.2, Columns := cols, IsView := false }

/-- The names of the columns of the parsed table, `none` when `ParseSQL`
fails. -/
def parsedColumnNames (s : Str) : Option (List Str) :=
  match ParseSQL s with
  | Except.ok t => some (t.Columns.map (fun c => c.Name))
  | Except.error _ => none

/-- A CREATE TABLE statement with a column "checksum" and a column
"unique_code". -/
def createUsersTable : Str :=
  ("CREATE TABLE IF NOT EXISTS auth.users (\n" ++
   "    id UUID PRIMARY KEY,\n" ++
   "    checksum TEXT NOT NULL,\n" ++
   "    unique_code VARCHAR(20),\n" ++
   "    name VARCHAR(255) NOT NULL,\n" ++
   "    CONSTRAINT users_name_key UNIQUE (name)\n" ++
   ");\n").data

/-- The text of the arguments that the constructor call of the wiring file
gets for the entities of `tables`, as the specification lists them: per entity
in list order a comment line with the display name and the line
`<e>CreatorSvc, <e>FinderSvc, <e>UpdaterSvc, <e>DeleterSvc,`. -/
def constructorArguments (tables : List Str) : Str :=
  tables.flatMap (fun e => "\t\t// ".data ++ toPascalCase e ++ "\n\t\t".data ++
    strings.Join (constructorRoles.map (fun R => e ++ R ++ "Svc,".data)) " ".data ++ "\n".data)

/-- The text of `s` in front of the first occurrence of `sep`, all of `s` when
`sep` does not occur in it. -/
def textBefore (s sep : Str) : Str :=
  match firstOccurrence s sep with
  | some i => s.take i
  | none => s

/-- The text of `s` behind the first occurrence of `sep`, empty when `sep` does
not occur in it. -/
def textAfter (s sep : Str) : Str :=
  match firstOccurrence s sep with
  | some i => s.drop (i + sep.length)
  | none => []

/-- The name that a repository line constructs, as the specification of the
scan words it: the text behind the first "repository.New" of the line, up to
the next "repository.New" if there is one, cut in front of the first
"FinderRepository", then of what is left in front of the first
"CreatorRepository", "UpdaterRepository", "DeleterRepository" and "(" in
turn. -/
def constructedName (line : Str) : Str :=
  [ "FinderRepository".data, "CreatorRepository".data, "UpdaterRepository".data,
    "DeleterRepository".data, "(".data ].foldl textBefore
    (textBefore (textAfter line "repository.New".data) "repository.New".data)

/-- A wiring file whose repository line holds "repository.New" twice. -/
def builderWithTwoMarkers : Str :=
  ("func Build() \x7b\n" ++
   "\tuserFinderRepo := repository.Newrepository.NewUserFinderRepository(db, cache)\n" ++
   "\x7d\n").data

/-! # Properties -/

/-! ## Lemmas on `strings.Split` and `strings.Join` -/

theorem us_data : "_".data = ['_'] := rfl
theorem empty_data : "".data = ([] : Str) := rfl

theorem isPrefixOf_single (n c : Char) (cs : Str) :
    List.isPrefixOf [n] (c :: cs) = (n == c) := by
  simp [List.isPrefixOf]

theorem splitGo_single_append (n : Char) (a b acc : Str) :
    strings.splitGo [n] (a ++ n :: b) 0 acc
      = strings.splitGo [n] a 0 acc ++ strings.splitGo [n] b 0 [] := by
  induction a generalizing acc with
  | nil => simp [strings.splitGo, isPrefixOf_single]
  | cons c a ih =>
    by_cases h : n = c
    · subst h
      simp [strings.splitGo, isPrefixOf_single, ih]
    · simp [strings.splitGo, isPrefixOf_single, h, ih]
theorem split_append (n : Char) (a b : Str) :
    strings.Split (a ++ n :: b) [n] = strings.Split a [n] ++ strings.Split b [n] :=
  splitGo_single_append n a b []
theorem split_of_not_mem (n : Char) (a : Str) (h : n ∉ a) :
    strings.Split a [n] = [a] := by
  unfold strings.Split
  suffices H : ∀ acc, strings.splitGo [n] a 0 acc = [acc.reverse ++ a] by simpa using H []
  induction a with
  | nil => intro acc; simp [strings.splitGo]
  | cons c a ih =>
    intro acc
    have hc : ¬ n = c := fun e => h (by simp [e])
    have ha : n ∉ a := fun e => h (by simp [e])
    simp [strings.splitGo, isPrefixOf_single, hc, ih ha]

theorem nl_data : "\n".data = ['\n'] := rfl

theorem splitGo_single_acc (n : Char) (a acc : Str) :
    strings.splitGo [n] a 0 acc
      = (acc.reverse ++ (strings.splitGo [n] a 0 []).headD []) :: (strings.splitGo [n] a 0 []).tail := by
  induction a generalizing acc with
  | nil => simp [strings.splitGo]
  | cons c a ih =>
    by_cases h : n = c
    · subst h
      simp [strings.splitGo, isPrefixOf_single]
    · simp only [strings.splitGo, isPrefixOf_single, h, beq_iff_eq, Bool.false_eq_true, ite_false]
      rw [ih (c :: acc), ih [c]]
      simp

theorem split_ne_nil (s sep : Str) : strings.Split s sep ≠ [] := by
  unfold strings.Split
  generalize (0 : Nat) = k
  generalize ([] : Str) = acc
  induction s generalizing k acc with
  | nil => simp [strings.splitGo]
  | cons c cs ih =>
    cases k with
    | zero =>
      simp only [strings.splitGo]
      split
      · simp
      · exact ih _ _
    | succ k => simp only [strings.splitGo]; exact ih _ _

theorem not_mem_of_mem_split (n : Char) (s : Str) :
    ∀ l ∈ strings.Split s [n], n ∉ l := by
  unfold strings.Split
  suffices H : ∀ acc, n ∉ acc → ∀ l ∈ strings.splitGo [n] s 0 acc, n ∉ l by
    exact H [] (by simp)
  induction s with
  | nil => intro acc hacc l hl; simp [strings.splitGo] at hl; subst hl; simpa using hacc
  | cons c s ih =>
    intro acc hacc l hl
    by_cases h : n = c
    · subst h
      simp [strings.splitGo, isPrefixOf_single] at hl
      rcases hl with hl | hl
      · subst hl; simpa using hacc
      · exact ih [] (by simp) l hl
    · simp [strings.splitGo, isPrefixOf_single, h] at hl
      exact ih (c :: acc) (by simp [h, hacc]) l hl

theorem join_split (n : Char) (s : Str) :
    strings.Join (strings.Split s [n]) [n] = s := by
  induction s with
  | nil => simp [strings.Split, strings.splitGo, strings.Join]
  | cons c s ih =>
    by_cases h : n = c
    · subst h
      have : strings.Split (n :: s) [n] = [] :: strings.Split s [n] := by
        simp [strings.Split, strings.splitGo, isPrefixOf_single]
      rw [this]
      cases hs : strings.Split s [n] with
      | nil => exact absurd hs (split_ne_nil _ _)
      | cons x xs =>
        rw [hs] at ih
        simp [strings.Join, ih]
    · have : strings.Split (c :: s) [n]
          = (c :: (strings.Split s [n]).headD []) :: (strings.Split s [n]).tail := by
        simp only [strings.Split, strings.splitGo, isPrefixOf_single, h, beq_iff_eq,
          Bool.false_eq_true, ite_false]
        rw [splitGo_single_acc]
        simp
      rw [this]
      cases hs : strings.Split s [n] with
      | nil => exact absurd hs (split_ne_nil _ _)
      | cons x xs =>
        rw [hs] at ih
        cases xs with
        | nil => simp [strings.Join] at ih ⊢; exact ih
        | cons y ys => simp [strings.Join] at ih ⊢; exact ih

/-! ## Lemmas on name casing and pluralization -/

theorem join_empty_append_single (L : List Str) (x : Str) :
    strings.Join (L ++ [x]) [] = strings.Join L [] ++ x := by
  induction L with
  | nil => simp [strings.Join]
  | cons a L ih =>
    cases L with
    | nil => simp [strings.Join]
    | cons b L => simp [strings.Join] at ih ⊢; exact ih

theorem pascalPart_of_not_acronym (p : Str) (hp : p ≠ [])
    (ha : strings.ToLower p ∉ acronyms) :
    pascalPart p = strings.ToUpper (p.take 1) ++ p.drop 1 := by
  have hlen : p.length > 0 := List.length_pos.2 hp
  simp only [acronyms, List.mem_cons, List.mem_singleton, not_or, List.not_mem_nil,
    or_false] at ha
  obtain ⟨h1, h2, h3, h4, h5, h6, h7, h8⟩ := ha
  simp only [pascalPart, hlen, if_true, h1, h2, h3, h4, h5, h6, h7, h8, if_false]

theorem isLower_iff (c : Char) : c.isLower = true ↔ 97 ≤ c.toNat ∧ c.toNat ≤ 122 := by
  simp only [Char.isLower, Bool.and_eq_true, decide_eq_true_eq]
  exact Iff.rfl

theorem char_toLower_of_isLower (c : Char) (h : c.isLower = true) : c.toLower = c := by
  rw [isLower_iff] at h
  have h1 : ¬ (c.toNat ≥ 65 ∧ c.toNat ≤ 90) := by omega
  simp only [Char.toLower]
  simp [h1]

theorem toLower_of_isLower (p : Str) (h : ∀ c ∈ p, c.isLower = true) :
    strings.ToLower p = p := by
  unfold strings.ToLower
  induction p with
  | nil => rfl
  | cons c p ih =>
    simp [char_toLower_of_isLower c (h c (by simp)), ih (fun c hc => h c (by simp [hc]))]

theorem toPascalCase_last_part (pre : Str) (hpre : pre = [] ∨ ∃ q, pre = q ++ ['_']) :
    ∃ F : Str, ∀ p : Str, '_' ∉ p → toPascalCase (pre ++ p) = F ++ pascalPart p := by
  rcases hpre with h | ⟨q, h⟩
  · subst h
    refine ⟨[], fun p hp => ?_⟩
    simp [toPascalCase, us_data, empty_data, split_of_not_mem _ _ hp, strings.Join]
  · subst h
    refine ⟨toPascalCase q, fun p hp => ?_⟩
    simp only [toPascalCase, us_data, empty_data, List.append_assoc, List.singleton_append]
    rw [split_append, split_of_not_mem _ _ hp, List.map_append, List.map_singleton,
      join_empty_append_single]

theorem hasSuffix_iff (s p : Str) : strings.HasSuffix s p = true ↔ p <:+ s := by
  unfold strings.HasSuffix
  rw [List.isPrefixOf_iff_prefix, List.reverse_prefix]

theorem trimSuffix_append (x p : Str) : strings.TrimSuffix (x ++ p) p = x := by
  have h : strings.HasSuffix (x ++ p) p = true := (hasSuffix_iff _ _).2 ⟨x, rfl⟩
  simp [strings.TrimSuffix, h]

theorem not_acronym_of_getLast_s (q : Str) (h : q.getLast? = some 's') : q ∉ acronyms := by
  intro hq
  simp only [acronyms, List.mem_cons, List.mem_singleton, List.not_mem_nil, or_false] at hq
  rcases hq with hq | hq | hq | hq | hq | hq | hq | hq <;> (subst hq; revert h; decide)

theorem isLower_ne_underscore (p : Str) (h : ∀ c ∈ p, c.isLower = true) : '_' ∉ p := by
  intro hm
  have := h _ hm
  revert this
  decide

theorem pascalPart_lower (q : Str) (hq : q ≠ []) (hlow : ∀ c ∈ q, c.isLower = true)
    (ha : q ∉ acronyms) : pascalPart q = strings.ToUpper (q.take 1) ++ q.drop 1 :=
  pascalPart_of_not_acronym q hq (by rw [toLower_of_isLower q hlow]; exact ha)

theorem pascalPart_lower_append (w suf : Str) (hw : w ≠ [])
    (hlow : ∀ c ∈ w, c.isLower = true) (hsuf : ∀ c ∈ suf, c.isLower = true)
    (hlast : suf.getLast? = some 's') :
    pascalPart (w ++ suf) = strings.ToUpper (w.take 1) ++ w.drop 1 ++ suf := by
  have hsn : suf ≠ [] := by intro h; rw [h] at hlast; simp at hlast
  rw [pascalPart_lower (w ++ suf) (by simp [hw])]
  · cases w with
    | nil => exact absurd rfl hw
    | cons a m => simp
  · intro c hc
    rcases List.mem_append.1 hc with h | h
    · exact hlow c h
    · exact hsuf c h
  · apply not_acronym_of_getLast_s
    rw [List.getLast?_append_of_ne_nil _ hsn]
    exact hlast

theorem toPascalCase_of_no_underscore (p : Str) (hp : '_' ∉ p) :
    toPascalCase p = pascalPart p := by
  simp [toPascalCase, us_data, empty_data, split_of_not_mem _ _ hp, strings.Join]

theorem not_acronym_of_getLast_y (q : Str) (h : q.getLast? = some 'y') : q ∉ acronyms := by
  intro hq
  simp only [acronyms, List.mem_cons, List.mem_singleton, List.not_mem_nil, or_false] at hq
  rcases hq with hq | hq | hq | hq | hq | hq | hq | hq <;> (subst hq; revert h; decide)

/-! ## Lemmas on line scanning and line splicing -/

theorem findLine_lt (p : Str → Bool) (lines : List Str) (i : Nat)
    (h : findLine p lines = some i) : i < lines.length := by
  induction lines generalizing i with
  | nil => simp [findLine] at h
  | cons l ls ih =>
    by_cases hp : p l = true
    · simp [findLine, hp] at h; subst h; simp
    · simp only [findLine, hp, Bool.false_eq_true, if_false, Option.map_eq_some'] at h
      obtain ⟨k, hk, rfl⟩ := h
      have := ih k hk
      simp; omega

theorem findLine_append (p : Str → Bool) (pre : List Str) (x : Str) (post : List Str)
    (hpre : ∀ l ∈ pre, p l = false) (hx : p x = true) :
    findLine p (pre ++ x :: post) = some pre.length := by
  induction pre with
  | nil => simp [findLine, hx]
  | cons l ls ih =>
    have hl : p l = false := hpre l (by simp)
    simp [findLine, hl, ih (fun l hl => hpre l (by simp [hl]))]

theorem findLine_none (p : Str → Bool) (lines : List Str)
    (h : ∀ l ∈ lines, p l = false) : findLine p lines = none := by
  induction lines with
  | nil => rfl
  | cons l ls ih =>
    simp [findLine, h l (by simp), ih (fun l hl => h l (by simp [hl]))]

theorem findLineFrom_lt (p : Str → Bool) (lines : List Str) (i j : Nat)
    (h : findLineFrom p lines i = some j) : j < lines.length := by
  simp only [findLineFrom, Option.map_eq_some'] at h
  obtain ⟨k, hk, rfl⟩ := h
  have := findLine_lt p _ k hk
  simp at this; omega

theorem findLineFrom_append (p : Str → Bool) (a b : List Str) :
    findLineFrom p (a ++ b) a.length = (findLine p b).map (· + a.length) := by
  simp [findLineFrom]

theorem join_cons_cons (a b : Str) (rest : List Str) (sep : Str) :
    strings.Join (a :: b :: rest) sep = a ++ sep ++ strings.Join (b :: rest) sep := rfl

theorem join_cons_of_ne_nil (a : Str) (L : List Str) (sep : Str) (hL : L ≠ []) :
    strings.Join (a :: L) sep = a ++ sep ++ strings.Join L sep := by
  cases L with
  | nil => exact absurd rfl hL
  | cons b rest => rfl

theorem split_nil (n : Char) : strings.Split [] [n] = [[]] := rfl

theorem split_join (n : Char) (L : List Str) (hL : L ≠ []) :
    strings.Split (strings.Join L [n]) [n] = L.flatMap (fun l => strings.Split l [n]) := by
  induction L with
  | nil => exact absurd rfl hL
  | cons a L ih =>
    cases L with
    | nil => simp [strings.Join]
    | cons b rest =>
      rw [join_cons_cons, List.append_assoc, List.singleton_append, split_append,
        ih (by simp)]
      simp

theorem flatMap_split_of_not_mem (n : Char) (L : List Str) (h : ∀ l ∈ L, n ∉ l) :
    L.flatMap (fun l => strings.Split l [n]) = L := by
  induction L with
  | nil => rfl
  | cons a L ih =>
    simp only [List.flatMap_cons, split_of_not_mem n a (h a (by simp)),
      ih (fun l hl => h l (by simp [hl]))]
    rfl

theorem flatMap_split_replicate (n : Char) (k : Nat) :
    (List.replicate k ([] : Str)).flatMap (fun l => strings.Split l [n])
      = List.replicate k [] :=
  flatMap_split_of_not_mem n _ (fun l hl => by
    rw [List.eq_of_mem_replicate hl]; simp)

theorem updatedLines_append (pre : List Str) (x : Str) (post : List Str) (new : Str) (k : Nat) :
    updatedLines (pre ++ x :: post) pre.length new k
      = pre ++ [new] ++ post ++ List.replicate k [] := by
  simp [updatedLines]

theorem getD_append_length (pre : List Str) (x : Str) (post : List Str) :
    (pre ++ x :: post).getD pre.length [] = x := by
  rw [List.getD_eq_getElem?_getD, List.getElem?_append_right (le_refl _)]
  simp

/-- The lines of the text joined from `updatedLines`, when the spliced element
is `new` in front of an old line and the old lines hold no newline. -/
theorem split_join_spliced (pre post : List Str) (new : Str) (k : Nat)
    (hpre : ∀ l ∈ pre, '\n' ∉ l) (hpost : ∀ l ∈ post, '\n' ∉ l) :
    strings.Split (strings.Join (pre ++ [new] ++ post ++ List.replicate k []) ['\n']) ['\n']
      = pre ++ strings.Split new ['\n'] ++ post ++ List.replicate k [] := by
  rw [split_join _ _ (by simp)]
  simp only [List.flatMap_append, flatMap_split_of_not_mem _ _ hpre,
    flatMap_split_of_not_mem _ _ hpost, flatMap_split_replicate, List.flatMap_cons,
    List.flatMap_nil, List.append_nil]

theorem exists_append_cons_of_lt (lines : List Str) (j : Nat) (hj : j < lines.length) :
    ∃ pre x post, lines = pre ++ x :: post ∧ pre.length = j :=
  ⟨lines.take j, lines[j], lines.drop (j + 1), by
    rw [List.getElem_cons_drop, List.take_append_drop], by
    rw [List.length_take]; omega⟩

/-- Splicing a fragment that is empty or ends with a newline in front of line
`j` keeps every old line, in order. -/
theorem sublist_split_join_updatedLines (content : Str) (j : Nat)
    (hj : j < (strings.Split content ['\n']).length) (frag : Str)
    (hfrag : frag = [] ∨ ∃ f, frag = f ++ ['\n']) (k : Nat) :
    (strings.Split content ['\n']).Sublist
      (strings.Split (strings.Join
        (updatedLines (strings.Split content ['\n']) j
          (frag ++ (strings.Split content ['\n']).getD j []) k) ['\n']) ['\n']) := by
  have hfree := not_mem_of_mem_split '\n' content
  obtain ⟨pre, x, post, hlines, hlen⟩ := exists_append_cons_of_lt _ j hj
  rw [hlines] at hfree ⊢
  subst hlen
  have hpre : ∀ l ∈ pre, '\n' ∉ l := fun l hl => hfree l (by simp [hl])
  have hx : '\n' ∉ x := hfree x (by simp)
  have hpost : ∀ l ∈ post, '\n' ∉ l := fun l hl => hfree l (by simp [hl])
  rw [updatedLines_append, getD_append_length, split_join_spliced _ _ _ _ hpre hpost]
  have hs : [x].Sublist (strings.Split (frag ++ x) ['\n']) := by
    rcases hfrag with h | ⟨f, h⟩
    · subst h
      rw [List.nil_append, split_of_not_mem _ _ hx]
    · subst h
      rw [List.append_assoc, List.singleton_append, split_append, split_of_not_mem _ _ hx]
      exact List.sublist_append_right _ _
  have : pre ++ x :: post = pre ++ [x] ++ post ++ [] := by simp
  rw [this]
  exact ((List.Sublist.refl pre).append hs).append (List.Sublist.refl post) |>.append
    (List.nil_sublist _)

theorem foldl_append_eq (g : Str → Str) (tables : List Str) (acc : Str) :
    tables.foldl (fun result entity => result ++ g entity) acc = acc ++ tables.flatMap g := by
  induction tables generalizing acc with
  | nil => simp
  | cons t ts ih => simp [ih]

theorem foldl_append_ends_nl (g : Str → Str) (hg : ∀ e, ∃ f, g e = f ++ ['\n'])
    (tables : List Str) :
    tables.foldl (fun result entity => result ++ g entity) [] = [] ∨
    ∃ f, tables.foldl (fun result entity => result ++ g entity) [] = f ++ ['\n'] := by
  rw [foldl_append_eq, List.nil_append]
  rcases List.eq_nil_or_concat tables with h | ⟨ts, t, h⟩
  · left; subst h; rfl
  · right
    subst h
    obtain ⟨f, hf⟩ := hg t
    refine ⟨ts.flatMap g ++ f, ?_⟩
    simp [hf]

/-! ## The generated fragments end with a newline -/

theorem ends_nl_append (a b : Str) (h : ∃ f, b = f ++ ['\n']) :
    ∃ f, a ++ b = f ++ ['\n'] := by
  obtain ⟨f, hf⟩ := h
  exact ⟨a ++ f, by rw [hf, List.append_assoc]⟩

theorem handlerFields_ends_nl (module entity : Str) :
    ∃ f, handlerFields module entity = f ++ ['\n'] :=
  ends_nl_append _ _ ⟨"DeleterUseCase".data, rfl⟩

theorem handlerConstructorParams_ends_nl (module entity : Str) :
    ∃ f, handlerConstructorParams module entity = f ++ ['\n'] :=
  ends_nl_append _ _ ⟨"DeleterUseCase,".data, rfl⟩

theorem handlerFieldAssignments_ends_nl (entity : Str) :
    ∃ f, handlerFieldAssignments entity = f ++ ['\n'] :=
  ends_nl_append _ _ ⟨"Deleter,".data, rfl⟩

theorem handlerDeclaration_ends_nl (module method entity : Str) (hm : method ∈ routeMethods) :
    ∃ f, handlerDeclaration module method entity = f ++ ['\n'] := by
  simp only [routeMethods, List.mem_cons, List.mem_singleton, List.not_mem_nil, or_false] at hm
  unfold handlerDeclaration
  apply ends_nl_append
  rcases hm with h | h | h | h <;> subst h
  · exact ends_nl_append _ _ ⟨"Finder)".data, rfl⟩
  · exact ends_nl_append _ _ ⟨"Creator, h.cloudStorage)".data, rfl⟩
  · exact ends_nl_append _ _ ⟨"Updater, h.cloudStorage)".data, rfl⟩
  · exact ends_nl_append _ _ ⟨"Deleter)".data, rfl⟩

/-! ## Lemmas: each routes transform keeps the lines of its input -/

/-- The common shape of the splice transforms: find the block line, find the
anchor line from it, put the fragment in front of the anchor line. -/
theorem sublist_of_splice (content : Str) (p q : Str → Bool) (frag : Str)
    (hfrag : frag = [] ∨ ∃ f, frag = f ++ ['\n']) (k : Nat) :
    (strings.Split content ['\n']).Sublist
      (strings.Split
        (match findLine p (strings.Split content ['\n']) with
         | none => content
         | some i =>
           match findLineFrom q (strings.Split content ['\n']) i with
           | none => content
           | some j =>
             strings.Join
               (updatedLines (strings.Split content ['\n']) j
                 (frag ++ (strings.Split content ['\n']).getD j []) k) ['\n']) ['\n']) := by
  cases h1 : findLine p (strings.Split content ['\n']) with
  | none => exact List.Sublist.refl _
  | some i =>
    dsimp only
    cases h2 : findLineFrom q (strings.Split content ['\n']) i with
    | none => exact List.Sublist.refl _
    | some j =>
      dsimp only
      exact sublist_split_join_updatedLines content j (findLineFrom_lt _ _ _ _ h2) frag hfrag k

theorem addHandlerDeclarations_sublist (content module method : Str) (tables : List Str)
    (hm : method ∈ routeMethods) :
    (strings.Split content ['\n']).Sublist
      (strings.Split (addHandlerDeclarations content module method tables) ['\n']) :=
  sublist_of_splice content _ _ (generateHandlerDeclarations module method tables)
    (foldl_append_ends_nl _ (fun e => handlerDeclaration_ends_nl module method e hm) tables) _

theorem updateHandlerStruct_sublist (content module : Str) (tables : List Str) :
    (strings.Split content ['\n']).Sublist
      (strings.Split (updateHandlerStruct content module tables) ['\n']) :=
  sublist_of_splice content _ _ (generateHandlerFields module tables)
    (foldl_append_ends_nl _ (fun e => handlerFields_ends_nl module e) tables) _

theorem updateHandlerConstructorBody_sublist (content module : Str) (tables : List Str) :
    (strings.Split content ['\n']).Sublist
      (strings.Split (updateHandlerConstructorBody content module tables) ['\n']) :=
  sublist_of_splice content _ _ (generateHandlerFieldAssignments tables)
    (foldl_append_ends_nl _ (fun e => handlerFieldAssignments_ends_nl e) tables) _

theorem updateRouteHandlerConstructor_sublist (content module : Str) (tables : List Str) :
    (strings.Split content ['\n']).Sublist
      (strings.Split (updateRouteHandlerConstructor content module tables) ['\n']) := by
  unfold updateRouteHandlerConstructor
  simp only [nl_data]
  cases h1 : findLine (fun line => strings.Contains line "func New".data &&
      strings.Contains line "HTTPHandler(".data) (strings.Split content ['\n']) with
  | none => exact List.Sublist.refl _
  | some i =>
    dsimp only
    cases h2 : findLineFrom (fun l => strings.Contains l "cloudStorage".data ||
        strings.Contains l "cache".data) (strings.Split content ['\n']) i with
    | none => exact List.Sublist.refl _
    | some j =>
      dsimp only
      exact (sublist_split_join_updatedLines content j (findLineFrom_lt _ _ _ _ h2)
        (generateHandlerConstructorParams module tables)
        (foldl_append_ends_nl _ (fun e => handlerConstructorParams_ends_nl module e) tables)
        _).trans (updateHandlerConstructorBody_sublist _ module tables)

theorem updateRouteMethod_sublist (content module method : Str) (tables : List Str)
    (hm : method ∈ routeMethods) :
    (strings.Split content ['\n']).Sublist
      (strings.Split (updateRouteMethod content module method tables) ['\n']) := by
  unfold updateRouteMethod
  simp only [nl_data]
  cases h1 : findLine (fun line => strings.Contains line (method ++ "HTTPHandler() \x7b".data))
      (strings.Split content ['\n']) with
  | none => exact List.Sublist.refl _
  | some i =>
    dsimp only
    cases h2 : findLineFrom (fun l => strings.TrimSpace l == "\x7d".data &&
        strings.HasPrefix l "\t\x7d".data)
        (strings.Split (addHandlerDeclarations content module method tables) ['\n']) i with
    | none => exact List.Sublist.refl _
    | some j =>
      dsimp only
      refine (addHandlerDeclarations_sublist content module method tables hm).trans ?_
      have := sublist_split_join_updatedLines
        (addHandlerDeclarations content module method tables) j (findLineFrom_lt _ _ _ _ h2)
        (generateEntityRoutes module method tables ++ ['\n']) (Or.inr ⟨_, rfl⟩)
        (strings.Split (generateEntityRoutes module method tables) ['\n']).length
      simpa only [List.append_assoc] using this

/-! ## Lemmas for the method-block splice -/

theorem mem_dropWhile_of_false (p : Char → Bool) (c : Char) (l : Str)
    (hc : c ∈ l) (hp : p c = false) : c ∈ l.dropWhile p := by
  induction l with
  | nil => simp at hc
  | cons a l ih =>
    by_cases ha : p a = true
    · have hne : c ≠ a := by intro h; rw [h, ha] at hp; exact absurd hp (by simp)
      have : c ∈ l := by
        rcases List.mem_cons.1 hc with h | h
        · exact absurd h hne
        · exact h
      simp only [List.dropWhile_cons, ha, if_true]
      exact ih this
    · simp only [List.dropWhile_cons, ha, Bool.false_eq_true, if_false]
      exact hc

theorem mem_trimSpace_of_not_isSpace (c : Char) (s : Str) (hc : c ∈ s)
    (hs : strings.IsSpace c = false) : c ∈ strings.TrimSpace s := by
  unfold strings.TrimSpace
  rw [List.mem_reverse]
  apply mem_dropWhile_of_false _ _ _ _ hs
  rw [List.mem_reverse]
  exact mem_dropWhile_of_false _ _ _ hc hs

theorem mem_of_mem_splitGo (sep : Str) (s : Str) (k : Nat) (acc : Str) :
    ∀ l ∈ strings.splitGo sep s k acc, ∀ c ∈ l, c ∈ acc ∨ c ∈ s := by
  induction s generalizing k acc with
  | nil =>
    intro l hl c hc
    simp only [strings.splitGo, List.mem_singleton] at hl
    subst hl
    left; simpa using hc
  | cons a s ih =>
    intro l hl c hc
    cases k with
    | succ k =>
      simp only [strings.splitGo] at hl
      rcases ih k acc l hl c hc with h | h
      · exact Or.inl h
      · exact Or.inr (List.mem_cons_of_mem _ h)
    | zero =>
      simp only [strings.splitGo] at hl
      split at hl
      · rcases List.mem_cons.1 hl with h | h
        · subst h; left; simpa using hc
        · rcases ih _ [] l h c hc with h' | h'
          · simp at h'
          · exact Or.inr (List.mem_cons_of_mem _ h')
      · rcases ih 0 (a :: acc) l hl c hc with h | h
        · rcases List.mem_cons.1 h with h' | h'
          · right; rw [h']; simp
          · exact Or.inl h'
        · exact Or.inr (List.mem_cons_of_mem _ h)

theorem mem_of_mem_split (s sep : Str) :
    ∀ l ∈ strings.Split s sep, ∀ c ∈ l, c ∈ s := by
  intro l hl c hc
  rcases mem_of_mem_splitGo sep s 0 [] l hl c hc with h | h
  · simp at h
  · exact h

theorem mem_join_empty (L : List Str) (c : Char) (hc : c ∈ strings.Join L []) :
    ∃ l ∈ L, c ∈ l := by
  induction L with
  | nil => simp [strings.Join] at hc
  | cons a L ih =>
    cases L with
    | nil => exact ⟨a, by simp, by simpa [strings.Join] using hc⟩
    | cons b rest =>
      rw [join_cons_cons, List.append_nil, List.mem_append] at hc
      rcases hc with h | h
      · exact ⟨a, by simp, h⟩
      · obtain ⟨l, hl, hcl⟩ := ih h
        exact ⟨l, List.mem_cons_of_mem _ hl, hcl⟩

theorem char_toUpper_ne_nl (c : Char) (h : c ≠ '\n') : c.toUpper ≠ '\n' := by
  have key : ∀ n, 97 ≤ n → n ≤ 122 → Char.ofNat (n - 32) ≠ '\n' := by
    intro n h1 h2
    interval_cases n <;> decide
  unfold Char.toUpper
  simp only
  split
  · rename_i hr
    exact key _ hr.1 hr.2
  · exact h

theorem pascalPart_no_nl (p : Str) (hp : '\n' ∉ p) : '\n' ∉ pascalPart p := by
  unfold pascalPart
  split
  · simp only
    repeat' split
    all_goals first
      | decide
      | (intro hm
         rcases List.mem_append.1 hm with h | h
         · simp only [strings.ToUpper, List.mem_map] at h
           obtain ⟨a, ha, hua⟩ := h
           have hane : a ≠ '\n' := by
             intro e; apply hp; rw [← e]; exact List.mem_of_mem_take ha
           exact char_toUpper_ne_nl a hane hua
         · exact hp (List.mem_of_mem_drop h))
  · exact hp

theorem toPascalCase_no_nl (e : Str) (he : '\n' ∉ e) : '\n' ∉ toPascalCase e := by
  intro hm
  unfold toPascalCase at hm
  obtain ⟨l, hl, hcl⟩ := mem_join_empty _ _ hm
  obtain ⟨p, hp, rfl⟩ := List.mem_map.1 hl
  exact pascalPart_no_nl p (fun h => he (mem_of_mem_split _ _ p hp _ h)) hcl

theorem split_join_of_not_mem (n : Char) (L : List Str) (hL : L ≠ [])
    (h : ∀ l ∈ L, n ∉ l) : strings.Split (strings.Join L [n]) [n] = L := by
  rw [split_join n L hL, flatMap_split_of_not_mem n L h]

theorem findLineFrom_append_cons (p : Str → Bool) (a mid : List Str) (x : Str)
    (post : List Str) (hmid : ∀ l ∈ mid, p l = false) (hx : p x = true) :
    findLineFrom p (a ++ (mid ++ x :: post)) a.length = some (a ++ mid).length := by
  rw [findLineFrom_append, findLine_append p mid x post hmid hx]
  simp [Nat.add_comm]

/-- The declaration text of one entity is one line that is not a closing
brace line. -/
theorem generateHandlerDeclarations_single (module method e : Str)
    (hm : method ∈ routeMethods) (hmod : '\n' ∉ module) (he : '\n' ∉ e) :
    ∃ dl : Str, generateHandlerDeclarations module method [e] = dl ++ ['\n'] ∧ '\n' ∉ dl ∧
      (strings.TrimSpace dl == "\x7d".data && strings.HasPrefix dl "\t\x7d".data) = false := by
  have hp := toPascalCase_no_nl e he
  have hclose : ∀ dl : Str, 'H' ∈ dl →
      (strings.TrimSpace dl == "\x7d".data && strings.HasPrefix dl "\t\x7d".data) = false := by
    intro dl hH
    have h1 := mem_trimSpace_of_not_isSpace 'H' dl hH (by decide)
    have h2 : (strings.TrimSpace dl == "\x7d".data) = false := by
      rw [beq_eq_false_iff_ne]
      intro h
      rw [h] at h1
      revert h1
      decide
    rw [h2, Bool.false_and]
  simp only [routeMethods, List.mem_cons, List.mem_singleton, List.not_mem_nil, or_false] at hm
  rcases hm with h | h | h | h <;> subst h
  · refine ⟨"\t".data ++ e ++ "Hnd := ".data ++ module ++ "handlerv1.New".data ++
      toPascalCase e ++ "Finder".data ++ "Handler(".data ++ ("h.".data ++ e ++ "Finder)".data),
      ?_, ?_, ?_⟩
    · simp [generateHandlerDeclarations, handlerDeclaration]
    · simp [he, hmod, hp]
    · apply hclose; simp
  · refine ⟨"\t".data ++ e ++ "Hnd := ".data ++ module ++ "handlerv1.New".data ++
      toPascalCase e ++ "Creator".data ++ "Handler(".data ++
      ("h.".data ++ e ++ "Creator, h.cloudStorage)".data), ?_, ?_, ?_⟩
    · simp [generateHandlerDeclarations, handlerDeclaration]
    · simp [he, hmod, hp]
    · apply hclose; simp
  · refine ⟨"\t".data ++ e ++ "Hnd := ".data ++ module ++ "handlerv1.New".data ++
      toPascalCase e ++ "Updater".data ++ "Handler(".data ++
      ("h.".data ++ e ++ "Updater, h.cloudStorage)".data), ?_, ?_, ?_⟩
    · simp [generateHandlerDeclarations, handlerDeclaration]
    · simp [he, hmod, hp]
    · apply hclose; simp
  · refine ⟨"\t".data ++ e ++ "Hnd := ".data ++ module ++ "handlerv1.New".data ++
      toPascalCase e ++ "Deleter".data ++ "Handler(".data ++
      ("h.".data ++ e ++ "Deleter)".data), ?_, ?_, ?_⟩
    · simp [generateHandlerDeclarations, handlerDeclaration]
    · simp [he, hmod, hp]
    · apply hclose; simp

/-! ## Lemmas on the presence filter -/

theorem contains_iff_mem (slice : List Str) (item : Str) :
    contains slice item = true ↔ item ∈ slice := by
  induction slice with
  | nil => simp [contains]
  | cons s rest ih =>
    by_cases h : s = item
    · simp [contains, h]
    · have h2 : ¬ item = s := fun e => h e.symm
      simp [contains, h, h2, ih]

theorem filterNewTables_foldl (existing : List Str) (requested acc : List Str) :
    requested.foldl
      (fun newTables entity =>
        if !contains existing entity then newTables ++ [entity] else newTables) acc
      = acc ++ requested.filter (fun e => !contains existing e) := by
  induction requested generalizing acc with
  | nil => simp
  | cons e rest ih =>
    rw [List.foldl_cons, ih]
    by_cases h : contains existing e = true
    · simp [h]
    · simp [h]

/-! ## Lemmas on the routes scan -/

theorem mem_scanRoutesLine (tables : List Str) (line e : Str) :
    e ∈ scanRoutesLine tables line ↔ e ∈ tables ∨ lineEntity line = some e := by
  unfold scanRoutesLine lineEntity
  simp only
  split
  · by_cases hne : extractEntityFromHandlerLine (strings.TrimSpace line) = []
    · simp [hne]
    · by_cases hc : contains tables (extractEntityFromHandlerLine (strings.TrimSpace line)) = true
      · have hm := (contains_iff_mem _ _).1 hc
        simp only [hne, hc, ne_eq, not_false_eq_true, decide_True, Bool.not_true, Bool.and_false,
          Bool.false_eq_true, if_false, if_true, Option.some.injEq]
        constructor
        · exact Or.inl
        · rintro (h | h)
          · exact h
          · rw [← h]; exact hm
      · simp only [hne, hc, ne_eq, not_false_eq_true, decide_True, Bool.not_false, Bool.and_self,
          if_true, List.mem_append, List.mem_singleton, Option.some.injEq]
        constructor
        · rintro (h | h)
          · exact Or.inl h
          · exact Or.inr h.symm
        · rintro (h | h)
          · exact Or.inl h
          · exact Or.inr h.symm
  · simp

theorem mem_foldl_scanRoutesLine (lines : List Str) (acc : List Str) (e : Str) :
    e ∈ lines.foldl scanRoutesLine acc ↔ e ∈ acc ∨ ∃ line ∈ lines, lineEntity line = some e := by
  induction lines generalizing acc with
  | nil => simp
  | cons l ls ih =>
    rw [List.foldl_cons, ih, mem_scanRoutesLine]
    simp only [List.mem_cons, exists_eq_or_imp]
    tauto

theorem mem_extractExistingRoutesTables (content e : Str) :
    e ∈ extractExistingRoutesTables content ↔
      ∃ line ∈ strings.Split content ['\n'], lineEntity line = some e := by
  unfold extractExistingRoutesTables
  rw [nl_data, mem_foldl_scanRoutesLine]
  simp

theorem extractExistingRoutesTables_mono (c c' : Str)
    (h : ∀ l ∈ strings.Split c ['\n'], l ∈ strings.Split c' ['\n']) (e : Str)
    (he : e ∈ extractExistingRoutesTables c) : e ∈ extractExistingRoutesTables c' := by
  rw [mem_extractExistingRoutesTables] at he ⊢
  obtain ⟨l, hl, hle⟩ := he
  exact ⟨l, h l hl, hle⟩

theorem findLine_isSome_iff (p : Str → Bool) (lines : List Str) :
    (findLine p lines).isSome = true ↔ ∃ l ∈ lines, p l = true := by
  induction lines with
  | nil => simp [findLine]
  | cons a ls ih =>
    by_cases ha : p a = true
    · simp [findLine, ha]
    · simp only [findLine, ha, Bool.false_eq_true, if_false, Option.isSome_map', ih,
        List.mem_cons, exists_eq_or_imp, false_or]

theorem findLineFrom_isSome_iff (p : Str → Bool) (lines : List Str) (i : Nat) :
    (findLineFrom p lines i).isSome = true ↔ ∃ l ∈ lines.drop i, p l = true := by
  simp only [findLineFrom, Option.isSome_map', findLine_isSome_iff]

theorem findLineFrom_ge (p : Str → Bool) (lines : List Str) (i j : Nat)
    (h : findLineFrom p lines i = some j) : i ≤ j := by
  simp only [findLineFrom, Option.map_eq_some'] at h
  obtain ⟨k, _, rfl⟩ := h
  omega

/-- A newline-terminated chunk keeps its lines inside a longer text, when what
precedes it is empty or ends with a newline. -/
theorem mem_split_chunk (A f R l : Str) (hA : A = [] ∨ ∃ A', A = A' ++ ['\n'])
    (hl : l ∈ strings.Split f ['\n']) :
    l ∈ strings.Split (A ++ (f ++ '\n' :: R)) ['\n'] := by
  rcases hA with h | ⟨A', h⟩
  · subst h
    rw [List.nil_append, split_append]
    exact List.mem_append_left _ hl
  · subst h
    rw [List.append_assoc, List.singleton_append, split_append, split_append]
    exact List.mem_append_right _ (List.mem_append_left _ hl)

theorem flatMap_ends_nl (g : Str → Str) (hg : ∀ e, ∃ f, g e = f ++ ['\n']) (A : List Str) :
    A.flatMap g = [] ∨ ∃ A', A.flatMap g = A' ++ ['\n'] := by
  have := foldl_append_ends_nl g hg A
  rwa [foldl_append_eq, List.nil_append] at this

/-- The non-empty lines of the declaration of one entity are lines of the
declarations of every list that holds the entity, also with text after them. -/
theorem mem_split_generateHandlerDeclarations (module method : Str) (tables : List Str)
    (hm : method ∈ routeMethods) (e : Str) (he : e ∈ tables) (l : Str)
    (hl : l ∈ strings.Split (generateHandlerDeclarations module method [e]) ['\n'])
    (hne : l ≠ []) (x : Str) :
    l ∈ strings.Split (generateHandlerDeclarations module method tables ++ x) ['\n'] := by
  obtain ⟨f, hf⟩ := handlerDeclaration_ends_nl module method e hm
  have h1 : generateHandlerDeclarations module method [e] = f ++ ['\n'] := by
    simp [generateHandlerDeclarations, hf]
  rw [h1, split_append] at hl
  have hlf : l ∈ strings.Split f ['\n'] := by
    rcases List.mem_append.1 hl with h | h
    · exact h
    · rw [split_nil, List.mem_singleton] at h
      exact absurd h hne
  obtain ⟨A, B, hAB⟩ := List.append_of_mem he
  have h2 : generateHandlerDeclarations module method tables ++ x
      = A.flatMap (handlerDeclaration module method) ++
        (f ++ '\n' :: (B.flatMap (handlerDeclaration module method) ++ x)) := by
    unfold generateHandlerDeclarations
    rw [foldl_append_eq, hAB]
    simp [hf]
  rw [h2]
  exact mem_split_chunk _ _ _ _
    (flatMap_ends_nl _ (fun e => handlerDeclaration_ends_nl module method e hm) A) hlf

/-- When the block of `method` has its markers, `updateRouteMethod` puts the
declaration lines of every entity of `tables` into the content. -/
theorem mem_split_updateRouteMethod (content module method : Str) (tables : List Str)
    (hm : method ∈ routeMethods) (hb : blockHasMarkers content method = true)
    (e : Str) (he : e ∈ tables) (l : Str)
    (hl : l ∈ strings.Split (generateHandlerDeclarations module method [e]) ['\n'])
    (hne : l ≠ []) :
    l ∈ strings.Split (updateRouteMethod content module method tables) ['\n'] := by
  unfold blockHasMarkers at hb
  simp only [nl_data] at hb
  cases h1 : findLine (fun line => strings.Contains line (method ++ "HTTPHandler() \x7b".data))
      (strings.Split content ['\n']) with
  | none => rw [h1] at hb; simp at hb
  | some i =>
    rw [h1] at hb
    simp only [Bool.and_eq_true] at hb
    obtain ⟨hg, hc⟩ := hb
    obtain ⟨j, hj⟩ := Option.isSome_iff_exists.1 hg
    have hij := findLineFrom_ge _ _ _ _ hj
    obtain ⟨pre, x, post, hlines, hlen⟩ :=
      exists_append_cons_of_lt _ j (findLineFrom_lt _ _ _ _ hj)
    have hfree := not_mem_of_mem_split '\n' content
    rw [hlines] at hfree
    have hpre : ∀ l ∈ pre, '\n' ∉ l := fun l hl => hfree l (by simp [hl])
    have hx : '\n' ∉ x := hfree x (by simp)
    have hpost : ∀ l ∈ post, '\n' ∉ l := fun l hl => hfree l (by simp [hl])
    -- the content with the declarations added, and its lines
    have hcwd : addHandlerDeclarations content module method tables
        = strings.Join (pre ++ [generateHandlerDeclarations module method tables ++ x] ++ post ++
            List.replicate
              (strings.Split (generateHandlerDeclarations module method tables) ['\n']).length [])
            ['\n'] := by
      unfold addHandlerDeclarations
      simp only [nl_data, h1, hj]
      rw [hlines, ← hlen, updatedLines_append, getD_append_length]
    have hsplit : strings.Split (addHandlerDeclarations content module method tables) ['\n']
        = pre ++ (strings.Split (generateHandlerDeclarations module method tables ++ x) ['\n'] ++
            post ++ List.replicate
              (strings.Split (generateHandlerDeclarations module method tables) ['\n']).length
              []) := by
      rw [hcwd, split_join_spliced _ _ _ _ hpre hpost]
      simp
    have hxmem : x ∈ strings.Split (generateHandlerDeclarations module method tables ++ x)
        ['\n'] := by
      rcases foldl_append_ends_nl _ (fun e => handlerDeclaration_ends_nl module method e hm)
        tables with h | ⟨f, h⟩
      · unfold generateHandlerDeclarations
        rw [h, List.nil_append, split_of_not_mem _ _ hx]
        simp
      · unfold generateHandlerDeclarations
        rw [h, List.append_assoc, List.singleton_append, split_append, split_of_not_mem _ _ hx]
        simp
    -- a closing line is still there at or after `i`
    have hclose : (findLineFrom (fun l => strings.TrimSpace l == "\x7d".data &&
        strings.HasPrefix l "\t\x7d".data)
        (strings.Split (addHandlerDeclarations content module method tables) ['\n']) i).isSome
        = true := by
      rw [findLineFrom_isSome_iff] at hc ⊢
      obtain ⟨l0, hl0, hp0⟩ := hc
      refine ⟨l0, ?_, hp0⟩
      have hi : i ≤ pre.length := by omega
      rw [hlines, List.drop_append_of_le_length hi] at hl0
      rw [hsplit, List.drop_append_of_le_length hi]
      rcases List.mem_append.1 hl0 with h | h
      · exact List.mem_append_left _ h
      · apply List.mem_append_right
        rcases List.mem_cons.1 h with h | h
        · rw [h]
          exact List.mem_append_left _ (List.mem_append_left _ hxmem)
        · exact List.mem_append_left _ (List.mem_append_right _ h)
    obtain ⟨j2, hj2⟩ := Option.isSome_iff_exists.1 hclose
    have hlcwd : l ∈ strings.Split (addHandlerDeclarations content module method tables)
        ['\n'] := by
      rw [hsplit]
      exact List.mem_append_right _ (List.mem_append_left _ (List.mem_append_left _
        (mem_split_generateHandlerDeclarations module method tables hm e he l hl hne x)))
    have hsub := sublist_split_join_updatedLines
      (addHandlerDeclarations content module method tables) j2 (findLineFrom_lt _ _ _ _ hj2)
      (generateEntityRoutes module method tables ++ ['\n']) (Or.inr ⟨_, rfl⟩)
      (strings.Split (generateEntityRoutes module method tables) ['\n']).length
    have hres : updateRouteMethod content module method tables
        = strings.Join
            (updatedLines (strings.Split (addHandlerDeclarations content module method tables)
              ['\n']) j2
              (generateEntityRoutes module method tables ++ ['\n'] ++
                (strings.Split (addHandlerDeclarations content module method tables)
                  ['\n']).getD j2 [])
              (strings.Split (generateEntityRoutes module method tables) ['\n']).length)
            ['\n'] := by
      unfold updateRouteMethod
      simp only [nl_data, h1, hj2]
    rw [hres]
    exact hsub.subset hlcwd

/-! ## The keys of the method-block map -/

theorem mem_keys_mapSet (blocks : List (Str × MethodBlock)) (key : Str) (block : MethodBlock)
    (k : Str) (hk : k ∈ (mapSet blocks key block).map Prod.fst) :
    k = key ∨ k ∈ blocks.map Prod.fst := by
  induction blocks with
  | nil => simp [mapSet] at hk; exact Or.inl hk
  | cons a rest ih =>
    obtain ⟨ka, ba⟩ := a
    by_cases h : ka = key
    · simp only [mapSet, h, if_true, List.map_cons, List.mem_cons] at hk ⊢
      rcases hk with hk | hk
      · exact Or.inl hk
      · exact Or.inr (Or.inr hk)
    · simp only [mapSet, h, if_false, List.map_cons, List.mem_cons] at hk ⊢
      rcases hk with hk | hk
      · exact Or.inr (Or.inl hk)
      · rcases ih hk with h' | h'
        · exact Or.inl h'
        · exact Or.inr (Or.inr h')

theorem scanBlockLine_ok (lines : List Str) (st : BlockScan) (i : Nat) (h : BlockScanOk st) :
    BlockScanOk (scanBlockLine lines st i) := by
  obtain ⟨h1, h2, h3⟩ := h
  -- the state after the signature test
  have key : ∀ st' : BlockScan, BlockScanOk st' →
      BlockScanOk
        (if st'.startLine ≠ -1 && strings.TrimSpace (lines.getD i []) == "\x7d".data then
          if i + 1 ≥ lines.length ||
              strings.TrimSpace (lines.getD (i + 1) []) == "".data ||
              strings.Contains (lines.getD (i + 1) []) "func (h *".data then
            { currentMethod := "".data, startLine := -1,
              blocks := mapSet st'.blocks st'.currentMethod
                { StartLine := st'.startLine, EndLine := (i : Int),
                  Content := strings.Join
                    ((lines.drop st'.startLine.toNat).take (i + 1 - st'.startLine.toNat))
                    "\n".data } }
          else st'
        else st') := by
    intro st' hst'
    obtain ⟨g1, g2, g3⟩ := hst'
    split
    · rename_i hc
      split
      · refine ⟨fun h => absurd rfl h, Or.inl rfl, ?_⟩
        intro k hk
        have hs : st'.startLine ≠ -1 := by
          simp only [Bool.and_eq_true, decide_eq_true_eq] at hc
          exact hc.1
        rcases mem_keys_mapSet _ _ _ _ hk with h | h
        · rw [h]; exact g1 hs
        · exact g3 k h
      · exact ⟨g1, g2, g3⟩
    · exact ⟨g1, g2, g3⟩
  have sig : ∀ cm : Str, (cm ∈ routeMethods ∨ cm = st.currentMethod) →
      BlockScanOk
        (if cm ≠ [] then { st with currentMethod := cm, startLine := (i : Int) }
         else { st with currentMethod := cm }) := by
    intro cm hcm
    by_cases hne : cm = []
    · rw [if_neg (not_not.2 hne)]
      have hold : st.currentMethod = [] := by
        rcases hcm with h | h
        · rw [hne] at h; exact absurd h (by decide)
        · rw [← h]; exact hne
      refine ⟨fun hs => ?_, Or.inl hne, h3⟩
      have := h1 hs
      rw [hold] at this
      exact absurd this (by decide)
    · rw [if_pos hne]
      have hmem : cm ∈ routeMethods := by
        rcases hcm with h | h
        · exact h
        · rcases h2 with h' | h'
          · rw [h] at hne; exact absurd h' hne
          · rw [h]; exact h'
      exact ⟨fun _ => hmem, Or.inr hmem, h3⟩
  unfold scanBlockLine
  simp only
  apply key
  by_cases hsig : (strings.HasPrefix (strings.TrimSpace (lines.getD i [])) "func (h *".data &&
      strings.Contains (strings.TrimSpace (lines.getD i [])) "HTTPHandler() \x7b".data) = true
  · rw [if_pos hsig]
    apply sig
    repeat' split
    all_goals first
      | (right; rfl)
      | (left; decide)
  · rw [if_neg hsig]
    exact ⟨h1, h2, h3⟩

theorem foldl_scanBlockLine_ok (lines : List Str) (idx : List Nat) (st : BlockScan)
    (h : BlockScanOk st) : BlockScanOk (idx.foldl (scanBlockLine lines) st) := by
  induction idx generalizing st with
  | nil => exact h
  | cons i rest ih => exact ih _ (scanBlockLine_ok lines st i h)

theorem extractMethodBlocks_keys (content : Str) :
    ∀ k ∈ (extractMethodBlocks content).map Prod.fst, k ∈ routeMethods := by
  unfold extractMethodBlocks
  exact (foldl_scanBlockLine_ok _ _ _
    ⟨fun h => absurd rfl h, Or.inl rfl, fun k hk => by simp at hk⟩).2.2

/-! ## The routes graft keeps lines and is detected afterwards -/

theorem foldl_updateRouteMethod_sublist (module : Str) (tables order : List Str)
    (horder : ∀ m ∈ order, m ∈ routeMethods) (content : Str) :
    (strings.Split content ['\n']).Sublist
      (strings.Split (order.foldl
        (fun updatedContent method => updateRouteMethod updatedContent module method tables)
        content) ['\n']) := by
  induction order generalizing content with
  | nil => exact List.Sublist.refl _
  | cons m rest ih =>
    rw [List.foldl_cons]
    exact (updateRouteMethod_sublist content module m tables (horder m (by simp))).trans
      (ih (fun m' hm' => horder m' (by simp [hm'])) _)

theorem filterNewTables_eq_nil_iff (requested existing : List Str) :
    filterNewTables requested existing = [] ↔ ∀ e ∈ requested, e ∈ existing := by
  unfold filterNewTables
  rw [filterNewTables_foldl, List.nil_append, List.filter_eq_nil_iff]
  constructor
  · intro h e he
    have := h e he
    simp only [Bool.not_eq_true', Bool.not_eq_false] at this
    exact (contains_iff_mem _ _).1 this
  · intro h e he
    simp only [Bool.not_eq_true', Bool.not_eq_false]
    exact (contains_iff_mem _ _).2 (h e he)

theorem mem_filterNewTables (requested existing : List Str) (e : Str) :
    e ∈ filterNewTables requested existing ↔ e ∈ requested ∧ e ∉ existing := by
  unfold filterNewTables
  rw [filterNewTables_foldl, List.nil_append, List.mem_filter]
  constructor
  · rintro ⟨h1, h2⟩
    refine ⟨h1, fun hm => ?_⟩
    rw [(contains_iff_mem _ _).2 hm] at h2
    simp at h2
  · rintro ⟨h1, h2⟩
    refine ⟨h1, ?_⟩
    have : contains existing e = false := by
      cases hc : contains existing e
      · rfl
      · exact absurd ((contains_iff_mem _ _).1 hc) h2
    simp [this]

theorem updateRoutesIncremental_skipped (content module : Str) (T order : List Str)
    (h : ∀ e ∈ T, e ∈ extractExistingRoutesTables content) :
    updateRoutesIncremental content module T order = GraftOutcome.skipped := by
  unfold updateRoutesIncremental
  simp only [(filterNewTables_eq_nil_iff _ _).2 h]
  rfl

/-! ## Lemmas on texts made of newline-terminated lines -/

theorem split_terminated (L : List Str) (h : ∀ l ∈ L, '\n' ∉ l) (x : Str) :
    strings.Split (L.flatMap (fun l => l ++ ['\n']) ++ x) ['\n']
      = L ++ strings.Split x ['\n'] := by
  induction L with
  | nil => simp
  | cons a L ih =>
    rw [List.flatMap_cons, List.append_assoc, List.append_assoc, List.singleton_append,
      split_append, split_of_not_mem _ _ (h a (by simp)), ih (fun l hl => h l (by simp [hl]))]
    simp

theorem split_terminated_nil (L : List Str) (h : ∀ l ∈ L, '\n' ∉ l) :
    strings.Split (L.flatMap (fun l => l ++ ['\n'])) "\n".data = L ++ ["".data] := by
  have := split_terminated L h []
  rw [List.append_nil] at this
  rw [nl_data, this]
  rfl

theorem flatMap_flatMap_terminated (tables : List Str) (g : Str → List Str) :
    tables.flatMap (fun e => (g e).flatMap (fun l => l ++ ['\n']))
      = (tables.flatMap g).flatMap (fun l => l ++ ['\n']) := by
  induction tables with
  | nil => rfl
  | cons t ts ih => simp [List.flatMap_cons, List.flatMap_append, ih]

theorem flatMap_map_terminated (tables : List Str) (g : Str → Str) :
    tables.flatMap (fun e => g e ++ ['\n'])
      = (tables.map g).flatMap (fun l => l ++ ['\n']) := by
  induction tables with
  | nil => rfl
  | cons t ts ih => simp [List.flatMap_cons, ih]

theorem hasPrefix_append (p s : Str) : strings.HasPrefix (p ++ s) p = true := by
  unfold strings.HasPrefix
  rw [List.isPrefixOf_iff_prefix]
  exact List.prefix_append p s

/-! ## Lemmas on the wiring fragment -/

theorem incrementalBuilderCode_eq (module table : Str) :
    incrementalBuilderCode
        { Name := table, DisplayName := toPascalCase table, Module := module }
      = (wiringLines table).flatMap (fun l => l ++ ['\n']) := by
  simp [incrementalBuilderCode, wiringLines]

theorem wiringLines_no_nl (e : Str) (he : '\n' ∉ e) : ∀ l ∈ wiringLines e, '\n' ∉ l := by
  have hp := toPascalCase_no_nl e he
  intro l hl
  simp only [wiringLines, List.mem_cons, List.mem_singleton, List.not_mem_nil, or_false] at hl
  rcases hl with h | h | h | h | h | h | h | h | h | h | h | h <;> (subst h; simp [he, hp])

theorem generateIncrementalBuilderCode_eq (module version : Str) (tables : List Str) :
    generateIncrementalBuilderCode module version tables
      = ['\n'] ++ (tables.flatMap wiringLines).flatMap (fun l => l ++ ['\n']) := by
  unfold generateIncrementalBuilderCode buildBuilderConfigTables
  rw [List.foldl_map]
  have h1 := foldl_append_eq
    (fun table => incrementalBuilderCode
      { Name := table, DisplayName := toPascalCase table, Module := module }) tables "\n".data
  have h2 : (fun table => incrementalBuilderCode
      { Name := table, DisplayName := toPascalCase table, Module := module })
      = fun e => (wiringLines e).flatMap (fun l => l ++ ['\n']) :=
    funext (incrementalBuilderCode_eq module)
  rw [h2] at h1
  rw [flatMap_flatMap_terminated] at h1
  rw [← h1]

theorem split_generateIncrementalBuilderCode (module version : Str) (tables : List Str)
    (h : ∀ e ∈ tables, '\n' ∉ e) :
    strings.Split (generateIncrementalBuilderCode module version tables) "\n".data
      = ["".data] ++ tables.flatMap wiringLines ++ ["".data] := by
  rw [generateIncrementalBuilderCode_eq, nl_data, List.singleton_append,
    show ('\n' :: (tables.flatMap wiringLines).flatMap (fun l => l ++ ['\n']))
      = [] ++ '\n' :: ((tables.flatMap wiringLines).flatMap (fun l => l ++ ['\n']) ++ [])
      from by simp,
    split_append, split_terminated]
  · simp [split_nil]
  · intro l hl
    obtain ⟨e, he, hle⟩ := List.mem_flatMap.1 hl
    exact wiringLines_no_nl e (h e he) l hle

theorem wiringLines_defines_repositories (e action : Str) (ha : action ∈ routeMethods) :
    ∃ j, j < 5 ∧ strings.HasPrefix ((wiringLines e).getD j [])
      ("\t".data ++ e ++ action ++ "Repo := ".data) = true := by
  simp only [routeMethods, List.mem_cons, List.mem_singleton, List.not_mem_nil, or_false] at ha
  rcases ha with h | h | h | h <;> subst h
  · refine ⟨1, by omega, ?_⟩
    have : (wiringLines e).getD 1 [] = ("\t".data ++ e ++ "Finder".data ++ "Repo := ".data) ++
        ("repository.New".data ++ toPascalCase e ++ "FinderRepository(db, cache)".data) := by
      simp [wiringLines]
    rw [this]; exact hasPrefix_append _ _
  · refine ⟨2, by omega, ?_⟩
    have : (wiringLines e).getD 2 [] = ("\t".data ++ e ++ "Creator".data ++ "Repo := ".data) ++
        ("repository.New".data ++ toPascalCase e ++ "CreatorRepository(db, cache)".data) := by
      simp [wiringLines]
    rw [this]; exact hasPrefix_append _ _
  · refine ⟨3, by omega, ?_⟩
    have : (wiringLines e).getD 3 [] = ("\t".data ++ e ++ "Updater".data ++ "Repo := ".data) ++
        ("repository.New".data ++ toPascalCase e ++ "UpdaterRepository(db, cache)".data) := by
      simp [wiringLines]
    rw [this]; exact hasPrefix_append _ _
  · refine ⟨4, by omega, ?_⟩
    have : (wiringLines e).getD 4 [] = ("\t".data ++ e ++ "Deleter".data ++ "Repo := ".data) ++
        ("repository.New".data ++ toPascalCase e ++ "DeleterRepository(db, cache)".data) := by
      simp [wiringLines]
    rw [this]; exact hasPrefix_append _ _

/-! ## Lemmas on the routes fragments -/

theorem handlerDeclaration_eq (m method e : Str) (hm : method ∈ routeMethods) :
    handlerDeclaration m method e = declarationLine m method e ++ ['\n'] := by
  simp only [routeMethods, List.mem_cons, List.mem_singleton, List.not_mem_nil, or_false] at hm
  rcases hm with h | h | h | h <;> subst h <;>
    simp [handlerDeclaration, declarationLine, handlerArguments]

theorem declarationLine_no_nl (m method e : Str) (hm : method ∈ routeMethods)
    (hmod : '\n' ∉ m) (he : '\n' ∉ e) : '\n' ∉ declarationLine m method e := by
  have hp := toPascalCase_no_nl e he
  simp only [routeMethods, List.mem_cons, List.mem_singleton, List.not_mem_nil, or_false] at hm
  rcases hm with h | h | h | h <;> subst h <;>
    simp [declarationLine, handlerArguments, he, hmod, hp]

theorem generateHandlerDeclarations_eq (m method : Str) (tables : List Str)
    (hm : method ∈ routeMethods) :
    generateHandlerDeclarations m method tables
      = (tables.map (declarationLine m method)).flatMap (fun l => l ++ ['\n']) := by
  unfold generateHandlerDeclarations
  rw [foldl_append_eq, List.nil_append, ← flatMap_map_terminated]
  congr 1
  funext e
  exact handlerDeclaration_eq m method e hm

theorem handlerFields_eq (m e : Str) :
    handlerFields m e = (fieldLines m e).flatMap (fun l => l ++ ['\n']) := by
  simp [handlerFields, fieldLines]

theorem handlerConstructorParams_eq (m e : Str) :
    handlerConstructorParams m e = (parameterLines m e).flatMap (fun l => l ++ ['\n']) := by
  simp [handlerConstructorParams, parameterLines]

theorem handlerFieldAssignments_eq (e : Str) :
    handlerFieldAssignments e = (assignmentLines e).flatMap (fun l => l ++ ['\n']) := by
  simp [handlerFieldAssignments, assignmentLines]

theorem fieldLines_no_nl (m e : Str) (hmod : '\n' ∉ m) (he : '\n' ∉ e) :
    ∀ l ∈ fieldLines m e, '\n' ∉ l := by
  have hp := toPascalCase_no_nl e he
  intro l hl
  simp only [fieldLines, List.mem_cons, List.mem_singleton, List.not_mem_nil, or_false] at hl
  rcases hl with h | h | h | h <;> (subst h; simp [he, hp, hmod])

theorem parameterLines_no_nl (m e : Str) (hmod : '\n' ∉ m) (he : '\n' ∉ e) :
    ∀ l ∈ parameterLines m e, '\n' ∉ l := by
  have hp := toPascalCase_no_nl e he
  intro l hl
  simp only [parameterLines, List.mem_cons, List.mem_singleton, List.not_mem_nil, or_false] at hl
  rcases hl with h | h | h | h <;> (subst h; simp [he, hp, hmod])

theorem assignmentLines_no_nl (e : Str) (he : '\n' ∉ e) :
    ∀ l ∈ assignmentLines e, '\n' ∉ l := by
  intro l hl
  simp only [assignmentLines, List.mem_cons, List.mem_singleton, List.not_mem_nil, or_false] at hl
  rcases hl with h | h | h | h <;> (subst h; simp [he])

theorem split_foldl_lines (f : Str → Str) (g : Str → List Str) (tables : List Str)
    (hf : ∀ e, f e = (g e).flatMap (fun l => l ++ ['\n']))
    (hg : ∀ e ∈ tables, ∀ l ∈ g e, '\n' ∉ l) :
    strings.Split (tables.foldl (fun result entity => result ++ f entity) []) "\n".data
      = tables.flatMap g ++ ["".data] := by
  rw [foldl_append_eq, List.nil_append, funext hf, flatMap_flatMap_terminated]
  apply split_terminated_nil
  intro l hl
  obtain ⟨e, he, hle⟩ := List.mem_flatMap.1 hl
  exact hg e he l hle

theorem length_flatMap_four (g : Str → List Str) (tables : List Str)
    (hg : ∀ e, (g e).length = 4) : (tables.flatMap g).length = 4 * tables.length := by
  induction tables with
  | nil => rfl
  | cons t ts ih => simp [List.flatMap_cons, hg, ih]; omega

/-! ## Lemmas on the builder scan -/

theorem extractExistingTables_foldl (lines : List Str) (acc : List Str) :
    lines.foldl
      (fun tables line =>
        let line := strings.TrimSpace line
        if strings.Contains line "Repo :=".data && strings.Contains line "repository.New".data then
          let entity := extractEntityFromRepoLine line
          if entity ≠ [] && !contains tables entity then tables ++ [entity] else tables
        else tables) acc
      = acc ++ (dedupFirst (lines.filterMap repoLineEntity)).filter (fun b => decide (b ∉ acc)) := by
  induction lines generalizing acc with
  | nil => simp [dedupFirst]
  | cons l ls ih =>
    rw [List.foldl_cons, ih]
    cases hl : repoLineEntity l with
    | none =>
      have hstep : (let line := strings.TrimSpace l
          if strings.Contains line "Repo :=".data && strings.Contains line "repository.New".data then
            let entity := extractEntityFromRepoLine line
            if entity ≠ [] && !contains acc entity then acc ++ [entity] else acc
          else acc) = acc := by
        unfold repoLineEntity at hl
        simp only at hl ⊢
        by_cases hc : (strings.Contains (strings.TrimSpace l) "Repo :=".data &&
            strings.Contains (strings.TrimSpace l) "repository.New".data) = true
        · rw [if_pos hc] at hl ⊢
          by_cases hne : extractEntityFromRepoLine (strings.TrimSpace l) = []
          · simp [hne]
          · rw [if_pos hne] at hl
            exact absurd hl (by simp)
        · rw [if_neg hc]
      rw [hstep, List.filterMap_cons, hl]
    | some e =>
      have hstep : (let line := strings.TrimSpace l
          if strings.Contains line "Repo :=".data && strings.Contains line "repository.New".data then
            let entity := extractEntityFromRepoLine line
            if entity ≠ [] && !contains acc entity then acc ++ [entity] else acc
          else acc) = if e ∈ acc then acc else acc ++ [e] := by
        unfold repoLineEntity at hl
        simp only at hl ⊢
        by_cases hc : (strings.Contains (strings.TrimSpace l) "Repo :=".data &&
            strings.Contains (strings.TrimSpace l) "repository.New".data) = true
        · rw [if_pos hc] at hl ⊢
          by_cases hne : extractEntityFromRepoLine (strings.TrimSpace l) = []
          · rw [if_neg (by simpa using hne)] at hl
            exact absurd hl (by simp)
          · rw [if_pos hne] at hl
            have he : extractEntityFromRepoLine (strings.TrimSpace l) = e := by simpa using hl
            rw [he]
            have he2 : e ≠ [] := he ▸ hne
            by_cases hm : e ∈ acc
            · have := (contains_iff_mem acc e).2 hm
              simp [this, hm]
            · have : contains acc e = false := by
                cases h : contains acc e with
                | false => rfl
                | true => exact absurd ((contains_iff_mem acc e).1 h) hm
              simp [this, hm, he2]
        · rw [if_neg hc] at hl
          exact absurd hl (by simp)
      rw [hstep, List.filterMap_cons, hl]
      simp only [dedupFirst]
      by_cases hm : e ∈ acc
      · rw [if_pos hm, List.filter_cons_of_neg (by simpa using hm), List.filter_filter]
        congr 1
        apply List.filter_congr
        intro b _
        by_cases hb : b ∈ acc
        · simp [hb]
        · have : b ≠ e := fun h => hb (h ▸ hm)
          simp [hb, this]
      · rw [if_neg hm, List.filter_cons_of_pos (by simpa using hm), List.filter_filter,
          List.append_assoc, List.singleton_append]
        congr 2
        apply List.filter_congr
        intro b _
        simp only [List.mem_append, List.mem_singleton, not_or, Bool.decide_and, ne_eq,
          Bool.and_comm]

theorem extractExistingTables_eq (content : Str) :
    extractExistingTables content
      = dedupFirst ((strings.Split content "\n".data).filterMap repoLineEntity) := by
  unfold extractExistingTables
  rw [extractExistingTables_foldl]
  simp

theorem mem_dedupFirst (l : List Str) (a : Str) : a ∈ dedupFirst l ↔ a ∈ l := by
  induction l with
  | nil => simp [dedupFirst]
  | cons b l ih =>
    simp only [dedupFirst, List.mem_cons, List.mem_filter, ih, decide_eq_true_eq]
    by_cases h : a = b
    · simp [h]
    · simp [h]

theorem nodup_dedupFirst (l : List Str) : (dedupFirst l).Nodup := by
  induction l with
  | nil => simp [dedupFirst]
  | cons b l ih =>
    simp only [dedupFirst, List.nodup_cons, List.mem_filter, decide_eq_true_eq]
    exact ⟨fun h => h.2 rfl, ih.filter _⟩

theorem repoLineEntity_ne_nil (line : Str) : repoLineEntity line ≠ some [] := by
  unfold repoLineEntity
  simp only
  split
  · split
    · rename_i h
      intro h2
      exact h (Option.some.inj h2)
    · simp
  · simp

theorem mem_extractExistingTables (content e : Str) :
    e ∈ extractExistingTables content ↔
      ∃ line ∈ strings.Split content "\n".data, repoLineEntity line = some e := by
  rw [extractExistingTables_eq, mem_dedupFirst, List.mem_filterMap]

/-! ## Lemmas on the wiring graft -/

theorem filterNewTables_user_role (existing : List Str)
    (hu : "user".data ∈ existing) (hr : "role".data ∉ existing) :
    filterNewTables ["user".data, "role".data] existing = ["role".data] := by
  have h1 : contains existing "user".data = true := (contains_iff_mem _ _).2 hu
  have h2 : contains existing "role".data = false := by
    cases h : contains existing "role".data with
    | false => rfl
    | true => exact absurd ((contains_iff_mem _ _).1 h) hr
  unfold filterNewTables
  rw [filterNewTables_foldl, List.nil_append]
  simp [List.filter_cons, h1, h2]

theorem findEntityWiringInsertionLine_nonneg (lines : List Str) (h : 2 ≤ lines.length) :
    0 ≤ findEntityWiringInsertionLine lines := by
  unfold findEntityWiringInsertionLine
  split
  · split
    · exact Int.natCast_nonneg _
    · exact Int.natCast_nonneg _
  · omega

/-- The lines of the text joined from `updatedLines` when a fragment of complete
lines is put in front of line `j`: the lines of the fragment are inserted
before line `j` and `k` empty lines are appended. -/
theorem split_join_updatedLines (lines : List Str) (hl : ∀ l ∈ lines, '\n' ∉ l) (j : Nat)
    (hj : j < lines.length) (f : Str) (k : Nat) :
    strings.Split (strings.Join
        (updatedLines lines j ((f ++ ['\n']) ++ lines.getD j []) k) ['\n']) ['\n']
      = lines.take j ++ strings.Split f ['\n'] ++ lines.drop j ++ List.replicate k [] := by
  obtain ⟨pre, x, post, hlines, hlen⟩ := exists_append_cons_of_lt lines j hj
  subst hlen
  rw [hlines, updatedLines_append, getD_append_length, split_join_spliced,
    List.append_assoc f, List.singleton_append, split_append,
    split_of_not_mem _ x (hl x (by rw [hlines]; simp)), List.take_left, List.drop_left]
  · simp
  · intro l hm; exact hl l (by rw [hlines]; simp [hm])
  · intro l hm; exact hl l (by rw [hlines]; simp [hm])

theorem split_join_updatedLines_nil (lines : List Str) (hl : ∀ l ∈ lines, '\n' ∉ l) (j : Nat)
    (hj : j < lines.length) (k : Nat) :
    strings.Split (strings.Join
        (updatedLines lines j ([] ++ lines.getD j []) k) ['\n']) ['\n']
      = lines.take j ++ [] ++ lines.drop j ++ List.replicate k [] := by
  obtain ⟨pre, x, post, hlines, hlen⟩ := exists_append_cons_of_lt lines j hj
  subst hlen
  rw [hlines, updatedLines_append, getD_append_length, split_join_spliced,
    List.nil_append, split_of_not_mem _ x (hl x (by rw [hlines]; simp)), List.take_left,
    List.drop_left]
  · simp
  · intro l hm; exact hl l (by rw [hlines]; simp [hm])
  · intro l hm; exact hl l (by rw [hlines]; simp [hm])

/-- The lines of the output of the two-step splice idiom for a fragment that is
empty or ends with a newline: the lines of the input with the lines `E` of the
fragment inserted at some index and the empty lines `T` appended, where both
`E` and `T` are made of lines of the fragment. -/
theorem split_splice (content : Str) (p q : Str → Bool) (frag : Str)
    (hfrag : frag = [] ∨ ∃ f, frag = f ++ ['\n']) (k : Nat) :
    ∃ (j : Nat) (E T : List Str),
      strings.Split
        (match findLine p (strings.Split content ['\n']) with
         | none => content
         | some i =>
           match findLineFrom q (strings.Split content ['\n']) i with
           | none => content
           | some j =>
             strings.Join
               (updatedLines (strings.Split content ['\n']) j
                 (frag ++ (strings.Split content ['\n']).getD j []) k) ['\n']) ['\n']
        = (strings.Split content ['\n']).take j ++ E ++ (strings.Split content ['\n']).drop j ++ T
      ∧ ∀ l ∈ E ++ T, l ∈ strings.Split frag ['\n'] := by
  have hno := not_mem_of_mem_split '\n' content
  cases hi : findLine p (strings.Split content ['\n']) with
  | none => exact ⟨0, [], [], by simp, by simp⟩
  | some i =>
    dsimp only
    cases hj : findLineFrom q (strings.Split content ['\n']) i with
    | none => exact ⟨0, [], [], by simp, by simp⟩
    | some j =>
      have hjlt := findLineFrom_lt _ _ _ _ hj
      dsimp only
      rcases hfrag with h | ⟨f, h⟩
      · subst h
        refine ⟨j, [], List.replicate k [], split_join_updatedLines_nil _ hno j hjlt k, ?_⟩
        intro l hm
        rw [List.nil_append] at hm
        rw [List.eq_of_mem_replicate hm, split_nil]
        simp
      · subst h
        refine ⟨j, strings.Split f ['\n'], List.replicate k [],
          split_join_updatedLines _ hno j hjlt f k, ?_⟩
        intro l hm
        have hs : strings.Split (f ++ ['\n']) ['\n'] = strings.Split f ['\n'] ++ [[]] := by
          rw [split_append, split_nil]
        rw [hs]
        rcases List.mem_append.1 hm with h | h
        · exact List.mem_append_left _ h
        · rw [List.eq_of_mem_replicate h]; simp

theorem handlerConstructorArgs_ends_nl (entity : Str) :
    ∃ f, handlerConstructorArgs entity = f ++ ['\n'] :=
  ends_nl_append _ _ ⟨"DeleterSvc,".data, rfl⟩

theorem split_updateHandlerConstructor (content : Str) (tables : List Str) :
    ∃ (j : Nat) (E T : List Str),
      strings.Split (updateHandlerConstructor content tables) ['\n']
        = (strings.Split content ['\n']).take j ++ E ++ (strings.Split content ['\n']).drop j ++ T
      ∧ ∀ l ∈ E ++ T, l ∈ strings.Split
          (tables.foldl (fun newParams entity => newParams ++ handlerConstructorArgs entity) [])
          ['\n'] :=
  split_splice content _ _ _ (foldl_append_ends_nl _ handlerConstructorArgs_ends_nl tables) _

theorem countP_inserted (q : Str → Bool) (lines E T : List Str) (j : Nat)
    (h : ∀ l ∈ E ++ T, q l = false) :
    (lines.take j ++ E ++ lines.drop j ++ T).countP q = lines.countP q := by
  have hE : E.countP q = 0 :=
    List.countP_eq_zero.2 (fun l hl => by simp [h l (List.mem_append_left _ hl)])
  have hT : T.countP q = 0 :=
    List.countP_eq_zero.2 (fun l hl => by simp [h l (List.mem_append_right _ hl)])
  rw [List.countP_append, List.countP_append, List.countP_append, hE, hT]
  conv_rhs => rw [← List.take_append_drop j lines, List.countP_append]
  omega

theorem sublist_inserted (lines E T : List Str) (j : Nat) :
    lines.Sublist (lines.take j ++ E ++ lines.drop j ++ T) := by
  conv_lhs => rw [← List.take_append_drop j lines]
  rw [List.append_assoc, List.append_assoc]
  apply List.Sublist.append (List.Sublist.refl _)
  apply List.Sublist.trans _ (List.sublist_append_right E _)
  exact List.sublist_append_left _ _

/-- Frame of the wiring graft on lines: when the lines `N` are inserted at index
`k` and the constructor arguments are spliced in, the output holds the lines
`N`, keeps the old lines in order, and a test that fails on every new line
counts the same number of lines as before. -/
theorem graft_frame (lines N : List Str) (k : Nat) (tables : List Str)
    (hlines : ∀ l ∈ lines, '\n' ∉ l) (hN : ∀ l ∈ N, '\n' ∉ l) (hne : N ≠ []) :
    (∀ l ∈ N, l ∈ strings.Split (updateHandlerConstructor
        (strings.Join (lines.take k ++ N ++ lines.drop k) ['\n']) tables) ['\n']) ∧
    lines.Sublist (strings.Split (updateHandlerConstructor
        (strings.Join (lines.take k ++ N ++ lines.drop k) ['\n']) tables) ['\n']) ∧
    ∀ q : Str → Bool, (∀ l ∈ N, q l = false) →
      (∀ l ∈ strings.Split (tables.foldl
          (fun newParams entity => newParams ++ handlerConstructorArgs entity) []) ['\n'],
        q l = false) →
      (strings.Split (updateHandlerConstructor
        (strings.Join (lines.take k ++ N ++ lines.drop k) ['\n']) tables) ['\n']).countP q
        = lines.countP q := by
  have hL := split_join_of_not_mem '\n' (lines.take k ++ N ++ lines.drop k)
    (by
      intro h
      rcases List.append_eq_nil.1 h with ⟨h1, _⟩
      exact hne (List.append_eq_nil.1 h1).2)
    (by
      intro l hl
      rcases List.mem_append.1 hl with h | h
      · rcases List.mem_append.1 h with h | h
        · exact hlines l (List.mem_of_mem_take h)
        · exact hN l h
      · exact hlines l (List.mem_of_mem_drop h))
  obtain ⟨j, E, T, hs, hET⟩ := split_updateHandlerConstructor
    (strings.Join (lines.take k ++ N ++ lines.drop k) ['\n']) tables
  rw [hL] at hs
  rw [hs]
  have hsub1 := sublist_inserted lines N [] k
  rw [List.append_nil] at hsub1
  have hsub2 := sublist_inserted (lines.take k ++ N ++ lines.drop k) E T j
  refine ⟨fun l hl => hsub2.subset (List.mem_append_left _ (List.mem_append_right _ hl)),
    hsub1.trans hsub2, ?_⟩
  intro q hqN hqP
  rw [countP_inserted q _ E T j (fun l hl => hqP l (hET l hl))]
  have h := countP_inserted q lines N [] k (fun l hl => hqN l (by simpa using hl))
  rw [List.append_nil] at h
  exact h

/-! ## Lemmas on the recorded method blocks -/

theorem scanBlockLine_eq (lines : List Str) (st : BlockScan) (i : Nat) :
    scanBlockLine lines st i = closeBlock lines (openBlock lines st i) i := rfl

theorem mem_mapSet (blocks : List (Str × MethodBlock)) (key : Str) (block : MethodBlock)
    (kb : Str × MethodBlock) (h : kb ∈ mapSet blocks key block) :
    kb ∈ blocks ∨ kb = (key, block) := by
  induction blocks with
  | nil => simp [mapSet] at h; exact Or.inr h
  | cons a rest ih =>
    obtain ⟨ka, ba⟩ := a
    by_cases hk : ka = key
    · simp only [mapSet, hk, if_true, List.mem_cons] at h ⊢
      rcases h with h | h
      · exact Or.inr h
      · exact Or.inl (Or.inr h)
    · simp only [mapSet, hk, if_false, List.mem_cons] at h ⊢
      rcases h with h | h
      · exact Or.inl (Or.inl h)
      · rcases ih h with h' | h'
        · exact Or.inl (Or.inr h')
        · exact Or.inr h'

theorem not_brace_of_signature (t : Str)
    (h : strings.HasPrefix t "func (h *".data = true) : (t == "\x7d".data) = false := by
  cases hb : t == "\x7d".data with
  | false => rfl
  | true =>
    have : t = "\x7d".data := by simpa using hb
    rw [this] at h
    exact absurd h (by decide)

theorem isBlockEnd_of_signature (lines : List Str) (i : Nat)
    (h : isHandlerSignature (lines.getD i []) = true) : isBlockEnd lines i = false := by
  unfold isHandlerSignature at h
  rw [Bool.and_eq_true] at h
  unfold isBlockEnd
  rw [not_brace_of_signature _ h.1]
  rfl

theorem openBlock_blocks (lines : List Str) (st : BlockScan) (i : Nat) :
    (openBlock lines st i).blocks = st.blocks := by
  unfold openBlock
  simp only
  split_ifs <;> rfl

theorem openBlock_startLine (lines : List Str) (st : BlockScan) (i : Nat) :
    (openBlock lines st i).startLine = st.startLine ∨
    ((openBlock lines st i).startLine = (i : Int) ∧
      isHandlerSignature (lines.getD i []) = true) := by
  unfold openBlock isHandlerSignature
  simp only
  by_cases hsig : (strings.HasPrefix (strings.TrimSpace (lines.getD i [])) "func (h *".data &&
      strings.Contains (strings.TrimSpace (lines.getD i [])) "HTTPHandler() \x7b".data) = true
  · rw [if_pos hsig]
    split_ifs <;> first
      | exact Or.inr ⟨rfl, hsig⟩
      | exact Or.inl rfl
  · rw [if_neg hsig]
    exact Or.inl rfl

theorem closeBlock_of_not_end (lines : List Str) (st : BlockScan) (i : Nat)
    (h : st.startLine = -1 ∨ isBlockEnd lines i = false) : closeBlock lines st i = st := by
  unfold closeBlock
  simp only
  by_cases hc : (st.startLine ≠ -1 && strings.TrimSpace (lines.getD i []) == "\x7d".data) = true
  · rw [if_pos hc]
    rw [Bool.and_eq_true] at hc
    rcases h with h | h
    · exact absurd h (by simpa using hc.1)
    · unfold isBlockEnd at h
      rw [hc.2, Bool.true_and] at h
      rw [if_neg (by rw [h]; simp)]
  · rw [if_neg hc]

theorem closeBlock_of_end (lines : List Str) (st : BlockScan) (i : Nat)
    (hs : st.startLine ≠ -1) (h : isBlockEnd lines i = true) :
    closeBlock lines st i =
      { currentMethod := "".data, startLine := -1,
        blocks := mapSet st.blocks st.currentMethod
          { StartLine := st.startLine, EndLine := (i : Int),
            Content := strings.Join
              ((lines.drop st.startLine.toNat).take (i + 1 - st.startLine.toNat)) "\n".data } } := by
  unfold isBlockEnd at h
  rw [Bool.and_eq_true] at h
  unfold closeBlock
  simp only
  rw [if_pos (by rw [h.1]; simpa using hs), if_pos h.2]

theorem scanBlockLine_inv (lines : List Str) (st : BlockScan) (i : Nat) (hi : i < lines.length)
    (h : BlockScanInv lines i st) : BlockScanInv lines (i + 1) (scanBlockLine lines st i) := by
  obtain ⟨hok, hopen, hblocks⟩ := h
  have hok2 := scanBlockLine_ok lines st i hok
  refine ⟨hok2, ?_⟩
  rw [scanBlockLine_eq] at hok2 ⊢
  have hb1 := openBlock_blocks lines st i
  -- the open block after the signature test
  have hopen1 : (openBlock lines st i).startLine = -1 ∨
      ∃ s : Nat, (openBlock lines st i).startLine = (s : Int) ∧ s ≤ i ∧
        isHandlerSignature (lines.getD s []) = true ∧
        (∀ j, s ≤ j → j < i → isBlockEnd lines j = false) ∧
        (s = i → isBlockEnd lines i = false) := by
    rcases openBlock_startLine lines st i with h1 | ⟨h1, h2⟩
    · rw [h1]
      rcases hopen with h | ⟨s, hs, hlt, hsig, hno⟩
      · exact Or.inl h
      · exact Or.inr ⟨s, hs, le_of_lt hlt, hsig, hno, fun h => absurd h (ne_of_lt hlt)⟩
    · exact Or.inr ⟨i, h1, le_refl _, h2, fun j h1 h2 => absurd h2 (not_lt.2 h1),
        fun _ => isBlockEnd_of_signature lines i h2⟩
  rcases hopen1 with h | ⟨s, hs, hle, hsig, hno, hsi⟩
  · rw [closeBlock_of_not_end lines _ i (Or.inl h)]
    exact ⟨Or.inl h, by rw [hb1]; exact hblocks⟩
  · by_cases hend : isBlockEnd lines i = true
    · have hlt : s < i := by
        rcases Nat.lt_or_ge s i with h | h
        · exact h
        · have := hsi (le_antisymm hle h)
          rw [this] at hend
          exact absurd hend (by simp)
      rw [closeBlock_of_end lines _ i (by rw [hs]; omega) hend]
      refine ⟨Or.inl rfl, ?_⟩
      intro kb hkb
      rcases mem_mapSet _ _ _ _ hkb with h | h
      · rw [hb1] at h; exact hblocks kb h
      · rw [h]
        refine ⟨s, i, hs, rfl, hlt, hi, hsig, hend, hno, ?_⟩
        simp only [hs, Int.toNat_ofNat]
    · have hend2 : isBlockEnd lines i = false := by
        cases h : isBlockEnd lines i with
        | false => rfl
        | true => exact absurd h hend
      rw [closeBlock_of_not_end lines _ i (Or.inr hend2)]
      refine ⟨Or.inr ⟨s, hs, Nat.lt_succ_of_le hle, hsig, ?_⟩, by rw [hb1]; exact hblocks⟩
      intro j h1 h2
      rcases Nat.lt_or_ge j i with h | h
      · exact hno j h1 h
      · have : j = i := by omega
        rw [this]; exact hend2

theorem foldl_range_scanBlockLine_inv (lines : List Str) (n : Nat) (hn : n ≤ lines.length) :
    BlockScanInv lines n ((List.range n).foldl (scanBlockLine lines)
      { currentMethod := "".data, startLine := -1, blocks := [] }) := by
  induction n with
  | zero =>
    exact ⟨⟨fun h => absurd rfl h, Or.inl rfl, fun k hk => by simp at hk⟩, Or.inl rfl,
      fun kb hkb => by simp at hkb⟩
  | succ n ih =>
    rw [List.range_succ, List.foldl_append]
    exact scanBlockLine_inv lines _ n (by omega) (ih (by omega))

theorem extractMethodBlocks_blockOk (content : Str) :
    ∀ kb ∈ extractMethodBlocks content,
      kb.1 ∈ routeMethods ∧ BlockOk (strings.Split content "\n".data) kb.2 := by
  intro kb hkb
  have h := foldl_range_scanBlockLine_inv (strings.Split content "\n".data) _ (le_refl _)
  exact ⟨extractMethodBlocks_keys content kb.1 (List.mem_map_of_mem _ hkb), h.2.2 kb hkb⟩

/-! ## Lemmas on single-character search and splitting -/

theorem contains_single_iff (c : Char) (s : Str) :
    strings.Contains s [c] = true ↔ c ∈ s := by
  induction s with
  | nil => simp [strings.Contains, List.isPrefixOf]
  | cons a s ih =>
    rw [strings.Contains, Bool.or_eq_true, ih, isPrefixOf_single]
    simp only [beq_iff_eq, List.mem_cons]

theorem dropWhile_ne_eq_cons (n : Char) (s : Str) (h : n ∈ s) :
    s.dropWhile (fun c => c != n) = n :: (s.dropWhile (fun c => c != n)).drop 1 := by
  induction s with
  | nil => simp at h
  | cons a s ih =>
    by_cases ha : a = n
    · subst ha
      simp [List.dropWhile]
    · have hn : n ∈ s := by
        rcases List.mem_cons.1 h with h | h
        · exact absurd h.symm ha
        · exact h
      have : (a != n) = true := by simpa using ha
      simp only [List.dropWhile, this]
      exact ih hn

theorem not_mem_takeWhile_ne (n : Char) (s : Str) : n ∉ s.takeWhile (fun c => c != n) := by
  intro h
  have := List.mem_takeWhile_imp h
  simp at this

/-- A text that holds the separator character splits at its first occurrence. -/
theorem split_single_of_mem (n : Char) (s : Str) (h : n ∈ s) :
    strings.Split s [n]
      = s.takeWhile (fun c => c != n)
          :: strings.Split ((s.dropWhile (fun c => c != n)).drop 1) [n] := by
  conv_lhs => rw [← List.takeWhile_append_dropWhile (fun c => c != n) s,
    dropWhile_ne_eq_cons n s h]
  rw [split_append, split_of_not_mem _ _ (not_mem_takeWhile_ne n s)]
  rfl

theorem count_of_mem (n : Char) (s : Str) (h : n ∈ s) :
    s.count n = ((s.dropWhile (fun c => c != n)).drop 1).count n + 1 := by
  conv_lhs => rw [← List.takeWhile_append_dropWhile (fun c => c != n) s,
    dropWhile_ne_eq_cons n s h]
  rw [List.count_append, List.count_cons_self,
    List.count_eq_zero.2 (not_mem_takeWhile_ne n s)]
  omega

theorem length_split_eq_one_iff (n : Char) (s : Str) :
    (strings.Split s [n]).length = 1 ↔ n ∉ s := by
  constructor
  · intro h hm
    rw [split_single_of_mem n s hm, List.length_cons] at h
    have := split_ne_nil ((s.dropWhile (fun c => c != n)).drop 1) [n]
    have : 0 < (strings.Split ((s.dropWhile (fun c => c != n)).drop 1) [n]).length :=
      List.length_pos.2 this
    omega
  · intro h
    rw [split_of_not_mem n s h]
    rfl

/-! ## Lemmas on the `--parts` flag -/

theorem parseModulePart_eq (parts : List ModulePart) (part : Str) :
    parseModulePart parts part = parts ++ (itemPart (strings.TrimSpace part)).toList := by
  unfold parseModulePart itemPart
  simp only [empty_data]
  by_cases h0 : strings.TrimSpace part = []
  · simp [h0]
  · rw [if_neg h0, if_neg h0]
    by_cases hdot : '.' ∈ strings.TrimSpace part
    · have hc : strings.Contains (strings.TrimSpace part) ".".data = true :=
        (contains_single_iff '.' _).2 hdot
      rw [if_pos hc, if_neg (not_not.2 hdot)]
      have hs := split_single_of_mem '.' _ hdot
      have hcnt := count_of_mem '.' _ hdot
      rw [hs]
      by_cases hb : '.' ∈ ((strings.TrimSpace part).dropWhile (fun c => c != '.')).drop 1
      · have h1 : ¬ (strings.Split
            (((strings.TrimSpace part).dropWhile (fun c => c != '.')).drop 1) ['.']).length = 1 :=
          fun h => (length_split_eq_one_iff _ _).1 h hb
        have h2 : ¬ (strings.TrimSpace part).count '.' = 1 := by
          rw [hcnt]
          have := List.count_pos_iff.2 hb
          omega
        rw [if_neg (by simpa using h1), if_neg h2]
        simp
      · have h1 := split_of_not_mem '.' _ hb
        have h2 : (strings.TrimSpace part).count '.' = 1 := by
          rw [hcnt, List.count_eq_zero.2 hb]
        rw [h1, if_pos (by rfl), if_pos h2]
        simp
    · have hc : ¬ strings.Contains (strings.TrimSpace part) ".".data = true :=
        fun h => hdot ((contains_single_iff '.' _).1 h)
      rw [if_neg hc, if_pos hdot]
      simp

theorem foldl_parseModulePart (items : List Str) (acc : List ModulePart) :
    items.foldl parseModulePart acc
      = acc ++ (items.map strings.TrimSpace).filterMap itemPart := by
  induction items generalizing acc with
  | nil => simp
  | cons a items ih =>
    rw [List.foldl_cons, ih, parseModulePart_eq, List.map_cons, List.filterMap_cons]
    cases itemPart (strings.TrimSpace a) <;> simp

/-! ## Lemmas on missing anchors -/

theorem splice_of_anchorMissing (p q : Str → Bool) (lines : List Str) (content : Str)
    (f : Nat → Str) (h : AnchorMissing p q lines) :
    (match findLine p lines with
     | none => content
     | some i =>
       match findLineFrom q lines i with
       | none => content
       | some j => f j) = content := by
  rcases h with h | ⟨pre, x, post, hl, hpre, hx, hq⟩
  · rw [findLine_none p lines h]
  · subst hl
    rw [findLine_append p pre x post hpre hx]
    dsimp only
    rw [findLineFrom_append, findLine_none q _ hq]
    rfl

/-! ## Lemmas on the permission file -/

theorem findSystemSection_eq (lines : List Str) (currentModule : Str) (i : Nat)
    (h : currentModule ≠ "System".data) :
    findSystemSection lines currentModule i
      = (findLine (fun l => sectionName l == some "System".data) lines).map (· + i) := by
  induction lines generalizing currentModule i with
  | nil => rfl
  | cons line rest ih =>
    unfold findSystemSection findLine sectionName
    simp only
    by_cases hs : (strings.HasPrefix line "// ".data &&
        strings.Contains line "permissions".data) = true
    · rw [if_pos hs, if_pos hs]
      by_cases hn : strings.TrimSpace
          (strings.TrimSuffix (strings.TrimPrefix line "// ".data) " permissions".data)
          = "System".data
      · rw [if_pos hn, hn]
        simp
      · rw [if_neg hn, if_neg (by simpa using hn), ih _ _ hn, Option.map_map]
        congr 1
        funext k
        simp only [Function.comp]
        omega
    · rw [if_neg hs, if_neg hs, if_neg h, if_neg (by simp), ih _ _ h, Option.map_map]
      congr 1
      funext k
      simp only [Function.comp]
      omega

theorem permissionInsertPosition_le (lines : List Str) :
    permissionInsertPosition lines ≤ lines.length := by
  unfold permissionInsertPosition
  rw [findSystemSection_eq _ _ _ (by decide)]
  cases h1 : findLine (fun l => sectionName l == some "System".data) lines with
  | some i =>
    have := findLine_lt _ _ _ h1
    simp only [Option.map_some']
    omega
  | none =>
    simp only [Option.map_none']
    cases h2 : findLine (fun l => strings.TrimSpace l == ")".data) lines.reverse with
    | some r =>
      have := findLine_lt _ _ _ h2
      simp only [List.length_reverse] at this
      simp only
      omega
    | none => exact le_refl _

theorem permissionInsertPosition_system (pre : List Str) (x : Str) (post : List Str)
    (hpre : ∀ l ∈ pre, sectionName l ≠ some "System".data)
    (hx : sectionName x = some "System".data) :
    permissionInsertPosition (pre ++ x :: post) = pre.length := by
  unfold permissionInsertPosition
  rw [findSystemSection_eq _ _ _ (by decide),
    findLine_append _ pre x post (fun l hl => by simpa using hpre l hl) (by simp [hx])]
  rfl

theorem permissionInsertPosition_paren (pre : List Str) (x : Str) (post : List Str)
    (hsys : ∀ l ∈ pre ++ x :: post, sectionName l ≠ some "System".data)
    (hx : strings.TrimSpace x = ")".data) (hpost : ∀ l ∈ post, strings.TrimSpace l ≠ ")".data) :
    permissionInsertPosition (pre ++ x :: post) = pre.length + 1 := by
  unfold permissionInsertPosition
  rw [findSystemSection_eq _ _ _ (by decide),
    findLine_none _ _ (fun l hl => by simpa using hsys l hl)]
  simp only [Option.map_none', List.reverse_append, List.reverse_cons, List.append_assoc,
    List.singleton_append]
  rw [findLine_append _ post.reverse x pre.reverse
    (fun l hl => by simpa using hpost l (List.mem_reverse.1 hl)) (by simp [hx])]
  simp only [List.length_reverse, List.length_append, List.length_cons]
  omega

theorem permissionInsertPosition_end (lines : List Str)
    (hsys : ∀ l ∈ lines, sectionName l ≠ some "System".data)
    (hp : ∀ l ∈ lines, strings.TrimSpace l ≠ ")".data) :
    permissionInsertPosition lines = lines.length := by
  unfold permissionInsertPosition
  rw [findSystemSection_eq _ _ _ (by decide),
    findLine_none _ _ (fun l hl => by simpa using hsys l hl)]
  simp only [Option.map_none']
  rw [findLine_none _ _ (fun l hl => by simpa using hp l (List.mem_reverse.1 hl))]

theorem split_insertPermissionConstants (content module newPermissions : Str) :
    strings.Split (insertPermissionConstants content module newPermissions) "\n".data
      = (strings.Split content "\n".data).take
            (permissionInsertPosition (strings.Split content "\n".data)) ++
          strings.Split newPermissions "\n".data ++
          (strings.Split content "\n".data).drop
            (permissionInsertPosition (strings.Split content "\n".data)) := by
  unfold insertPermissionConstants
  simp only [nl_data]
  apply split_join_of_not_mem
  · intro h
    rcases List.append_eq_nil.1 h with ⟨h1, _⟩
    exact split_ne_nil _ _ (List.append_eq_nil.1 h1).2
  · intro l hl
    rcases List.mem_append.1 hl with h | h
    · rcases List.mem_append.1 h with h | h
      · exact not_mem_of_mem_split '\n' content l (List.mem_of_mem_take h)
      · exact not_mem_of_mem_split '\n' newPermissions l h
    · exact not_mem_of_mem_split '\n' content l (List.mem_of_mem_drop h)

/-! ## Lemmas on substring search -/

theorem contains_of_isPrefixOf (s p : Str) (h : p.isPrefixOf s = true) :
    strings.Contains s p = true := by
  cases s with
  | nil => simpa [strings.Contains] using h
  | cons c cs => simp [strings.Contains, h]

theorem contains_append_left (a s p : Str) (h : strings.Contains s p = true) :
    strings.Contains (a ++ s) p = true := by
  induction a with
  | nil => exact h
  | cons c cs ih => simp [strings.Contains, ih]

/-- A text that holds `p` between two other texts contains `p`. -/
theorem contains_middle (a p b : Str) : strings.Contains (a ++ p ++ b) p = true := by
  rw [List.append_assoc]
  apply contains_append_left
  apply contains_of_isPrefixOf
  rw [List.isPrefixOf_iff_prefix]
  exact List.prefix_append p b

theorem lastOccurrence_of_not_mem (n : Char) (s : Str) (h : n ∉ s) :
    lastOccurrence s [n] = none := by
  induction s with
  | nil => simp [lastOccurrence, List.isPrefixOf]
  | cons c cs ih =>
    have hc : n ≠ c := fun e => h (by simp [e])
    have hcs : n ∉ cs := fun e => h (by simp [e])
    simp [lastOccurrence, ih hcs, isPrefixOf_single, hc]

theorem lastOccurrence_append (n : Char) (before after : Str) (h : n ∉ after) :
    lastOccurrence (before ++ n :: after) [n] = some before.length := by
  induction before with
  | nil => simp [lastOccurrence, lastOccurrence_of_not_mem n after h, isPrefixOf_single]
  | cons c cs ih => simp [lastOccurrence, ih]

theorem exists_last_occurrence (n : Char) (s : Str) (h : n ∈ s) :
    ∃ before after, s = before ++ n :: after ∧ n ∉ after := by
  induction s with
  | nil => simp at h
  | cons c cs ih =>
    by_cases hcs : n ∈ cs
    · obtain ⟨b, a, hba, ha⟩ := ih hcs
      exact ⟨c :: b, a, by rw [hba]; rfl, ha⟩
    · have hc : c = n := by
        rcases List.mem_cons.1 h with h | h
        · exact h.symm
        · exact absurd h hcs
      exact ⟨[], cs, by rw [hc]; rfl, hcs⟩

/-! ## Lemmas on the cache keys -/

theorem insertCacheKeys_of_not_mem (content keys : Str) (h : ')' ∉ content) :
    insertCacheKeys content keys = content := by
  unfold insertCacheKeys
  have hd : ")".data = [')'] := rfl
  rw [hd, lastOccurrence_of_not_mem _ _ h]

theorem insertCacheKeys_append (before after keys : Str) (h : ')' ∉ after) :
    insertCacheKeys (before ++ ')' :: after) keys = before ++ keys ++ ')' :: after := by
  unfold insertCacheKeys
  have hd : ")".data = [')'] := rfl
  rw [hd, lastOccurrence_append _ _ _ h]
  simp only [List.take_left, List.drop_left]

theorem generateCacheKeyConstants_eq (schema entity : Str) :
    ∃ rest, generateCacheKeyConstants schema entity
      = "\t// ".data ++ (toPascalCase entity ++ "FindByID".data) ++ rest :=
  ⟨_, by
    unfold generateCacheKeyConstants cacheKeyConstant
    simp only [List.foldl_cons, List.foldl_nil, List.nil_append, List.append_assoc]
    rfl⟩

theorem cacheKeysExist_insert (before after schema entity : Str) :
    cacheKeysExist (before ++ generateCacheKeyConstants schema entity ++ after) schema entity
      = true := by
  obtain ⟨rest, h⟩ := generateCacheKeyConstants_eq schema entity
  unfold cacheKeysExist
  rw [h]
  have : before ++ ("\t// ".data ++ (toPascalCase entity ++ "FindByID".data) ++ rest) ++ after
      = (before ++ "\t// ".data) ++ (toPascalCase entity ++ "FindByID".data) ++ (rest ++ after) := by
    simp only [List.append_assoc]
  rw [this]
  exact contains_middle _ _ _

/-! ## Lemmas on the generation of module components -/

theorem getActions_of_ne (action : Str) (h : action ≠ "".data) : getActions action = [action] := by
  unfold getActions
  rw [if_neg h]

theorem generateActionFiles_unknown (g : Generator) (component : Str) (data : TemplateData)
    (dir : List Str) (entity act : Str) (rest : List Str) (w : World)
    (h : act ∉ ["".data, "creator".data, "finder".data, "updater".data, "deleter".data]) :
    generateActionFiles g component data dir entity (act :: rest) w
      = (w, some ("unknown ".data ++ component ++ " action: ".data ++ act)) := by
  simp only [List.mem_cons, List.mem_singleton, List.not_mem_nil, or_false, not_or] at h
  unfold generateActionFiles
  rw [if_neg (by
    rintro (h1 | h1 | h1 | h1)
    · exact h.2.1 h1
    · exact h.2.2.1 h1
    · exact h.2.2.2.1 h1
    · exact h.2.2.2.2 h1)]

theorem GenerateModule_cons (g : Generator) (schema entity version outputDir : Str)
    (part : ModulePart) (rest : List ModulePart) (w : World) :
    GenerateModule g schema entity version outputDir (part :: rest) w
      = match generatePart g schema entity version outputDir part w with
        | (w, some err) => (w, some err)
        | (w, none) => GenerateModule g schema entity version outputDir rest w := rfl

theorem GenerateModule_append (g : Generator) (schema entity version outputDir : Str)
    (pre rest : List ModulePart) (w : World)
    (h : (GenerateModule g schema entity version outputDir pre w).2 = none) :
    GenerateModule g schema entity version outputDir (pre ++ rest) w
      = GenerateModule g schema entity version outputDir rest
          (GenerateModule g schema entity version outputDir pre w).1 := by
  induction pre generalizing w with
  | nil => rfl
  | cons part pre ih =>
    rw [List.cons_append, GenerateModule_cons g schema entity version outputDir part (pre ++ rest)]
    rw [GenerateModule_cons] at h ⊢
    rcases hg : generatePart g schema entity version outputDir part w with ⟨w1, e⟩
    rw [hg] at h
    cases e with
    | some err => simp at h
    | none => exact ih w1 h

theorem GenerateModule_stops (g : Generator) (schema entity version outputDir : Str)
    (part : ModulePart) (post : List ModulePart) (w : World)
    (h : (generatePart g schema entity version outputDir part w).2 ≠ none) :
    GenerateModule g schema entity version outputDir (part :: post) w
      = generatePart g schema entity version outputDir part w := by
  rw [GenerateModule_cons]
  rcases hg : generatePart g schema entity version outputDir part w with ⟨w1, e⟩
  rw [hg] at h
  cases e with
  | some err => rfl
  | none => exact absurd rfl h

theorem generatePart_unknown_component (g : Generator)
    (schema entity version outputDir : Str) (part : ModulePart) (w : World)
    (h : part.Component ∉ ["handler".data, "service".data, "repository".data]) :
    generatePart g schema entity version outputDir part w
      = (w, some ("unknown module component: ".data ++ part.Component)) := by
  simp only [List.mem_cons, List.mem_singleton, List.not_mem_nil, or_false, not_or] at h
  unfold generatePart
  rw [if_neg h.1, if_neg h.2.1, if_neg h.2.2]

/-! ## Lemmas on splitting at a text -/

theorem isLower_mem_alphabet (c : Char) (h : c.isLower = true) :
    c ∈ "abcdefghijklmnopqrstuvwxyz".data := by
  rw [isLower_iff] at h
  have hc : c = Char.ofNat c.toNat := (Char.ofNat_toNat c).symm
  rw [hc]
  generalize c.toNat = n at h
  obtain ⟨h1, h2⟩ := h
  interval_cases n <;> decide

theorem splitGo_skip (sep x rest acc : Str) :
    strings.splitGo sep (x ++ rest) x.length acc = strings.splitGo sep rest 0 acc := by
  induction x with
  | nil => rfl
  | cons c x ih => simpa [strings.splitGo] using ih

/-- Scanning a stretch `a` in which no occurrence of the separator starts only
collects its characters. -/
theorem splitGo_no_occurrence (sep a rest acc : Str)
    (h : ∀ k < a.length, sep.isPrefixOf ((a ++ rest).drop k) = false) :
    strings.splitGo sep (a ++ rest) 0 acc = strings.splitGo sep rest 0 (a.reverse ++ acc) := by
  induction a generalizing acc with
  | nil => rfl
  | cons c a ih =>
    have h0 : sep.isPrefixOf (c :: (a ++ rest)) = false := h 0 (by simp)
    rw [List.cons_append, strings.splitGo, if_neg (by rw [h0]; simp),
      ih (c :: acc) (fun k hk => by
        have := h (k + 1) (by simp; omega)
        simpa using this)]
    simp

theorem splitGo_acc (sep s acc : Str) (k : Nat) :
    strings.splitGo sep s k acc
      = (acc.reverse ++ (strings.splitGo sep s k []).headD [])
          :: (strings.splitGo sep s k []).tail := by
  induction s generalizing k acc with
  | nil => simp [strings.splitGo]
  | cons c s ih =>
    cases k with
    | succ k =>
      simp only [strings.splitGo]
      exact ih _ _
    | zero =>
      simp only [strings.splitGo]
      by_cases h : sep.isPrefixOf (c :: s) = true
      · simp [h]
      · rw [if_neg h, if_neg h, ih (c :: acc) 0, ih [c] 0]
        simp

/-- A text splits at the first occurrence of the separator. -/
theorem split_first (sep a b : Str) (hsep : sep ≠ [])
    (h : ∀ k < a.length, sep.isPrefixOf ((a ++ (sep ++ b)).drop k) = false) :
    strings.Split (a ++ (sep ++ b)) sep = a :: strings.Split b sep := by
  unfold strings.Split
  rw [splitGo_no_occurrence sep a (sep ++ b) [] h]
  cases sep with
  | nil => exact absurd rfl hsep
  | cons s0 s' =>
    have hp : (s0 :: s').isPrefixOf (s0 :: (s' ++ b)) = true := by
      rw [List.isPrefixOf_iff_prefix]
      exact List.prefix_append (s0 :: s') b
    rw [List.cons_append, strings.splitGo, if_pos hp]
    have : (s0 :: s').length - 1 = s'.length := by simp
    rw [this, splitGo_skip]
    simp

/-- A text in which the separator does not occur is not split. -/
theorem split_none (sep x : Str)
    (h : ∀ k < x.length, sep.isPrefixOf (x.drop k) = false) :
    strings.Split x sep = [x] := by
  unfold strings.Split
  have := splitGo_no_occurrence sep x [] [] (by simpa using h)
  rw [List.append_nil] at this
  rw [this]
  simp [strings.splitGo]

theorem contains_eq_false (s p : Str)
    (h : ∀ k ≤ s.length, p.isPrefixOf (s.drop k) = false) : strings.Contains s p = false := by
  induction s with
  | nil => simpa [strings.Contains] using h 0 (le_refl _)
  | cons c s ih =>
    have h0 := h 0 (by simp)
    simp only [List.drop_zero] at h0
    rw [strings.Contains, h0, Bool.false_or]
    exact ih (fun k hk => by
      have := h (k + 1) (by simp; omega)
      simpa using this)

theorem isPrefixOf_drop_of_contains_false (s p : Str) (h : strings.Contains s p = false)
    (k : Nat) (hk : k ≤ s.length) : p.isPrefixOf (s.drop k) = false := by
  induction s generalizing k with
  | nil =>
    simp only [strings.Contains] at h
    simpa using h
  | cons c s ih =>
    rw [strings.Contains, Bool.or_eq_false_iff] at h
    cases k with
    | zero => exact h.1
    | succ k => exact ih h.2 k (by simpa using hk)

/-- An occurrence of a text holds every character of the text. -/
theorem not_isPrefixOf_drop_of_not_mem (sep s : Str) (c : Char) (hc : c ∈ sep) (hs : c ∉ s)
    (k : Nat) : sep.isPrefixOf (s.drop k) = false := by
  cases h : sep.isPrefixOf (s.drop k) with
  | false => rfl
  | true =>
    rw [List.isPrefixOf_iff_prefix] at h
    exact absurd (List.mem_of_mem_drop (h.subset hc)) hs

theorem contains_false_of_not_mem (s p : Str) (c : Char) (hc : c ∈ p) (hs : c ∉ s) :
    strings.Contains s p = false :=
  contains_eq_false s p (fun k _ => not_isPrefixOf_drop_of_not_mem p s c hc hs k)

/-- An occurrence of `p ++ c :: q` cannot start so early that its `c` falls in
front of the first `c` of the text. -/
theorem not_isPrefixOf_drop_of_first (p q a b : Str) (c : Char) (ha : c ∉ a) (k : Nat)
    (hk : k + p.length < a.length) :
    (p ++ c :: q).isPrefixOf ((a ++ b).drop k) = false := by
  cases h : (p ++ c :: q).isPrefixOf ((a ++ b).drop k) with
  | false => rfl
  | true =>
    rw [List.isPrefixOf_iff_prefix] at h
    obtain ⟨r, hr⟩ := h
    have h1 : ((a ++ b).drop k)[p.length]? = some c := by
      rw [← hr, List.append_assoc, List.getElem?_append_right (le_refl _)]
      simp
    rw [List.getElem?_drop, List.getElem?_append_left (by omega)] at h1
    exact absurd (List.getElem?_mem h1) ha

/-! ## Lemmas on cutting a capitalised name off a text -/

theorem overlapFree_spec (s t R : Str) (h : overlapFree s R = true)
    (ht : ∀ c ∈ t, c.isLower = true) : s.isPrefixOf (t ++ R) = false := by
  induction t generalizing s with
  | nil =>
    cases s with
    | nil => simp [overlapFree] at h
    | cons d s =>
      simp only [overlapFree, Bool.and_eq_true, Bool.not_eq_true'] at h
      exact h.1
  | cons c t ih =>
    cases s with
    | nil => simp [overlapFree] at h
    | cons d s =>
      simp only [overlapFree, Bool.and_eq_true, Bool.not_eq_true', Bool.or_eq_true] at h
      rw [List.cons_append, List.isPrefixOf]
      by_cases hdc : d = c
      · subst hdc
        have hl : d.isLower = true := ht d (by simp)
        rcases h.2 with h2 | h2
        · rw [hl] at h2; exact absurd h2 (by simp)
        · rw [ih s h2 (fun c hc => ht c (by simp [hc]))]
          simp
      · simp [hdc]

theorem isPrefixOf_append_of_le (s R1 R2 : Str) (h : s.length ≤ R1.length) :
    s.isPrefixOf (R1 ++ R2) = s.isPrefixOf R1 := by
  induction s generalizing R1 with
  | nil => simp [List.isPrefixOf]
  | cons d s ih =>
    cases R1 with
    | nil => simp at h
    | cons r R1 =>
      rw [List.cons_append, List.isPrefixOf, List.isPrefixOf,
        ih R1 (by simpa using h)]

theorem overlapFree_append (s R1 R2 : Str) (h : s.length ≤ R1.length) :
    overlapFree s (R1 ++ R2) = overlapFree s R1 := by
  induction s with
  | nil => rfl
  | cons d s ih =>
    rw [overlapFree, overlapFree, isPrefixOf_append_of_le _ _ _ h,
      ih (by simp at h; omega)]

/-- No occurrence of a separator that starts with a character that is not a
lower-case letter starts inside a name `U :: t` with lower-case `t`, whatever
follows the name, if the separator does not start with `U` or is
`overlapFree` of what follows. -/
theorem not_isPrefixOf_name (U : Char) (t R : Str) (s0 : Char) (s : Str)
    (ht : ∀ c ∈ t, c.isLower = true) (hs0 : s0.isLower = false)
    (hov : s0 ≠ U ∨ overlapFree s R = true) (k : Nat) (hk : k < (U :: t).length) :
    (s0 :: s).isPrefixOf (((U :: t) ++ R).drop k) = false := by
  cases k with
  | zero =>
    rw [List.drop_zero, List.cons_append, List.isPrefixOf]
    rcases hov with h | h
    · simp [h]
    · rw [overlapFree_spec s t R h ht]
      simp
  | succ k =>
    have hk2 : k < t.length := by simpa using hk
    rw [List.cons_append, List.drop_succ_cons, List.drop_append_of_le_length (le_of_lt hk2)]
    have hd : t.drop k = t[k] :: t.drop (k + 1) := (List.getElem_cons_drop t k hk2).symm
    rw [hd, List.cons_append, List.isPrefixOf]
    have hl : (t[k]).isLower = true := ht _ (List.getElem_mem hk2)
    have : s0 ≠ t[k] := fun e => by rw [e, hl] at hs0; exact absurd hs0 (by simp)
    simp [this]

/-- A separator that does not occur in or across a name and what follows it
leaves the text whole. -/
theorem cut_none (U : Char) (t R : Str) (s0 : Char) (s : Str)
    (ht : ∀ c ∈ t, c.isLower = true) (hs0 : s0.isLower = false)
    (hov : s0 ≠ U ∨ overlapFree s R = true) (hR : strings.Contains R (s0 :: s) = false) :
    (strings.Split ((U :: t) ++ R) (s0 :: s)).headD [] = (U :: t) ++ R := by
  rw [split_none]
  · rfl
  · intro k hk
    rcases Nat.lt_or_ge k (U :: t).length with h | h
    · exact not_isPrefixOf_name U t R s0 s ht hs0 hov k h
    · rw [List.drop_append_eq_append_drop, List.drop_eq_nil_of_le h, List.nil_append]
      exact isPrefixOf_drop_of_contains_false R _ hR _ (by
        rw [List.length_append] at hk
        omega)

/-- A separator that follows a name cuts the text after the name. -/
theorem cut_first (U : Char) (t b : Str) (s0 : Char) (s : Str)
    (ht : ∀ c ∈ t, c.isLower = true) (hs0 : s0.isLower = false)
    (hov : s0 ≠ U ∨ overlapFree s ((s0 :: s) ++ b) = true) :
    (strings.Split ((U :: t) ++ ((s0 :: s) ++ b)) (s0 :: s)).headD [] = U :: t := by
  rw [split_first (s0 :: s) (U :: t) b (by simp)
    (fun k hk => not_isPrefixOf_name U t _ s0 s ht hs0 hov k hk)]
  rfl

/-- A separator that does not occur in a name leaves the name whole. -/
theorem cut_name (U : Char) (t : Str) (s0 : Char) (s : Str)
    (ht : ∀ c ∈ t, c.isLower = true) (hs0 : s0.isLower = false)
    (hov : s0 ≠ U ∨ overlapFree s [] = true) :
    (strings.Split (U :: t) (s0 :: s)).headD [] = U :: t := by
  have := cut_none U t [] s0 s ht hs0 hov (by simp [strings.Contains, List.isPrefixOf])
  rw [List.append_nil] at this
  exact this

/-! ## Lemmas on the display name of a lower-case entity -/

theorem toUpper_alphabet :
    ∀ c ∈ "abcdefghijklmnopqrstuvwxyz".data,
      c.toUpper.isLower = false ∧ c.toUpper.isUpper = true ∧ c.toUpper.toLower = c := by
  decide

theorem isAlpha_of_isLower (c : Char) (h : c.isLower = true) : c.isAlpha = true := by
  simp [Char.isAlpha, h]

/-- The display name of an entity of lower-case letters that is no acronym is
its first letter in upper case followed by the other letters. -/
theorem toPascalCase_lower (e : Str) (hne : e ≠ []) (hlow : ∀ c ∈ e, c.isLower = true)
    (ha : e ∉ acronyms) :
    ∃ U t, toPascalCase e = U :: t ∧ U.isLower = false ∧ U.isUpper = true ∧
      (∀ c ∈ t, c.isLower = true) ∧ strings.ToLower (U :: t) = e ∧ t = e.drop 1 := by
  cases e with
  | nil => exact absurd rfl hne
  | cons e0 t =>
    have h0 := toUpper_alphabet e0 (isLower_mem_alphabet e0 (hlow e0 (by simp)))
    have ht : ∀ c ∈ t, c.isLower = true := fun c hc => hlow c (by simp [hc])
    refine ⟨e0.toUpper, t, ?_, h0.1, h0.2.1, ht, ?_, rfl⟩
    · rw [toPascalCase_of_no_underscore _ (isLower_ne_underscore _ hlow),
        pascalPart_lower _ hne hlow ha]
      rfl
    · unfold strings.ToLower
      rw [List.map_cons, h0.2.2]
      have := toLower_of_isLower t ht
      unfold strings.ToLower at this
      rw [this]

/-! ## Lemmas on trimming and on occurrences fixed by one character -/

theorem trimSpace_tab (X : Str) (c d : Char) (m m' : Str) (h1 : X = c :: m)
    (h2 : X = m' ++ [d]) (hc : strings.IsSpace c = false) (hd : strings.IsSpace d = false) :
    strings.TrimSpace ("\t".data ++ X) = X := by
  have ht : "\t".data ++ X = '\t' :: X := rfl
  have hs : strings.IsSpace '\t' = true := by decide
  unfold strings.TrimSpace
  rw [ht, List.dropWhile_cons_of_pos hs]
  have e1 : X.dropWhile strings.IsSpace = X := by
    rw [h1, List.dropWhile_cons_of_neg (by simp [hc])]
  rw [e1]
  have e2 : X.reverse.dropWhile strings.IsSpace = X.reverse := by
    rw [h2, List.reverse_append, List.reverse_singleton, List.singleton_append,
      List.dropWhile_cons_of_neg (by simp [hd])]
  rw [e2, List.reverse_reverse]

theorem mem_of_mem_trimSpace (c : Char) (s : Str) (h : c ∈ strings.TrimSpace s) : c ∈ s := by
  unfold strings.TrimSpace at h
  rw [List.mem_reverse] at h
  have h1 := (List.dropWhile_sublist _).subset h
  rw [List.mem_reverse] at h1
  exact (List.dropWhile_sublist _).subset h1

theorem isSpace_of_isLower (c : Char) (h : c.isLower = true) : strings.IsSpace c = false := by
  have : ∀ c ∈ "abcdefghijklmnopqrstuvwxyz".data, strings.IsSpace c = false := by decide
  exact this c (isLower_mem_alphabet c h)

theorem not_mem_of_isLower (c : Char) (s : Str) (hs : ∀ x ∈ s, x.isLower = true)
    (hc : c.isLower = false) : c ∉ s := fun h => by
  rw [hs c h] at hc
  exact absurd hc (by simp)

/-- A text splits at a separator `p ++ c :: q` that follows a stretch without
the character `c`, when `p` does not hold `c` either. -/
theorem split_first_char (p q a b : Str) (c : Char) (ha : c ∉ a) (hp : c ∉ p) :
    strings.Split (a ++ ((p ++ c :: q) ++ b)) (p ++ c :: q)
      = a :: strings.Split b (p ++ c :: q) := by
  apply split_first _ _ _ (by simp)
  intro k hk
  have : a ++ ((p ++ c :: q) ++ b) = (a ++ p) ++ (c :: (q ++ b)) := by simp
  rw [this]
  exact not_isPrefixOf_drop_of_first p q (a ++ p) _ c
    (by simp only [List.mem_append, not_or]; exact ⟨ha, hp⟩) k (by simp; omega)

theorem split_none_of_not_mem (sep x : Str) (c : Char) (hc : c ∈ sep) (hx : c ∉ x) :
    strings.Split x sep = [x] :=
  split_none sep x (fun k _ => not_isPrefixOf_drop_of_not_mem sep x c hc hx k)

/-- A text with a single `c`, in front of which stands `w`, does not contain
`p ++ c :: q` when `w` differs from `p` and has its length. -/
theorem contains_false_of_unique (p q a w b : Str) (c : Char) (ha : c ∉ a) (hw : c ∉ w)
    (hb : c ∉ b) (hlen : w.length = p.length) (hne : w ≠ p) :
    strings.Contains ((a ++ w) ++ c :: b) (p ++ c :: q) = false := by
  apply contains_eq_false
  intro k _
  cases h : (p ++ c :: q).isPrefixOf (((a ++ w) ++ c :: b).drop k) with
  | false => rfl
  | true =>
    exfalso
    have haw : c ∉ a ++ w := by
      simp only [List.mem_append, not_or]; exact ⟨ha, hw⟩
    rcases Nat.lt_trichotomy (k + p.length) (a ++ w).length with h1 | h1 | h1
    · have := not_isPrefixOf_drop_of_first p q (a ++ w) (c :: b) c haw k h1
      rw [this] at h
      exact absurd h (by simp)
    · have hk : k = a.length := by
        rw [List.length_append] at h1
        omega
      rw [hk, List.append_assoc, List.drop_left, List.isPrefixOf_iff_prefix] at h
      obtain ⟨r, hr⟩ := h
      rw [List.append_assoc] at hr
      have := List.append_inj_left hr hlen.symm
      exact hne this.symm
    · rw [List.isPrefixOf_iff_prefix] at h
      obtain ⟨r, hr⟩ := h
      have h2 : (((a ++ w) ++ c :: b).drop k)[p.length]? = some c := by
        rw [← hr, List.append_assoc, List.getElem?_append_right (le_refl _)]
        simp
      rw [List.getElem?_drop, List.getElem?_append_right (by omega)] at h2
      have h3 : k + p.length - (a ++ w).length = (k + p.length - (a ++ w).length - 1) + 1 := by
        omega
      rw [h3, List.getElem?_cons_succ] at h2
      exact hb (List.getElem?_mem h2)

/-! ## Lemmas on reading the entity back from a repository line -/

theorem repoCuts_finder (U : Char) (t : Str) (ht : ∀ c ∈ t, c.isLower = true)
    (hU : U.isUpper = true) :
    [ "FinderRepository".data, "CreatorRepository".data, "UpdaterRepository".data,
      "DeleterRepository".data, "(".data ].foldl
        (fun repoPart suffix => (strings.Split repoPart suffix).headD [])
        ((U :: t) ++ "FinderRepository(db, cache)".data) = U :: t := by
  have hp : '(' ≠ U := fun e => by rw [← e] at hU; exact absurd hU (by decide)
  have s1 : (strings.Split ((U :: t) ++ "FinderRepository(db, cache)".data)
      "FinderRepository".data).headD [] = U :: t :=
    cut_first U t "(db, cache)".data 'F' "inderRepository".data ht (by decide)
      (Or.inr (by decide))
  have s2 : (strings.Split (U :: t) "CreatorRepository".data).headD [] = U :: t :=
    cut_name U t 'C' "reatorRepository".data ht (by decide) (Or.inr (by decide))
  have s3 : (strings.Split (U :: t) "UpdaterRepository".data).headD [] = U :: t :=
    cut_name U t 'U' "pdaterRepository".data ht (by decide) (Or.inr (by decide))
  have s4 : (strings.Split (U :: t) "DeleterRepository".data).headD [] = U :: t :=
    cut_name U t 'D' "eleterRepository".data ht (by decide) (Or.inr (by decide))
  have s5 : (strings.Split (U :: t) "(".data).headD [] = U :: t :=
    cut_name U t '(' [] ht (by decide) (Or.inl hp)
  show (strings.Split ((strings.Split ((strings.Split ((strings.Split ((strings.Split
    ((U :: t) ++ "FinderRepository(db, cache)".data) "FinderRepository".data).headD [])
    "CreatorRepository".data).headD []) "UpdaterRepository".data).headD [])
    "DeleterRepository".data).headD []) "(".data).headD [] = U :: t
  rw [s1, s2, s3, s4, s5]

theorem repoCuts_creator (U : Char) (t : Str) (ht : ∀ c ∈ t, c.isLower = true)
    (hU : U.isUpper = true) :
    [ "FinderRepository".data, "CreatorRepository".data, "UpdaterRepository".data,
      "DeleterRepository".data, "(".data ].foldl
        (fun repoPart suffix => (strings.Split repoPart suffix).headD [])
        ((U :: t) ++ "CreatorRepository(db, cache)".data) = U :: t := by
  have hp : '(' ≠ U := fun e => by rw [← e] at hU; exact absurd hU (by decide)
  have s1 : (strings.Split ((U :: t) ++ "CreatorRepository(db, cache)".data)
      "FinderRepository".data).headD [] = (U :: t) ++ "CreatorRepository(db, cache)".data :=
    cut_none U t "CreatorRepository(db, cache)".data 'F' "inderRepository".data ht (by decide)
      (Or.inr (by decide)) (by decide)
  have s2 : (strings.Split ((U :: t) ++ "CreatorRepository(db, cache)".data)
      "CreatorRepository".data).headD [] = U :: t :=
    cut_first U t "(db, cache)".data 'C' "reatorRepository".data ht (by decide)
      (Or.inr (by decide))
  have s3 : (strings.Split (U :: t) "UpdaterRepository".data).headD [] = U :: t :=
    cut_name U t 'U' "pdaterRepository".data ht (by decide) (Or.inr (by decide))
  have s4 : (strings.Split (U :: t) "DeleterRepository".data).headD [] = U :: t :=
    cut_name U t 'D' "eleterRepository".data ht (by decide) (Or.inr (by decide))
  have s5 : (strings.Split (U :: t) "(".data).headD [] = U :: t :=
    cut_name U t '(' [] ht (by decide) (Or.inl hp)
  show (strings.Split ((strings.Split ((strings.Split ((strings.Split ((strings.Split
    ((U :: t) ++ "CreatorRepository(db, cache)".data) "FinderRepository".data).headD [])
    "CreatorRepository".data).headD []) "UpdaterRepository".data).headD [])
    "DeleterRepository".data).headD []) "(".data).headD [] = U :: t
  rw [s1, s2, s3, s4, s5]

theorem repoCuts_updater (U : Char) (t : Str) (ht : ∀ c ∈ t, c.isLower = true)
    (hU : U.isUpper = true) :
    [ "FinderRepository".data, "CreatorRepository".data, "UpdaterRepository".data,
      "DeleterRepository".data, "(".data ].foldl
        (fun repoPart suffix => (strings.Split repoPart suffix).headD [])
        ((U :: t) ++ "UpdaterRepository(db, cache)".data) = U :: t := by
  have hp : '(' ≠ U := fun e => by rw [← e] at hU; exact absurd hU (by decide)
  have s1 : (strings.Split ((U :: t) ++ "UpdaterRepository(db, cache)".data)
      "FinderRepository".data).headD [] = (U :: t) ++ "UpdaterRepository(db, cache)".data :=
    cut_none U t "UpdaterRepository(db, cache)".data 'F' "inderRepository".data ht (by decide)
      (Or.inr (by decide)) (by decide)
  have s2 : (strings.Split ((U :: t) ++ "UpdaterRepository(db, cache)".data)
      "CreatorRepository".data).headD [] = (U :: t) ++ "UpdaterRepository(db, cache)".data :=
    cut_none U t "UpdaterRepository(db, cache)".data 'C' "reatorRepository".data ht (by decide)
      (Or.inr (by decide)) (by decide)
  have s3 : (strings.Split ((U :: t) ++ "UpdaterRepository(db, cache)".data)
      "UpdaterRepository".data).headD [] = U :: t :=
    cut_first U t "(db, cache)".data 'U' "pdaterRepository".data ht (by decide)
      (Or.inr (by decide))
  have s4 : (strings.Split (U :: t) "DeleterRepository".data).headD [] = U :: t :=
    cut_name U t 'D' "eleterRepository".data ht (by decide) (Or.inr (by decide))
  have s5 : (strings.Split (U :: t) "(".data).headD [] = U :: t :=
    cut_name U t '(' [] ht (by decide) (Or.inl hp)
  show (strings.Split ((strings.Split ((strings.Split ((strings.Split ((strings.Split
    ((U :: t) ++ "UpdaterRepository(db, cache)".data) "FinderRepository".data).headD [])
    "CreatorRepository".data).headD []) "UpdaterRepository".data).headD [])
    "DeleterRepository".data).headD []) "(".data).headD [] = U :: t
  rw [s1, s2, s3, s4, s5]

theorem repoCuts_deleter (U : Char) (t : Str) (ht : ∀ c ∈ t, c.isLower = true)
    (hU : U.isUpper = true) :
    [ "FinderRepository".data, "CreatorRepository".data, "UpdaterRepository".data,
      "DeleterRepository".data, "(".data ].foldl
        (fun repoPart suffix => (strings.Split repoPart suffix).headD [])
        ((U :: t) ++ "DeleterRepository(db, cache)".data) = U :: t := by
  have hp : '(' ≠ U := fun e => by rw [← e] at hU; exact absurd hU (by decide)
  have s1 : (strings.Split ((U :: t) ++ "DeleterRepository(db, cache)".data)
      "FinderRepository".data).headD [] = (U :: t) ++ "DeleterRepository(db, cache)".data :=
    cut_none U t "DeleterRepository(db, cache)".data 'F' "inderRepository".data ht (by decide)
      (Or.inr (by decide)) (by decide)
  have s2 : (strings.Split ((U :: t) ++ "DeleterRepository(db, cache)".data)
      "CreatorRepository".data).headD [] = (U :: t) ++ "DeleterRepository(db, cache)".data :=
    cut_none U t "DeleterRepository(db, cache)".data 'C' "reatorRepository".data ht (by decide)
      (Or.inr (by decide)) (by decide)
  have s3 : (strings.Split ((U :: t) ++ "DeleterRepository(db, cache)".data)
      "UpdaterRepository".data).headD [] = (U :: t) ++ "DeleterRepository(db, cache)".data :=
    cut_none U t "DeleterRepository(db, cache)".data 'U' "pdaterRepository".data ht (by decide)
      (Or.inr (by decide)) (by decide)
  have s4 : (strings.Split ((U :: t) ++ "DeleterRepository(db, cache)".data)
      "DeleterRepository".data).headD [] = U :: t :=
    cut_first U t "(db, cache)".data 'D' "eleterRepository".data ht (by decide)
      (Or.inr (by decide))
  have s5 : (strings.Split (U :: t) "(".data).headD [] = U :: t :=
    cut_name U t '(' [] ht (by decide) (Or.inl hp)
  show (strings.Split ((strings.Split ((strings.Split ((strings.Split ((strings.Split
    ((U :: t) ++ "DeleterRepository(db, cache)".data) "FinderRepository".data).headD [])
    "CreatorRepository".data).headD []) "UpdaterRepository".data).headD [])
    "DeleterRepository".data).headD []) "(".data).headD [] = U :: t
  rw [s1, s2, s3, s4, s5]
theorem repoCuts (U : Char) (t M : Str) (ht : ∀ c ∈ t, c.isLower = true)
    (hU : U.isUpper = true) (hM : M ∈ routeMethods) :
    [ "FinderRepository".data, "CreatorRepository".data, "UpdaterRepository".data,
      "DeleterRepository".data, "(".data ].foldl
        (fun repoPart suffix => (strings.Split repoPart suffix).headD [])
        ((U :: t) ++ (M ++ "Repository(db, cache)".data)) = U :: t := by
  simp only [routeMethods, List.mem_cons, List.mem_singleton, List.not_mem_nil, or_false] at hM
  rcases hM with h | h | h | h <;> subst h
  · exact repoCuts_finder U t ht hU
  · exact repoCuts_creator U t ht hU
  · exact repoCuts_updater U t ht hU
  · exact repoCuts_deleter U t ht hU

theorem not_mem_routeMethod (c : Char) (M : Str) (hM : M ∈ routeMethods)
    (hc : c ∉ "FinderCreatorUpdaterDeleter".data) : c ∉ M := by
  simp only [routeMethods, List.mem_cons, List.mem_singleton, List.not_mem_nil, or_false] at hM
  intro hm
  apply hc
  rcases hM with h | h | h | h <;> subst h <;> revert hm <;> simp <;> tauto

theorem extractEntityFromRepoLine_repoLine (e : Str) (U : Char) (t M : Str)
    (hlow : ∀ c ∈ e, c.isLower = true) (ht : ∀ c ∈ t, c.isLower = true)
    (hU : U.isUpper = true) (hD : strings.ToLower (U :: t) = e) (hM : M ∈ routeMethods) :
    extractEntityFromRepoLine
      ((e ++ (M ++ "Repo := ".data)) ++ ("repository.New".data ++
        ((U :: t) ++ (M ++ "Repository(db, cache)".data)))) = e := by
  have hdotM : '.' ∉ M := not_mem_routeMethod '.' M hM (by decide)
  have hdote : '.' ∉ e := not_mem_of_isLower '.' e hlow (by decide)
  have hdott : '.' ∉ t := not_mem_of_isLower '.' t ht (by decide)
  have hdotU : '.' ≠ U := fun h => by rw [← h] at hU; exact absurd hU (by decide)
  have ha : '.' ∉ e ++ (M ++ "Repo := ".data) := by
    simp only [List.mem_append, not_or]
    exact ⟨hdote, hdotM, by decide⟩
  have hb : '.' ∉ (U :: t) ++ (M ++ "Repository(db, cache)".data) := by
    simp only [List.mem_append, List.mem_cons, not_or]
    exact ⟨⟨hdotU, hdott⟩, hdotM, by decide⟩
  have hsplit : strings.Split
      ((e ++ (M ++ "Repo := ".data)) ++ ("repository.New".data ++
        ((U :: t) ++ (M ++ "Repository(db, cache)".data)))) "repository.New".data
      = [e ++ (M ++ "Repo := ".data), (U :: t) ++ (M ++ "Repository(db, cache)".data)] := by
    have h1 : strings.Split
        ((e ++ (M ++ "Repo := ".data)) ++ ("repository.New".data ++
          ((U :: t) ++ (M ++ "Repository(db, cache)".data)))) "repository.New".data
        = (e ++ (M ++ "Repo := ".data)) :: strings.Split
            ((U :: t) ++ (M ++ "Repository(db, cache)".data)) "repository.New".data :=
      split_first_char "repository".data "New".data (e ++ (M ++ "Repo := ".data))
        ((U :: t) ++ (M ++ "Repository(db, cache)".data)) '.' ha (by decide)
    have h2 := split_none_of_not_mem "repository.New".data
      ((U :: t) ++ (M ++ "Repository(db, cache)".data)) '.' (by decide) hb
    rw [h2] at h1
    exact h1
  have hc : strings.Contains
      ((e ++ (M ++ "Repo := ".data)) ++ ("repository.New".data ++
        ((U :: t) ++ (M ++ "Repository(db, cache)".data)))) "repository.New".data = true := by
    rw [← List.append_assoc]
    exact contains_middle _ _ _
  unfold extractEntityFromRepoLine
  rw [if_pos hc]
  dsimp only
  rw [hsplit, if_pos (by simp)]
  have hg : [e ++ (M ++ "Repo := ".data),
      (U :: t) ++ (M ++ "Repository(db, cache)".data)].getD 1 []
      = (U :: t) ++ (M ++ "Repository(db, cache)".data) := rfl
  rw [hg, repoCuts U t M ht hU hM, hD]
theorem repoLineEntity_repoLine (e : Str) (U : Char) (t M : Str) (hne : e ≠ [])
    (hlow : ∀ c ∈ e, c.isLower = true) (ht : ∀ c ∈ t, c.isLower = true)
    (hU : U.isUpper = true) (hD : strings.ToLower (U :: t) = e) (hM : M ∈ routeMethods) :
    repoLineEntity
      ("\t".data ++ ((e ++ (M ++ "Repo := ".data)) ++ ("repository.New".data ++
        ((U :: t) ++ (M ++ "Repository(db, cache)".data))))) = some e := by
  obtain ⟨e0, e', rfl⟩ := List.exists_cons_of_ne_nil hne
  have htrim := trimSpace_tab
    (((e0 :: e') ++ (M ++ "Repo := ".data)) ++ ("repository.New".data ++
      ((U :: t) ++ (M ++ "Repository(db, cache)".data)))) e0 ')'
    ((e' ++ (M ++ "Repo := ".data)) ++ ("repository.New".data ++
      ((U :: t) ++ (M ++ "Repository(db, cache)".data))))
    (((e0 :: e') ++ (M ++ "Repo := ".data)) ++ ("repository.New".data ++
      ((U :: t) ++ (M ++ "Repository(db, cache".data))))
    rfl
    (by
      have hl : "Repository(db, cache)".data = "Repository(db, cache".data ++ [')'] := rfl
      rw [hl]
      simp only [List.append_assoc])
    (isSpace_of_isLower e0 (hlow e0 (by simp))) (by decide)
  have hc1 : strings.Contains
      (((e0 :: e') ++ (M ++ "Repo := ".data)) ++ ("repository.New".data ++
        ((U :: t) ++ (M ++ "Repository(db, cache)".data)))) "Repo :=".data = true := by
    have hl : "Repo := ".data = "Repo :=".data ++ " ".data := rfl
    have : ((e0 :: e') ++ (M ++ "Repo := ".data)) ++ ("repository.New".data ++
        ((U :: t) ++ (M ++ "Repository(db, cache)".data)))
        = ((e0 :: e') ++ M) ++ "Repo :=".data ++ (" ".data ++ ("repository.New".data ++
          ((U :: t) ++ (M ++ "Repository(db, cache)".data)))) := by
      rw [hl]
      simp only [List.append_assoc]
    rw [this]
    exact contains_middle _ _ _
  have hc2 : strings.Contains
      (((e0 :: e') ++ (M ++ "Repo := ".data)) ++ ("repository.New".data ++
        ((U :: t) ++ (M ++ "Repository(db, cache)".data)))) "repository.New".data = true := by
    rw [← List.append_assoc]
    exact contains_middle _ _ _
  unfold repoLineEntity
  dsimp only
  rw [htrim, hc1, hc2, if_pos (by rfl),
    extractEntityFromRepoLine_repoLine _ U t M hlow ht hU hD hM, if_pos (by simp)]

theorem repoLineEntity_of_no_colon (line : Str) (h : ':' ∉ line) :
    repoLineEntity line = none := by
  have hc : strings.Contains (strings.TrimSpace line) "Repo :=".data = false :=
    contains_false_of_not_mem _ _ ':' (by decide)
      (fun hm => h (mem_of_mem_trimSpace _ _ hm))
  unfold repoLineEntity
  dsimp only
  rw [hc, if_neg (by simp)]

theorem repoLineEntity_serviceLine (e pre b : Str) (hne : e ≠ [])
    (hlow : ∀ c ∈ e, c.isLower = true) (hpre : '=' ∉ pre) (hb : '=' ∉ b) :
    repoLineEntity
      ("\t".data ++ (((e ++ pre) ++ "rSvc :".data) ++ '=' :: (b ++ [')']))) = none := by
  obtain ⟨e0, e', rfl⟩ := List.exists_cons_of_ne_nil hne
  have htrim := trimSpace_tab
    ((((e0 :: e') ++ pre) ++ "rSvc :".data) ++ '=' :: (b ++ [')'])) e0 ')'
    (((e' ++ pre) ++ "rSvc :".data) ++ '=' :: (b ++ [')']))
    ((((e0 :: e') ++ pre) ++ "rSvc :".data) ++ '=' :: b)
    rfl (by simp) (isSpace_of_isLower e0 (hlow e0 (by simp))) (by decide)
  have hc : strings.Contains
      ((((e0 :: e') ++ pre) ++ "rSvc :".data) ++ '=' :: (b ++ [')'])) "Repo :=".data
      = false :=
    contains_false_of_unique "Repo :".data [] ((e0 :: e') ++ pre) "rSvc :".data (b ++ [')']) '='
      (by
        simp only [List.mem_append, not_or]
        exact ⟨not_mem_of_isLower '=' _ hlow (by decide), hpre⟩)
      (by decide)
      (by
        simp only [List.mem_append, List.mem_singleton, not_or]
        exact ⟨hb, by decide⟩)
      rfl (by decide)
  unfold repoLineEntity
  dsimp only
  rw [htrim, hc, if_neg (by simp)]
theorem filterMap_repoLineEntity_wiringLines (e : Str) (hne : e ≠ [])
    (hlow : ∀ c ∈ e, c.isLower = true) (ha : e ∉ acronyms) :
    (wiringLines e).filterMap repoLineEntity = [e, e, e, e] := by
  obtain ⟨U, t, hD, _, hU, ht, hL, _⟩ := toPascalCase_lower e hne hlow ha
  have hce : ':' ∉ e := not_mem_of_isLower ':' e hlow (by decide)
  have hct : ':' ∉ t := not_mem_of_isLower ':' t ht (by decide)
  have hcU : ¬ ':' = U := fun h => by rw [← h] at hU; exact absurd hU (by decide)
  have hee : '=' ∉ e := not_mem_of_isLower '=' e hlow (by decide)
  have het : '=' ∉ t := not_mem_of_isLower '=' t ht (by decide)
  have heU : ¬ '=' = U := fun h => by rw [← h] at hU; exact absurd hU (by decide)
  have c1 : repoLineEntity ("\t// ".data ++ toPascalCase e ++ " Repository".data) = none :=
    repoLineEntity_of_no_colon _ (by rw [hD]; simp [hct, hcU])
  have c2 : repoLineEntity ("\t// ".data ++ toPascalCase e ++ " Service".data) = none :=
    repoLineEntity_of_no_colon _ (by rw [hD]; simp [hct, hcU])
  have c0 : repoLineEntity "".data = none := by decide
  have r1 : repoLineEntity ("\t".data ++ e ++ "FinderRepo := repository.New".data ++
      toPascalCase e ++ "FinderRepository(db, cache)".data) = some e := by
    have h := repoLineEntity_repoLine e U t "Finder".data hne hlow ht hU hL (by decide)
    refine Eq.trans (congrArg repoLineEntity ?_) h
    rw [hD]
    simp
  have r2 : repoLineEntity ("\t".data ++ e ++ "CreatorRepo := repository.New".data ++
      toPascalCase e ++ "CreatorRepository(db, cache)".data) = some e := by
    have h := repoLineEntity_repoLine e U t "Creator".data hne hlow ht hU hL (by decide)
    refine Eq.trans (congrArg repoLineEntity ?_) h
    rw [hD]
    simp
  have r3 : repoLineEntity ("\t".data ++ e ++ "UpdaterRepo := repository.New".data ++
      toPascalCase e ++ "UpdaterRepository(db, cache)".data) = some e := by
    have h := repoLineEntity_repoLine e U t "Updater".data hne hlow ht hU hL (by decide)
    refine Eq.trans (congrArg repoLineEntity ?_) h
    rw [hD]
    simp
  have r4 : repoLineEntity ("\t".data ++ e ++ "DeleterRepo := repository.New".data ++
      toPascalCase e ++ "DeleterRepository(db, cache)".data) = some e := by
    have h := repoLineEntity_repoLine e U t "Deleter".data hne hlow ht hU hL (by decide)
    refine Eq.trans (congrArg repoLineEntity ?_) h
    rw [hD]
    simp
  have s1 : repoLineEntity ("\t".data ++ e ++ "CreatorSvc := service.New".data ++
      toPascalCase e ++ "Creator(cfg, ".data ++ e ++ "CreatorRepo, ".data ++ e ++
      "FinderRepo, ".data ++ e ++ "UpdaterRepo, cloudStorage)".data) = none := by
    have h := repoLineEntity_serviceLine e "Creato".data
      (" service.New".data ++ (U :: t) ++ "Creator(cfg, ".data ++ e ++ "CreatorRepo, ".data ++
        e ++ "FinderRepo, ".data ++ e ++ "UpdaterRepo, cloudStorage".data) hne hlow (by decide)
      (by simp [hee, het, heU])
    refine Eq.trans (congrArg repoLineEntity ?_) h
    rw [hD]
    simp
  have s2 : repoLineEntity ("\t".data ++ e ++ "FinderSvc := service.New".data ++
      toPascalCase e ++ "Finder(cfg, ".data ++ e ++ "FinderRepo, cloudStorage)".data) = none := by
    have h := repoLineEntity_serviceLine e "Finde".data
      (" service.New".data ++ (U :: t) ++ "Finder(cfg, ".data ++ e ++
        "FinderRepo, cloudStorage".data) hne hlow (by decide)
      (by simp [hee, het, heU])
    refine Eq.trans (congrArg repoLineEntity ?_) h
    rw [hD]
    simp
  have s3 : repoLineEntity ("\t".data ++ e ++ "UpdaterSvc := service.New".data ++
      toPascalCase e ++ "Updater(cfg, ".data ++ e ++ "FinderRepo, ".data ++ e ++
      "UpdaterRepo, cloudStorage)".data) = none := by
    have h := repoLineEntity_serviceLine e "Update".data
      (" service.New".data ++ (U :: t) ++ "Updater(cfg, ".data ++ e ++ "FinderRepo, ".data ++
        e ++ "UpdaterRepo, cloudStorage".data) hne hlow (by decide)
      (by simp [hee, het, heU])
    refine Eq.trans (congrArg repoLineEntity ?_) h
    rw [hD]
    simp
  have s4 : repoLineEntity ("\t".data ++ e ++ "DeleterSvc := service.New".data ++
      toPascalCase e ++ "Deleter(cfg, ".data ++ e ++ "DeleterRepo, cloudStorage)".data) = none := by
    have h := repoLineEntity_serviceLine e "Delete".data
      (" service.New".data ++ (U :: t) ++ "Deleter(cfg, ".data ++ e ++
        "DeleterRepo, cloudStorage".data) hne hlow (by decide)
      (by simp [hee, het, heU])
    refine Eq.trans (congrArg repoLineEntity ?_) h
    rw [hD]
    simp
  unfold wiringLines
  dsimp only
  rw [List.filterMap_cons_none c1, List.filterMap_cons_some r1, List.filterMap_cons_some r2,
    List.filterMap_cons_some r3, List.filterMap_cons_some r4, List.filterMap_cons_none c0,
    List.filterMap_cons_none c2, List.filterMap_cons_none s1, List.filterMap_cons_none s2,
    List.filterMap_cons_none s3, List.filterMap_cons_none s4, List.filterMap_cons_none c0,
    List.filterMap_nil]

theorem filterMap_repoLineEntity_wiringLines_acronym :
    ∀ e ∈ acronyms, (wiringLines e).filterMap repoLineEntity = [e, e, e, e] := by
  decide!

theorem dedupFirst_four (e : Str) : dedupFirst [e, e, e, e] = [e] := by
  simp [dedupFirst]

theorem extractExistingTables_wiring (module version e : Str) (hne : e ≠ [])
    (hlow : ∀ c ∈ e, c.isLower = true) :
    extractExistingTables (generateIncrementalBuilderCode module version [e]) = [e] := by
  have hnl : ∀ x ∈ [e], '\n' ∉ x := by
    intro x hx
    rw [List.mem_singleton] at hx
    rw [hx]
    exact not_mem_of_isLower '\n' e hlow (by decide)
  have hw : (wiringLines e).filterMap repoLineEntity = [e, e, e, e] := by
    by_cases ha : e ∈ acronyms
    · exact filterMap_repoLineEntity_wiringLines_acronym e ha
    · exact filterMap_repoLineEntity_wiringLines e hne hlow ha
  have h0 : repoLineEntity "".data = none := by decide
  rw [extractExistingTables_eq, split_generateIncrementalBuilderCode module version [e] hnl,
    List.filterMap_append, List.filterMap_append, List.flatMap_singleton, hw,
    List.filterMap_cons_none h0, List.filterMap_nil, List.nil_append, List.append_nil,
    dedupFirst_four]

/-! ## Lemmas on reading the entity back from a handler declaration -/

theorem handlerCuts_finder (U : Char) (t b : Str) (ht : ∀ c ∈ t, c.isLower = true)
    (hU : U.isUpper = true) :
    [ "FinderHandler".data, "CreatorHandler".data, "UpdaterHandler".data,
      "DeleterHandler".data, "(".data ].foldl
        (fun handlerPart suffix => (strings.Split handlerPart suffix).headD [])
        ((U :: t) ++ ("FinderHandler".data ++ b)) = U :: t := by
  have hp : '(' ≠ U := fun e => by rw [← e] at hU; exact absurd hU (by decide)
  have s1 : (strings.Split ((U :: t) ++ ("FinderHandler".data ++ b))
      "FinderHandler".data).headD [] = U :: t :=
    cut_first U t b 'F' "inderHandler".data ht (by decide)
      (Or.inr (by rw [overlapFree_append _ _ _ (by decide)]; decide))
  have s2 : (strings.Split (U :: t) "CreatorHandler".data).headD [] = U :: t :=
    cut_name U t 'C' "reatorHandler".data ht (by decide) (Or.inr (by decide))
  have s3 : (strings.Split (U :: t) "UpdaterHandler".data).headD [] = U :: t :=
    cut_name U t 'U' "pdaterHandler".data ht (by decide) (Or.inr (by decide))
  have s4 : (strings.Split (U :: t) "DeleterHandler".data).headD [] = U :: t :=
    cut_name U t 'D' "eleterHandler".data ht (by decide) (Or.inr (by decide))
  have s5 : (strings.Split (U :: t) "(".data).headD [] = U :: t :=
    cut_name U t '(' [] ht (by decide) (Or.inl hp)
  show (strings.Split ((strings.Split ((strings.Split ((strings.Split ((strings.Split
    ((U :: t) ++ ("FinderHandler".data ++ b)) "FinderHandler".data).headD [])
    "CreatorHandler".data).headD []) "UpdaterHandler".data).headD [])
    "DeleterHandler".data).headD []) "(".data).headD [] = U :: t
  rw [s1, s2, s3, s4, s5]

theorem handlerCuts_creator (U : Char) (t b : Str) (ht : ∀ c ∈ t, c.isLower = true)
    (hU : U.isUpper = true) (nF : 'F' ∉ b) :
    [ "FinderHandler".data, "CreatorHandler".data, "UpdaterHandler".data,
      "DeleterHandler".data, "(".data ].foldl
        (fun handlerPart suffix => (strings.Split handlerPart suffix).headD [])
        ((U :: t) ++ ("CreatorHandler".data ++ b)) = U :: t := by
  have hp : '(' ≠ U := fun e => by rw [← e] at hU; exact absurd hU (by decide)
  have s1 : (strings.Split ((U :: t) ++ ("CreatorHandler".data ++ b))
      "FinderHandler".data).headD [] = (U :: t) ++ ("CreatorHandler".data ++ b) :=
    cut_none U t ("CreatorHandler".data ++ b) 'F' "inderHandler".data ht (by decide)
      (Or.inr (by rw [overlapFree_append _ _ _ (by decide)]; decide))
      (contains_false_of_not_mem _ _ 'F' (by decide)
        (by rw [List.mem_append, not_or]; exact ⟨by decide, nF⟩))
  have s2 : (strings.Split ((U :: t) ++ ("CreatorHandler".data ++ b))
      "CreatorHandler".data).headD [] = U :: t :=
    cut_first U t b 'C' "reatorHandler".data ht (by decide)
      (Or.inr (by rw [overlapFree_append _ _ _ (by decide)]; decide))
  have s3 : (strings.Split (U :: t) "UpdaterHandler".data).headD [] = U :: t :=
    cut_name U t 'U' "pdaterHandler".data ht (by decide) (Or.inr (by decide))
  have s4 : (strings.Split (U :: t) "DeleterHandler".data).headD [] = U :: t :=
    cut_name U t 'D' "eleterHandler".data ht (by decide) (Or.inr (by decide))
  have s5 : (strings.Split (U :: t) "(".data).headD [] = U :: t :=
    cut_name U t '(' [] ht (by decide) (Or.inl hp)
  show (strings.Split ((strings.Split ((strings.Split ((strings.Split ((strings.Split
    ((U :: t) ++ ("CreatorHandler".data ++ b)) "FinderHandler".data).headD [])
    "CreatorHandler".data).headD []) "UpdaterHandler".data).headD [])
    "DeleterHandler".data).headD []) "(".data).headD [] = U :: t
  rw [s1, s2, s3, s4, s5]

theorem handlerCuts_updater (U : Char) (t b : Str) (ht : ∀ c ∈ t, c.isLower = true)
    (hU : U.isUpper = true) (nF : 'F' ∉ b) (nC : 'C' ∉ b) :
    [ "FinderHandler".data, "CreatorHandler".data, "UpdaterHandler".data,
      "DeleterHandler".data, "(".data ].foldl
        (fun handlerPart suffix => (strings.Split handlerPart suffix).headD [])
        ((U :: t) ++ ("UpdaterHandler".data ++ b)) = U :: t := by
  have hp : '(' ≠ U := fun e => by rw [← e] at hU; exact absurd hU (by decide)
  have s1 : (strings.Split ((U :: t) ++ ("UpdaterHandler".data ++ b))
      "FinderHandler".data).headD [] = (U :: t) ++ ("UpdaterHandler".data ++ b) :=
    cut_none U t ("UpdaterHandler".data ++ b) 'F' "inderHandler".data ht (by decide)
      (Or.inr (by rw [overlapFree_append _ _ _ (by decide)]; decide))
      (contains_false_of_not_mem _ _ 'F' (by decide)
        (by rw [List.mem_append, not_or]; exact ⟨by decide, nF⟩))
  have s2 : (strings.Split ((U :: t) ++ ("UpdaterHandler".data ++ b))
      "CreatorHandler".data).headD [] = (U :: t) ++ ("UpdaterHandler".data ++ b) :=
    cut_none U t ("UpdaterHandler".data ++ b) 'C' "reatorHandler".data ht (by decide)
      (Or.inr (by rw [overlapFree_append _ _ _ (by decide)]; decide))
      (contains_false_of_not_mem _ _ 'C' (by decide)
        (by rw [List.mem_append, not_or]; exact ⟨by decide, nC⟩))
  have s3 : (strings.Split ((U :: t) ++ ("UpdaterHandler".data ++ b))
      "UpdaterHandler".data).headD [] = U :: t :=
    cut_first U t b 'U' "pdaterHandler".data ht (by decide)
      (Or.inr (by rw [overlapFree_append _ _ _ (by decide)]; decide))
  have s4 : (strings.Split (U :: t) "DeleterHandler".data).headD [] = U :: t :=
    cut_name U t 'D' "eleterHandler".data ht (by decide) (Or.inr (by decide))
  have s5 : (strings.Split (U :: t) "(".data).headD [] = U :: t :=
    cut_name U t '(' [] ht (by decide) (Or.inl hp)
  show (strings.Split ((strings.Split ((strings.Split ((strings.Split ((strings.Split
    ((U :: t) ++ ("UpdaterHandler".data ++ b)) "FinderHandler".data).headD [])
    "CreatorHandler".data).headD []) "UpdaterHandler".data).headD [])
    "DeleterHandler".data).headD []) "(".data).headD [] = U :: t
  rw [s1, s2, s3, s4, s5]

theorem handlerCuts_deleter (U : Char) (t b : Str) (ht : ∀ c ∈ t, c.isLower = true)
    (hU : U.isUpper = true) (nF : 'F' ∉ b) (nC : 'C' ∉ b) (nU : 'U' ∉ b) :
    [ "FinderHandler".data, "CreatorHandler".data, "UpdaterHandler".data,
      "DeleterHandler".data, "(".data ].foldl
        (fun handlerPart suffix => (strings.Split handlerPart suffix).headD [])
        ((U :: t) ++ ("DeleterHandler".data ++ b)) = U :: t := by
  have hp : '(' ≠ U := fun e => by rw [← e] at hU; exact absurd hU (by decide)
  have s1 : (strings.Split ((U :: t) ++ ("DeleterHandler".data ++ b))
      "FinderHandler".data).headD [] = (U :: t) ++ ("DeleterHandler".data ++ b) :=
    cut_none U t ("DeleterHandler".data ++ b) 'F' "inderHandler".data ht (by decide)
      (Or.inr (by rw [overlapFree_append _ _ _ (by decide)]; decide))
      (contains_false_of_not_mem _ _ 'F' (by decide)
        (by rw [List.mem_append, not_or]; exact ⟨by decide, nF⟩))
  have s2 : (strings.Split ((U :: t) ++ ("DeleterHandler".data ++ b))
      "CreatorHandler".data).headD [] = (U :: t) ++ ("DeleterHandler".data ++ b) :=
    cut_none U t ("DeleterHandler".data ++ b) 'C' "reatorHandler".data ht (by decide)
      (Or.inr (by rw [overlapFree_append _ _ _ (by decide)]; decide))
      (contains_false_of_not_mem _ _ 'C' (by decide)
        (by rw [List.mem_append, not_or]; exact ⟨by decide, nC⟩))
  have s3 : (strings.Split ((U :: t) ++ ("DeleterHandler".data ++ b))
      "UpdaterHandler".data).headD [] = (U :: t) ++ ("DeleterHandler".data ++ b) :=
    cut_none U t ("DeleterHandler".data ++ b) 'U' "pdaterHandler".data ht (by decide)
      (Or.inr (by rw [overlapFree_append _ _ _ (by decide)]; decide))
      (contains_false_of_not_mem _ _ 'U' (by decide)
        (by rw [List.mem_append, not_or]; exact ⟨by decide, nU⟩))
  have s4 : (strings.Split ((U :: t) ++ ("DeleterHandler".data ++ b))
      "DeleterHandler".data).headD [] = U :: t :=
    cut_first U t b 'D' "eleterHandler".data ht (by decide)
      (Or.inr (by rw [overlapFree_append _ _ _ (by decide)]; decide))
  have s5 : (strings.Split (U :: t) "(".data).headD [] = U :: t :=
    cut_name U t '(' [] ht (by decide) (Or.inl hp)
  show (strings.Split ((strings.Split ((strings.Split ((strings.Split ((strings.Split
    ((U :: t) ++ ("DeleterHandler".data ++ b)) "FinderHandler".data).headD [])
    "CreatorHandler".data).headD []) "UpdaterHandler".data).headD [])
    "DeleterHandler".data).headD []) "(".data).headD [] = U :: t
  rw [s1, s2, s3, s4, s5]

theorem scanRoutesLine_none (acc : List Str) (l : Str) (hl : lineEntity l = none) :
    scanRoutesLine acc l = acc := by
  unfold lineEntity at hl
  unfold scanRoutesLine
  simp only at hl ⊢
  by_cases hc : (strings.Contains (strings.TrimSpace l) "Hnd :=".data &&
      strings.Contains (strings.TrimSpace l) "handlerv1.New".data) = true
  · rw [if_pos hc] at hl ⊢
    by_cases hne : extractEntityFromHandlerLine (strings.TrimSpace l) = []
    · simp [hne]
    · rw [if_pos hne] at hl
      exact absurd hl (by simp)
  · rw [if_neg hc]

theorem scanRoutesLine_some (acc : List Str) (l e : Str) (hl : lineEntity l = some e) :
    scanRoutesLine acc l = if e ∈ acc then acc else acc ++ [e] := by
  unfold lineEntity at hl
  unfold scanRoutesLine
  simp only at hl ⊢
  by_cases hc : (strings.Contains (strings.TrimSpace l) "Hnd :=".data &&
      strings.Contains (strings.TrimSpace l) "handlerv1.New".data) = true
  · rw [if_pos hc] at hl ⊢
    by_cases hne : extractEntityFromHandlerLine (strings.TrimSpace l) = []
    · rw [if_neg (by simpa using hne)] at hl
      exact absurd hl (by simp)
    · rw [if_pos hne] at hl
      have he : extractEntityFromHandlerLine (strings.TrimSpace l) = e := by simpa using hl
      rw [he]
      have he2 : e ≠ [] := he ▸ hne
      by_cases hm : e ∈ acc
      · have := (contains_iff_mem acc e).2 hm
        simp [this, hm]
      · have : contains acc e = false := by
          cases h : contains acc e with
          | false => rfl
          | true => exact absurd ((contains_iff_mem acc e).1 h) hm
        simp [this, hm, he2]
  · rw [if_neg hc] at hl
    exact absurd hl (by simp)

theorem foldl_scanRoutesLine_eq (lines : List Str) (acc : List Str) :
    lines.foldl scanRoutesLine acc
      = acc ++ (dedupFirst (lines.filterMap lineEntity)).filter (fun b => decide (b ∉ acc)) := by
  induction lines generalizing acc with
  | nil => simp [dedupFirst]
  | cons l ls ih =>
    rw [List.foldl_cons, ih]
    cases hl : lineEntity l with
    | none => rw [scanRoutesLine_none acc l hl, List.filterMap_cons, hl]
    | some e =>
      rw [scanRoutesLine_some acc l e hl, List.filterMap_cons, hl]
      simp only [dedupFirst]
      by_cases hm : e ∈ acc
      · rw [if_pos hm, List.filter_cons_of_neg (by simpa using hm), List.filter_filter]
        congr 1
        apply List.filter_congr
        intro b _
        by_cases hb : b ∈ acc
        · simp [hb]
        · have : b ≠ e := fun h => hb (h ▸ hm)
          simp [hb, this]
      · rw [if_neg hm, List.filter_cons_of_pos (by simpa using hm), List.filter_filter,
          List.append_assoc, List.singleton_append]
        congr 2
        apply List.filter_congr
        intro b _
        simp only [List.mem_append, List.mem_singleton, not_or, Bool.decide_and, ne_eq,
          Bool.and_comm]

theorem extractExistingRoutesTables_eq (content : Str) :
    extractExistingRoutesTables content
      = dedupFirst ((strings.Split content "\n".data).filterMap lineEntity) := by
  unfold extractExistingRoutesTables
  rw [foldl_scanRoutesLine_eq]
  simp

theorem extractEntityFromHandlerLine_line (a N R : Str) (ha : '.' ∉ a)
    (hN : '1' ∉ N) (hR : '1' ∉ R)
    (hcut : [ "FinderHandler".data, "CreatorHandler".data, "UpdaterHandler".data,
      "DeleterHandler".data, "(".data ].foldl
        (fun handlerPart suffix => (strings.Split handlerPart suffix).headD [])
        (N ++ R) = N) :
    extractEntityFromHandlerLine (a ++ ("handlerv1.New".data ++ (N ++ R)))
      = strings.ToLower N := by
  have hb : '1' ∉ N ++ R := by
    simp only [List.mem_append, not_or]
    exact ⟨hN, hR⟩
  have hsplit : strings.Split (a ++ ("handlerv1.New".data ++ (N ++ R)))
      "handlerv1.New".data = [a, N ++ R] := by
    have h1 : strings.Split (a ++ ("handlerv1.New".data ++ (N ++ R)))
        "handlerv1.New".data
        = a :: strings.Split (N ++ R) "handlerv1.New".data :=
      split_first_char "handlerv1".data "New".data a (N ++ R) '.' ha (by decide)
    have h2 := split_none_of_not_mem "handlerv1.New".data (N ++ R) '1' (by decide) hb
    rw [h2] at h1
    exact h1
  have hc : strings.Contains (a ++ ("handlerv1.New".data ++ (N ++ R)))
      "handlerv1.New".data = true := by
    rw [← List.append_assoc]
    exact contains_middle _ _ _
  unfold extractEntityFromHandlerLine
  rw [if_pos hc]
  dsimp only
  rw [hsplit, if_pos (by simp)]
  have hg : [a, N ++ R].getD 1 [] = N ++ R := rfl
  rw [hg, hcut]

theorem lineEntity_declaration (e m N R : Str) (hne : e ≠ [])
    (hlow : ∀ c ∈ e, c.isLower = true) (hm : '.' ∉ m) (hN : '1' ∉ N)
    (hD : strings.ToLower N = e) (hR : '1' ∉ R)
    (hcut : [ "FinderHandler".data, "CreatorHandler".data, "UpdaterHandler".data,
      "DeleterHandler".data, "(".data ].foldl
        (fun handlerPart suffix => (strings.Split handlerPart suffix).headD [])
        (N ++ (R ++ [')'])) = N) :
    lineEntity ("\t".data ++ ((e ++ ("Hnd := ".data ++ m)) ++
      ("handlerv1.New".data ++ (N ++ (R ++ [')']))))) = some e := by
  obtain ⟨e0, e', he⟩ := List.exists_cons_of_ne_nil hne
  have htrim := trimSpace_tab
    ((e ++ ("Hnd := ".data ++ m)) ++ ("handlerv1.New".data ++ (N ++ (R ++ [')']))))
    e0 ')'
    ((e' ++ ("Hnd := ".data ++ m)) ++ ("handlerv1.New".data ++ (N ++ (R ++ [')']))))
    ((e ++ ("Hnd := ".data ++ m)) ++ ("handlerv1.New".data ++ (N ++ R)))
    (by rw [he]; rfl) (by simp only [List.append_assoc, List.cons_append])
    (isSpace_of_isLower e0 (hlow e0 (by rw [he]; simp))) (by decide)
  have ha : '.' ∉ e ++ ("Hnd := ".data ++ m) := by
    simp only [List.mem_append, not_or]
    exact ⟨not_mem_of_isLower '.' e hlow (by decide), by decide, hm⟩
  have hR1 : '1' ∉ R ++ [')'] := by
    simp only [List.mem_append, List.mem_singleton, not_or]
    exact ⟨hR, by decide⟩
  have hc1 : strings.Contains
      ((e ++ ("Hnd := ".data ++ m)) ++ ("handlerv1.New".data ++ (N ++ (R ++ [')']))))
      "Hnd :=".data = true := by
    have hl : "Hnd := ".data = "Hnd :=".data ++ " ".data := rfl
    have : (e ++ ("Hnd := ".data ++ m)) ++ ("handlerv1.New".data ++ (N ++ (R ++ [')'])))
        = e ++ "Hnd :=".data ++ (" ".data ++ (m ++ ("handlerv1.New".data ++
          (N ++ (R ++ [')']))))) := by
      rw [hl]
      simp only [List.append_assoc]
    rw [this]
    exact contains_middle _ _ _
  have hc2 : strings.Contains
      ((e ++ ("Hnd := ".data ++ m)) ++ ("handlerv1.New".data ++ (N ++ (R ++ [')']))))
      "handlerv1.New".data = true := by
    rw [← List.append_assoc]
    exact contains_middle _ _ _
  unfold lineEntity
  dsimp only
  rw [htrim, hc1, hc2, if_pos (by rfl),
    extractEntityFromHandlerLine_line _ N _ ha hN hR1 hcut, hD, if_pos hne]

theorem handlerCuts_declaration (e : Str) (U : Char) (t M : Str)
    (hlow : ∀ c ∈ e, c.isLower = true) (ht : ∀ c ∈ t, c.isLower = true)
    (hU : U.isUpper = true) (hM : M ∈ routeMethods) :
    [ "FinderHandler".data, "CreatorHandler".data, "UpdaterHandler".data,
      "DeleterHandler".data, "(".data ].foldl
        (fun handlerPart suffix => (strings.Split handlerPart suffix).headD [])
        ((U :: t) ++ ((M ++ ("Handler(".data ++ handlerArguments M e)) ++ [')'])) = U :: t := by
  have hF : 'F' ∉ e := not_mem_of_isLower 'F' e hlow (by decide)
  have hC : 'C' ∉ e := not_mem_of_isLower 'C' e hlow (by decide)
  have hUe : 'U' ∉ e := not_mem_of_isLower 'U' e hlow (by decide)
  simp only [routeMethods, List.mem_cons, List.mem_singleton, List.not_mem_nil, or_false] at hM
  rcases hM with h | h | h | h <;> subst h
  · have heq : (U :: t) ++ (("Finder".data ++ ("Handler(".data ++
        handlerArguments "Finder".data e)) ++ [')'])
        = (U :: t) ++ ("FinderHandler".data ++ ("(h.".data ++ (e ++ "Finder)".data))) := by
      simp [handlerArguments]
    rw [heq]
    exact handlerCuts_finder U t _ ht hU
  · have heq : (U :: t) ++ (("Creator".data ++ ("Handler(".data ++
        handlerArguments "Creator".data e)) ++ [')'])
        = (U :: t) ++ ("CreatorHandler".data ++
          ("(h.".data ++ (e ++ "Creator, h.cloudStorage)".data))) := by
      simp [handlerArguments]
    rw [heq]
    exact handlerCuts_creator U t _ ht hU (by simp [hF])
  · have heq : (U :: t) ++ (("Updater".data ++ ("Handler(".data ++
        handlerArguments "Updater".data e)) ++ [')'])
        = (U :: t) ++ ("UpdaterHandler".data ++
          ("(h.".data ++ (e ++ "Updater, h.cloudStorage)".data))) := by
      simp [handlerArguments]
    rw [heq]
    exact handlerCuts_updater U t _ ht hU (by simp [hF]) (by simp [hC])
  · have heq : (U :: t) ++ (("Deleter".data ++ ("Handler(".data ++
        handlerArguments "Deleter".data e)) ++ [')'])
        = (U :: t) ++ ("DeleterHandler".data ++ ("(h.".data ++ (e ++ "Deleter)".data))) := by
      simp [handlerArguments]
    rw [heq]
    exact handlerCuts_deleter U t _ ht hU (by simp [hF]) (by simp [hC]) (by simp [hUe])

theorem declarationLine_canonical (m M e : Str) :
    declarationLine m M e = "\t".data ++ ((e ++ ("Hnd := ".data ++ m)) ++
      ("handlerv1.New".data ++ (toPascalCase e ++
        ((M ++ ("Handler(".data ++ handlerArguments M e)) ++ [')'])))) := by
  simp [declarationLine]

theorem not_mem_declaration_rest (M e : Str) (hM : M ∈ routeMethods)
    (hlow : ∀ c ∈ e, c.isLower = true) :
    '1' ∉ M ++ ("Handler(".data ++ handlerArguments M e) := by
  have h1 : '1' ∉ e := not_mem_of_isLower '1' e hlow (by decide)
  simp only [routeMethods, List.mem_cons, List.mem_singleton, List.not_mem_nil, or_false] at hM
  rcases hM with h | h | h | h <;> subst h <;> simp [handlerArguments, h1]

theorem handlerCuts_acronym :
    ∀ e ∈ acronyms, ∀ M ∈ routeMethods,
      '1' ∉ toPascalCase e ∧ strings.ToLower (toPascalCase e) = e ∧
      [ "FinderHandler".data, "CreatorHandler".data, "UpdaterHandler".data,
        "DeleterHandler".data, "(".data ].foldl
          (fun handlerPart suffix => (strings.Split handlerPart suffix).headD [])
          (toPascalCase e ++ ((M ++ ("Handler(".data ++ handlerArguments M e)) ++ [')']))
        = toPascalCase e := by
  decide!

theorem lineEntity_declarationLine (m M e : Str) (hne : e ≠ [])
    (hlow : ∀ c ∈ e, c.isLower = true) (hm : '.' ∉ m) (hM : M ∈ routeMethods) :
    lineEntity (declarationLine m M e) = some e := by
  rw [declarationLine_canonical]
  have hR := not_mem_declaration_rest M e hM hlow
  by_cases ha : e ∈ acronyms
  · obtain ⟨h1, h2, h3⟩ := handlerCuts_acronym e ha M hM
    exact lineEntity_declaration e m (toPascalCase e) _ hne hlow hm h1 h2 hR h3
  · obtain ⟨U, t, hD, _, hU, ht, hL, _⟩ := toPascalCase_lower e hne hlow ha
    rw [hD]
    have h1 : '1' ∉ U :: t := by
      simp only [List.mem_cons, not_or]
      exact ⟨fun h => by rw [← h] at hU; exact absurd hU (by decide),
        not_mem_of_isLower '1' t ht (by decide)⟩
    exact lineEntity_declaration e m (U :: t) _ hne hlow hm h1 hL hR
      (handlerCuts_declaration e U t M hlow ht hU hM)

theorem dedupFirst_replicate (e : Str) (n : Nat) :
    dedupFirst (List.replicate (n + 1) e) = [e] := by
  induction n with
  | zero => simp [dedupFirst]
  | succ n ih =>
    rw [List.replicate_succ, dedupFirst, ih]
    simp

theorem extractExistingRoutesTables_declarations (m e : Str) (Ms : List Str) (hne : e ≠ [])
    (hlow : ∀ c ∈ e, c.isLower = true) (hm : '.' ∉ m) (hnl : '\n' ∉ m) (hMs : Ms ≠ [])
    (hM : ∀ M ∈ Ms, M ∈ routeMethods) :
    extractExistingRoutesTables (Ms.flatMap (fun M => generateHandlerDeclarations m M [e]))
      = [e] := by
  have henl : '\n' ∉ e := not_mem_of_isLower '\n' e hlow (by decide)
  have h1 : Ms.flatMap (fun M => generateHandlerDeclarations m M [e])
      = (Ms.map (fun M => declarationLine m M e)).flatMap (fun l => l ++ ['\n']) := by
    rw [List.flatMap_map]
    apply List.flatMap_congr
    intro M hMm
    rw [generateHandlerDeclarations_eq m M [e] (hM M hMm)]
    simp
  have h2 : (Ms.map (fun M => declarationLine m M e)).filterMap lineEntity
      = List.replicate Ms.length e := by
    clear h1 hMs
    induction Ms with
    | nil => rfl
    | cons M Ms ih =>
      have hl : lineEntity (declarationLine m M e) = some e :=
        lineEntity_declarationLine m M e hne hlow hm (hM M (by simp))
      rw [List.map_cons, List.filterMap_cons_some hl, ih (fun M h => hM M (by simp [h])),
        List.length_cons, List.replicate_succ]
  have h0 : lineEntity "".data = none := by decide
  obtain ⟨n, hn⟩ : ∃ n, Ms.length = n + 1 := by
    cases Ms with
    | nil => exact absurd rfl hMs
    | cons a l => exact ⟨l.length, rfl⟩
  rw [extractExistingRoutesTables_eq, h1, split_terminated_nil _ (by
      intro l hl
      obtain ⟨M, hMm, rfl⟩ := List.mem_map.1 hl
      exact declarationLine_no_nl m M e (hM M hMm) hnl henl),
    List.filterMap_append, h2, List.filterMap_cons_none h0, List.filterMap_nil,
    List.append_nil, hn, dedupFirst_replicate]

/-! ## Lemmas on the insertion line of the wiring -/

theorem contains_iff_occurs (s p : Str) : strings.Contains s p = true ↔ p <:+: s := by
  induction s with
  | nil =>
    rw [strings.Contains, List.isPrefixOf_iff_prefix, List.infix_nil, List.prefix_nil]
  | cons c cs ih =>
    rw [strings.Contains, Bool.or_eq_true, List.isPrefixOf_iff_prefix, ih, List.infix_cons_iff]

theorem infix_dropWhile (f : Char → Bool) (c : Char) (q s : Str) (hc : f c = false) :
    c :: q <:+: s.dropWhile f ↔ c :: q <:+: s := by
  constructor
  · intro h
    exact h.trans (List.dropWhile_suffix f).isInfix
  · intro h
    induction s with
    | nil => exact h
    | cons a s ih =>
      by_cases ha : f a = true
      · rw [List.dropWhile_cons_of_pos ha]
        rcases List.infix_cons_iff.1 h with h1 | h1
        · have : c = a := by
            obtain ⟨r, hr⟩ := h1
            simp only [List.cons_append, List.cons.injEq] at hr
            exact hr.1
          rw [this, ha] at hc
          exact absurd hc (by simp)
        · exact ih h1
      · rw [List.dropWhile_cons_of_neg ha]
        exact h

/-- A text that begins and ends with a character that is no white space occurs
in a line exactly when it occurs in the trimmed line. -/
theorem contains_trimSpace (s p : Str) (c c' : Char) (q q' : Str) (h1 : p = c :: q)
    (h2 : p.reverse = c' :: q') (hc : strings.IsSpace c = false)
    (hc' : strings.IsSpace c' = false) :
    strings.Contains (strings.TrimSpace s) p = strings.Contains s p := by
  rw [Bool.eq_iff_iff, contains_iff_occurs, contains_iff_occurs]
  unfold strings.TrimSpace
  rw [← List.reverse_infix, List.reverse_reverse, h2, infix_dropWhile _ _ _ _ hc', ← h2,
    List.reverse_infix, h1, infix_dropWhile _ _ _ _ hc]

theorem findLine_spec (p : Str → Bool) (lines : List Str) (i : Nat)
    (h : findLine p lines = some i) :
    p (lines.getD i []) = true ∧ ∀ j < i, p (lines.getD j []) = false := by
  induction lines generalizing i with
  | nil => simp [findLine] at h
  | cons l ls ih =>
    by_cases hp : p l = true
    · simp only [findLine, hp, if_true, Option.some.injEq] at h
      subst h
      exact ⟨by simpa using hp, fun j hj => absurd hj (by omega)⟩
    · simp only [findLine, hp, Bool.false_eq_true, if_false, Option.map_eq_some'] at h
      obtain ⟨k, hk, rfl⟩ := h
      obtain ⟨h1, h2⟩ := ih k hk
      refine ⟨by simpa using h1, fun j hj => ?_⟩
      cases j with
      | zero => simpa using hp
      | succ j => simpa using h2 j (by omega)

theorem findLine_eq_none (p : Str → Bool) (lines : List Str) (h : findLine p lines = none) :
    ∀ l ∈ lines, p l = false := by
  intro l hl
  cases hp : p l with
  | false => rfl
  | true =>
    have := (findLine_isSome_iff p lines).2 ⟨l, hl, hp⟩
    rw [h] at this
    exact absurd this (by simp)

theorem findLine_first (p : Str → Bool) (lines : List Str) (i : Nat) (hi : i < lines.length)
    (h1 : p (lines.getD i []) = true) (h2 : ∀ j < i, p (lines.getD j []) = false) :
    findLine p lines = some i := by
  cases h : findLine p lines with
  | none =>
    have := findLine_eq_none p lines h (lines.getD i []) (by
      rw [List.getD_eq_getElem _ _ hi]
      exact List.getElem_mem hi)
    rw [this] at h1
    exact absurd h1 (by simp)
  | some k =>
    obtain ⟨hk1, hk2⟩ := findLine_spec p lines k h
    rcases Nat.lt_trichotomy k i with hlt | heq | hgt
    · rw [h2 k hlt] at hk1
      exact absurd hk1 (by simp)
    · rw [heq]
    · rw [hk2 i hgt] at h1
      exact absurd h1 (by simp)

theorem handlerMarkerLine_eq (l : Str) :
    (strings.Contains (strings.TrimSpace l) "handler :=".data ||
      strings.Contains (strings.TrimSpace l) "app.New".data) = handlerMarkerLine l := by
  unfold handlerMarkerLine
  rw [contains_trimSpace l "handler :=".data 'h' '=' "andler :=".data ": reldnah".data
      rfl (by decide) (by decide) (by decide),
    contains_trimSpace l "app.New".data 'a' 'w' "pp.New".data "eN.ppa".data rfl (by decide)
      (by decide) (by decide)]

theorem blankOrCommentLine_eq (l : Str) :
    (strings.TrimSpace l == "".data || strings.Contains (strings.TrimSpace l) "//".data)
      = blankOrCommentLine l := by
  unfold blankOrCommentLine
  rw [contains_trimSpace l "//".data '/' '/' "/".data "/".data rfl (by decide) (by decide)
    (by decide)]

theorem findEntityWiringInsertionLine_eq (lines : List Str) :
    findEntityWiringInsertionLine lines =
      match findLine handlerMarkerLine lines with
      | some i =>
        match findLine (fun l => !blankOrCommentLine l) (lines.take i).reverse with
        | some r => ((i - 1 - r + 1 : Nat) : Int)
        | none => (i : Int)
      | none => (lines.length : Int) - 2 := by
  have h1 : (fun l =>
      let line := strings.TrimSpace l
      strings.Contains line "handler :=".data || strings.Contains line "app.New".data)
      = handlerMarkerLine := funext handlerMarkerLine_eq
  have h2 : (fun l =>
      let prevLine := strings.TrimSpace l
      !(prevLine == "".data || strings.Contains prevLine "//".data))
      = fun l => !blankOrCommentLine l := funext (fun l => congrArg (!·) (blankOrCommentLine_eq l))
  unfold findEntityWiringInsertionLine
  rw [h1, h2]

theorem getD_reverse_take (lines : List Str) (i r : Nat) (hi : i ≤ lines.length) (hr : r < i) :
    (lines.take i).reverse.getD r [] = lines.getD (i - 1 - r) [] := by
  have hlen : (lines.take i).length = i := by simp [hi]
  rw [List.getD_eq_getElem _ _ (by simp; omega), List.getD_eq_getElem _ _ (by omega),
    List.getElem_reverse, List.getElem_take]
  congr 1
  rw [hlen]

theorem findEntityWiringInsertionLine_marker (lines : List Str) (i : Nat)
    (hi : i < lines.length) (h1 : handlerMarkerLine (lines.getD i []) = true)
    (h2 : ∀ j < i, handlerMarkerLine (lines.getD j []) = false) :
    ∃ k : Nat, findEntityWiringInsertionLine lines = (k : Int) ∧ k ≤ i ∧
      (∀ j, k ≤ j → j < i → blankOrCommentLine (lines.getD j []) = true) ∧
      ((k = i ∧ ∀ j < i, blankOrCommentLine (lines.getD j []) = true) ∨
       (0 < k ∧ blankOrCommentLine (lines.getD (k - 1) []) = false)) := by
  rw [findEntityWiringInsertionLine_eq, findLine_first handlerMarkerLine lines i hi h1 h2]
  dsimp only
  cases h : findLine (fun l => !blankOrCommentLine l) (lines.take i).reverse with
  | none =>
    have hall : ∀ j < i, blankOrCommentLine (lines.getD j []) = true := by
      intro j hj
      have hm : lines.getD j [] ∈ (lines.take i).reverse := by
        rw [List.mem_reverse, List.getD_eq_getElem _ _ (by omega)]
        exact List.mem_take_iff_getElem.2 ⟨j, by simp; omega, rfl⟩
      have := findLine_eq_none _ _ h _ hm
      simpa using this
    exact ⟨i, rfl, le_refl i, fun j _ hj => hall j hj, Or.inl ⟨rfl, hall⟩⟩
  | some r =>
    have hr : r < i := by
      have := findLine_lt _ _ r h
      simp at this
      omega
    obtain ⟨s1, s2⟩ := findLine_spec _ _ r h
    refine ⟨i - 1 - r + 1, rfl, by omega, ?_, Or.inr ⟨by omega, ?_⟩⟩
    · intro j hkj hj
      have := s2 (i - 1 - j) (by omega)
      rw [getD_reverse_take lines i _ (by omega) (by omega)] at this
      have hidx : i - 1 - (i - 1 - j) = j := by omega
      rw [hidx] at this
      simpa using this
    · rw [getD_reverse_take lines i r (by omega) hr] at s1
      have hidx : i - 1 - r + 1 - 1 = i - 1 - r := by omega
      rw [hidx]
      simpa using s1

theorem findEntityWiringInsertionLine_bounds (lines : List Str) (hne : lines ≠ []) :
    (-1 ≤ findEntityWiringInsertionLine lines ∧
      findEntityWiringInsertionLine lines ≤ (lines.length : Int) - 1) ∧
    (findEntityWiringInsertionLine lines = -1 →
      lines.length = 1 ∧ ∀ l ∈ lines, handlerMarkerLine l = false) := by
  have hlen : 0 < lines.length := List.length_pos.2 hne
  cases h : findLine handlerMarkerLine lines with
  | none =>
    have hk : findEntityWiringInsertionLine lines = (lines.length : Int) - 2 := by
      rw [findEntityWiringInsertionLine_eq, h]
    rw [hk]
    refine ⟨⟨by omega, by omega⟩, fun h1 => ⟨by omega, findLine_eq_none _ _ h⟩⟩
  | some i =>
    have hi := findLine_lt _ _ i h
    obtain ⟨s1, s2⟩ := findLine_spec _ _ i h
    obtain ⟨k, hk, hki, _⟩ := findEntityWiringInsertionLine_marker lines i hi s1 s2
    rw [hk]
    refine ⟨⟨by omega, by omega⟩, fun h1 => by omega⟩

/-! ## Lemmas on the order of the method blocks in the routes graft -/

theorem declarationLine_not_closing (m method e : Str) :
    (strings.TrimSpace (declarationLine m method e) == "\x7d".data &&
      strings.HasPrefix (declarationLine m method e) "\t\x7d".data) = false := by
  have hH : 'H' ∈ declarationLine m method e := by simp [declarationLine]
  have h1 := mem_trimSpace_of_not_isSpace 'H' _ hH (by decide)
  have h2 : (strings.TrimSpace (declarationLine m method e) == "\x7d".data) = false := by
    rw [beq_eq_false_iff_ne]
    intro h
    rw [h] at h1
    revert h1
    decide
  rw [h2, Bool.false_and]

/-- The lines of a routes file after `updateRouteMethod`, for a file whose
lines are `pre`, the signature line, `mid`, the group line `L1`, `mid2`, the
closing line `L2` and `post`: the declaration lines stand in front of `L1`, the
lines of the route text in front of `L2`, and empty lines are added at the
end. -/
theorem updateRouteMethod_lines (pre mid mid2 post : List Str) (sig L1 L2 : Str)
    (module method : Str) (tables : List Str)
    (hm : method ∈ routeMethods) (hmod : '\n' ∉ module) (he : ∀ e ∈ tables, '\n' ∉ e)
    (hfree : ∀ l ∈ pre ++ sig :: mid ++ L1 :: mid2 ++ L2 :: post, '\n' ∉ l)
    (hpre : ∀ l ∈ pre, strings.Contains l (method ++ "HTTPHandler() \x7b".data) = false)
    (hsig : strings.Contains sig (method ++ "HTTPHandler() \x7b".data) = true)
    (hmid : ∀ l ∈ sig :: mid,
      (strings.Contains l "v1 :=".data && strings.Contains l "Group(".data) = false)
    (hL1 : (strings.Contains L1 "v1 :=".data && strings.Contains L1 "Group(".data) = true)
    (hclose : ∀ l ∈ sig :: mid ++ L1 :: mid2,
      (strings.TrimSpace l == "\x7d".data && strings.HasPrefix l "\t\x7d".data) = false)
    (hL2 : (strings.TrimSpace L2 == "\x7d".data && strings.HasPrefix L2 "\t\x7d".data) = true) :
    updateRouteMethod
        (strings.Join (pre ++ sig :: mid ++ L1 :: mid2 ++ L2 :: post) "\n".data)
        module method tables
      = strings.Join
        (pre ++ sig :: mid ++ tables.map (declarationLine module method) ++ L1 :: mid2 ++
          strings.Split (generateEntityRoutes module method tables) "\n".data ++ L2 :: post ++
          List.replicate
            ((tables.map (declarationLine module method)).length + 1 +
              (strings.Split (generateEntityRoutes module method tables) "\n".data).length) [])
        "\n".data := by
  have hDLfree : ∀ l ∈ tables.map (declarationLine module method), '\n' ∉ l := by
    intro l hl
    obtain ⟨e, hel, rfl⟩ := List.mem_map.1 hl
    exact declarationLine_no_nl module method e hm hmod (he e hel)
  have hDLclose : ∀ l ∈ tables.map (declarationLine module method),
      (strings.TrimSpace l == "\x7d".data && strings.HasPrefix l "\t\x7d".data) = false := by
    intro l hl
    obtain ⟨e, _, rfl⟩ := List.mem_map.1 hl
    exact declarationLine_not_closing module method e
  have hdecl0 := generateHandlerDeclarations_eq module method tables hm
  generalize tables.map (declarationLine module method) = DL at *
  generalize hroutes : generateEntityRoutes module method tables = routes at *
  simp only [nl_data] at *
  rw [← join_split '\n' (updateRouteMethod _ module method tables)]
  congr 1
  -- the lines of the input
  have hsplit : strings.Split
      (strings.Join (pre ++ sig :: mid ++ L1 :: mid2 ++ L2 :: post) ['\n']) ['\n']
      = pre ++ sig :: mid ++ L1 :: mid2 ++ L2 :: post :=
    split_join_of_not_mem _ _ (by simp) hfree
  have hfind : findLine (fun line => strings.Contains line (method ++ "HTTPHandler() \x7b".data))
      (pre ++ sig :: mid ++ L1 :: mid2 ++ L2 :: post) = some pre.length := by
    have : pre ++ sig :: mid ++ L1 :: mid2 ++ L2 :: post
        = pre ++ sig :: (mid ++ L1 :: mid2 ++ L2 :: post) := by simp
    rw [this]
    exact findLine_append _ pre sig _ hpre hsig
  have hgroup : findLineFrom (fun l => strings.Contains l "v1 :=".data &&
      strings.Contains l "Group(".data)
      (pre ++ sig :: mid ++ L1 :: mid2 ++ L2 :: post) pre.length
      = some (pre ++ sig :: mid).length := by
    have : pre ++ sig :: mid ++ L1 :: mid2 ++ L2 :: post
        = pre ++ ((sig :: mid) ++ L1 :: (mid2 ++ L2 :: post)) := by simp
    rw [this]
    exact findLineFrom_append_cons _ pre (sig :: mid) L1 _ hmid hL1
  have hlenD : (strings.Split (DL.flatMap (fun l => l ++ ['\n'])) ['\n']).length
      = DL.length + 1 := by
    have := split_terminated_nil DL hDLfree
    rw [nl_data] at this
    rw [this]
    simp
  have hdecl : addHandlerDeclarations
      (strings.Join (pre ++ sig :: mid ++ L1 :: mid2 ++ L2 :: post) ['\n']) module method tables
      = strings.Join ((pre ++ sig :: mid) ++ [DL.flatMap (fun l => l ++ ['\n']) ++ L1] ++
          (mid2 ++ L2 :: post) ++ List.replicate (DL.length + 1) []) ['\n'] := by
    unfold addHandlerDeclarations
    simp only [nl_data, hsplit, hfind, hgroup]
    have h1 : pre ++ sig :: mid ++ L1 :: mid2 ++ L2 :: post
        = (pre ++ sig :: mid) ++ L1 :: (mid2 ++ L2 :: post) := by simp
    rw [h1, updatedLines_append, getD_append_length, hdecl0, hlenD]
  have hA : ∀ l ∈ pre ++ sig :: mid, '\n' ∉ l := fun l hl => hfree l (by
    simp only [List.mem_append, List.mem_cons] at hl ⊢; tauto)
  have hB : ∀ l ∈ mid2 ++ L2 :: post, '\n' ∉ l := fun l hl => hfree l (by
    simp only [List.mem_append, List.mem_cons] at hl ⊢; tauto)
  have hL1free : '\n' ∉ L1 := hfree L1 (by simp)
  have hL2free : '\n' ∉ L2 := hfree L2 (by simp)
  have hsplit2 : strings.Split (strings.Join ((pre ++ sig :: mid) ++
      [DL.flatMap (fun l => l ++ ['\n']) ++ L1] ++
      (mid2 ++ L2 :: post) ++ List.replicate (DL.length + 1) []) ['\n']) ['\n']
      = pre ++ ((sig :: mid ++ DL ++ L1 :: mid2) ++
          L2 :: (post ++ List.replicate (DL.length + 1) [])) := by
    rw [split_join_spliced _ _ _ _ hA hB, split_terminated DL hDLfree,
      split_of_not_mem _ _ hL1free]
    simp
  have hnotclose : ∀ l ∈ sig :: mid ++ DL ++ L1 :: mid2,
      (strings.TrimSpace l == ['\x7d'] && strings.HasPrefix l ['\t', '\x7d']) = false := by
    intro l hl
    simp only [List.mem_append, List.mem_cons] at hl
    rcases hl with ((h | h) | h) | h | h
    · exact hclose l (by simp [h])
    · exact hclose l (by simp [h])
    · exact hDLclose l h
    · exact hclose l (by simp [h])
    · exact hclose l (by simp [h])
  have hbrace : findLineFrom (fun l => strings.TrimSpace l == ['\x7d'] &&
      strings.HasPrefix l ['\t', '\x7d'])
      (pre ++ ((sig :: mid ++ DL ++ L1 :: mid2) ++
        L2 :: (post ++ List.replicate (DL.length + 1) [])))
      pre.length = some (pre ++ (sig :: mid ++ DL ++ L1 :: mid2)).length :=
    findLineFrom_append_cons _ pre _ L2 _ hnotclose hL2
  have hC : ∀ l ∈ pre ++ (sig :: mid ++ DL ++ L1 :: mid2), '\n' ∉ l := by
    intro l hl
    simp only [List.mem_append, List.mem_cons] at hl
    rcases hl with h | ((h | h) | h) | h | h
    · exact hfree l (by simp [h])
    · exact hfree l (by simp [h])
    · exact hfree l (by simp [h])
    · exact hDLfree l h
    · exact hfree l (by simp [h])
    · exact hfree l (by simp [h])
  have hD : ∀ l ∈ post ++ List.replicate (DL.length + 1) ([] : Str), '\n' ∉ l := by
    intro l hl
    rcases List.mem_append.1 hl with h | h
    · exact hfree l (by simp [h])
    · rw [List.eq_of_mem_replicate h]; simp
  unfold updateRouteMethod
  simp only [nl_data, hsplit, hfind, hdecl, hsplit2, hroutes]
  rw [hbrace]
  dsimp only
  rw [← List.append_assoc pre, updatedLines_append, getD_append_length,
    split_join_spliced _ _ _ _ hC hD, List.append_assoc routes,
    List.singleton_append, split_append, split_of_not_mem _ _ hL2free]
  simp [List.replicate_add]

theorem replicate_nil_no_nl (k : Nat) : ∀ l ∈ List.replicate k ([] : Str), '\n' ∉ l := by
  intro l h
  rw [List.eq_of_mem_replicate h]
  simp

/-! ## Lemmas on the permission names of the routes -/

theorem infix_flatMap_of_mem {α : Type} (f : α → Str) (L : List α) (x : α) (h : x ∈ L) :
    f x <:+: L.flatMap f := by
  obtain ⟨s, t, rfl⟩ := List.append_of_mem h
  refine ⟨s.flatMap f, t.flatMap f, ?_⟩
  simp

theorem foldl_append_eq_kinds (g : Str × Str × Str → Str) (L : List (Str × Str × Str))
    (acc : Str) :
    L.foldl (fun result perm => result ++ g perm) acc = acc ++ L.flatMap g := by
  induction L generalizing acc with
  | nil => simp
  | cons t ts ih => simp [ih]

theorem entityPermissions_eq (e : Str) :
    entityPermissions e = (permissionKinds e).flatMap (fun perm =>
      ("\t// ".data ++ ("Perm".data ++ toPascalCase e ++ perm.1) ++ " ".data ++ perm.2.2) ++
      (("\n\t".data ++ ("Perm".data ++ toPascalCase e ++ perm.1) ++ " = \"".data ++ e ++
        ":".data ++ perm.2.1 ++ "\"\n".data) ++ "\n".data)) := by
  unfold entityPermissions
  have := foldl_append_eq_kinds (fun perm =>
      ("\t// ".data ++ ("Perm".data ++ toPascalCase e ++ perm.1) ++ " ".data ++ perm.2.2) ++
      (("\n\t".data ++ ("Perm".data ++ toPascalCase e ++ perm.1) ++ " = \"".data ++ e ++
        ":".data ++ perm.2.1 ++ "\"\n".data) ++ "\n".data)) (permissionKinds e) []
  rw [List.nil_append] at this
  rw [← this]
  congr 1
  funext result perm
  simp

theorem entityPermissions_defines (e A key desc : Str)
    (h : (A, key, desc) ∈ permissionKinds e) :
    ("\n\t".data ++ ("Perm".data ++ toPascalCase e ++ A) ++ " = \"".data ++ e ++
      ":".data ++ key ++ "\"\n".data) <:+: entityPermissions e := by
  rw [entityPermissions_eq]
  have h1 := infix_flatMap_of_mem (fun perm : Str × Str × Str =>
      ("\t// ".data ++ ("Perm".data ++ toPascalCase e ++ perm.1) ++ " ".data ++ perm.2.2) ++
      (("\n\t".data ++ ("Perm".data ++ toPascalCase e ++ perm.1) ++ " = \"".data ++ e ++
        ":".data ++ perm.2.1 ++ "\"\n".data) ++ "\n".data)) (permissionKinds e) _ h
  refine List.IsInfix.trans
    ⟨"\t// ".data ++ ("Perm".data ++ toPascalCase e ++ A) ++ " ".data ++ desc, "\n".data, ?_⟩ h1
  simp

theorem permissionAction_kind (e M : Str) (hM : M ∈ routeMethods) :
    ∃ desc, (getPermissionAction M, strings.ToLower (getPermissionAction M), desc)
      ∈ permissionKinds e := by
  simp only [routeMethods, List.mem_cons, List.mem_singleton, List.not_mem_nil, or_false] at hM
  rcases hM with h | h | h | h <;> subst h
  · exact ⟨"allows viewing ".data ++ e, by
      rw [show getPermissionAction "Finder".data = "View".data from by decide,
        show strings.ToLower "View".data = "view".data from by decide]
      simp [permissionKinds]⟩
  · exact ⟨"allows creating ".data ++ e, by
      rw [show getPermissionAction "Creator".data = "Create".data from by decide,
        show strings.ToLower "Create".data = "create".data from by decide]
      simp [permissionKinds]⟩
  · exact ⟨"allows updating ".data ++ e, by
      rw [show getPermissionAction "Updater".data = "Update".data from by decide,
        show strings.ToLower "Update".data = "update".data from by decide]
      simp [permissionKinds]⟩
  · exact ⟨"allows deleting ".data ++ e, by
      rw [show getPermissionAction "Deleter".data = "Delete".data from by decide,
        show strings.ToLower "Delete".data = "delete".data from by decide]
      simp [permissionKinds]⟩

theorem entityRoutes_uses (M e : Str) :
    ("RequirePermission(\n\t\t\tconstant.".data ++
      ("Perm".data ++ toPascalCase e ++ getPermissionAction M) ++ ",\n".data)
      <:+: entityRoutes M e := by
  unfold entityRoutes
  dsimp only
  generalize (if M = "Finder".data then
     "\t\t\t".data ++ getGroupName e ++ ".GET(\"\", ".data ++ e ++ "Hnd.GetAll".data ++
       getPluralDisplayName e ++ ")\n\t\t\t".data ++ getGroupName e ++ ".GET(\"/:id\", ".data ++
       e ++ "Hnd.Get".data ++ toPascalCase e ++ "ByID)\n".data
   else if M = "Creator".data then
     "\t\t\t".data ++ getGroupName e ++ ".POST(\"\", ".data ++ e ++ "Hnd.Create".data ++
       toPascalCase e ++ ")\n".data
   else if M = "Updater".data then
     "\t\t\t".data ++ getGroupName e ++ ".PUT(\"/:id\", ".data ++ e ++ "Hnd.Update".data ++
       toPascalCase e ++ ")\n".data
   else if M = "Deleter".data then
     "\t\t\t".data ++ getGroupName e ++ ".DELETE(\"/:id\", ".data ++ e ++
       "Hnd.Delete".data ++ toPascalCase e ++ "ByID)\n".data
   else []) = body
  refine ⟨"\n\t\t".data ++ getGroupName e ++ " := v1.Group(\"/".data ++ getRoutePath e ++
    "\", middleware.".data,
    "\t\t\tconstant.PermSystemManage,\n\t\t))\n\t\t\x7b\n".data ++ body ++ "\t\t\x7d\n".data, ?_⟩
  simp

/-! ## Lemmas on the handler fragments of the routes file -/

theorem generateHandlerFields_text (m : Str) (tables : List Str) :
    generateHandlerFields m tables
      = (tables.flatMap (fieldLines m)).flatMap (fun l => l ++ ['\n']) := by
  unfold generateHandlerFields
  have h1 := foldl_append_eq (fun e => handlerFields m e) tables []
  have h2 : (fun e => handlerFields m e) = fun e => (fieldLines m e).flatMap (fun l => l ++ ['\n']) :=
    funext (handlerFields_eq m)
  rw [h2, flatMap_flatMap_terminated, List.nil_append] at h1
  exact h1

theorem generateHandlerConstructorParams_text (m : Str) (tables : List Str) :
    generateHandlerConstructorParams m tables
      = (tables.flatMap (parameterLines m)).flatMap (fun l => l ++ ['\n']) := by
  unfold generateHandlerConstructorParams
  have h1 := foldl_append_eq (fun e => handlerConstructorParams m e) tables []
  have h2 : (fun e => handlerConstructorParams m e) = fun e => (parameterLines m e).flatMap (fun l => l ++ ['\n']) :=
    funext (handlerConstructorParams_eq m)
  rw [h2, flatMap_flatMap_terminated, List.nil_append] at h1
  exact h1

theorem generateHandlerFieldAssignments_text (tables : List Str) :
    generateHandlerFieldAssignments tables
      = (tables.flatMap assignmentLines).flatMap (fun l => l ++ ['\n']) := by
  unfold generateHandlerFieldAssignments
  have h1 := foldl_append_eq (fun e => handlerFieldAssignments e) tables []
  have h2 : (fun e => handlerFieldAssignments e) = fun e => (assignmentLines e).flatMap (fun l => l ++ ['\n']) :=
    funext (handlerFieldAssignments_eq)
  rw [h2, flatMap_flatMap_terminated, List.nil_append] at h1
  exact h1

theorem role_lines_mem (m e R : Str) (hR : R ∈ routeMethods) :
    ("h.".data ++ e ++ R) <+: handlerArguments R e ∧
    ("\t".data ++ e ++ R ++ " ".data ++ m ++ "servicev1.".data ++ toPascalCase e ++ R ++
      "UseCase".data) ∈ fieldLines m e ∧
    ("\t\t".data ++ e ++ R ++ ": ".data ++ e ++ R ++ ",".data) ∈ assignmentLines e ∧
    ("\t".data ++ e ++ R ++ " ".data ++ m ++ "servicev1.".data ++ toPascalCase e ++ R ++
      "UseCase,".data) ∈ parameterLines m e := by
  simp only [routeMethods, List.mem_cons, List.mem_singleton, List.not_mem_nil, or_false] at hR
  rcases hR with h | h | h | h <;> subst h
  · refine ⟨⟨[], by simp [handlerArguments]⟩, by simp [fieldLines], by simp [assignmentLines],
      by simp [parameterLines]⟩
  · refine ⟨⟨", h.cloudStorage".data, by simp [handlerArguments]⟩, by simp [fieldLines],
      by simp [assignmentLines], by simp [parameterLines]⟩
  · refine ⟨⟨", h.cloudStorage".data, by simp [handlerArguments]⟩, by simp [fieldLines],
      by simp [assignmentLines], by simp [parameterLines]⟩
  · refine ⟨⟨[], by simp [handlerArguments]⟩, by simp [fieldLines], by simp [assignmentLines],
      by simp [parameterLines]⟩

/-! ## Lemmas on the arguments of the handler constructor -/

theorem handlerConstructorArgs_roles (e : Str) :
    handlerConstructorArgs e = "\t\t// ".data ++ toPascalCase e ++ "\n\t\t".data ++
      strings.Join (constructorRoles.map (fun R => e ++ R ++ "Svc,".data)) " ".data ++
      "\n".data := by
  simp [handlerConstructorArgs, constructorRoles, strings.Join]

theorem parameterLines_roles (m e : Str) :
    parameterLines m e = constructorRoles.map (fun R =>
      "\t".data ++ e ++ R ++ " ".data ++ m ++ "servicev1.".data ++ toPascalCase e ++ R ++
        "UseCase,".data) := by
  simp [parameterLines, constructorRoles]

theorem wiringLines_defines_services (e R : Str) (hR : R ∈ constructorRoles) :
    ∃ l ∈ wiringLines e,
      ("\t".data ++ e ++ R ++ "Svc := service.New".data ++ toPascalCase e ++ R ++
        "(cfg, ".data) <+: l := by
  simp only [constructorRoles, List.mem_cons, List.mem_singleton, List.not_mem_nil,
    or_false] at hR
  rcases hR with h | h | h | h <;> subst h
  · exact ⟨"\t".data ++ e ++ "CreatorSvc := service.New".data ++ toPascalCase e ++
      "Creator(cfg, ".data ++ e ++ "CreatorRepo, ".data ++ e ++ "FinderRepo, ".data ++ e ++
      "UpdaterRepo, cloudStorage)".data, by simp [wiringLines],
      ⟨e ++ "CreatorRepo, ".data ++ e ++ "FinderRepo, ".data ++ e ++
        "UpdaterRepo, cloudStorage)".data, by simp⟩⟩
  · exact ⟨"\t".data ++ e ++ "FinderSvc := service.New".data ++ toPascalCase e ++
      "Finder(cfg, ".data ++ e ++ "FinderRepo, cloudStorage)".data, by simp [wiringLines],
      ⟨e ++ "FinderRepo, cloudStorage)".data, by simp⟩⟩
  · exact ⟨"\t".data ++ e ++ "UpdaterSvc := service.New".data ++ toPascalCase e ++
      "Updater(cfg, ".data ++ e ++ "FinderRepo, ".data ++ e ++
      "UpdaterRepo, cloudStorage)".data, by simp [wiringLines],
      ⟨e ++ "FinderRepo, ".data ++ e ++ "UpdaterRepo, cloudStorage)".data, by simp⟩⟩
  · exact ⟨"\t".data ++ e ++ "DeleterSvc := service.New".data ++ toPascalCase e ++
      "Deleter(cfg, ".data ++ e ++ "DeleterRepo, cloudStorage)".data, by simp [wiringLines],
      ⟨e ++ "DeleterRepo, cloudStorage)".data, by simp⟩⟩

/-! ## Lemmas on the two singular forms -/

theorem lookup_append_singleton_of_ne (P : List (Str × Str)) (a b k : Str) (h : k ≠ a) :
    (P ++ [(a, b)]).lookup k = P.lookup k := by
  induction P with
  | nil =>
    have : (k == a) = false := by simpa using h
    simp [List.lookup, this]
  | cons x P ih =>
    obtain ⟨x1, x2⟩ := x
    rw [List.cons_append, List.lookup, List.lookup, ih]

theorem length_le_byteLen (s : Str) : s.length ≤ byteLen s := by
  induction s with
  | nil => simp [byteLen]
  | cons c s ih =>
    have hc : 1 ≤ c.utf8Size := Char.utf8Size_pos c
    simp only [byteLen, List.map_cons, List.sum_cons, List.length_cons] at ih ⊢
    omega

theorem irregulars_lookup_eq (word : Str) (h1 : word ≠ "quizzes".data)
    (h2 : word ≠ "buses".data) :
    singularIrregulars.lookup word = naiveIrregulars.lookup word := by
  have e1 : singularIrregulars = naiveIrregulars.take 14 ++ [("quizzes".data, "quiz".data)] := by
    decide
  have e2 : naiveIrregulars = naiveIrregulars.take 14 ++ [("buses".data, "bus".data)] := by
    decide
  rw [e1, lookup_append_singleton_of_ne _ _ _ _ h1]
  conv => rhs; rw [e2, lookup_append_singleton_of_ne _ _ _ _ h2]

theorem singularize_eq_naiveSingular (w : Str) (h1 : strings.ToLower w ≠ "buses".data)
    (h2 : strings.HasSuffix (strings.ToLower w) "ss".data = false)
    (h3 : strings.ToLower w ≠ "s".data) :
    singularize w = naiveSingular w := by
  unfold singularize naiveSingular
  dsimp only
  by_cases hq : strings.ToLower w = "quizzes".data
  · rw [hq]
    decide
  · rw [irregulars_lookup_eq _ hq h1]
    have hcond : (strings.HasSuffix (strings.ToLower w) "s".data &&
        decide (byteLen (strings.ToLower w) > 1))
        = (strings.HasSuffix (strings.ToLower w) "s".data &&
          !strings.HasSuffix (strings.ToLower w) "ss".data) := by
      rw [h2]
      cases hs : strings.HasSuffix (strings.ToLower w) "s".data with
      | false => rfl
      | true =>
        obtain ⟨t, ht⟩ := (hasSuffix_iff _ _).1 hs
        have hlen : 2 ≤ (strings.ToLower w).length := by
          cases t with
          | nil => exact absurd ht.symm h3
          | cons c t => rw [← ht]; simp
        have := length_le_byteLen (strings.ToLower w)
        simp only [Bool.true_and, Bool.not_false, decide_eq_true_eq]
        omega
    rw [hcond]

/-! ## Lemmas on the two casings -/

theorem fieldsFuncGo_append (f : Char → Bool) (p rest acc : Str)
    (hp : ∀ c ∈ p, f c = false) :
    fieldsFuncGo f (p ++ rest) acc = fieldsFuncGo f rest (p.reverse ++ acc) := by
  induction p generalizing acc with
  | nil => rfl
  | cons c p ih =>
    rw [List.cons_append, fieldsFuncGo, if_neg (by simp [hp c (by simp)]),
      ih _ (fun x hx => hp x (by simp [hx]))]
    simp

theorem fieldsFunc_join (f : Char → Bool) (n : Char) (hn : f n = true) (parts : List Str)
    (h : ∀ p ∈ parts, p ≠ [] ∧ ∀ c ∈ p, f c = false) :
    strings.FieldsFunc (strings.Join parts [n]) f = parts := by
  unfold strings.FieldsFunc
  induction parts with
  | nil => simp [strings.Join, fieldsFuncGo]
  | cons p L ih =>
    obtain ⟨hpne, hpf⟩ := h p (by simp)
    have hrev : p.reverse.isEmpty = false := by
      cases p with
      | nil => exact absurd rfl hpne
      | cons a t => simp
    cases L with
    | nil =>
      have : strings.Join [p] [n] = p ++ [] := by simp [strings.Join]
      rw [this, fieldsFuncGo_append f p [] [] hpf, List.append_nil, fieldsFuncGo, hrev]
      simp
    | cons q L =>
      rw [join_cons_cons, List.append_assoc, List.singleton_append,
        fieldsFuncGo_append f p _ [] hpf, List.append_nil, fieldsFuncGo, if_pos hn, hrev,
        ih (fun x hx => h x (by simp [hx]))]
      simp

theorem camelPart_eq_pascalPart (p : Str) (hne : p ≠ []) (hlow : ∀ c ∈ p, c.isLower = true)
    (ha : p ∉ acronyms) : camelPart p = pascalPart p := by
  rw [pascalPart_lower p hne hlow ha]
  unfold camelPart
  rw [if_neg hne, toLower_of_isLower (p.drop 1) (fun c hc => hlow c (List.mem_of_mem_drop hc))]

theorem toCamel_eq_toPascalCase (parts : List Str) (hne : parts ≠ [])
    (h : ∀ p ∈ parts, p ≠ [] ∧ (∀ c ∈ p, c.isLower = true) ∧ p ∉ acronyms) :
    toCamel (strings.Join parts "_".data) = toPascalCase (strings.Join parts "_".data) := by
  have hsep : ∀ p ∈ parts, p ≠ [] ∧
      ∀ c ∈ p, (fun r : Char => r == '_' || r == '-' || r == ' ') c = false := by
    intro p hp
    refine ⟨(h p hp).1, fun c hc => ?_⟩
    have hl := (h p hp).2.1 c hc
    have : ∀ x ∈ "abcdefghijklmnopqrstuvwxyz".data,
        (x == '_' || x == '-' || x == ' ') = false := by decide
    exact this c (isLower_mem_alphabet c hl)
  have hus : ∀ p ∈ parts, '_' ∉ p := fun p hp => isLower_ne_underscore p (h p hp).2.1
  unfold toCamel toPascalCase
  rw [us_data, fieldsFunc_join _ '_' (by decide) parts hsep,
    split_join_of_not_mem '_' parts hne hus]
  congr 1
  apply List.map_congr_left
  intro p hp
  exact camelPart_eq_pascalPart p (h p hp).1 (h p hp).2.1 (h p hp).2.2

theorem constructorArguments_eq (tables : List Str) :
    tables.foldl (fun newParams entity => newParams ++ handlerConstructorArgs entity) []
      = constructorArguments tables := by
  rw [foldl_append_eq, List.nil_append]
  unfold constructorArguments
  have h : handlerConstructorArgs = fun e => "\t\t// ".data ++ toPascalCase e ++
      "\n\t\t".data ++
      strings.Join (constructorRoles.map (fun R => e ++ R ++ "Svc,".data)) " ".data ++
      "\n".data := funext handlerConstructorArgs_roles
  rw [h]

/-- The output of `updateHandlerConstructor` on a wiring file whose lines are
`pre`, `mid`, the anchor line and `post`, where the first line of `mid` and the
anchor is the first constructor call line of the file and the anchor is the
first line from there on that contains "// Cloud Storage" or "cache,". -/
theorem updateHandlerConstructor_text (pre mid post : List Str) (anchor : Str)
    (tables : List Str)
    (hfree : ∀ l ∈ pre ++ mid ++ anchor :: post, '\n' ∉ l)
    (hpre : ∀ l ∈ pre,
      (strings.Contains l "app.New".data && strings.Contains l "HTTPHandler(".data) = false)
    (hcall : ∃ c rest, mid ++ [anchor] = c :: rest ∧
      (strings.Contains c "app.New".data && strings.Contains c "HTTPHandler(".data) = true)
    (hmid : ∀ l ∈ mid,
      (strings.Contains l "// Cloud Storage".data || strings.Contains l "cache,".data) = false)
    (hanchor :
      (strings.Contains anchor "// Cloud Storage".data || strings.Contains anchor "cache,".data)
        = true) :
    updateHandlerConstructor (strings.Join (pre ++ mid ++ anchor :: post) "\n".data) tables
      = strings.Join
        (pre ++ mid ++ [constructorArguments tables ++ anchor] ++ post ++
          List.replicate (strings.Split (constructorArguments tables) "\n".data).length [])
        "\n".data := by
  obtain ⟨c, rest, hc, hcc⟩ := hcall
  have hsplit : strings.Split (strings.Join (pre ++ mid ++ anchor :: post) "\n".data)
      "\n".data = pre ++ mid ++ anchor :: post := by
    rw [nl_data]
    exact split_join_of_not_mem _ _ (by simp) hfree
  have hfind : findLine (fun line => strings.Contains line "app.New".data &&
      strings.Contains line "HTTPHandler(".data) (pre ++ mid ++ anchor :: post)
      = some pre.length := by
    have : pre ++ mid ++ anchor :: post = pre ++ c :: (rest ++ post) := by
      have h2 : mid ++ anchor :: post = (mid ++ [anchor]) ++ post := by simp
      rw [List.append_assoc, h2, hc]
      rfl
    rw [this]
    exact findLine_append _ pre c _ hpre hcc
  have hanch : findLineFrom (fun l => strings.Contains l "// Cloud Storage".data ||
      strings.Contains l "cache,".data) (pre ++ mid ++ anchor :: post) pre.length
      = some (pre ++ mid).length := by
    rw [List.append_assoc]
    exact findLineFrom_append_cons _ pre mid anchor post hmid hanchor
  unfold updateHandlerConstructor
  simp only [hsplit, hfind, hanch]
  rw [constructorArguments_eq, updatedLines_append, getD_append_length]

/-! ## Lemmas on the first occurrence of a text -/

theorem firstOccurrence_some (s p : Str) (i : Nat) (h : firstOccurrence s p = some i) :
    i ≤ s.length ∧ p.isPrefixOf (s.drop i) = true ∧
      ∀ k < i, p.isPrefixOf (s.drop k) = false := by
  induction s generalizing i with
  | nil =>
    unfold firstOccurrence at h
    by_cases hp : p.isPrefixOf [] = true
    · rw [if_pos hp] at h
      have : i = 0 := (Option.some.inj h).symm
      subst this
      exact ⟨le_refl _, hp, fun k hk => absurd hk (by omega)⟩
    · rw [if_neg hp] at h
      exact absurd h (by simp)
  | cons c cs ih =>
    unfold firstOccurrence at h
    by_cases hp : p.isPrefixOf (c :: cs) = true
    · rw [if_pos hp] at h
      have : i = 0 := (Option.some.inj h).symm
      subst this
      exact ⟨Nat.zero_le _, hp, fun k hk => absurd hk (by omega)⟩
    · rw [if_neg hp] at h
      obtain ⟨j, hj, rfl⟩ := Option.map_eq_some'.1 h
      obtain ⟨h1, h2, h3⟩ := ih j hj
      refine ⟨by simp; omega, by simpa using h2, fun k hk => ?_⟩
      cases k with
      | zero => exact Bool.eq_false_iff.2 hp
      | succ k => simpa using h3 k (by omega)

theorem firstOccurrence_none (s p : Str) (h : firstOccurrence s p = none) :
    strings.Contains s p = false := by
  induction s with
  | nil =>
    unfold firstOccurrence at h
    by_cases hp : p.isPrefixOf [] = true
    · rw [if_pos hp] at h
      exact absurd h (by simp)
    · rw [strings.Contains]
      exact Bool.eq_false_iff.2 hp
  | cons c cs ih =>
    unfold firstOccurrence at h
    by_cases hp : p.isPrefixOf (c :: cs) = true
    · rw [if_pos hp] at h
      exact absurd h (by simp)
    · rw [if_neg hp] at h
      have hn : firstOccurrence cs p = none := by
        cases hf : firstOccurrence cs p with
        | none => rfl
        | some j => rw [hf] at h; exact absurd h (by simp)
      rw [strings.Contains, ih hn, Bool.or_false]
      exact Bool.eq_false_iff.2 hp

theorem firstOccurrence_isSome_of_contains (s p : Str) (h : strings.Contains s p = true) :
    ∃ i, firstOccurrence s p = some i := by
  cases hf : firstOccurrence s p with
  | none =>
    rw [firstOccurrence_none s p hf] at h
    exact absurd h (by simp)
  | some i => exact ⟨i, rfl⟩

theorem eq_take_append_of_firstOccurrence (s p : Str) (i : Nat)
    (h : firstOccurrence s p = some i) :
    s = s.take i ++ (p ++ s.drop (i + p.length)) := by
  obtain ⟨_, h2, _⟩ := firstOccurrence_some s p i h
  obtain ⟨t, ht⟩ := List.isPrefixOf_iff_prefix.1 h2
  have hd : s.drop (i + p.length) = t := by
    rw [← List.drop_drop, ← ht, List.drop_left]
  rw [hd, ht, List.take_append_drop]

theorem split_of_firstOccurrence (s sep : Str) (i : Nat) (hsep : sep ≠ [])
    (h : firstOccurrence s sep = some i) :
    strings.Split s sep = s.take i :: strings.Split (s.drop (i + sep.length)) sep := by
  obtain ⟨h1, _, h3⟩ := firstOccurrence_some s sep i h
  have he := eq_take_append_of_firstOccurrence s sep i h
  have hlen : (s.take i).length = i := by simp [h1]
  have := split_first sep (s.take i) (s.drop (i + sep.length)) hsep (by
    intro k hk
    rw [← he]
    exact h3 k (by omega))
  rw [← he] at this
  exact this

theorem split_headD_eq_textBefore (s sep : Str) (hsep : sep ≠ []) :
    (strings.Split s sep).headD [] = textBefore s sep := by
  unfold textBefore
  cases hf : firstOccurrence s sep with
  | none =>
    rw [split_none sep s (fun k hk =>
      isPrefixOf_drop_of_contains_false s sep (firstOccurrence_none s sep hf) k (by omega))]
    rfl
  | some i =>
    rw [split_of_firstOccurrence s sep i hsep hf]
    rfl

/-- The entity that the code reads from a line that contains
"repository.New" is the lower-cased name of `constructedName`. -/
theorem extractEntityFromRepoLine_eq (line : Str)
    (hc : strings.Contains line "repository.New".data = true) :
    extractEntityFromRepoLine line = strings.ToLower (constructedName line) := by
  obtain ⟨i, hi⟩ := firstOccurrence_isSome_of_contains line _ hc
  have hsplit := split_of_firstOccurrence line "repository.New".data i (by decide) hi
  have hne := split_ne_nil (line.drop (i + "repository.New".data.length)) "repository.New".data
  obtain ⟨x, L, hL⟩ := List.exists_cons_of_ne_nil hne
  have hx : x = textBefore (line.drop (i + "repository.New".data.length))
      "repository.New".data := by
    rw [← split_headD_eq_textBefore _ _ (by decide), hL]
    rfl
  have hafter : textAfter line "repository.New".data
      = line.drop (i + "repository.New".data.length) := by
    unfold textAfter
    rw [hi]
  unfold extractEntityFromRepoLine
  rw [if_pos hc]
  dsimp only
  rw [hsplit, hL, if_pos (by simp)]
  have hg : (line.take i :: x :: L).getD 1 [] = x := rfl
  rw [hg, hx, ← hafter]
  unfold constructedName
  simp only [List.foldl]
  rw [split_headD_eq_textBefore _ _ (by decide), split_headD_eq_textBefore _ _ (by decide),
    split_headD_eq_textBefore _ _ (by decide), split_headD_eq_textBefore _ _ (by decide),
    split_headD_eq_textBefore _ _ (by decide)]

/-! ## The struct-field splice (C1) and the insert-only invariant (C2) -/

/-- C1, evaluated on a handler struct with the anchor field `cloudStorage`:
`updateHandlerStruct` puts the four fields of "role" at the start of the anchor
line, and it also appends five newline characters at the end of the file (the
slots that `make` allocated beyond `len(lines)`), so the result is not the
input with only the fields inserted. -/
theorem updateHandlerStruct_appends_newlines :
    updateHandlerStruct
        "type AuthHTTPHandler struct \x7b\n\tcloudStorage interfaces.CloudStorage\n\x7d\n".data
        "auth".data ["role".data]
      = "type AuthHTTPHandler struct \x7b\n".data ++
        generateHandlerFields "auth".data ["role".data] ++
        "\tcloudStorage interfaces.CloudStorage\n\x7d\n".data ++
        "\n\n\n\n\n".data ∧
    updateHandlerStruct
        "type AuthHTTPHandler struct \x7b\n\tcloudStorage interfaces.CloudStorage\n\x7d\n".data
        "auth".data ["role".data]
      ≠ "type AuthHTTPHandler struct \x7b\n".data ++
        generateHandlerFields "auth".data ["role".data] ++
        "\tcloudStorage interfaces.CloudStorage\n\x7d\n".data := by
  refine ⟨by rfl, by decide⟩

/-- C2: each routes transform only inserts: for every content, module, entity
list and method among Finder, Creator, Updater, Deleter, the lines of the input
are a sublist (same lines, same relative order) of the lines of the output of
`updateRouteMethod`, `addHandlerDeclarations`, `updateHandlerStruct`,
`updateRouteHandlerConstructor` and `updateHandlerConstructorBody`. -/
theorem routes_transforms_only_insert (content module method : Str) (tables : List Str)
    (hm : method ∈ routeMethods) :
    (strings.Split content "\n".data).Sublist
      (strings.Split (updateRouteMethod content module method tables) "\n".data) ∧
    (strings.Split content "\n".data).Sublist
      (strings.Split (addHandlerDeclarations content module method tables) "\n".data) ∧
    (strings.Split content "\n".data).Sublist
      (strings.Split (updateHandlerStruct content module tables) "\n".data) ∧
    (strings.Split content "\n".data).Sublist
      (strings.Split (updateRouteHandlerConstructor content module tables) "\n".data) ∧
    (strings.Split content "\n".data).Sublist
      (strings.Split (updateHandlerConstructorBody content module tables) "\n".data) :=
  ⟨updateRouteMethod_sublist content module method tables hm,
   addHandlerDeclarations_sublist content module method tables hm,
   updateHandlerStruct_sublist content module tables,
   updateRouteHandlerConstructor_sublist content module tables,
   updateHandlerConstructorBody_sublist content module tables⟩

/-- Witness of C2 on a routes file with a Finder block, for the method
"Finder" and the entity "role". -/
theorem routes_transforms_only_insert_witness :
    (strings.Split "func (h *AuthHTTPHandler) FinderHTTPHandler() \x7b\n\tv1 := h.Group(\"/v1\")\n\t\x7b\n\t\x7d\n\x7d\n".data "\n".data).Sublist
      (strings.Split (updateRouteMethod
        "func (h *AuthHTTPHandler) FinderHTTPHandler() \x7b\n\tv1 := h.Group(\"/v1\")\n\t\x7b\n\t\x7d\n\x7d\n".data
        "auth".data "Finder".data ["role".data]) "\n".data) :=
  (routes_transforms_only_insert
    "func (h *AuthHTTPHandler) FinderHTTPHandler() \x7b\n\tv1 := h.Group(\"/v1\")\n\t\x7b\n\t\x7d\n\x7d\n".data
    "auth".data "Finder".data ["role".data] (by decide)).1

/-! ## Idempotence of the wiring graft (C3) -/

theorem builderGraftedOnce_written :
    updateBuilderIncremental builderWithUser "auth".data "v1".data ["user_profile".data]
      = GraftOutcome.written builderGraftedOnce := by
  decide!

theorem builderGraftedOnce_tables :
    extractExistingTables builderGraftedOnce = ["user".data, "userprofile".data] := by
  decide!

theorem builderGraftedTwice_written :
    updateBuilderIncremental builderGraftedOnce "auth".data "v1".data ["user_profile".data]
      = GraftOutcome.written builderGraftedTwice := by
  decide!

theorem builderGraftedTwice_ne : builderGraftedTwice ≠ builderGraftedOnce := by
  decide!

/-- C3, evaluated on a builder file with "user" wired and the requested entity
"user_profile": the first graft succeeds, but `extractExistingTables` reports
the new entity as "userprofile" (the lower-cased display name), so
`filterNewTables` still yields "user_profile" and the second graft does not
return before the write: it writes a different content, with the wiring of
"user_profile" a second time. -/
theorem updateBuilderIncremental_snake_case_regraft :
    updateBuilderIncremental builderWithUser "auth".data "v1".data ["user_profile".data]
      = GraftOutcome.written builderGraftedOnce ∧
    extractExistingTables builderGraftedOnce = ["user".data, "userprofile".data] ∧
    filterNewTables ["user_profile".data] (extractExistingTables builderGraftedOnce)
      = ["user_profile".data] ∧
    updateBuilderIncremental builderGraftedOnce "auth".data "v1".data ["user_profile".data]
      = GraftOutcome.written builderGraftedTwice ∧
    builderGraftedTwice ≠ builderGraftedOnce :=
  ⟨builderGraftedOnce_written, builderGraftedOnce_tables,
   by rw [builderGraftedOnce_tables]; decide,
   builderGraftedTwice_written, builderGraftedTwice_ne⟩

/-! ## Idempotence of the routes graft (C4) -/

theorem routesWithoutBlocks_keys :
    (extractMethodBlocks routesWithoutBlocks).map Prod.fst = [] ∧
    (extractMethodBlocks routesGraftedOnce).map Prod.fst = [] := by
  decide!

theorem routesGraftedOnce_written :
    updateRoutesIncremental routesWithoutBlocks "auth".data ["role".data] []
      = GraftOutcome.written routesGraftedOnce := by
  decide!

theorem routesGraftedOnce_tables : extractExistingRoutesTables routesGraftedOnce = [] := by
  decide!

theorem routesGraftedTwice_written :
    updateRoutesIncremental routesGraftedOnce "auth".data ["role".data] []
      = GraftOutcome.written routesGraftedTwice := by
  decide!

theorem routesGraftedTwice_ne : routesGraftedTwice ≠ routesGraftedOnce := by
  decide!

/-- C4 fails on a routes file that holds the handler struct but no method
block: no method is visited (the map of method blocks is empty), the first
graft of "role" writes the struct fields, `extractExistingRoutesTables` still
reports nothing, and the second graft writes again, a different content with
the fields a second time. -/
theorem updateRoutesIncremental_without_blocks_counterexample :
    ((extractMethodBlocks routesWithoutBlocks).map Prod.fst = [] ∧
      (extractMethodBlocks routesGraftedOnce).map Prod.fst = []) ∧
    updateRoutesIncremental routesWithoutBlocks "auth".data ["role".data] []
      = GraftOutcome.written routesGraftedOnce ∧
    "role".data ∉ extractExistingRoutesTables routesGraftedOnce ∧
    updateRoutesIncremental routesGraftedOnce "auth".data ["role".data] []
      = GraftOutcome.written routesGraftedTwice ∧
    routesGraftedTwice ≠ routesGraftedOnce :=
  ⟨routesWithoutBlocks_keys, routesGraftedOnce_written,
   by rw [routesGraftedOnce_tables]; simp,
   routesGraftedTwice_written, routesGraftedTwice_ne⟩

/-- C4 (amended): let `order` be the order in which the method blocks recorded
by `extractMethodBlocks` are visited. If at least one block is recorded, every
recorded block has its markers (from the first line containing its signature
marker on, a line with "v1 :=" and "Group(" and a one-tab closing brace line),
and every requested entity is read back from its own handler declaration
(`extractExistingRoutesTables (generateHandlerDeclarations module m [e]) = [e]`,
which excludes snake_case names), then after the routes graft every entity of
`T` is reported by `extractExistingRoutesTables`, so `filterNewTables` is
empty, a second graft (in any order) returns before any write, and applying the
graft twice gives the same content as applying it once. -/
theorem updateRoutesIncremental_regraft (content module : Str) (T order order2 : List Str)
    (horder : order.Perm ((extractMethodBlocks content).map Prod.fst))
    (hne : order ≠ [])
    (hblocks : ∀ m ∈ order, blockHasMarkers content m = true)
    (hround : ∀ e ∈ T, ∀ m ∈ order,
      extractExistingRoutesTables (generateHandlerDeclarations module m [e]) = [e]) :
    (∀ e ∈ T, e ∈ extractExistingRoutesTables
      (contentAfter content (updateRoutesIncremental content module T order))) ∧
    filterNewTables T (extractExistingRoutesTables
      (contentAfter content (updateRoutesIncremental content module T order))) = [] ∧
    updateRoutesIncremental
      (contentAfter content (updateRoutesIncremental content module T order)) module T order2
      = GraftOutcome.skipped ∧
    contentAfter (contentAfter content (updateRoutesIncremental content module T order))
      (updateRoutesIncremental
        (contentAfter content (updateRoutesIncremental content module T order)) module T order2)
      = contentAfter content (updateRoutesIncremental content module T order) := by
  have hkeys : ∀ m ∈ order, m ∈ routeMethods := fun m hm =>
    extractMethodBlocks_keys content m (horder.subset hm)
  have hmain : ∀ e ∈ T, e ∈ extractExistingRoutesTables
      (contentAfter content (updateRoutesIncremental content module T order)) := by
    by_cases hnil : filterNewTables T (extractExistingRoutesTables content) = []
    · have hall := (filterNewTables_eq_nil_iff _ _).1 hnil
      rw [updateRoutesIncremental_skipped content module T order hall]
      exact hall
    · have hlen : ((filterNewTables T (extractExistingRoutesTables content)).length == 0)
          = false := by
        rw [beq_eq_false_iff_ne]
        intro h
        exact hnil (List.length_eq_zero.1 h)
      have hres : contentAfter content (updateRoutesIncremental content module T order)
          = updateRouteHandlerConstructor
              (updateHandlerStruct
                (order.foldl (fun updatedContent method =>
                  updateRouteMethod updatedContent module method
                    (filterNewTables T (extractExistingRoutesTables content))) content)
                module (filterNewTables T (extractExistingRoutesTables content)))
              module (filterNewTables T (extractExistingRoutesTables content)) := by
        unfold updateRoutesIncremental
        simp only [hlen, Bool.false_eq_true, if_false]
        rfl
      rw [hres]
      obtain ⟨m0, rest, hm0⟩ := List.exists_cons_of_ne_nil hne
      -- the lines after the first method block are kept to the end
      have hchain : ∀ l ∈ strings.Split (updateRouteMethod content module m0
            (filterNewTables T (extractExistingRoutesTables content))) ['\n'],
          l ∈ strings.Split (updateRouteHandlerConstructor
              (updateHandlerStruct
                (order.foldl (fun updatedContent method =>
                  updateRouteMethod updatedContent module method
                    (filterNewTables T (extractExistingRoutesTables content))) content)
                module (filterNewTables T (extractExistingRoutesTables content)))
              module (filterNewTables T (extractExistingRoutesTables content))) ['\n'] := by
        intro l hl
        apply (updateRouteHandlerConstructor_sublist _ _ _).subset
        apply (updateHandlerStruct_sublist _ _ _).subset
        rw [hm0, List.foldl_cons]
        exact (foldl_updateRouteMethod_sublist module _ rest
          (fun m hm => hkeys m (by rw [hm0]; simp [hm])) _).subset hl
      intro e he
      by_cases hex : e ∈ extractExistingRoutesTables content
      · refine extractExistingRoutesTables_mono content _ (fun l hl => ?_) e hex
        apply hchain
        exact (updateRouteMethod_sublist content module m0 _
          (hkeys m0 (by rw [hm0]; simp))).subset hl
      · have hnew : e ∈ filterNewTables T (extractExistingRoutesTables content) :=
          (mem_filterNewTables _ _ _).2 ⟨he, hex⟩
        have hm0mem : m0 ∈ order := by rw [hm0]; simp
        have hr := hround e he m0 hm0mem
        have hmem : e ∈ extractExistingRoutesTables
            (generateHandlerDeclarations module m0 [e]) := by rw [hr]; simp
        rw [mem_extractExistingRoutesTables] at hmem ⊢
        obtain ⟨l, hl, hle⟩ := hmem
        have hlne : l ≠ [] := by
          intro h
          rw [h, show lineEntity [] = none from by decide] at hle
          exact absurd hle (by simp)
        exact ⟨l, hchain l (mem_split_updateRouteMethod content module m0 _
          (hkeys m0 hm0mem) (hblocks m0 hm0mem) e hnew l hl hlne), hle⟩
  have hskip := updateRoutesIncremental_skipped _ module T order2 hmain
  refine ⟨hmain, (filterNewTables_eq_nil_iff _ _).2 hmain, hskip, ?_⟩
  rw [hskip]
  rfl

theorem routesWithFinder_keys :
    (extractMethodBlocks routesWithFinder).map Prod.fst = ["Finder".data] := by
  decide!

theorem routesWithFinder_markers :
    ∀ m ∈ ["Finder".data], blockHasMarkers routesWithFinder m = true := by
  decide!

theorem role_read_back :
    ∀ e ∈ ["role".data], ∀ m ∈ ["Finder".data],
      extractExistingRoutesTables (generateHandlerDeclarations "auth".data m [e]) = [e] := by
  decide!

/-- Witness of C4 (amended) on a routes file with a Finder block, for the
module "auth" and the entity "role". -/
theorem updateRoutesIncremental_regraft_witness :
    (∀ e ∈ ["role".data], e ∈ extractExistingRoutesTables
      (contentAfter routesWithFinder
        (updateRoutesIncremental routesWithFinder "auth".data ["role".data] ["Finder".data]))) ∧
    updateRoutesIncremental
      (contentAfter routesWithFinder
        (updateRoutesIncremental routesWithFinder "auth".data ["role".data] ["Finder".data]))
      "auth".data ["role".data] ["Finder".data] = GraftOutcome.skipped :=
  have h := updateRoutesIncremental_regraft routesWithFinder "auth".data ["role".data]
    ["Finder".data] ["Finder".data]
    (by rw [routesWithFinder_keys]) (by simp) routesWithFinder_markers role_read_back
  ⟨h.1, h.2.2.1⟩

/-! ## The presence filter (C5) -/

/-- C5: `filterNewTables requested existing` is the list of the elements of
`requested` that do not occur in `existing`, in their original order: it is
the filter of `requested` by non-membership in `existing`, so an element is in
the result iff it is requested and not existing, and the result is an
order-preserving sublist of `requested`. -/
theorem filterNewTables_spec (requested existing : List Str) :
    filterNewTables requested existing = requested.filter (fun e => decide (e ∉ existing))
    ∧ (∀ e, e ∈ filterNewTables requested existing ↔ e ∈ requested ∧ e ∉ existing)
    ∧ (filterNewTables requested existing).Sublist requested := by
  have h : filterNewTables requested existing
      = requested.filter (fun e => decide (e ∉ existing)) := by
    unfold filterNewTables
    rw [filterNewTables_foldl, List.nil_append]
    apply List.filter_congr
    intro e _
    by_cases hc : contains existing e = true
    · have := (contains_iff_mem existing e).1 hc
      simp [hc, this]
    · have hn : e ∉ existing := fun hm => hc ((contains_iff_mem existing e).2 hm)
      simp [hc, hn]
  refine ⟨h, ?_, ?_⟩
  · intro e
    rw [h]
    simp [List.mem_filter]
  · rw [h]
    exact List.filter_sublist _

/-! ## Pluralization of route paths and method names (C6, C7, C8) -/

/-- C6, evaluated at the entity "box": the group variable of the emitted route
group is "boxes" (`getGroupName`), but the URL path inside `v1.Group("/...")`
is "boxs" (`getRoutePath` appends "s"), not "boxes". -/
theorem generateEntityRoutes_box_path :
    getGroupName "box".data = "boxes".data ∧
    getRoutePath "box".data = "boxs".data ∧
    generateEntityRoutes "auth".data "Finder".data ["box".data]
      = ("\n\t\tboxes := v1.Group(\"/boxs\", middleware.RequirePermission(\n" ++
         "\t\t\tconstant.PermBoxView,\n\t\t\tconstant.PermSystemManage,\n\t\t))\n\t\t\x7b\n" ++
         "\t\t\tboxes.GET(\"\", boxHnd.GetAllBoxes)\n" ++
         "\t\t\tboxes.GET(\"/:id\", boxHnd.GetBoxByID)\n\t\t\x7d\n").data := by
  refine ⟨by rfl, by rfl, by rfl⟩

/-- C7 fails at the entity "api": `getPluralDisplayName` gives "APIs" (the
acronym is upper-cased, then "s" is appended) while title-casing the path
plural "apis" gives "Apis". -/
theorem getPluralDisplayName_api_counterexample :
    getPluralDisplayName "api".data = "APIs".data ∧
    toPascalCase (getGroupName "api".data) = "Apis".data ∧
    getPluralDisplayName "api".data ≠ toPascalCase (getGroupName "api".data) := by
  refine ⟨by rfl, by rfl, by decide⟩

/-- C7 (amended): for every entity `pre ++ p` whose last underscore-separated
part `p` is a non-empty word of lower-case ASCII letters other than "y" and
other than the acronyms id, ip, url, api, http, html, json, xml (`pre` is empty
or ends with an underscore), the plural used in the list-all method name is the
title-cased path plural: `getPluralDisplayName e = toPascalCase (getGroupName e)`,
for irregular entities and for the default suffix rule alike. -/
theorem getPluralDisplayName_eq_toPascalCase_getGroupName (pre p : Str)
    (hpre : pre = [] ∨ ∃ q, pre = q ++ "_".data)
    (hne : p ≠ []) (hlow : ∀ c ∈ p, c.isLower = true)
    (hacr : p ∉ acronyms) (hy : p ≠ "y".data) :
    getPluralDisplayName (pre ++ p) = toPascalCase (getGroupName (pre ++ p)) := by
  obtain ⟨F, hF⟩ := toPascalCase_last_part pre hpre
  have hus : '_' ∉ p := isLower_ne_underscore p hlow
  have hP : toPascalCase (pre ++ p) = F ++ (strings.ToUpper (p.take 1) ++ p.drop 1) := by
    rw [hF p hus, pascalPart_lower p hne hlow hacr]
  have hsuf : ∀ suf : Str, (∀ c ∈ suf, c.isLower = true) → suf.getLast? = some 's' →
      toPascalCase (pre ++ p ++ suf) = toPascalCase (pre ++ p) ++ suf := by
    intro suf h1 h2
    rw [List.append_assoc, hF (p ++ suf), pascalPart_lower_append p suf hne hlow h1 h2, hP]
    · simp
    · apply isLower_ne_underscore
      intro c hc
      rcases List.mem_append.1 hc with h | h
      · exact hlow c h
      · exact h1 c h
  generalize he : pre ++ p = e at *
  by_cases hirr : e ∈ irregularEntities
  · simp only [irregularEntities, List.mem_cons, List.mem_singleton, List.not_mem_nil,
      or_false] at hirr
    rcases hirr with h | h | h | h | h | h | h | h | h | h <;> (rw [h]; decide)
  · simp only [irregularEntities, List.mem_cons, List.mem_singleton, List.not_mem_nil,
      or_false, not_or] at hirr
    obtain ⟨i1, i2, i3, i4, i5, i6, i7, i8, i9, i10⟩ := hirr
    simp only [getPluralDisplayName, getGroupName, i1, i2, i3, i4, i5, i6, i7, i8, i9, i10,
      if_false]
    by_cases hys : strings.HasSuffix e "y".data = true
    · simp only [hys, if_true]
      -- the last part is `w ++ "y"` with `w` non-empty
      have hlast : p.getLast? = some 'y' := by
        obtain ⟨x, hx⟩ := (hasSuffix_iff _ _).1 hys
        have : e.getLast? = some 'y' := by rw [← hx]; simp
        rw [← he, List.getLast?_append_of_ne_nil _ hne] at this
        exact this
      obtain ⟨w, hw⟩ : ∃ w, p = w ++ ['y'] := by
        refine ⟨p.dropLast, ?_⟩
        have := List.dropLast_append_getLast? 'y' (by simpa using hlast)
        exact this.symm
      have hwne : w ≠ [] := by
        intro h; apply hy; rw [hw, h]; rfl
      have hwlow : ∀ c ∈ w, c.isLower = true := fun c hc => hlow c (by rw [hw]; simp [hc])
      have e1 : e = (pre ++ w) ++ "y".data := by rw [← he, hw]; simp
      have e2 : toPascalCase e = (F ++ (strings.ToUpper (w.take 1) ++ w.drop 1)) ++ "y".data := by
        rw [hP, hw]
        cases w with
        | nil => exact absurd rfl hwne
        | cons a m => simp
      rw [e2, trimSuffix_append]
      rw [e1, trimSuffix_append]
      have h3 : toPascalCase (pre ++ (w ++ "ies".data))
          = F ++ (strings.ToUpper (w.take 1) ++ w.drop 1 ++ "ies".data) := by
        rw [hF (w ++ "ies".data),
          pascalPart_lower_append w "ies".data hwne hwlow (by decide) (by decide)]
        apply isLower_ne_underscore
        intro c hc
        rcases List.mem_append.1 hc with h | h
        · exact hwlow c h
        · exact (by decide : ∀ c ∈ "ies".data, c.isLower = true) c h
      rw [List.append_assoc pre w, h3]
      simp
    · simp only [hys, if_false, Bool.false_eq_true]
      split
      · exact (hsuf "es".data (by decide) (by decide)).symm
      · exact (hsuf "s".data (by decide) (by decide)).symm

/-- Witness of C7 (amended) at the entity "user_company". -/
theorem getPluralDisplayName_eq_toPascalCase_getGroupName_witness :
    getPluralDisplayName ("user_".data ++ "company".data)
      = toPascalCase (getGroupName ("user_".data ++ "company".data)) :=
  getPluralDisplayName_eq_toPascalCase_getGroupName "user_".data "company".data
    (Or.inr ⟨"user".data, rfl⟩) (by decide) (by decide) (by decide) (by decide)

/-- C8: for every module, `generateEntityRoutes module "Finder" ["company"]`
is the route group with variable "companies" and path "/companies" that binds
GET "" to `companyHnd.GetAllCompanies` and GET "/:id" to
`companyHnd.GetCompanyByID`; and for every entity of at least two lower-case
letters that ends in "y" and is not in the irregular table, the group variable
and the path are the entity with "y" replaced by "ies", and the list method is
"GetAll" followed by that plural with its first letter upper-cased. -/
theorem generateEntityRoutes_finder_y :
    (∀ module : Str, generateEntityRoutes module "Finder".data ["company".data]
      = ("\n\t\tcompanies := v1.Group(\"/companies\", middleware.RequirePermission(\n" ++
         "\t\t\tconstant.PermCompanyView,\n\t\t\tconstant.PermSystemManage,\n\t\t))\n\t\t\x7b\n" ++
         "\t\t\tcompanies.GET(\"\", companyHnd.GetAllCompanies)\n" ++
         "\t\t\tcompanies.GET(\"/:id\", companyHnd.GetCompanyByID)\n\t\t\x7d\n").data) ∧
    (∀ module e : Str, 2 ≤ e.length → (∀ c ∈ e, c.isLower = true) →
      strings.HasSuffix e "y".data = true → e ∉ irregularEntities →
      generateEntityRoutes module "Finder".data [e]
        = "\n\t\t".data ++ (e.dropLast ++ "ies".data) ++ " := v1.Group(\"/".data ++
          (e.dropLast ++ "ies".data) ++
          "\", middleware.RequirePermission(\n\t\t\tconstant.Perm".data ++
          (strings.ToUpper (e.take 1) ++ e.drop 1) ++ "View".data ++
          ",\n\t\t\tconstant.PermSystemManage,\n\t\t))\n\t\t\x7b\n".data ++
          "\t\t\t".data ++ (e.dropLast ++ "ies".data) ++ ".GET(\"\", ".data ++ e ++
          "Hnd.GetAll".data ++
          (strings.ToUpper ((e.dropLast ++ "ies".data).take 1) ++
            (e.dropLast ++ "ies".data).drop 1) ++
          ")\n\t\t\t".data ++ (e.dropLast ++ "ies".data) ++ ".GET(\"/:id\", ".data ++ e ++
          "Hnd.Get".data ++ (strings.ToUpper (e.take 1) ++ e.drop 1) ++ "ByID)\n".data ++
          "\t\t\x7d\n".data) := by
  refine ⟨fun module => by rfl, ?_⟩
  intro module e hlen hlow hy hirr
  obtain ⟨w, hw⟩ := (hasSuffix_iff _ _).1 hy
  have hw' : e = w ++ "y".data := hw.symm
  have hwne : w ≠ [] := by
    intro h
    rw [hw', h] at hlen
    revert hlen; decide
  have hdl : e.dropLast = w := by rw [hw']; exact List.dropLast_concat
  have hlast : e.getLast? = some 'y' := by rw [hw']; simp
  have hne : e ≠ [] := by intro h; rw [h] at hlen; revert hlen; decide
  have hP : toPascalCase e = strings.ToUpper (e.take 1) ++ e.drop 1 := by
    rw [toPascalCase_of_no_underscore e (isLower_ne_underscore e hlow),
      pascalPart_lower e hne hlow (not_acronym_of_getLast_y e hlast)]
  have hR : getRoutePath e = e.dropLast ++ "ies".data := by
    simp only [getRoutePath, hy, if_true]
    rw [hdl, hw', trimSuffix_append]
  simp only [irregularEntities, List.mem_cons, List.mem_singleton, List.not_mem_nil,
    or_false, not_or] at hirr
  obtain ⟨i1, i2, i3, i4, i5, i6, i7, i8, i9, i10⟩ := hirr
  have hG : getGroupName e = e.dropLast ++ "ies".data := by
    simp only [getGroupName, i1, i2, i3, i4, i5, i6, i7, i8, i9, i10, if_false, hy, if_true]
    rw [hdl, hw', trimSuffix_append]
  have hD : getPluralDisplayName e
      = strings.ToUpper ((e.dropLast ++ "ies".data).take 1) ++
          (e.dropLast ++ "ies".data).drop 1 := by
    simp only [getPluralDisplayName, i1, i2, i3, i4, i5, i6, i7, i8, i9, i10, if_false, hy,
      if_true]
    rw [hP, hdl, hw']
    cases w with
    | nil => exact absurd rfl hwne
    | cons a m =>
      have : strings.ToUpper (List.take 1 (a :: m ++ "y".data)) ++ List.drop 1 (a :: m ++ "y".data)
          = (strings.ToUpper [a] ++ m) ++ "y".data := by simp
      rw [this, trimSuffix_append]
      simp
  have hA : getPermissionAction "Finder".data = "View".data := by rfl
  simp only [generateEntityRoutes, List.foldl_cons, List.foldl_nil, entityRoutes, hP, hR, hG, hD,
    hA, if_true, List.nil_append]
  simp only [List.append_assoc]

/-- Witness of C8 at the entity "city". -/
theorem generateEntityRoutes_finder_y_witness :
    generateEntityRoutes "auth".data "Finder".data ["city".data]
      = ("\n\t\tcities := v1.Group(\"/cities\", middleware.RequirePermission(\n" ++
         "\t\t\tconstant.PermCityView,\n\t\t\tconstant.PermSystemManage,\n\t\t))\n\t\t\x7b\n" ++
         "\t\t\tcities.GET(\"\", cityHnd.GetAllCities)\n" ++
         "\t\t\tcities.GET(\"/:id\", cityHnd.GetCityByID)\n\t\t\x7d\n").data :=
  generateEntityRoutes_finder_y.2 "auth".data "city".data (by decide) (by decide) (by decide)
    (by decide)

/-! ## Method blocks: missing group marker (C9) and the single-entity graft (C10) -/

/-- C9, evaluated on a Finder block without the grouping-call marker (no line
contains both "v1 :=" and "Group("): `addHandlerDeclarations` returns the
content unchanged, but `updateRouteMethod` does not: it inserts the route group
of "role" in front of the first one-tab closing brace (and appends empty
lines), although no handler declaration was added. -/
theorem updateRouteMethod_without_group_marker :
    (∀ l ∈ strings.Split routesWithoutGroupMarker "\n".data,
      (strings.Contains l "v1 :=".data && strings.Contains l "Group(".data) = false) ∧
    addHandlerDeclarations routesWithoutGroupMarker "auth".data "Finder".data ["role".data]
      = routesWithoutGroupMarker ∧
    updateRouteMethod routesWithoutGroupMarker "auth".data "Finder".data ["role".data]
      = ("func (h *AuthHTTPHandler) FinderHTTPHandler() \x7b\n" ++
         "\tapi := h.engine.Group(\"/api\")\n" ++
         "\t\x7b\n").data ++
        generateEntityRoutes "auth".data "Finder".data ["role".data] ++
        ("\n\t\x7d\n" ++
         "\x7d\n" ++
         "\n\n\n\n\n\n\n\n\n\n").data ∧
    updateRouteMethod routesWithoutGroupMarker "auth".data "Finder".data ["role".data]
      ≠ routesWithoutGroupMarker := by
  refine ⟨by decide, by rfl, by rfl, by decide⟩

/-- C10: on a Finder block that has a one-tab closing brace between the
signature line and the `v1` group line L1, `updateRouteMethod` puts the route
group of "role" in front of that brace, before L1 and before the handler
declaration, not in front of the first one-tab closing brace L2 after L1, the
closing brace of the `v1` group. Whatever number of empty lines is appended,
the lines of the result are not the lines of the input with the declaration in
front of L1 and the route group in front of L2. -/
theorem updateRouteMethod_inner_block_counterexample :
    strings.Split
        (updateRouteMethod routesWithInnerBlock "auth".data "Finder".data ["role".data])
        "\n".data
      = ["func (h *AuthHTTPHandler) FinderHTTPHandler() \x7b".data,
         "\tif h.cache == nil \x7b".data,
         "\t\treturn".data] ++
        strings.Split (generateEntityRoutes "auth".data "Finder".data ["role".data]) "\n".data ++
        ["\t\x7d".data,
         "\troleHnd := authhandlerv1.NewRoleFinderHandler(h.roleFinder)".data,
         "\tv1 := h.engine.Group(\"/v1\")".data,
         "\t\x7b".data,
         "\t\x7d".data,
         "\x7d".data,
         "".data] ++ List.replicate 12 [] ∧
    ¬ ∃ k : Nat,
      strings.Split
          (updateRouteMethod routesWithInnerBlock "auth".data "Finder".data ["role".data])
          "\n".data
        = ["func (h *AuthHTTPHandler) FinderHTTPHandler() \x7b".data,
           "\tif h.cache == nil \x7b".data,
           "\t\treturn".data,
           "\t\x7d".data,
           "\troleHnd := authhandlerv1.NewRoleFinderHandler(h.roleFinder)".data,
           "\tv1 := h.engine.Group(\"/v1\")".data,
           "\t\x7b".data] ++
          strings.Split (generateEntityRoutes "auth".data "Finder".data ["role".data])
            "\n".data ++
          ["\t\x7d".data,
           "\x7d".data,
           "".data] ++ List.replicate k [] := by
  refine ⟨by rfl, ?_⟩
  rintro ⟨k, hk⟩
  have hl : (strings.Split
      (updateRouteMethod routesWithInnerBlock "auth".data "Finder".data ["role".data])
      "\n".data).get? 3 = some [] := by rfl
  rw [hk] at hl
  exact absurd hl (by simp)

/-- The graft of one entity into a well-formed block: let the lines of a routes
content be `pre`, the signature line `sig` of method M (the first line containing M+"HTTPHandler() {", M one of
Finder, Creator, Updater, Deleter), `mid`, the first line L1 at or after `sig`
containing "v1 :=" and "Group(", `mid2`, L2 and `post`, where L2 is a one-tab
closing line (it starts with a tab and "}" and its trimmed text is "}") and no
line from `sig` up to L2 is one. Then for every module and entity without a
newline, `updateRouteMethod(content, module, M, [e])` inserts exactly the one
line `dl` of `generateHandlerDeclarations` immediately before L1 and the lines
of `generateEntityRoutes` immediately before L2, leaves `pre` and `post` (every
other method's function) untouched, and appends empty lines at the end of the
file: two plus the number of lines of the route text. -/
theorem updateRouteMethod_single_entity (pre mid mid2 post : List Str) (sig L1 L2 : Str)
    (module method e : Str)
    (hm : method ∈ routeMethods) (hmod : '\n' ∉ module) (he : '\n' ∉ e)
    (hfree : ∀ l ∈ pre ++ sig :: mid ++ L1 :: mid2 ++ L2 :: post, '\n' ∉ l)
    (hpre : ∀ l ∈ pre, strings.Contains l (method ++ "HTTPHandler() \x7b".data) = false)
    (hsig : strings.Contains sig (method ++ "HTTPHandler() \x7b".data) = true)
    (hmid : ∀ l ∈ sig :: mid,
      (strings.Contains l "v1 :=".data && strings.Contains l "Group(".data) = false)
    (hL1 : (strings.Contains L1 "v1 :=".data && strings.Contains L1 "Group(".data) = true)
    (hclose : ∀ l ∈ sig :: mid ++ L1 :: mid2,
      (strings.TrimSpace l == "\x7d".data && strings.HasPrefix l "\t\x7d".data) = false)
    (hL2 : (strings.TrimSpace L2 == "\x7d".data && strings.HasPrefix L2 "\t\x7d".data) = true) :
    ∃ dl : Str, generateHandlerDeclarations module method [e] = dl ++ "\n".data ∧
      '\n' ∉ dl ∧
      strings.Split
          (updateRouteMethod
            (strings.Join (pre ++ sig :: mid ++ L1 :: mid2 ++ L2 :: post) "\n".data)
            module method [e]) "\n".data
        = pre ++ sig :: mid ++ dl :: L1 :: mid2 ++
          strings.Split (generateEntityRoutes module method [e]) "\n".data ++ L2 :: post ++
          List.replicate
            (2 + (strings.Split (generateEntityRoutes module method [e]) "\n".data).length) [] := by
  obtain ⟨dl, hdl, hdlfree, hdlclose⟩ :=
    generateHandlerDeclarations_single module method e hm hmod he
  refine ⟨dl, hdl, hdlfree, ?_⟩
  simp only [nl_data] at *
  -- the lines of the input
  have hsplit : strings.Split
      (strings.Join (pre ++ sig :: mid ++ L1 :: mid2 ++ L2 :: post) ['\n']) ['\n']
      = pre ++ sig :: mid ++ L1 :: mid2 ++ L2 :: post :=
    split_join_of_not_mem _ _ (by simp) hfree
  have hfind : findLine (fun line => strings.Contains line (method ++ "HTTPHandler() \x7b".data))
      (pre ++ sig :: mid ++ L1 :: mid2 ++ L2 :: post) = some pre.length := by
    have : pre ++ sig :: mid ++ L1 :: mid2 ++ L2 :: post
        = pre ++ sig :: (mid ++ L1 :: mid2 ++ L2 :: post) := by simp
    rw [this]
    exact findLine_append _ pre sig _ hpre hsig
  -- the declarations go in front of `L1`
  have hgroup : findLineFrom (fun l => strings.Contains l "v1 :=".data &&
      strings.Contains l "Group(".data)
      (pre ++ sig :: mid ++ L1 :: mid2 ++ L2 :: post) pre.length
      = some (pre ++ sig :: mid).length := by
    have : pre ++ sig :: mid ++ L1 :: mid2 ++ L2 :: post
        = pre ++ ((sig :: mid) ++ L1 :: (mid2 ++ L2 :: post)) := by simp
    rw [this]
    exact findLineFrom_append_cons _ pre (sig :: mid) L1 _ hmid hL1
  have hdecl : addHandlerDeclarations
      (strings.Join (pre ++ sig :: mid ++ L1 :: mid2 ++ L2 :: post) ['\n']) module method [e]
      = strings.Join ((pre ++ sig :: mid) ++ [dl ++ ['\n'] ++ L1] ++ (mid2 ++ L2 :: post) ++
          List.replicate 2 []) ['\n'] := by
    unfold addHandlerDeclarations
    simp only [nl_data, hsplit, hfind, hgroup]
    have h1 : pre ++ sig :: mid ++ L1 :: mid2 ++ L2 :: post
        = (pre ++ sig :: mid) ++ L1 :: (mid2 ++ L2 :: post) := by simp
    rw [h1, updatedLines_append, getD_append_length, hdl]
    have h2 : (strings.Split (dl ++ ['\n']) ['\n']).length = 2 := by
      rw [split_append, split_of_not_mem _ _ hdlfree]
      rfl
    rw [h2]
  have hA : ∀ l ∈ pre ++ sig :: mid, '\n' ∉ l := fun l hl => hfree l (by
    simp only [List.mem_append, List.mem_cons] at hl ⊢; tauto)
  have hB : ∀ l ∈ mid2 ++ L2 :: post, '\n' ∉ l := fun l hl => hfree l (by
    simp only [List.mem_append, List.mem_cons] at hl ⊢; tauto)
  have hL1free : '\n' ∉ L1 := hfree L1 (by simp)
  have hL2free : '\n' ∉ L2 := hfree L2 (by simp)
  -- the lines of the content with the declaration added
  have hsplit2 : strings.Split (strings.Join ((pre ++ sig :: mid) ++ [dl ++ ['\n'] ++ L1] ++
      (mid2 ++ L2 :: post) ++ List.replicate 2 []) ['\n']) ['\n']
      = pre ++ ((sig :: mid ++ dl :: L1 :: mid2) ++ L2 :: (post ++ List.replicate 2 [])) := by
    rw [split_join_spliced _ _ _ _ hA hB, List.append_assoc dl, List.singleton_append,
      split_append, split_of_not_mem _ _ hdlfree, split_of_not_mem _ _ hL1free]
    simp
  have hnotclose : ∀ l ∈ sig :: mid ++ dl :: L1 :: mid2,
      (strings.TrimSpace l == ['\x7d'] && strings.HasPrefix l ['\t', '\x7d']) = false := by
    intro l hl
    simp only [List.mem_append, List.mem_cons] at hl
    rcases hl with (h | h) | h | h | h
    · exact hclose l (by simp [h])
    · exact hclose l (by simp [h])
    · rw [h]; exact hdlclose
    · exact hclose l (by simp [h])
    · exact hclose l (by simp [h])
  have hbrace : findLineFrom (fun l => strings.TrimSpace l == ['\x7d'] &&
      strings.HasPrefix l ['\t', '\x7d'])
      (pre ++ ((sig :: mid ++ dl :: L1 :: mid2) ++ L2 :: (post ++ List.replicate 2 [])))
      pre.length = some (pre ++ (sig :: mid ++ dl :: L1 :: mid2)).length :=
    findLineFrom_append_cons _ pre _ L2 _ hnotclose hL2
  have hC : ∀ l ∈ pre ++ (sig :: mid ++ dl :: L1 :: mid2), '\n' ∉ l := by
    intro l hl
    simp only [List.mem_append, List.mem_cons] at hl
    rcases hl with h | (h | h) | h | h | h
    · exact hfree l (by simp [h])
    · exact hfree l (by simp [h])
    · exact hfree l (by simp [h])
    · rw [h]; exact hdlfree
    · exact hfree l (by simp [h])
    · exact hfree l (by simp [h])
  have hD : ∀ l ∈ post ++ List.replicate 2 ([] : Str), '\n' ∉ l := by
    intro l hl
    rcases List.mem_append.1 hl with h | h
    · exact hfree l (by simp [h])
    · rw [List.eq_of_mem_replicate h]; simp
  unfold updateRouteMethod
  simp only [nl_data, hsplit, hfind, hdecl, hsplit2]
  rw [hbrace]
  dsimp only
  rw [← List.append_assoc pre, updatedLines_append, getD_append_length,
    split_join_spliced _ _ _ _ hC hD, List.append_assoc (generateEntityRoutes module method [e]),
    List.singleton_append, split_append, split_of_not_mem _ _ hL2free]
  simp [List.replicate_add]

/-- The graft of one entity on a routes file with a Finder block, for the
module "auth" and the entity "role". -/
theorem updateRouteMethod_single_entity_witness :
    ∃ dl : Str, generateHandlerDeclarations "auth".data "Finder".data ["role".data]
        = dl ++ "\n".data ∧
      '\n' ∉ dl ∧
      strings.Split
          (updateRouteMethod
            (strings.Join (["package app".data, "".data] ++
              "func (h *AuthHTTPHandler) FinderHTTPHandler() \x7b".data :: [] ++
              "\tv1 := h.engine.Group(\"/v1\")".data :: ["\t\x7b".data] ++
              "\t\x7d".data :: ["\x7d".data, "".data]) "\n".data)
            "auth".data "Finder".data ["role".data]) "\n".data
        = ["package app".data, "".data] ++
          "func (h *AuthHTTPHandler) FinderHTTPHandler() \x7b".data :: [] ++
          dl :: "\tv1 := h.engine.Group(\"/v1\")".data :: ["\t\x7b".data] ++
          strings.Split (generateEntityRoutes "auth".data "Finder".data ["role".data])
            "\n".data ++
          "\t\x7d".data :: ["\x7d".data, "".data] ++
          List.replicate
            (2 + (strings.Split (generateEntityRoutes "auth".data "Finder".data ["role".data])
              "\n".data).length) [] :=
  updateRouteMethod_single_entity ["package app".data, "".data] [] ["\t\x7b".data]
    ["\x7d".data, "".data] "func (h *AuthHTTPHandler) FinderHTTPHandler() \x7b".data
    "\tv1 := h.engine.Group(\"/v1\")".data "\t\x7d".data "auth".data "Finder".data "role".data
    (by decide) (by decide) (by decide) (by decide) (by decide) (by decide) (by decide)
    (by decide) (by decide) (by decide)

/-! ## Shape of the generated fragments (C17, C18, C19, C20) -/

/-- C17: for entity names without newlines, the lines of the text of
`generateIncrementalBuilderCode` are an empty line, then for each entity in
input order the twelve lines `wiringLines` (comment, the repository
constructions Finder, Creator, Updater, Deleter, blank, comment, the service
constructions Creator, Finder, Updater, Deleter with the stated arguments,
blank), then the empty rest after the last newline; and each repository
variable `<e><Action>Repo` is defined on one of the first five lines of the
block of `e`, before the service constructions. -/
theorem generateIncrementalBuilderCode_lines (module version : Str) (tables : List Str)
    (h : ∀ e ∈ tables, '\n' ∉ e) :
    strings.Split (generateIncrementalBuilderCode module version tables) "\n".data
      = ["".data] ++ tables.flatMap wiringLines ++ ["".data] ∧
    ∀ e action, action ∈ routeMethods →
      ∃ j, j < 5 ∧ strings.HasPrefix ((wiringLines e).getD j [])
        ("\t".data ++ e ++ action ++ "Repo := ".data) = true :=
  ⟨split_generateIncrementalBuilderCode module version tables h,
    fun e action ha => wiringLines_defines_repositories e action ha⟩

theorem generateIncrementalBuilderCode_lines_witness :
    (∀ e ∈ ["role".data, "user_profile".data], '\n' ∉ e) ∧
    strings.Split (generateIncrementalBuilderCode "auth".data "v1".data
        ["role".data, "user_profile".data]) "\n".data
      = ["".data] ++ ["role".data, "user_profile".data].flatMap wiringLines ++ ["".data] :=
  ⟨by decide,
    (generateIncrementalBuilderCode_lines "auth".data "v1".data
      ["role".data, "user_profile".data] (by decide)).1⟩

/-- C18, counterexample: with the module "au\nth", which contains a newline,
the declaration of the single entity "role" for Finder is spread over two
lines, so the text is not one complete line per entity. -/
theorem generateHandlerDeclarations_module_newline :
    strings.Split (generateHandlerDeclarations "au\nth".data "Finder".data ["role".data]) "\n".data
      = ["\troleHnd := au".data, "thhandlerv1.NewRoleFinderHandler(h.roleFinder)".data,
         "".data] := by
  decide

/-- C18 (amended): for a module without a newline, a method among Finder,
Creator, Updater, Deleter and entity names without newlines, the text of
`generateHandlerDeclarations` is the concatenation, in input order, of one
newline-terminated line `declarationLine` per entity, and its lines are
exactly these lines followed by the empty rest after the last newline. -/
theorem generateHandlerDeclarations_lines (m method : Str) (tables : List Str)
    (hm : method ∈ routeMethods) (hmod : '\n' ∉ m) (h : ∀ e ∈ tables, '\n' ∉ e) :
    generateHandlerDeclarations m method tables
      = (tables.map (declarationLine m method)).flatMap (fun l => l ++ "\n".data) ∧
    strings.Split (generateHandlerDeclarations m method tables) "\n".data
      = tables.map (declarationLine m method) ++ ["".data] := by
  have heq := generateHandlerDeclarations_eq m method tables hm
  refine ⟨heq, ?_⟩
  rw [heq]
  exact split_terminated_nil _ (fun l hl => by
    obtain ⟨e, he, rfl⟩ := List.mem_map.1 hl
    exact declarationLine_no_nl m method e hm hmod (h e he))

theorem generateHandlerDeclarations_lines_witness :
    strings.Split (generateHandlerDeclarations "auth".data "Creator".data
        ["role".data, "user".data]) "\n".data
      = ["role".data, "user".data].map (declarationLine "auth".data "Creator".data)
          ++ ["".data] :=
  (generateHandlerDeclarations_lines "auth".data "Creator".data ["role".data, "user".data]
    (by decide) (by decide) (by decide)).2

/-- C19: for every module and entity list, the text of `generateEntityRoutes`
is, per entity in input order, one group guarded by
`middleware.RequirePermission` with `constant.Perm<D><Action>` and
`constant.PermSystemManage`, where Action is View for Finder, Create for
Creator, Update for Updater, Delete for Deleter, and the group registers
exactly GET "" and GET "/:id" for Finder, POST "" for Creator, PUT "/:id" for
Updater, DELETE "/:id" for Deleter. -/
theorem generateEntityRoutes_guard_and_routes (module : Str) (tables : List Str) :
    generateEntityRoutes module "Finder".data tables
      = tables.flatMap (fun e => guardedGroup e "View".data
          [ ".GET(\"\", ".data ++ e ++ "Hnd.GetAll".data ++ getPluralDisplayName e ++ ")".data,
            ".GET(\"/:id\", ".data ++ e ++ "Hnd.Get".data ++ toPascalCase e ++ "ByID)".data ]) ∧
    generateEntityRoutes module "Creator".data tables
      = tables.flatMap (fun e => guardedGroup e "Create".data
          [ ".POST(\"\", ".data ++ e ++ "Hnd.Create".data ++ toPascalCase e ++ ")".data ]) ∧
    generateEntityRoutes module "Updater".data tables
      = tables.flatMap (fun e => guardedGroup e "Update".data
          [ ".PUT(\"/:id\", ".data ++ e ++ "Hnd.Update".data ++ toPascalCase e ++ ")".data ]) ∧
    generateEntityRoutes module "Deleter".data tables
      = tables.flatMap (fun e => guardedGroup e "Delete".data
          [ ".DELETE(\"/:id\", ".data ++ e ++ "Hnd.Delete".data ++ toPascalCase e ++
              "ByID)".data ]) := by
  unfold generateEntityRoutes
  simp only [foldl_append_eq, List.nil_append]
  refine ⟨?_, ?_, ?_, ?_⟩ <;>
  · congr 1
    funext e
    simp [entityRoutes, guardedGroup, getPermissionAction]

/-- C20, counterexample: with the module "au\nth", which contains a newline,
the struct fields of the single entity "role" take eight lines, not four. -/
theorem generateHandlerFields_module_newline :
    (strings.Split (generateHandlerFields "au\nth".data ["role".data]) "\n".data).length = 9 ∧
    strings.Split (generateHandlerFields "au\nth".data ["role".data]) "\n".data
      = [ "\troleCreator au".data, "thservicev1.RoleCreatorUseCase".data,
          "\troleFinder au".data, "thservicev1.RoleFinderUseCase".data,
          "\troleUpdater au".data, "thservicev1.RoleUpdaterUseCase".data,
          "\troleDeleter au".data, "thservicev1.RoleDeleterUseCase".data, "".data ] := by
  decide

/-- C20 (amended): for a module without a newline and entity names without
newlines, the lines of the texts of `generateHandlerFields`,
`generateHandlerConstructorParams` and `generateHandlerFieldAssignments` are,
for each entity in input order, the four lines for Creator, Finder, Updater,
Deleter (`fieldLines`, `parameterLines`, `assignmentLines`), followed by the
empty rest after the last newline: `4 * n` lines for `n` entities. -/
theorem handler_fragments_four_lines (m : Str) (tables : List Str)
    (hmod : '\n' ∉ m) (h : ∀ e ∈ tables, '\n' ∉ e) :
    strings.Split (generateHandlerFields m tables) "\n".data
      = tables.flatMap (fieldLines m) ++ ["".data] ∧
    strings.Split (generateHandlerConstructorParams m tables) "\n".data
      = tables.flatMap (parameterLines m) ++ ["".data] ∧
    strings.Split (generateHandlerFieldAssignments tables) "\n".data
      = tables.flatMap assignmentLines ++ ["".data] ∧
    (tables.flatMap (fieldLines m)).length = 4 * tables.length ∧
    (tables.flatMap (parameterLines m)).length = 4 * tables.length ∧
    (tables.flatMap assignmentLines).length = 4 * tables.length :=
  ⟨split_foldl_lines (handlerFields m) (fieldLines m) tables (handlerFields_eq m)
      (fun e he => fieldLines_no_nl m e hmod (h e he)),
    split_foldl_lines (handlerConstructorParams m) (parameterLines m) tables
      (handlerConstructorParams_eq m) (fun e he => parameterLines_no_nl m e hmod (h e he)),
    split_foldl_lines handlerFieldAssignments assignmentLines tables handlerFieldAssignments_eq
      (fun e he => assignmentLines_no_nl e (h e he)),
    length_flatMap_four _ tables (fun _ => rfl),
    length_flatMap_four _ tables (fun _ => rfl),
    length_flatMap_four _ tables (fun _ => rfl)⟩

theorem handler_fragments_four_lines_witness :
    strings.Split (generateHandlerFields "auth".data ["role".data, "user".data]) "\n".data
      = ["role".data, "user".data].flatMap (fieldLines "auth".data) ++ ["".data] ∧
    (["role".data, "user".data].flatMap (fieldLines "auth".data)).length = 8 :=
  ⟨(handler_fragments_four_lines "auth".data ["role".data, "user".data]
      (by decide) (by decide)).1,
    (handler_fragments_four_lines "auth".data ["role".data, "user".data]
      (by decide) (by decide)).2.2.2.1⟩

/-! ## The entities read from a builder file (C12, C13) -/

theorem extractExistingTables_builderWithShortName :
    extractExistingTables builderWithShortName = ["user".data] := by
  decide!

theorem canonicalRepoText_not_in_builderWithShortName :
    ∀ line ∈ strings.Split builderWithShortName "\n".data, ∀ action ∈ routeMethods,
      strings.Contains line (canonicalRepoText "user".data action) = false := by
  decide!

/-- C12, counterexample: in `builderWithShortName` the only repository line is
`uRepo := repository.NewUserFinderRepository(db, cache)`; "user" is reported
present, yet no line contains the canonical text
`user<Action>Repo := repository.NewUser<Action>Repository(` for any action. -/
theorem extractExistingTables_reports_without_canonical_text :
    "user".data ∈ extractExistingTables builderWithShortName ∧
    ∀ line ∈ strings.Split builderWithShortName "\n".data, ∀ action ∈ routeMethods,
      strings.Contains line (canonicalRepoText "user".data action) = false :=
  ⟨by rw [extractExistingTables_builderWithShortName]; exact List.mem_singleton.2 rfl,
    canonicalRepoText_not_in_builderWithShortName⟩

/-- A line that holds "repository.New" twice in a row reports nothing: the text
between the two markers is empty. -/
theorem extractExistingTables_builderWithTwoMarkers :
    extractExistingTables builderWithTwoMarkers = [] := by
  decide!

/-- C12 (amended): for every wiring content of ASCII characters, an entity `e`
is reported present by `extractExistingTables` if and only if `e` is not empty
and some line of the content, trimmed of surrounding white space, contains
"Repo :=" and "repository.New" and its constructed name, lower-cased, is `e`.
The constructed name is the text behind the first "repository.New" of the
line, up to the next "repository.New" if there is one, cut in front of the
first "FinderRepository", then of what is left in front of the first
"CreatorRepository", "UpdaterRepository", "DeleterRepository" and "(" in turn;
the variable name before "Repo :=" is not compared. -/
theorem extractExistingTables_present_iff (content e : Str)
    (_hascii : ∀ c ∈ content, c.toNat < 128) :
    e ∈ extractExistingTables content ↔
      e ≠ [] ∧ ∃ line ∈ strings.Split content "\n".data,
        strings.Contains (strings.TrimSpace line) "Repo :=".data = true ∧
        strings.Contains (strings.TrimSpace line) "repository.New".data = true ∧
        strings.ToLower (constructedName (strings.TrimSpace line)) = e := by
  rw [mem_extractExistingTables]
  constructor
  · rintro ⟨line, hl, h⟩
    have hne : e ≠ [] := fun h0 => repoLineEntity_ne_nil line (h0 ▸ h)
    refine ⟨hne, line, hl, ?_⟩
    unfold repoLineEntity at h
    simp only at h
    by_cases hc : (strings.Contains (strings.TrimSpace line) "Repo :=".data &&
        strings.Contains (strings.TrimSpace line) "repository.New".data) = true
    · rw [if_pos hc] at h
      rw [Bool.and_eq_true] at hc
      refine ⟨hc.1, hc.2, ?_⟩
      rw [← extractEntityFromRepoLine_eq _ hc.2]
      by_cases hx : extractEntityFromRepoLine (strings.TrimSpace line) = []
      · rw [if_neg (by simpa using hx)] at h
        exact absurd h (by simp)
      · rw [if_pos hx] at h
        exact Option.some.inj h
    · rw [if_neg hc] at h
      exact absurd h (by simp)
  · rintro ⟨hne, line, hl, h1, h2, h3⟩
    refine ⟨line, hl, ?_⟩
    rw [← extractEntityFromRepoLine_eq _ h2] at h3
    unfold repoLineEntity
    simp only
    rw [if_pos (by rw [h1, h2]; rfl), h3, if_pos hne]

theorem extractExistingTables_present_iff_witness :
    (∀ c ∈ builderWithShortName, c.toNat < 128) ∧
    ("user".data ∈ extractExistingTables builderWithShortName ↔
      "user".data ≠ [] ∧ ∃ line ∈ strings.Split builderWithShortName "\n".data,
        strings.Contains (strings.TrimSpace line) "Repo :=".data = true ∧
        strings.Contains (strings.TrimSpace line) "repository.New".data = true ∧
        strings.ToLower (constructedName (strings.TrimSpace line)) = "user".data) :=
  ⟨by decide, extractExistingTables_present_iff builderWithShortName "user".data (by decide)⟩

theorem extractExistingTables_four_user_lines :
    extractExistingTables (strings.Join ((wiringLines "user".data).take 5) "\n".data)
      = ["user".data] := by
  decide!

/-- C13: the list returned by `extractExistingTables` is the list of the
entities reported by the lines of the content, in line order, with every
entity kept at its first occurrence only; it has no duplicates and does not
contain the empty string; the comment and the four repository lines of "user"
give the single entry "user". -/
theorem extractExistingTables_first_seen (content : Str) :
    extractExistingTables content
      = dedupFirst ((strings.Split content "\n".data).filterMap repoLineEntity) ∧
    (extractExistingTables content).Nodup ∧
    [] ∉ extractExistingTables content ∧
    extractExistingTables (strings.Join ((wiringLines "user".data).take 5) "\n".data)
      = ["user".data] := by
  refine ⟨extractExistingTables_eq content, ?_, ?_, extractExistingTables_four_user_lines⟩
  · rw [extractExistingTables_eq]
    exact nodup_dedupFirst _
  · rw [mem_extractExistingTables]
    rintro ⟨line, _, h⟩
    exact repoLineEntity_ne_nil line h

/-! ## Grafting an entity next to a wired one (C11) -/

theorem roleWiring_no_user_pattern :
    ∀ l ∈ ["".data] ++ wiringLines "role".data ++ ["".data], ∀ p ∈ userWiringPatterns,
      strings.Contains l p = false := by
  decide!

theorem roleArgs_no_user_pattern :
    ∀ l ∈ strings.Split (["role".data].foldl
        (fun newParams entity => newParams ++ handlerConstructorArgs entity) []) ['\n'],
      ∀ p ∈ userWiringPatterns, strings.Contains l p = false := by
  decide!

theorem extractExistingTables_builderWithUser :
    extractExistingTables builderWithUser = ["user".data] := by
  decide!

theorem length_split_builderWithUser :
    (strings.Split builderWithUser "\n".data).length = 26 := by
  decide!

theorem split_roleWiring (module version : Str) :
    strings.Split (generateIncrementalBuilderCode module version ["role".data]) ['\n']
      = ["".data] ++ wiringLines "role".data ++ ["".data] := by
  have h := split_generateIncrementalBuilderCode module version ["role".data]
    (fun e he => by rw [List.mem_singleton.1 he]; decide)
  rw [nl_data] at h
  rw [h, List.flatMap_cons, List.flatMap_nil, List.append_nil]

theorem updateBuilderIncremental_role_written (c module version : Str)
    (hf : filterNewTables ["user".data, "role".data] (extractExistingTables c) = ["role".data])
    (hk : findEntityWiringInsertionLine (strings.Split c ['\n']) ≠ -1) :
    updateBuilderIncremental c module version ["user".data, "role".data]
      = GraftOutcome.written (updateHandlerConstructor (strings.Join
          ((strings.Split c ['\n']).take (findEntityWiringInsertionLine
              (strings.Split c ['\n'])).toNat ++
            (["".data] ++ wiringLines "role".data ++ ["".data]) ++
            (strings.Split c ['\n']).drop (findEntityWiringInsertionLine
              (strings.Split c ['\n'])).toNat) ['\n']) ["role".data]) := by
  unfold updateBuilderIncremental
  simp only [hf]
  unfold updateBuilderFile
  simp only [nl_data]
  rw [if_neg hk, split_roleWiring]
  rfl

/-- C11: for every wiring content of at least two lines in which
`extractExistingTables` reports "user" but not "role", grafting
["user", "role"] keeps only "role" to add, writes an output that holds every
line of the generated wiring of "role" (among them its four repository and
four service lines), keeps every line of the content unchanged and in order,
and leaves the number of lines that construct a user repository or service
as it was. -/
theorem updateBuilderIncremental_adds_role_only (c module version : Str)
    (hlen : 2 ≤ (strings.Split c "\n".data).length)
    (hu : "user".data ∈ extractExistingTables c)
    (hr : "role".data ∉ extractExistingTables c) :
    filterNewTables ["user".data, "role".data] (extractExistingTables c) = ["role".data] ∧
    ∃ out, updateBuilderIncremental c module version ["user".data, "role".data]
        = GraftOutcome.written out ∧
      (∀ l ∈ strings.Split (generateIncrementalBuilderCode module version ["role".data])
          "\n".data, l ∈ strings.Split out "\n".data) ∧
      (∀ l ∈ wiringLines "role".data, l ∈ strings.Split out "\n".data) ∧
      (strings.Split c "\n".data).Sublist (strings.Split out "\n".data) ∧
      ∀ p ∈ userWiringPatterns,
        (strings.Split out "\n".data).countP (fun l => strings.Contains l p)
          = (strings.Split c "\n".data).countP (fun l => strings.Contains l p) := by
  have hf := filterNewTables_user_role _ hu hr
  have hN := split_roleWiring module version
  rw [nl_data] at hlen ⊢
  have hk := findEntityWiringInsertionLine_nonneg _ hlen
  have hk1 : findEntityWiringInsertionLine (strings.Split c ['\n']) ≠ -1 := by omega
  have hout := updateBuilderIncremental_role_written c module version hf hk1
  refine ⟨hf, _, hout, ?_⟩
  have hnoN : ∀ l ∈ ["".data] ++ wiringLines "role".data ++ ["".data], '\n' ∉ l := by
    rw [← hN]; exact not_mem_of_mem_split '\n' _
  obtain ⟨h1, h2, h3⟩ := graft_frame (strings.Split c ['\n'])
    (["".data] ++ wiringLines "role".data ++ ["".data])
    (findEntityWiringInsertionLine (strings.Split c ['\n'])).toNat ["role".data]
    (not_mem_of_mem_split '\n' c) hnoN (by simp)
  refine ⟨?_, fun l hl => h1 l (List.mem_append_left _ (List.mem_append_right _ hl)), h2, ?_⟩
  · rw [hN]
    exact h1
  · intro p hp
    exact h3 (fun l => strings.Contains l p)
      (fun l hl => roleWiring_no_user_pattern l hl p hp)
      (fun l hl => roleArgs_no_user_pattern l hl p hp)

theorem updateBuilderIncremental_adds_role_only_witness :
    filterNewTables ["user".data, "role".data] (extractExistingTables builderWithUser)
      = ["role".data] ∧
    ∃ out, updateBuilderIncremental builderWithUser "auth".data "v1".data
          ["user".data, "role".data] = GraftOutcome.written out ∧
      (∀ l ∈ strings.Split (generateIncrementalBuilderCode "auth".data "v1".data ["role".data])
          "\n".data, l ∈ strings.Split out "\n".data) ∧
      (∀ l ∈ wiringLines "role".data, l ∈ strings.Split out "\n".data) ∧
      (strings.Split builderWithUser "\n".data).Sublist (strings.Split out "\n".data) ∧
      ∀ p ∈ userWiringPatterns,
        (strings.Split out "\n".data).countP (fun l => strings.Contains l p)
          = (strings.Split builderWithUser "\n".data).countP (fun l => strings.Contains l p) :=
  updateBuilderIncremental_adds_role_only builderWithUser "auth".data "v1".data
    (by rw [length_split_builderWithUser]; decide)
    (by rw [extractExistingTables_builderWithUser]; decide)
    (by rw [extractExistingTables_builderWithUser]; decide)

/-! ## The insertion offset of the wiring analysis (C14) -/

/-- C14: on `builderIndented`, whose function body holds a repository line, a
service line and then the handler creation line, each indented by one tab,
`findEntityInsertionPoint` returns 94, while the service line ends at offset
95: the offset counts the trimmed lines, so it falls one byte per indented
line short and points in front of the closing parenthesis of the service
line. -/
theorem findEntityInsertionPoint_builderIndented :
    findEntityInsertionPoint builderIndented = 94 ∧
    strings.Split builderIndented "\n".data
      = [ "func Build() \x7b".data, "\taRepo := repository.NewAFinderRepository(db)".data,
          "\taSvc := service.NewAFinder(aRepo)".data,
          "\thandler := app.NewAuthHTTPHandler(aSvc)".data, "\x7d".data, "".data ] ∧
    byteLen (strings.Join ((strings.Split builderIndented "\n".data).take 3) "\n".data) = 95 ∧
    builderIndented.drop 94 = ")\n\thandler := app.NewAuthHTTPHandler(aSvc)\n\x7d\n".data := by
  decide!

/-! ## The recorded method blocks (C15, C16) -/

theorem extractMethodBlocks_routesWithFinder :
    (extractMethodBlocks routesWithFinder).map
        (fun kb => (kb.1, kb.2.StartLine, kb.2.EndLine, kb.2.Content))
      = [("Finder".data, 6, 10,
          ("func (h *AuthHTTPHandler) FinderHTTPHandler() \x7b\n" ++
           "\tv1 := h.engine.Group(\"/v1\")\n\t\x7b\n\t\x7d\n\x7d").data)] := by
  decide!

theorem mem_of_map_entries (l : List (Str × MethodBlock)) (M : Str) (s e : Int) (c : Str)
    (h : l.map (fun kb => (kb.1, kb.2.StartLine, kb.2.EndLine, kb.2.Content)) = [(M, s, e, c)]) :
    (M, { StartLine := s, EndLine := e, Content := c }) ∈ l := by
  cases l with
  | nil => simp at h
  | cons kb rest =>
    cases rest with
    | nil =>
      obtain ⟨k, ⟨s1, e1, c1⟩⟩ := kb
      simp only [List.map_cons, List.map_nil, List.cons.injEq, Prod.mk.injEq, and_true] at h
      obtain ⟨rfl, rfl, rfl, rfl⟩ := h
      exact List.mem_singleton.2 rfl
    | cons kb2 rest2 => simp at h

/-- C15, counterexample: in `routesWithBlankAfterInnerBrace` the Finder block
starts at line 0 and the function is closed by the brace of line 6, which
stands at the indentation of the signature; the recorded EndLine is 3, the
one-tab closing brace of the inner block, because the line after it is
blank. -/
theorem extractMethodBlocks_ends_at_inner_brace :
    (extractMethodBlocks routesWithBlankAfterInnerBrace).map
        (fun kb => (kb.1, kb.2.StartLine, kb.2.EndLine)) = [("Finder".data, 0, 3)] ∧
    strings.Split routesWithBlankAfterInnerBrace "\n".data
      = [ "func (h *AuthHTTPHandler) FinderHTTPHandler() \x7b".data,
          "\tv1 := h.engine.Group(\"/v1\")".data, "\t\x7b".data, "\t\x7d".data, "".data,
          "\th.engine.NoRoute(h.notFound)".data, "\x7d".data, "".data ] := by
  decide!

/-- C15 (amended): for every routes content and every block recorded by
`extractMethodBlocks`, EndLine is the first line from StartLine on that passes
the closing test `isBlockEnd`: trimmed of white space it is a closing brace,
at whatever indentation, and the line after it is absent, blank, or contains
"func (h *". -/
theorem extractMethodBlocks_endLine_first_closing (content M : Str) (b : MethodBlock)
    (h : (M, b) ∈ extractMethodBlocks content) :
    ∃ s e : Nat, b.StartLine = (s : Int) ∧ b.EndLine = (e : Int) ∧ s < e ∧
      e < (strings.Split content "\n".data).length ∧
      isBlockEnd (strings.Split content "\n".data) e = true ∧
      ∀ i, s ≤ i → i < e → isBlockEnd (strings.Split content "\n".data) i = false := by
  obtain ⟨_, s, e, h1, h2, h3, h4, _, h6, h7, _⟩ := extractMethodBlocks_blockOk content _ h
  exact ⟨s, e, h1, h2, h3, h4, h6, h7⟩

theorem extractMethodBlocks_endLine_first_closing_witness :
    ∃ s e : Nat, (6 : Int) = (s : Int) ∧ (10 : Int) = (e : Int) ∧ s < e ∧
      e < (strings.Split routesWithFinder "\n".data).length ∧
      isBlockEnd (strings.Split routesWithFinder "\n".data) e = true ∧
      ∀ i, s ≤ i → i < e → isBlockEnd (strings.Split routesWithFinder "\n".data) i = false :=
  extractMethodBlocks_endLine_first_closing routesWithFinder "Finder".data
    { StartLine := 6, EndLine := 10,
      Content := ("func (h *AuthHTTPHandler) FinderHTTPHandler() \x7b\n" ++
        "\tv1 := h.engine.Group(\"/v1\")\n\t\x7b\n\t\x7d\n\x7d").data }
    (mem_of_map_entries _ _ _ _ _ extractMethodBlocks_routesWithFinder)

/-- C16: in `routesWithPublicHandler` the closing brace of the Finder method is
followed by a comment line, so the block stays open; the signature of
`PublicHTTPHandler` on line 3 then restarts the block under the name that is
still set, and the entry recorded for "Finder" starts at line 3, a signature
that does not contain "FinderHTTPHandler". -/
theorem extractMethodBlocks_public_handler_as_finder :
    (extractMethodBlocks routesWithPublicHandler).map
        (fun kb => (kb.1, kb.2.StartLine, kb.2.EndLine, kb.2.Content))
      = [("Finder".data, 3, 4,
          "func (h *AuthHTTPHandler) PublicHTTPHandler() \x7b\n\x7d".data)] ∧
    (strings.Split routesWithPublicHandler "\n".data).getD 3 []
      = "func (h *AuthHTTPHandler) PublicHTTPHandler() \x7b".data ∧
    strings.Contains ((strings.Split routesWithPublicHandler "\n".data).getD 3 [])
      "FinderHTTPHandler".data = false := by
  decide!

/-! ## The `--parts` flag (C27) and singular forms (C28) -/

/-- C27, counterexample: the item "handler.finder.v2" is not blank, yet it
gives no module part, so the flag "handler.finder.v2,service" yields one part
for two items. -/
theorem parseModuleParts_two_dots :
    parseModuleParts "handler.finder.v2,service".data
      = [{ Component := "service".data, Action := "".data }] := by
  decide

/-- C27 (amended): `parseModuleParts` returns, in input order, the parts of the
comma-separated items trimmed of white space, where a blank item and an item
with two or more dots give no part, an item with exactly one dot gives the
component before the dot and the action after it, and an item without a dot
gives the component with the empty action; the two examples of the usage text
are parsed as stated. -/
theorem parseModuleParts_items (partsStr : Str) :
    parseModuleParts partsStr
      = ((strings.Split partsStr ",".data).map strings.TrimSpace).filterMap itemPart ∧
    parseModuleParts "handler.finder,service".data
      = [ { Component := "handler".data, Action := "finder".data },
          { Component := "service".data, Action := "".data } ] ∧
    parseModuleParts "repository.creator,repository.updater".data
      = [ { Component := "repository".data, Action := "creator".data },
          { Component := "repository".data, Action := "updater".data } ] := by
  refine ⟨?_, by decide, by decide⟩
  unfold parseModuleParts
  rw [foldl_parseModulePart, List.nil_append]

/-- C28: `singularize` maps eight of the ten plurals of its comments to the
singular stated there, but "wolves" to "wolfe" and "addresses" to
"addresse". -/
theorem singularize_examples :
    [ "companies".data, "wolves".data, "knives".data, "boxes".data, "addresses".data,
      "quizzes".data, "tomatoes".data, "heroes".data, "users".data, "tables".data ].map
        singularize
      = [ "company".data, "wolfe".data, "knife".data, "box".data, "addresse".data,
          "quiz".data, "tomato".data, "hero".data, "user".data, "table".data ] := by
  decide

/-! ## Splices without their anchors (C26) -/

/-- C26: each of `updateHandlerStruct`, `updateRouteHandlerConstructor`,
`updateHandlerConstructorBody` and the wiring `updateHandlerConstructor`
returns its input content unchanged when no line of the content passes its
primary marker test, or when no line from the first such line on passes its
anchor test; the functions return a string only, so no error is raised. -/
theorem splices_keep_content_without_anchor (content module : Str) (tables : List Str) :
    (AnchorMissing
        (fun line => strings.Contains line "type".data &&
          strings.Contains line "HTTPHandler struct \x7b".data)
        (fun l => strings.Contains l "cloudStorage".data || strings.Contains l "cache".data)
        (strings.Split content "\n".data) →
      updateHandlerStruct content module tables = content) ∧
    (AnchorMissing
        (fun line => strings.Contains line "func New".data &&
          strings.Contains line "HTTPHandler(".data)
        (fun l => strings.Contains l "cloudStorage".data || strings.Contains l "cache".data)
        (strings.Split content "\n".data) →
      updateRouteHandlerConstructor content module tables = content) ∧
    (AnchorMissing
        (fun line => strings.Contains line "return &".data &&
          strings.Contains line "HTTPHandler\x7b".data)
        (fun l => strings.Contains l "cloudStorage:".data || strings.Contains l "cache:".data)
        (strings.Split content "\n".data) →
      updateHandlerConstructorBody content module tables = content) ∧
    (AnchorMissing
        (fun line => strings.Contains line "app.New".data &&
          strings.Contains line "HTTPHandler(".data)
        (fun l => strings.Contains l "// Cloud Storage".data || strings.Contains l "cache,".data)
        (strings.Split content "\n".data) →
      updateHandlerConstructor content tables = content) := by
  refine ⟨fun h => ?_, fun h => ?_, fun h => ?_, fun h => ?_⟩
  · exact splice_of_anchorMissing _ _ _ content _ h
  · exact splice_of_anchorMissing _ _ _ content _ h
  · exact splice_of_anchorMissing _ _ _ content _ h
  · exact splice_of_anchorMissing _ _ _ content _ h

theorem splices_keep_content_without_anchor_witness :
    updateHandlerStruct "package app\n".data "auth".data ["role".data] = "package app\n".data ∧
    updateRouteHandlerConstructor
        "func NewAuthHTTPHandler(\n\tengine *gin.Engine,\n) *AuthHTTPHandler \x7b\n".data
        "auth".data ["role".data]
      = "func NewAuthHTTPHandler(\n\tengine *gin.Engine,\n) *AuthHTTPHandler \x7b\n".data ∧
    updateHandlerConstructorBody "package app\n".data "auth".data ["role".data]
      = "package app\n".data ∧
    updateHandlerConstructor "package auth\n".data ["role".data] = "package auth\n".data :=
  ⟨(splices_keep_content_without_anchor "package app\n".data "auth".data ["role".data]).1
      (Or.inl (by decide)),
    (splices_keep_content_without_anchor
        "func NewAuthHTTPHandler(\n\tengine *gin.Engine,\n) *AuthHTTPHandler \x7b\n".data
        "auth".data ["role".data]).2.1
      (Or.inr ⟨[], "func NewAuthHTTPHandler(".data,
        ["\tengine *gin.Engine,".data, ") *AuthHTTPHandler \x7b".data, "".data],
        by decide, by decide, by decide, by decide⟩),
    (splices_keep_content_without_anchor "package app\n".data "auth".data ["role".data]).2.2.1
      (Or.inl (by decide)),
    (splices_keep_content_without_anchor "package auth\n".data "auth".data ["role".data]).2.2.2
      (Or.inl (by decide))⟩

/-! ## The permission constants (C22, C23) -/

/-- C22, counterexample: `permissionsWithFunction` has no System section and
its const block is followed by a function; the new block is put after the
closing parenthesis line of the const block, in front of the function, not at
the end of the file. -/
theorem insertPermissionConstants_after_last_paren :
    (∀ l ∈ strings.Split permissionsWithFunction "\n".data,
      sectionName l ≠ some "System".data) ∧
    strings.Split
        (insertPermissionConstants permissionsWithFunction "auth".data
          "// Menu permissions\nconst (\n)\n\n".data) "\n".data
      = [ "package constant".data, "".data, "// Role permissions".data, "const (".data,
          "\tPermRoleView = \"role:view\"".data, ")".data,
          "// Menu permissions".data, "const (".data, ")".data, "".data, "".data,
          "".data, "func All() []string \x7b".data, "\treturn nil".data, "\x7d".data,
          "".data ] := by
  decide

/-- C22 (amended): the lines of the output of `insertPermissionConstants` are
the lines of the content with the lines of the new block inserted at one
position, so every line of the content is kept in order; the position is the
first section comment line whose section name is "System" when there is one,
otherwise the line after the last line that trimmed is ")" when there is one,
and otherwise the end of the file. -/
theorem insertPermissionConstants_lines (content module newPermissions : Str) :
    strings.Split (insertPermissionConstants content module newPermissions) "\n".data
      = (strings.Split content "\n".data).take
            (permissionInsertPosition (strings.Split content "\n".data)) ++
          strings.Split newPermissions "\n".data ++
          (strings.Split content "\n".data).drop
            (permissionInsertPosition (strings.Split content "\n".data)) ∧
    (strings.Split content "\n".data).Sublist
      (strings.Split (insertPermissionConstants content module newPermissions) "\n".data) ∧
    (∀ pre x post, strings.Split content "\n".data = pre ++ x :: post →
      (∀ l ∈ pre, sectionName l ≠ some "System".data) → sectionName x = some "System".data →
      permissionInsertPosition (strings.Split content "\n".data) = pre.length) ∧
    (∀ pre x post, strings.Split content "\n".data = pre ++ x :: post →
      (∀ l ∈ pre ++ x :: post, sectionName l ≠ some "System".data) →
      strings.TrimSpace x = ")".data → (∀ l ∈ post, strings.TrimSpace l ≠ ")".data) →
      permissionInsertPosition (strings.Split content "\n".data) = pre.length + 1) ∧
    ((∀ l ∈ strings.Split content "\n".data, sectionName l ≠ some "System".data) →
      (∀ l ∈ strings.Split content "\n".data, strings.TrimSpace l ≠ ")".data) →
      permissionInsertPosition (strings.Split content "\n".data)
        = (strings.Split content "\n".data).length) := by
  refine ⟨split_insertPermissionConstants content module newPermissions, ?_, ?_, ?_, ?_⟩
  · rw [split_insertPermissionConstants]
    have := sublist_inserted (strings.Split content "\n".data)
      (strings.Split newPermissions "\n".data) []
      (permissionInsertPosition (strings.Split content "\n".data))
    rw [List.append_nil] at this
    exact this
  · intro pre x post h hpre hx
    rw [h]
    exact permissionInsertPosition_system pre x post hpre hx
  · intro pre x post h hsys hx hpost
    rw [h]
    exact permissionInsertPosition_paren pre x post hsys hx hpost
  · exact permissionInsertPosition_end _

theorem insertPermissionConstants_lines_witness :
    permissionInsertPosition
        (strings.Split "// Role permissions\nconst (\n)\n// System permissions\n".data
          "\n".data) = 3 :=
  (insertPermissionConstants_lines "// Role permissions\nconst (\n)\n// System permissions\n".data
      "auth".data "// Menu permissions\nconst (\n)\n\n".data).2.2.1
    ["// Role permissions".data, "const (".data, ")".data] "// System permissions".data
    ["".data] (by decide) (by decide) (by decide)

/-- C23: for the module "auth" and the entity "role" the block of
`generatePermissionConstantsForModule` starts with the section comment
"// Role permissions", which names the first entity and not the module; the
const block then defines the six constants of the entity. -/
theorem generatePermissionConstantsForModule_names_first_entity :
    generatePermissionConstantsForModule "auth".data ["role".data]
      = some ("// Role permissions\n" ++
          "const (\n" ++
          "\t// PermRoleView allows viewing role\n" ++
          "\tPermRoleView = \"role:view\"\n\n" ++
          "\t// PermRoleCreate allows creating role\n" ++
          "\tPermRoleCreate = \"role:create\"\n\n" ++
          "\t// PermRoleUpdate allows updating role\n" ++
          "\tPermRoleUpdate = \"role:update\"\n\n" ++
          "\t// PermRoleDelete allows deleting role\n" ++
          "\tPermRoleDelete = \"role:delete\"\n\n" ++
          "\t// PermRoleList allows listing role\n" ++
          "\tPermRoleList = \"role:list\"\n\n" ++
          "\t// PermRoleManage allows managing role\n" ++
          "\tPermRoleManage = \"role:manage\"\n\n" ++
          ")\n\n").data := by
  decide

/-! ## The cache key constants (C24) -/

/-- C24: `insertCacheKeys` returns the content unchanged when it holds no ")",
and otherwise the content with the keys put in front of its last ")" and
nothing else changed; when the content holds a ")", `cacheKeysExist` holds on
the content with the generated keys of an entity inserted, so generating the
keys of the same entity again returns before any write. -/
theorem insertCacheKeys_before_last_paren (content schema entity : Str) :
    (∀ keys, ')' ∉ content → insertCacheKeys content keys = content) ∧
    (∀ keys before after, content = before ++ ')' :: after → ')' ∉ after →
      insertCacheKeys content keys = before ++ keys ++ ')' :: after) ∧
    (')' ∈ content →
      cacheKeysExist (insertCacheKeys content (generateCacheKeyConstants schema entity))
        schema entity = true ∧
      generateCacheKeysForEntity
        (some (insertCacheKeys content (generateCacheKeyConstants schema entity)))
        schema entity = GraftOutcome.skipped) := by
  refine ⟨fun keys h => insertCacheKeys_of_not_mem content keys h, ?_, ?_⟩
  · intro keys before after hc ha
    rw [hc]
    exact insertCacheKeys_append before after keys ha
  · intro hm
    obtain ⟨before, after, hc, ha⟩ := exists_last_occurrence ')' content hm
    have hex : cacheKeysExist
        (insertCacheKeys content (generateCacheKeyConstants schema entity)) schema entity
        = true := by
      rw [hc, insertCacheKeys_append before after _ ha]
      exact cacheKeysExist_insert before (')' :: after) schema entity
    refine ⟨hex, ?_⟩
    unfold generateCacheKeysForEntity
    simp only [hex, if_true]

theorem insertCacheKeys_before_last_paren_witness :
    insertCacheKeys "const (\n\tA = 1\n)\n".data "\tB = 2\n".data
      = "const (\n\tA = 1\n".data ++ "\tB = 2\n".data ++ ')' :: "\n".data ∧
    generateCacheKeysForEntity
      (some (insertCacheKeys "const (\n\tA = 1\n)\n".data
        (generateCacheKeyConstants "auth".data "role".data)))
      "auth".data "role".data = GraftOutcome.skipped :=
  ⟨(insertCacheKeys_before_last_paren "const (\n\tA = 1\n)\n".data "auth".data "role".data).2.1
      "\tB = 2\n".data "const (\n\tA = 1\n".data "\n".data (by decide) (by decide),
    ((insertCacheKeys_before_last_paren "const (\n\tA = 1\n)\n".data "auth".data
      "role".data).2.2 (by decide)).2⟩

/-! ## Unknown components and actions (C25) -/

/-- C25, counterexample: the directory of the component is created before the
action is examined, so on a file system in which `os.MkdirAll` fails the three
generators return the error of `os.MkdirAll` for the unknown action "lister":
the error does not name the action. -/
theorem generateHandlers_unknown_action_mkdir_error :
    generateHandlers readOnlyGenerator "auth".data "users".data "v1".data "lister".data
        "./modules".data emptyWorld = (emptyWorld, some "permission denied".data) ∧
    generateServices readOnlyGenerator "auth".data "users".data "v1".data "lister".data
        "./modules".data emptyWorld = (emptyWorld, some "permission denied".data) ∧
    generateRepositories readOnlyGenerator "auth".data "users".data "v1".data "lister".data
        "./modules".data emptyWorld = (emptyWorld, some "permission denied".data) := by
  decide

/-- C25 (amended): when the parts before it raise no error, `GenerateModule`
returns the error "unknown module component: <component>" at the first part
whose component is not handler, service or repository, with the files as the
earlier parts left them; for a non-empty action other than creator, finder,
updater, deleter, `generateHandlers`, `generateServices` and
`generateRepositories` first create the directory of the component and then
return the error "unknown <component> action: <action>" and write no file; at
the first part that raises an error `GenerateModule` returns what that part
returns, whatever parts follow it; and when the directory of the component
cannot be created, the three generators return the error of `os.MkdirAll`
whatever the action is, and change nothing. -/
theorem GenerateModule_unknown_target (g : Generator)
    (schema entity version outputDir : Str) (w : World) :
    (∀ pre part post,
      (GenerateModule g schema entity version outputDir pre w).2 = none →
      part.Component ∉ ["handler".data, "service".data, "repository".data] →
      GenerateModule g schema entity version outputDir (pre ++ part :: post) w
        = ((GenerateModule g schema entity version outputDir pre w).1,
            some ("unknown module component: ".data ++ part.Component))) ∧
    (∀ action,
      action ∉ ["".data, "creator".data, "finder".data, "updater".data, "deleter".data] →
      (g.mkdirAll [outputDir, schema, version, "handler".data] = none →
        generateHandlers g schema entity version action outputDir w
          = ({ w with dirs := w.dirs ++ [[outputDir, schema, version, "handler".data]] },
              some ("unknown handler action: ".data ++ action))) ∧
      (g.mkdirAll [outputDir, schema, version, "service".data] = none →
        generateServices g schema entity version action outputDir w
          = ({ w with dirs := w.dirs ++ [[outputDir, schema, version, "service".data]] },
              some ("unknown service action: ".data ++ action))) ∧
      (g.mkdirAll [outputDir, schema, version, "repository".data] = none →
        generateRepositories g schema entity version action outputDir w
          = ({ w with dirs := w.dirs ++ [[outputDir, schema, version, "repository".data]] },
              some ("unknown repository action: ".data ++ action)))) ∧
    (∀ pre part post,
      (GenerateModule g schema entity version outputDir pre w).2 = none →
      (generatePart g schema entity version outputDir part
        (GenerateModule g schema entity version outputDir pre w).1).2 ≠ none →
      GenerateModule g schema entity version outputDir (pre ++ part :: post) w
        = generatePart g schema entity version outputDir part
            (GenerateModule g schema entity version outputDir pre w).1) ∧
    (∀ action err,
      (g.mkdirAll [outputDir, schema, version, "handler".data] = some err →
        generateHandlers g schema entity version action outputDir w = (w, some err)) ∧
      (g.mkdirAll [outputDir, schema, version, "service".data] = some err →
        generateServices g schema entity version action outputDir w = (w, some err)) ∧
      (g.mkdirAll [outputDir, schema, version, "repository".data] = some err →
        generateRepositories g schema entity version action outputDir w = (w, some err))) := by
  refine ⟨?_, ?_, ?_, ?_⟩
  rotate_left 3
  · intro action err
    refine ⟨fun hm => ?_, fun hm => ?_, fun hm => ?_⟩
    · unfold generateHandlers
      simp only [hm]
    · unfold generateServices
      simp only [hm]
    · unfold generateRepositories
      simp only [hm]
  · intro pre part post hpre hc
    have hp := generatePart_unknown_component g schema entity version outputDir part
      (GenerateModule g schema entity version outputDir pre w).1 hc
    rw [GenerateModule_append _ _ _ _ _ _ _ _ hpre, GenerateModule_stops _ _ _ _ _ _ _ _
      (by rw [hp]; simp), hp]
  · intro action ha
    have hne : action ≠ "".data := fun h => ha (by rw [h]; simp)
    refine ⟨fun hm => ?_, fun hm => ?_, fun hm => ?_⟩
    · unfold generateHandlers
      simp only [hm, getActions_of_ne action hne]
      rw [generateActionFiles_unknown _ _ _ _ _ _ _ _ ha]
      rfl
    · unfold generateServices
      simp only [hm, getActions_of_ne action hne]
      rw [generateActionFiles_unknown _ _ _ _ _ _ _ _ ha]
      rfl
    · unfold generateRepositories
      simp only [hm, getActions_of_ne action hne]
      rw [generateActionFiles_unknown _ _ _ _ _ _ _ _ ha]
      rfl
  · intro pre part post hpre hp
    rw [GenerateModule_append _ _ _ _ _ _ _ _ hpre, GenerateModule_stops _ _ _ _ _ _ _ _ hp]

theorem GenerateModule_unknown_target_witness :
    GenerateModule plainGenerator "auth".data "users".data "v1".data "./modules".data
        ([{ Component := "handler".data, Action := "finder".data }] ++
          { Component := "cache".data, Action := "".data } ::
          [{ Component := "service".data, Action := "".data }]) emptyWorld
      = ((GenerateModule plainGenerator "auth".data "users".data "v1".data "./modules".data
            [{ Component := "handler".data, Action := "finder".data }] emptyWorld).1,
          some ("unknown module component: ".data ++ "cache".data)) ∧
    generateServices plainGenerator "auth".data "users".data "v1".data "lister".data
        "./modules".data emptyWorld
      = ({ emptyWorld with
            dirs := emptyWorld.dirs ++
              [["./modules".data, "auth".data, "v1".data, "service".data]] },
          some ("unknown service action: ".data ++ "lister".data)) :=
  ⟨(GenerateModule_unknown_target plainGenerator "auth".data "users".data "v1".data
      "./modules".data emptyWorld).1
      [{ Component := "handler".data, Action := "finder".data }]
      { Component := "cache".data, Action := "".data }
      [{ Component := "service".data, Action := "".data }] (by decide) (by decide),
    ((GenerateModule_unknown_target plainGenerator "auth".data "users".data "v1".data
      "./modules".data emptyWorld).2.1 "lister".data (by decide)).2.1 rfl⟩

/-! ## The builder command on a module without wiring (C21) -/

/-- C21, counterexample: for the module "auth" without any file, invoked with
`newModule = false`, `GenerateBuilder` returns the error that the builder file
is not found and writes nothing: no complete artifact is emitted. -/
theorem GenerateBuilder_incremental_without_builder :
    GenerateBuilder plainGenerator "auth".data "v1".data ["user".data] false [] noBuilderFiles
      = (noBuilderFiles,
          some ("update builder error: analyze builder error: " ++
            "builder file not found: modules/auth/builder.go").data) := by
  decide

/-- C21 (amended): invoked with `newModule = true`, `GenerateBuilder` writes the
complete wiring artifact and the complete routes artifact, whether the wiring
artifact exists or not, when both templates render and the directories and
files can be written; invoked with `newModule = false` for a module whose
wiring artifact does not exist, it writes nothing and returns the error
"update builder error: analyze builder error: builder file not found:
modules/<module>/builder.go". -/
theorem GenerateBuilder_follows_flag (g : Generator) (module version : Str)
    (tables order : List Str) (fs : BuilderFiles) :
    (∀ builderCode routesCode,
      g.generateBuilderCode module version tables = Except.ok builderCode →
      g.generateRoutesCode module version tables = Except.ok routesCode →
      g.mkdirAll ["modules".data, module] = none →
      g.writeFile ["modules".data, module, "builder.go".data] builderCode = none →
      g.mkdirAll ["app".data] = none →
      g.writeFile ["app".data, module ++ "_routes.go".data] routesCode = none →
      GenerateBuilder g module version tables true order fs
        = ({ fs with builder := some builderCode, routes := some routesCode }, none)) ∧
    (fs.builder = none →
      GenerateBuilder g module version tables false order fs
        = (fs, some ("update builder error: analyze builder error: ".data ++
            "builder file not found: modules/".data ++ module ++ "/builder.go".data))) := by
  constructor
  · intro b r hb hr h1 h2 h3 h4
    simp only [GenerateBuilder, generateNewModule, generateCompleteBuilder,
      generateCompleteRoutes, hb, hr, h1, h2, h3, h4, if_true]
  · intro h
    simp only [GenerateBuilder, generateIncremental, updateBuilderArtifact, h, Bool.false_eq_true,
      if_false]
    rfl

theorem GenerateBuilder_follows_flag_witness :
    GenerateBuilder plainGenerator "auth".data "v1".data ["user".data] true []
        { builder := some "package old".data, routes := none, permission := none }
      = ({ builder := some ("package ".data ++ "auth".data), routes := some "package app".data,
           permission := none }, none) ∧
    GenerateBuilder plainGenerator "auth".data "v1".data ["user".data] false [] noBuilderFiles
      = (noBuilderFiles, some ("update builder error: analyze builder error: ".data ++
          "builder file not found: modules/".data ++ "auth".data ++ "/builder.go".data)) :=
  ⟨(GenerateBuilder_follows_flag plainGenerator "auth".data "v1".data ["user".data] []
      { builder := some "package old".data, routes := none, permission := none }).1
      ("package ".data ++ "auth".data) "package app".data rfl rfl rfl rfl rfl rfl,
    (GenerateBuilder_follows_flag plainGenerator "auth".data "v1".data ["user".data] []
      noBuilderFiles).2 rfl⟩

/-! ## The round trips through the scans (C29, C30) -/

/-- C29: for every module, version and non-empty entity of lower-case ASCII
letters, `extractExistingTables` recovers exactly the entity from the wiring
fragment that `generateIncrementalBuilderCode` writes for it; and the
documented example line gives "user". -/
theorem wiring_round_trip (module version e : Str) (hne : e ≠ [])
    (hlow : ∀ c ∈ e, c.isLower = true) :
    extractExistingTables (generateIncrementalBuilderCode module version [e]) = [e] ∧
    extractEntityFromRepoLine
      "userFinderRepo := repository.NewUserFinderRepository(db, cache)".data = "user".data :=
  ⟨extractExistingTables_wiring module version e hne hlow, by decide⟩

theorem wiring_round_trip_witness :
    ("role".data ≠ [] ∧ ∀ c ∈ "role".data, c.isLower = true) ∧
    extractExistingTables (generateIncrementalBuilderCode "auth".data "v1".data ["role".data])
      = ["role".data] ∧
    extractEntityFromRepoLine
      "userFinderRepo := repository.NewUserFinderRepository(db, cache)".data = "user".data :=
  ⟨⟨by decide, by decide⟩, wiring_round_trip "auth".data "v1".data "role".data (by decide)
    (by decide)⟩

/-- C30, counterexample: the module is written in front of the handler
construction marker, so for the module "handlerv1.Newfoo(" the scan of the
Finder declaration of "role" reports "foo", and for a module with a line
break it reports nothing. -/
theorem routes_round_trip_module_marker :
    extractExistingRoutesTables
        (generateHandlerDeclarations "handlerv1.Newfoo(".data "Finder".data ["role".data])
      = ["foo".data] ∧
    extractExistingRoutesTables
        (generateHandlerDeclarations "au\nth".data "Finder".data ["role".data]) = [] := by
  decide

/-- C30 (amended): for every module without a dot and without a line break and
every non-empty entity of lower-case ASCII letters, the declaration line of
each of the four methods reports the entity (the text after the marker, cut at
the method suffix and lower-cased), the scan of the declaration of one method
gives exactly the entity, and the scan of the declarations of several methods
gives it once. -/
theorem routes_round_trip (m e : Str) (hne : e ≠ []) (hlow : ∀ c ∈ e, c.isLower = true)
    (hm : '.' ∉ m) (hnl : '\n' ∉ m) :
    (∀ M ∈ routeMethods,
      lineEntity (declarationLine m M e) = some e ∧
      extractExistingRoutesTables (generateHandlerDeclarations m M [e]) = [e]) ∧
    (∀ Ms : List Str, Ms ≠ [] → (∀ M ∈ Ms, M ∈ routeMethods) →
      extractExistingRoutesTables (Ms.flatMap (fun M => generateHandlerDeclarations m M [e]))
        = [e]) := by
  refine ⟨fun M hM => ⟨lineEntity_declarationLine m M e hne hlow hm hM, ?_⟩,
    fun Ms hMs hM => extractExistingRoutesTables_declarations m e Ms hne hlow hm hnl hMs hM⟩
  have h := extractExistingRoutesTables_declarations m e [M] hne hlow hm hnl (by simp)
    (fun M' h' => by rw [List.mem_singleton] at h'; rw [h']; exact hM)
  rw [List.flatMap_singleton] at h
  exact h

theorem routes_round_trip_witness :
    ("role".data ≠ [] ∧ (∀ c ∈ "role".data, c.isLower = true) ∧ '.' ∉ "auth".data ∧
      '\n' ∉ "auth".data) ∧
    (∀ M ∈ routeMethods,
      lineEntity (declarationLine "auth".data M "role".data) = some "role".data ∧
      extractExistingRoutesTables (generateHandlerDeclarations "auth".data M ["role".data])
        = ["role".data]) ∧
    (∀ Ms : List Str, Ms ≠ [] → (∀ M ∈ Ms, M ∈ routeMethods) →
      extractExistingRoutesTables
          (Ms.flatMap (fun M => generateHandlerDeclarations "auth".data M ["role".data]))
        = ["role".data]) :=
  ⟨⟨by decide, by decide, by decide, by decide⟩,
    routes_round_trip "auth".data "role".data (by decide) (by decide) (by decide) (by decide)⟩

/-! ## The insertion line of the wiring (C31) -/

/-- C31: for every non-empty list of lines the result `k` of
`findEntityWiringInsertionLine` satisfies `-1 ≤ k ≤ len(lines) - 1`, and
`k = -1` only for a single line without a handler marker; when `i` is the first
line that contains "handler :=" or "app.New", then `0 ≤ k ≤ i`, every line in
`[k, i)` is blank or contains "//", and either `k = i` and every line before
`i` is blank or a comment, or the line `k - 1` is neither. -/
theorem findEntityWiringInsertionLine_range (lines : List Str) (hne : lines ≠ []) :
    (-1 ≤ findEntityWiringInsertionLine lines ∧
      findEntityWiringInsertionLine lines ≤ (lines.length : Int) - 1) ∧
    (findEntityWiringInsertionLine lines = -1 →
      lines.length = 1 ∧ ∀ l ∈ lines, handlerMarkerLine l = false) ∧
    ∀ i, i < lines.length → handlerMarkerLine (lines.getD i []) = true →
      (∀ j < i, handlerMarkerLine (lines.getD j []) = false) →
      ∃ k : Nat, findEntityWiringInsertionLine lines = (k : Int) ∧ k ≤ i ∧
        (∀ j, k ≤ j → j < i → blankOrCommentLine (lines.getD j []) = true) ∧
        ((k = i ∧ ∀ j < i, blankOrCommentLine (lines.getD j []) = true) ∨
         (0 < k ∧ blankOrCommentLine (lines.getD (k - 1) []) = false)) :=
  ⟨(findEntityWiringInsertionLine_bounds lines hne).1,
    (findEntityWiringInsertionLine_bounds lines hne).2,
    fun i hi h1 h2 => findEntityWiringInsertionLine_marker lines i hi h1 h2⟩

theorem findEntityWiringInsertionLine_range_witness :
    ["\tuserSvc := service.NewUser(cfg)".data, "".data, "\t// handler".data,
      "\thandler := app.NewAuthHTTPHandler(".data] ≠ [] ∧
    findEntityWiringInsertionLine
      ["\tuserSvc := service.NewUser(cfg)".data, "".data, "\t// handler".data,
        "\thandler := app.NewAuthHTTPHandler(".data] = 1 ∧
    -1 ≤ findEntityWiringInsertionLine
      ["\tuserSvc := service.NewUser(cfg)".data, "".data, "\t// handler".data,
        "\thandler := app.NewAuthHTTPHandler(".data] :=
  ⟨by decide, by decide,
    (findEntityWiringInsertionLine_range
      ["\tuserSvc := service.NewUser(cfg)".data, "".data, "\t// handler".data,
        "\thandler := app.NewAuthHTTPHandler(".data] (by decide)).1.1⟩

/-! ## The order of the method blocks in the routes graft (C32) -/

/-- C32, counterexample: the module is written into the declaration lines, so
with the module "CreatorHTTPHandler() {" the Finder declaration passes the
signature test of Creator, and grafting Finder then Creator differs from
grafting Creator then Finder. -/
theorem updateRouteMethod_order_counterexample :
    updateRouteMethod
        (updateRouteMethod routesWithTwoBlocks "CreatorHTTPHandler() \x7b".data "Finder".data
          ["role".data])
        "CreatorHTTPHandler() \x7b".data "Creator".data ["role".data]
      ≠ updateRouteMethod
        (updateRouteMethod routesWithTwoBlocks "CreatorHTTPHandler() \x7b".data "Creator".data
          ["role".data])
        "CreatorHTTPHandler() \x7b".data "Finder".data ["role".data] := by
  decide!

/-- C32 (amended): let the lines of a routes file be `A`, the block of `M1`
(its signature line `s1`, the first line of the file that contains
M1+"HTTPHandler() {"; `m1`; the first group line `g1`; `n1`; the first one-tab
closing line `c1`), `B`, the block of `M2` built the same way from the first
line `s2` that contains M2+"HTTPHandler() {", and `P`. For every module and
entity list without line breaks such that no declaration line and no route
line generated for `M1` contains the signature text of `M2`,
`updateRouteMethod` for `M1` then `M2` gives the same content as for `M2` then
`M1`. -/
theorem updateRouteMethod_order_independent (A m1 n1 B m2 n2 P : List Str)
    (s1 g1 c1 s2 g2 c2 : Str) (module M1 M2 : Str) (tables : List Str)
    (hM1 : M1 ∈ routeMethods) (hM2 : M2 ∈ routeMethods)
    (hmod : '\n' ∉ module) (he : ∀ e ∈ tables, '\n' ∉ e)
    (hfree : ∀ l ∈ A ++ s1 :: m1 ++ g1 :: n1 ++ c1 :: (B ++ s2 :: m2 ++ g2 :: n2 ++ c2 :: P),
      '\n' ∉ l)
    (hA1 : ∀ l ∈ A, strings.Contains l (M1 ++ "HTTPHandler() \x7b".data) = false)
    (hs1 : strings.Contains s1 (M1 ++ "HTTPHandler() \x7b".data) = true)
    (hv1 : ∀ l ∈ s1 :: m1,
      (strings.Contains l "v1 :=".data && strings.Contains l "Group(".data) = false)
    (hg1 : (strings.Contains g1 "v1 :=".data && strings.Contains g1 "Group(".data) = true)
    (hn1 : ∀ l ∈ s1 :: m1 ++ g1 :: n1,
      (strings.TrimSpace l == "\x7d".data && strings.HasPrefix l "\t\x7d".data) = false)
    (hc1 : (strings.TrimSpace c1 == "\x7d".data && strings.HasPrefix c1 "\t\x7d".data) = true)
    (hA2 : ∀ l ∈ A ++ s1 :: m1 ++ g1 :: n1 ++ c1 :: B,
      strings.Contains l (M2 ++ "HTTPHandler() \x7b".data) = false)
    (hs2 : strings.Contains s2 (M2 ++ "HTTPHandler() \x7b".data) = true)
    (hv2 : ∀ l ∈ s2 :: m2,
      (strings.Contains l "v1 :=".data && strings.Contains l "Group(".data) = false)
    (hg2 : (strings.Contains g2 "v1 :=".data && strings.Contains g2 "Group(".data) = true)
    (hn2 : ∀ l ∈ s2 :: m2 ++ g2 :: n2,
      (strings.TrimSpace l == "\x7d".data && strings.HasPrefix l "\t\x7d".data) = false)
    (hc2 : (strings.TrimSpace c2 == "\x7d".data && strings.HasPrefix c2 "\t\x7d".data) = true)
    (hfrag : ∀ l ∈ tables.map (declarationLine module M1) ++
        strings.Split (generateEntityRoutes module M1 tables) "\n".data,
      strings.Contains l (M2 ++ "HTTPHandler() \x7b".data) = false) :
    updateRouteMethod
        (updateRouteMethod
          (strings.Join
            (A ++ s1 :: m1 ++ g1 :: n1 ++ c1 :: (B ++ s2 :: m2 ++ g2 :: n2 ++ c2 :: P)) "\n".data)
          module M1 tables) module M2 tables
      = updateRouteMethod
        (updateRouteMethod
          (strings.Join
            (A ++ s1 :: m1 ++ g1 :: n1 ++ c1 :: (B ++ s2 :: m2 ++ g2 :: n2 ++ c2 :: P)) "\n".data)
          module M2 tables) module M1 tables := by
  have hD1 : ∀ l ∈ tables.map (declarationLine module M1), '\n' ∉ l := by
    intro l hl
    obtain ⟨e, hel, rfl⟩ := List.mem_map.1 hl
    exact declarationLine_no_nl module M1 e hM1 hmod (he e hel)
  have hD2 : ∀ l ∈ tables.map (declarationLine module M2), '\n' ∉ l := by
    intro l hl
    obtain ⟨e, hel, rfl⟩ := List.mem_map.1 hl
    exact declarationLine_no_nl module M2 e hM2 hmod (he e hel)
  have hR1 : ∀ l ∈ strings.Split (generateEntityRoutes module M1 tables) "\n".data, '\n' ∉ l := by
    rw [nl_data]
    exact not_mem_of_mem_split '\n' _
  have hR2 : ∀ l ∈ strings.Split (generateEntityRoutes module M2 tables) "\n".data, '\n' ∉ l := by
    rw [nl_data]
    exact not_mem_of_mem_split '\n' _
  have e0 : A ++ s1 :: m1 ++ g1 :: n1 ++ c1 :: (B ++ s2 :: m2 ++ g2 :: n2 ++ c2 :: P)
      = (A ++ s1 :: m1 ++ g1 :: n1 ++ c1 :: B) ++ s2 :: m2 ++ g2 :: n2 ++ c2 :: P := by simp
  have st1 := updateRouteMethod_lines A m1 n1 (B ++ s2 :: m2 ++ g2 :: n2 ++ c2 :: P) s1 g1 c1
    module M1 tables hM1 hmod he hfree hA1 hs1 hv1 hg1 hn1 hc1
  have st2 := updateRouteMethod_lines (A ++ s1 :: m1 ++ g1 :: n1 ++ c1 :: B) m2 n2 P s2 g2 c2
    module M2 tables hM2 hmod he (e0 ▸ hfree) hA2 hs2 hv2 hg2 hn2 hc2
  have hfree12 : ∀ l ∈ (A ++ s1 :: m1 ++ tables.map (declarationLine module M1) ++ g1 :: n1 ++
      strings.Split (generateEntityRoutes module M1 tables) "\n".data ++ c1 :: B) ++ s2 :: m2 ++ g2 :: n2 ++ c2 ::
      (P ++ List.replicate ((tables.map (declarationLine module M1)).length + 1 + (strings.Split (generateEntityRoutes module M1 tables) "\n".data).length) []), '\n' ∉ l := by
    have hk1 := replicate_nil_no_nl ((tables.map (declarationLine module M1)).length + 1 + (strings.Split (generateEntityRoutes module M1 tables) "\n".data).length)
    have hk2 := replicate_nil_no_nl ((tables.map (declarationLine module M2)).length + 1 + (strings.Split (generateEntityRoutes module M2 tables) "\n".data).length)
    simp only [List.forall_mem_append, List.forall_mem_cons] at hfree hD1 hD2 hR1 hR2 hk1 hk2 hfrag ⊢
    tauto
  have hpre12 : ∀ l ∈ A ++ s1 :: m1 ++ tables.map (declarationLine module M1) ++ g1 :: n1 ++
      strings.Split (generateEntityRoutes module M1 tables) "\n".data ++ c1 :: B, strings.Contains l (M2 ++ "HTTPHandler() \x7b".data) = false := by
    have hk1 := replicate_nil_no_nl ((tables.map (declarationLine module M1)).length + 1 + (strings.Split (generateEntityRoutes module M1 tables) "\n".data).length)
    have hk2 := replicate_nil_no_nl ((tables.map (declarationLine module M2)).length + 1 + (strings.Split (generateEntityRoutes module M2 tables) "\n".data).length)
    simp only [List.forall_mem_append, List.forall_mem_cons] at hA2 hD1 hD2 hR1 hR2 hk1 hk2 hfrag ⊢
    tauto
  have st12 := updateRouteMethod_lines (A ++ s1 :: m1 ++ tables.map (declarationLine module M1) ++ g1 :: n1 ++
      strings.Split (generateEntityRoutes module M1 tables) "\n".data ++ c1 :: B) m2 n2 (P ++ List.replicate ((tables.map (declarationLine module M1)).length + 1 + (strings.Split (generateEntityRoutes module M1 tables) "\n".data).length) []) s2 g2 c2
    module M2 tables hM2 hmod he hfree12 hpre12 hs2 hv2 hg2 hn2 hc2
  have hfree21 : ∀ l ∈ A ++ s1 :: m1 ++ g1 :: n1 ++ c1 :: (B ++ s2 :: m2 ++ tables.map (declarationLine module M2) ++
      g2 :: n2 ++ strings.Split (generateEntityRoutes module M2 tables) "\n".data ++ c2 :: P ++ List.replicate ((tables.map (declarationLine module M2)).length + 1 + (strings.Split (generateEntityRoutes module M2 tables) "\n".data).length) []), '\n' ∉ l := by
    have hk1 := replicate_nil_no_nl ((tables.map (declarationLine module M1)).length + 1 + (strings.Split (generateEntityRoutes module M1 tables) "\n".data).length)
    have hk2 := replicate_nil_no_nl ((tables.map (declarationLine module M2)).length + 1 + (strings.Split (generateEntityRoutes module M2 tables) "\n".data).length)
    simp only [List.forall_mem_append, List.forall_mem_cons] at hfree hD1 hD2 hR1 hR2 hk1 hk2 hfrag ⊢
    tauto
  have st21 := updateRouteMethod_lines A m1 n1 (B ++ s2 :: m2 ++ tables.map (declarationLine module M2) ++
      g2 :: n2 ++ strings.Split (generateEntityRoutes module M2 tables) "\n".data ++ c2 :: P ++ List.replicate ((tables.map (declarationLine module M2)).length + 1 + (strings.Split (generateEntityRoutes module M2 tables) "\n".data).length) []) s1 g1 c1
    module M1 tables hM1 hmod he hfree21 hA1 hs1 hv1 hg1 hn1 hc1
  have e1 : A ++ s1 :: m1 ++ tables.map (declarationLine module M1) ++ g1 :: n1 ++ strings.Split (generateEntityRoutes module M1 tables) "\n".data ++
      c1 :: (B ++ s2 :: m2 ++ g2 :: n2 ++ c2 :: P) ++ List.replicate ((tables.map (declarationLine module M1)).length + 1 + (strings.Split (generateEntityRoutes module M1 tables) "\n".data).length) []
      = (A ++ s1 :: m1 ++ tables.map (declarationLine module M1) ++ g1 :: n1 ++ strings.Split (generateEntityRoutes module M1 tables) "\n".data ++ c1 :: B) ++
        s2 :: m2 ++ g2 :: n2 ++ c2 :: (P ++ List.replicate ((tables.map (declarationLine module M1)).length + 1 + (strings.Split (generateEntityRoutes module M1 tables) "\n".data).length) []) := by simp
  have e2 : (A ++ s1 :: m1 ++ g1 :: n1 ++ c1 :: B) ++ s2 :: m2 ++ tables.map (declarationLine module M2) ++ g2 :: n2 ++
      strings.Split (generateEntityRoutes module M2 tables) "\n".data ++ c2 :: P ++ List.replicate ((tables.map (declarationLine module M2)).length + 1 + (strings.Split (generateEntityRoutes module M2 tables) "\n".data).length) []
      = A ++ s1 :: m1 ++ g1 :: n1 ++ c1 :: (B ++ s2 :: m2 ++ tables.map (declarationLine module M2) ++
        g2 :: n2 ++ strings.Split (generateEntityRoutes module M2 tables) "\n".data ++ c2 :: P ++ List.replicate ((tables.map (declarationLine module M2)).length + 1 + (strings.Split (generateEntityRoutes module M2 tables) "\n".data).length) []) := by simp
  rw [e1] at st1
  rw [← e0, e2] at st2
  rw [st1, st12, st2, st21]
  congr 1
  simp only [List.append_assoc, List.cons_append, ← List.replicate_add]
  rw [Nat.add_comm]

theorem updateRouteMethod_order_independent_witness :
    updateRouteMethod
        (updateRouteMethod
          (strings.Join
            ([] ++ "func (h *AuthHTTPHandler) FinderHTTPHandler() \x7b".data :: [] ++
              "\tv1 := h.engine.Group(\"/v1\")".data :: ["\t\x7b".data] ++
              "\t\x7d".data :: (["\x7d".data, "".data] ++
              "func (h *AuthHTTPHandler) CreatorHTTPHandler() \x7b".data :: [] ++
              "\tv1 := h.engine.Group(\"/v1\")".data :: ["\t\x7b".data] ++
              "\t\x7d".data :: ["\x7d".data, "".data])) "\n".data)
          "auth".data "Finder".data ["role".data]) "auth".data "Creator".data ["role".data]
      = updateRouteMethod
        (updateRouteMethod
          (strings.Join
            ([] ++ "func (h *AuthHTTPHandler) FinderHTTPHandler() \x7b".data :: [] ++
              "\tv1 := h.engine.Group(\"/v1\")".data :: ["\t\x7b".data] ++
              "\t\x7d".data :: (["\x7d".data, "".data] ++
              "func (h *AuthHTTPHandler) CreatorHTTPHandler() \x7b".data :: [] ++
              "\tv1 := h.engine.Group(\"/v1\")".data :: ["\t\x7b".data] ++
              "\t\x7d".data :: ["\x7d".data, "".data])) "\n".data)
          "auth".data "Creator".data ["role".data]) "auth".data "Finder".data ["role".data] :=
  updateRouteMethod_order_independent [] [] ["\t\x7b".data] ["\x7d".data, "".data] []
    ["\t\x7b".data] ["\x7d".data, "".data]
    "func (h *AuthHTTPHandler) FinderHTTPHandler() \x7b".data
    "\tv1 := h.engine.Group(\"/v1\")".data "\t\x7d".data
    "func (h *AuthHTTPHandler) CreatorHTTPHandler() \x7b".data
    "\tv1 := h.engine.Group(\"/v1\")".data "\t\x7d".data
    "auth".data "Finder".data "Creator".data ["role".data]
    (by decide) (by decide) (by decide) (by decide) (by decide) (by decide) (by decide)
    (by decide) (by decide) (by decide) (by decide) (by decide) (by decide) (by decide)
    (by decide) (by decide) (by decide) (by decide)

/-! ## Permission names of the routes (C33) -/

/-- C33: for every entity list, every entity `e` of the list and each of the
four methods `M`, the name `Perm<D><Action>` that the route text of
`generateEntityRoutes` passes to `RequirePermission` for `e` is defined in the
const block of `generatePermissionConstantsForModule` for the same list, by a
line that starts with a tab and the name and gives it the value
"<e>:<action>". -/
theorem routes_permission_defined (module : Str) (tables : List Str) (e M : Str)
    (he : e ∈ tables) (hM : M ∈ routeMethods) :
    ∃ body, generatePermissionConstantsForModule module tables
        = some (("// ".data ++ toPascalCase (tables.headD []) ++ " permissions\n".data ++
            "const (\n".data) ++ body ++ ")\n\n".data) ∧
      strings.Contains body
        ("\n\t".data ++ ("Perm".data ++ toPascalCase e ++ getPermissionAction M) ++
          " = \"".data ++ e ++ ":".data ++ strings.ToLower (getPermissionAction M) ++
          "\"\n".data) = true ∧
      strings.Contains (generateEntityRoutes module M tables)
        ("RequirePermission(\n\t\t\tconstant.".data ++
          ("Perm".data ++ toPascalCase e ++ getPermissionAction M) ++ ",\n".data) = true := by
  refine ⟨tables.flatMap entityPermissions, ?_, ?_, ?_⟩
  · cases tables with
    | nil => exact absurd he (by simp)
    | cons first rest =>
      unfold generatePermissionConstantsForModule
      dsimp only
      rw [foldl_append_eq]
      rfl
  · rw [contains_iff_occurs]
    obtain ⟨desc, hd⟩ := permissionAction_kind e M hM
    exact (entityPermissions_defines e _ _ desc hd).trans
      (infix_flatMap_of_mem entityPermissions tables e he)
  · rw [contains_iff_occurs]
    unfold generateEntityRoutes
    rw [foldl_append_eq, List.nil_append]
    exact (entityRoutes_uses M e).trans (infix_flatMap_of_mem (entityRoutes M) tables e he)

theorem routes_permission_defined_witness :
    ("role".data ∈ ["user".data, "role".data] ∧ "Creator".data ∈ routeMethods) ∧
    ∃ body, generatePermissionConstantsForModule "auth".data ["user".data, "role".data]
        = some (("// ".data ++ toPascalCase (["user".data, "role".data].headD []) ++
            " permissions\n".data ++ "const (\n".data) ++ body ++ ")\n\n".data) ∧
      strings.Contains body
        ("\n\t".data ++ ("Perm".data ++ toPascalCase "role".data ++
            getPermissionAction "Creator".data) ++
          " = \"".data ++ "role".data ++ ":".data ++
          strings.ToLower (getPermissionAction "Creator".data) ++ "\"\n".data) = true ∧
      strings.Contains (generateEntityRoutes "auth".data "Creator".data ["user".data, "role".data])
        ("RequirePermission(\n\t\t\tconstant.".data ++
          ("Perm".data ++ toPascalCase "role".data ++ getPermissionAction "Creator".data) ++
          ",\n".data) = true :=
  ⟨⟨by decide, by decide⟩,
    routes_permission_defined "auth".data ["user".data, "role".data] "role".data "Creator".data
      (by decide) (by decide)⟩

/-! ## Consistency of the fragments (C34, C35) -/

/-- C34: for every module, entity list, entity `e` of the list and role `R` of
Creator, Finder, Updater, Deleter: the declaration of `e` for the method `R`
passes `h.<e>R` first to the handler constructor; the text of
`generateHandlerFields` holds the line that declares the field `<e>R` with the
type `<module>servicev1.<D>RUseCase`; the text of
`generateHandlerFieldAssignments` holds the line `<e>R: <e>R,`; and the text of
`generateHandlerConstructorParams` holds the line that declares the parameter
`<e>R` with the same type. -/
theorem handler_fragments_consistent (m : Str) (tables : List Str) (e R : Str)
    (he : e ∈ tables) (hR : R ∈ routeMethods) :
    (generateHandlerDeclarations m R tables
        = (tables.map (declarationLine m R)).flatMap (fun l => l ++ ['\n']) ∧
      declarationLine m R e ∈ tables.map (declarationLine m R) ∧
      ("h.".data ++ e ++ R) <+: handlerArguments R e) ∧
    (generateHandlerFields m tables
        = (tables.flatMap (fieldLines m)).flatMap (fun l => l ++ ['\n']) ∧
      ("\t".data ++ e ++ R ++ " ".data ++ m ++ "servicev1.".data ++ toPascalCase e ++ R ++
        "UseCase".data) ∈ tables.flatMap (fieldLines m)) ∧
    (generateHandlerFieldAssignments tables
        = (tables.flatMap assignmentLines).flatMap (fun l => l ++ ['\n']) ∧
      ("\t\t".data ++ e ++ R ++ ": ".data ++ e ++ R ++ ",".data)
        ∈ tables.flatMap assignmentLines) ∧
    (generateHandlerConstructorParams m tables
        = (tables.flatMap (parameterLines m)).flatMap (fun l => l ++ ['\n']) ∧
      ("\t".data ++ e ++ R ++ " ".data ++ m ++ "servicev1.".data ++ toPascalCase e ++ R ++
        "UseCase,".data) ∈ tables.flatMap (parameterLines m)) := by
  obtain ⟨h1, h2, h3, h4⟩ := role_lines_mem m e R hR
  exact ⟨⟨generateHandlerDeclarations_eq m R tables hR, List.mem_map.2 ⟨e, he, rfl⟩, h1⟩,
    ⟨generateHandlerFields_text m tables, List.mem_flatMap.2 ⟨e, he, h2⟩⟩,
    ⟨generateHandlerFieldAssignments_text tables, List.mem_flatMap.2 ⟨e, he, h3⟩⟩,
    ⟨generateHandlerConstructorParams_text m tables, List.mem_flatMap.2 ⟨e, he, h4⟩⟩⟩

theorem handler_fragments_consistent_witness :
    ("role".data ∈ ["user".data, "role".data] ∧ "Updater".data ∈ routeMethods) ∧
    declarationLine "auth".data "Updater".data "role".data
      ∈ ["user".data, "role".data].map (declarationLine "auth".data "Updater".data) ∧
    ("\t".data ++ "role".data ++ "Updater".data ++ " ".data ++ "auth".data ++
        "servicev1.".data ++ toPascalCase "role".data ++ "Updater".data ++ "UseCase".data)
      ∈ ["user".data, "role".data].flatMap (fieldLines "auth".data) :=
  ⟨⟨by decide, by decide⟩,
    (handler_fragments_consistent "auth".data ["user".data, "role".data] "role".data
      "Updater".data (by decide) (by decide)).1.2.1,
    (handler_fragments_consistent "auth".data ["user".data, "role".data] "role".data
      "Updater".data (by decide) (by decide)).2.1.2⟩

/-- C35: for every module and entity list: on a wiring file whose lines are
`pre`, `mid`, the anchor line and `post`, where `mid` and the anchor begin with
the first constructor call line of the file (it contains "app.New" and
"HTTPHandler(") and the anchor is the first line from there on that contains
"// Cloud Storage" or "cache,", the output of `updateHandlerConstructor` is the
input with the text `constructorArguments` put in front of the anchor line
(and the empty lines of the allocation at the end), that is per entity in list
order a comment line and the line of the four arguments `<e>CreatorSvc,
<e>FinderSvc, <e>UpdaterSvc, <e>DeleterSvc,`; the parameters of
`generateHandlerConstructorParams` are, per entity in the same order, the four
lines of `<e>Creator`, `<e>Finder`, `<e>Updater`, `<e>Deleter`, the same roles
in the same order; and each `<e><R>Svc` is defined by a line
`<e><R>Svc := service.New<D><R>(cfg, ...` of `generateIncrementalBuilderCode`
for the same list. -/
theorem constructor_arguments_match (m version : Str) (tables : List Str) :
    (∀ (pre mid post : List Str) (anchor : Str),
      (∀ l ∈ pre ++ mid ++ anchor :: post, '\n' ∉ l) →
      (∀ l ∈ pre,
        (strings.Contains l "app.New".data && strings.Contains l "HTTPHandler(".data)
          = false) →
      (∃ c rest, mid ++ [anchor] = c :: rest ∧
        (strings.Contains c "app.New".data && strings.Contains c "HTTPHandler(".data)
          = true) →
      (∀ l ∈ mid,
        (strings.Contains l "// Cloud Storage".data || strings.Contains l "cache,".data)
          = false) →
      (strings.Contains anchor "// Cloud Storage".data || strings.Contains anchor "cache,".data)
        = true →
      updateHandlerConstructor (strings.Join (pre ++ mid ++ anchor :: post) "\n".data) tables
        = strings.Join
          (pre ++ mid ++ [constructorArguments tables ++ anchor] ++ post ++
            List.replicate (strings.Split (constructorArguments tables) "\n".data).length [])
          "\n".data) ∧
    generateHandlerConstructorParams m tables
      = (tables.flatMap (fun e => constructorRoles.map (fun R =>
          "\t".data ++ e ++ R ++ " ".data ++ m ++ "servicev1.".data ++ toPascalCase e ++ R ++
            "UseCase,".data))).flatMap (fun l => l ++ ['\n']) ∧
    generateIncrementalBuilderCode m version tables
      = ['\n'] ++ (tables.flatMap wiringLines).flatMap (fun l => l ++ ['\n']) ∧
    ∀ e ∈ tables, ∀ R ∈ constructorRoles, ∃ l ∈ tables.flatMap wiringLines,
      ("\t".data ++ e ++ R ++ "Svc := service.New".data ++ toPascalCase e ++ R ++
        "(cfg, ".data) <+: l := by
  refine ⟨fun pre mid post anchor hfree hpre hcall hmid hanchor =>
      updateHandlerConstructor_text pre mid post anchor tables hfree hpre hcall hmid hanchor,
    ?_, generateIncrementalBuilderCode_eq m version tables, ?_⟩
  · rw [generateHandlerConstructorParams_text]
    have h : parameterLines m = fun e => constructorRoles.map (fun R =>
        "\t".data ++ e ++ R ++ " ".data ++ m ++ "servicev1.".data ++ toPascalCase e ++ R ++
          "UseCase,".data) := funext (parameterLines_roles m)
    rw [h]
  · intro e he R hR
    obtain ⟨l, hl, hp⟩ := wiringLines_defines_services e R hR
    exact ⟨l, List.mem_flatMap.2 ⟨e, he, hl⟩, hp⟩

theorem constructor_arguments_match_witness :
    updateHandlerConstructor
        (strings.Join
          (["func BuildAuthHandler(db *gorm.DB, cache interfaces.Cacheable) \x7b".data] ++
            ["\thandler := app.NewAuthHTTPHandler(".data,
              "\t\tuserCreatorSvc, userFinderSvc, userUpdaterSvc, userDeleterSvc,".data] ++
            "\t\tcache,".data :: ["\t)".data, "\x7d".data]) "\n".data) ["role".data]
      = strings.Join
        (["func BuildAuthHandler(db *gorm.DB, cache interfaces.Cacheable) \x7b".data] ++
          ["\thandler := app.NewAuthHTTPHandler(".data,
            "\t\tuserCreatorSvc, userFinderSvc, userUpdaterSvc, userDeleterSvc,".data] ++
          [constructorArguments ["role".data] ++ "\t\tcache,".data] ++
          ["\t)".data, "\x7d".data] ++
          List.replicate
            (strings.Split (constructorArguments ["role".data]) "\n".data).length [])
        "\n".data ∧
    constructorArguments ["role".data]
      = "\t\t// Role\n\t\troleCreatorSvc, roleFinderSvc, roleUpdaterSvc, roleDeleterSvc,\n".data :=
  ⟨(constructor_arguments_match "auth".data "v1".data ["role".data]).1
      ["func BuildAuthHandler(db *gorm.DB, cache interfaces.Cacheable) \x7b".data]
      ["\thandler := app.NewAuthHTTPHandler(".data,
        "\t\tuserCreatorSvc, userFinderSvc, userUpdaterSvc, userDeleterSvc,".data]
      ["\t)".data, "\x7d".data] "\t\tcache,".data
      (by decide) (by decide)
      ⟨"\thandler := app.NewAuthHTTPHandler(".data,
        ["\t\tuserCreatorSvc, userFinderSvc, userUpdaterSvc, userDeleterSvc,".data,
          "\t\tcache,".data], rfl, by decide⟩
      (by decide) (by decide),
    by decide⟩

/-! ## The names derived by the parser and by the generators (C37, C38) -/

/-- C37: the two singular forms differ: "buses" is irregular for
`naiveSingular` only, so `singularize` gives "buse" and `naiveSingular` gives
"bus"; a word ending in "ss" loses its last letter in `singularize` only
("class" gives "clas"); and "s" is kept by `singularize` and emptied by
`naiveSingular`. On every other word the two functions agree. -/
theorem singularizers_differ :
    (singularize "buses".data = "buse".data ∧ naiveSingular "buses".data = "bus".data) ∧
    (singularize "class".data = "clas".data ∧ naiveSingular "class".data = "class".data) ∧
    (singularize "s".data = "s".data ∧ naiveSingular "s".data = "".data) ∧
    ∀ w : Str, strings.ToLower w ≠ "buses".data →
      strings.HasSuffix (strings.ToLower w) "ss".data = false →
      strings.ToLower w ≠ "s".data → singularize w = naiveSingular w :=
  ⟨by decide, by decide, by decide, singularize_eq_naiveSingular⟩

theorem singularizers_differ_witness :
    (strings.ToLower "Users".data ≠ "buses".data ∧
      strings.HasSuffix (strings.ToLower "Users".data) "ss".data = false ∧
      strings.ToLower "Users".data ≠ "s".data) ∧
    singularize "Users".data = naiveSingular "Users".data :=
  ⟨by decide, singularizers_differ.2.2.2 "Users".data (by decide) (by decide) (by decide)⟩

/-- C38: the two casings differ on the acronym parts: `toCamel` gives "UserId"
and "ApiKey" where `toPascalCase` gives "UserID" and "APIKey", so for the table
"api_keys" the parser names the entity type "ApiKey" and the generators refer
to "APIKey". On a snake_case word whose parts are non-empty, of lower-case
letters and none of the acronyms of `toPascalCase`, the two functions
agree. -/
theorem casings_differ :
    (toCamel "user_id".data = "UserId".data ∧ toPascalCase "user_id".data = "UserID".data) ∧
    (toCamel (naiveSingular "api_keys".data) = "ApiKey".data ∧
      toPascalCase (singularize "api_keys".data) = "APIKey".data) ∧
    ∀ parts : List Str, parts ≠ [] →
      (∀ p ∈ parts, p ≠ [] ∧ (∀ c ∈ p, c.isLower = true) ∧ p ∉ acronyms) →
      toCamel (strings.Join parts "_".data) = toPascalCase (strings.Join parts "_".data) :=
  ⟨by decide, by decide, toCamel_eq_toPascalCase⟩

theorem casings_differ_witness :
    (["user".data, "profile".data] ≠ [] ∧
      ∀ p ∈ ["user".data, "profile".data],
        p ≠ [] ∧ (∀ c ∈ p, c.isLower = true) ∧ p ∉ acronyms) ∧
    toCamel (strings.Join ["user".data, "profile".data] "_".data)
      = toPascalCase (strings.Join ["user".data, "profile".data] "_".data) :=
  ⟨⟨by decide, by decide⟩,
    casings_differ.2.2 ["user".data, "profile".data] (by decide) (by decide)⟩

/-! ## The Go type of a column and its accessor (C39) -/

/-- C39: the accessor of `mapFromEntity` does not fit the type of `goType` for
these columns: for every column that is not nullable and whose type begins
with INT the type is `int64` and the accessor reads the sub-field `.Int64`;
a nullable UUID column that is no primary key has the type `uuid.UUID` and
the accessor `.String` without a call; a column of another type (BOOLEAN) has
the type `string` and the accessor `.String`; and a nullable TIMESTAMP column
has the type `string` and the accessor `.Time.Format(...)`. -/
theorem accessor_does_not_fit_type :
    (∀ col : Column, strings.HasPrefix (strings.ToUpper col.SqlType) "INT".data = true →
      col.Nullable = false →
      goType col = "int64".data ∧
      mapFromEntity col = "e.".data ++ toPascalCase col.Name ++ ".Int64".data) ∧
    (goType refColumn = "uuid.UUID".data ∧ mapFromEntity refColumn = "e.Ref.String".data) ∧
    (goType activeColumn = "string".data ∧
      mapFromEntity activeColumn = "e.Active.String".data) ∧
    (goType seenColumn = "string".data ∧
      mapFromEntity seenColumn = "e.Seen.Time.Format(constant.DefaultTimeFormat)".data) := by
  refine ⟨?_, by decide, by decide, by decide⟩
  intro col hint hnull
  have hshape : ∃ rest, strings.ToUpper col.SqlType = 'I' :: 'N' :: 'T' :: rest := by
    have := List.isPrefixOf_iff_prefix.1 hint
    obtain ⟨rest, hr⟩ := this
    exact ⟨rest, hr.symm⟩
  obtain ⟨rest, hr⟩ := hshape
  unfold goType mapFromEntity
  dsimp only
  rw [hr, hnull]
  constructor
  · simp [strings.HasPrefix, List.isPrefixOf]
  · simp [strings.HasPrefix, List.isPrefixOf]

theorem accessor_does_not_fit_type_witness :
    (strings.HasPrefix (strings.ToUpper ageColumn.SqlType) "INT".data = true ∧
      ageColumn.Nullable = false) ∧
    goType ageColumn = "int64".data ∧
    mapFromEntity ageColumn = "e.".data ++ toPascalCase ageColumn.Name ++ ".Int64".data :=
  ⟨⟨by decide, rfl⟩, accessor_does_not_fit_type.1 ageColumn (by decide) rfl⟩

/-! ## The columns read by the SQL parser (C36) -/

/-- C36: `ParseSQL` tests the constraint keywords as prefixes of the
upper-cased item, not as whole words: every item whose text begins with
CONSTRAINT, UNIQUE or CHECK in any case is skipped, so the columns "checksum"
and "unique_code" of the table auth.users give no Column and the parsed table
has the columns "id" and "name" only. -/
theorem ParseSQL_skips_prefixed_columns :
    (∀ raw kw : Str, kw ∈ ["CONSTRAINT".data, "UNIQUE".data, "CHECK".data] →
      strings.HasPrefix (strings.ToUpper (strings.TrimSpace raw)) kw = true →
      parseColumnLine raw = none) ∧
    parseColumnLine "    checksum TEXT NOT NULL".data = none ∧
    parseColumnLine "    unique_code VARCHAR(20)".data = none ∧
    parseColumnLine "    name VARCHAR(255) NOT NULL".data
      = some { Name := "name".data, SqlType := "VARCHAR(255)".data, Nullable := false,
               PrimaryKey := false } ∧
    parsedColumnNames createUsersTable = some ["id".data, "name".data] := by
  refine ⟨?_, by decide, by decide, by decide, by decide!⟩
  intro raw kw hkw hp
  unfold parseColumnLine
  dsimp only
  by_cases hl : strings.TrimSpace raw = "".data
  · rw [if_pos hl]
  · rw [if_neg hl]
    simp only [List.mem_cons, List.mem_singleton, List.not_mem_nil, or_false] at hkw
    rcases hkw with h | h | h <;> (subst h; rw [hp]; simp)

theorem ParseSQL_skips_prefixed_columns_witness :
    ("CHECK".data ∈ ["CONSTRAINT".data, "UNIQUE".data, "CHECK".data] ∧
      strings.HasPrefix (strings.ToUpper (strings.TrimSpace " check_in DATE".data))
        "CHECK".data = true) ∧
    parseColumnLine " check_in DATE".data = none :=
  ⟨⟨by decide, by decide⟩,
    ParseSQL_skips_prefixed_columns.1 " check_in DATE".data "CHECK".data (by decide)
      (by decide)⟩

end StarterCli
